import Mathlib

/-!
# racfudit: decoding of an IBM RACF database

A shallow embedding of the decode pipeline of `racfudit` (Go) and the properties of its
primitive codec, template handling, index blocks and profile segments.

Conventions of the embedding:

* a Go `byte` is a `Nat` below 256, a `[]byte` and a Go `string` are both `List Nat`
  (a Go string is a byte sequence; `string(bs)` and `[]byte(s)` are the identity);
* a run-time panic of the Go program (index out of range, a reflect misuse) is the result
  `Res.panic`, a returned `error` is `Res.err`;
* log output (`common.Log`) is not part of the state and is dropped.
-/

namespace Racf

/-! ## Go strings and formatting verbs -/

/-- The bytes of an ASCII string literal. -/
def str (s : String) : List Nat := s.toList.map Char.toNat

/-- Verb `%d` of `fmt.Sprintf` on a non-negative integer. -/
def fmtInt (n : Nat) : List Nat := (Nat.toDigits 10 n).map Char.toNat

/-- Verb `%02x` of `fmt.Sprintf` on an unsigned integer: lower-case hexadecimal, padded with
zeros on the left to two digits. -/
def fmtHex02 (n : Nat) : List Nat :=
  let ds := (Nat.toDigits 16 n).map Char.toNat
  List.replicate (2 - ds.length) 48 ++ ds

/-- Function `hex.EncodeToString`. -/
def hexEncode (bs : List Nat) : List Nat := (bs.map fmtHex02).flatten

/-- Big-endian value of a byte sequence (`binary.BigEndian.UintN` on exactly N bytes). -/
def beUint (bs : List Nat) : Nat := bs.foldl (fun acc b => acc * 256 + b) 0

/-! ## decode/types.go: primitive codec -/

def T_INT : Nat := 1
def T_CHAR : Nat := 2
def T_DATE : Nat := 3
def T_TIME : Nat := 4
def T_BIN : Nat := 5
def T_FLAG : Nat := 6

def e2a : List Nat := [
  0, 1, 2, 3, 156, 9, 134, 127, 151, 141, 142, 11, 12, 13, 14, 15,
  16, 17, 18, 19, 157, 133, 8, 135, 24, 25, 146, 143, 28, 29, 30, 31,
  128, 129, 130, 131, 132, 10, 23, 27, 136, 137, 138, 139, 140, 5, 6, 7,
  144, 145, 22, 147, 148, 149, 150, 4, 152, 153, 154, 155, 20, 21, 158, 26,
  32, 160, 161, 162, 163, 164, 165, 166, 167, 168, 91, 46, 60, 40, 43, 33,
  38, 169, 170, 171, 172, 173, 174, 175, 176, 177, 93, 36, 42, 41, 59, 94,
  45, 47, 178, 179, 180, 181, 182, 183, 184, 185, 124, 44, 37, 95, 62, 63,
  186, 187, 188, 189, 190, 191, 192, 193, 194, 96, 58, 35, 64, 39, 61, 34,
  195, 97, 98, 99, 100, 101, 102, 103, 104, 105, 196, 197, 198, 199, 200, 201,
  202, 106, 107, 108, 109, 110, 111, 112, 113, 114, 203, 204, 205, 206, 207, 208,
  209, 126, 115, 116, 117, 118, 119, 120, 121, 122, 210, 211, 212, 213, 214, 215,
  216, 217, 218, 219, 220, 221, 222, 223, 224, 225, 226, 227, 228, 229, 230, 231,
  123, 65, 66, 67, 68, 69, 70, 71, 72, 73, 232, 233, 234, 235, 236, 237,
  125, 74, 75, 76, 77, 78, 79, 80, 81, 82, 238, 239, 240, 241, 242, 243,
  92, 159, 83, 84, 85, 86, 87, 88, 89, 90, 244, 245, 246, 247, 248, 249,
  48, 49, 50, 51, 52, 53, 54, 55, 56, 57, 250, 251, 252, 253, 254, 255]

/-- Table lookup `e2a[b]` for a byte `b`. -/
def e2aAt (b : Nat) : Nat := e2a.getD b 0

def ebcdic2ascii (data : List Nat) : List Nat := data.map e2aAt

/-- Method `EBCDICStr.String`. -/
def EBCDICStr.String (s : List Nat) : List Nat := ebcdic2ascii s

/-- Method `EBCDICStr.Hex`. -/
def EBCDICStr.Hex (s : List Nat) : List Nat := hexEncode s

/-- Method `HexStr.String`. -/
def HexStr.String (s : List Nat) : List Nat := hexEncode s

/-- Format `"%d, day %d"` of `Date.to3Human`. -/
def retFmt (year day : Nat) : List Nat := fmtInt year ++ str ", day " ++ fmtInt day

/-- Method `Date.to3Human` on the three bytes of the date. -/
def Date.to3Human (b0 b1 b2 : Nat) : List Nat :=
  let year := b0
  let day := (b1 * 256 + b2) >>> 4
  let sign := b2 &&& 0xf
  if (year = 0 ∧ day = 0) ∨ (year = 0xff ∧ day = 0xfff ∧ sign = 0xf) then
    retFmt 1970 1
  else
    let year := (year &&& 0xf) + 10 * (year >>> 4)
    let year := if year > 70 then year + 1900 else year + 2000
    let day := (day &&& 0xf) + 10 * ((day >>> 4) &&& 0xf) + 100 * (day >>> 8)
    retFmt year day

/-- Method `Date.to4Human` on the four bytes of the date. -/
def Date.to4Human (b0 b1 b2 b3 : Nat) : List Nat :=
  if (b0 = 0xff ∧ b1 = 0xff ∧ b2 = 0xff ∧ b3 = 0xff) ∨
      (b0 = 0 ∧ b1 = 0 ∧ b2 = 0 ∧ (b3 = 0 ∨ b3 = 0x0c ∨ b3 = 0x0d ∨ b3 = 0x0d)) then
    str "1970.01.01"
  else
    fmtHex02 b0 ++ fmtHex02 b1 ++ str "." ++ fmtHex02 b2 ++ str "." ++ fmtHex02 b3

/-- Method `Date.String`: dispatch on the length of the date. -/
def Date.String (d : List Nat) : List Nat :=
  match d with
  | [b0, b1, b2] => Date.to3Human b0 b1 b2
  | [b0, b1, b2, b3] => Date.to4Human b0 b1 b2 b3
  | _ => []

/-- Method `Date.Hex`. -/
def Date.Hex (d : List Nat) : List Nat := hexEncode d

/-! ### The static catalog of field types -/

def fieldTypesGroup : List (String × Nat) := [
  ("ENTYPE", T_INT), ("VERSION", T_INT), ("SUPGROUP", T_CHAR), ("AUTHDATE", T_DATE),
  ("AUTHOR", T_CHAR), ("INITCNT", T_INT), ("UACC", T_FLAG), ("NOTRMUAC", T_FLAG),
  ("INSTDATA", T_CHAR), ("MODELNAM", T_CHAR), ("FLDCNT", T_INT), ("FLDNAME", T_CHAR),
  ("FLDVALUE", T_BIN), ("FLDFLAG", T_FLAG), ("SUBGRPCT", T_INT), ("SUBGRPNM", T_CHAR),
  ("ACLCNT", T_INT), ("USERID", T_CHAR), ("USERACS", T_FLAG), ("USRCNT", T_INT), ("USRNM", T_CHAR),
  ("USRDATA", T_BIN), ("USRFLG", T_FLAG), ("UNVFLG", T_BIN), ("DATAAPPL", T_CHAR),
  ("DATACLAS", T_CHAR), ("MGMTCLAS", T_CHAR), ("STORCLAS", T_CHAR), ("GID", T_INT),
  ("ROLEN", T_INT), ("ROLES", T_CHAR), ("CSCNT", T_INT), ("CSTYPE", T_FLAG), ("CSKEY", T_CHAR),
  ("CSVALUE", T_CHAR)]

def fieldTypesUser : List (String × Nat) := [
  ("ENTYPE", T_INT), ("VERSION", T_INT), ("AUTHDATE", T_DATE), ("AUTHOR", T_CHAR),
  ("FLAG1", T_FLAG), ("FLAG2", T_FLAG), ("FLAG3", T_FLAG), ("FLAG4", T_FLAG), ("FLAG5", T_FLAG),
  ("PASSINT", T_INT), ("PASSWORD", T_BIN), ("PASSDATE", T_DATE), ("PGMRNAME", T_CHAR),
  ("DFLTGRP", T_CHAR), ("LJTIME", T_TIME), ("LJDATE", T_DATE), ("INSTDATA", T_CHAR),
  ("UAUDIT", T_FLAG), ("FLAG6", T_FLAG), ("FLAG7", T_FLAG), ("FLAG8", T_FLAG), ("MAGSTRIP", T_BIN),
  ("PWDGEN", T_INT), ("PWDCNT", T_INT), ("OLDPWDNM", T_INT), ("OLDPWD", T_CHAR),
  ("REVOKECT", T_INT), ("MODELNAM", T_CHAR), ("SECLEVEL", T_INT), ("NUMCTGY", T_INT),
  ("CATEGORY", T_INT), ("REVOKEDT", T_DATE), ("RESUMEDT", T_DATE), ("LOGDAYS", T_FLAG),
  ("LOGTIME", T_TIME), ("FLDCNT", T_INT), ("FLDNAME", T_CHAR), ("FLDVALUE", T_BIN),
  ("FLDFLAG", T_FLAG), ("CLCNT", T_INT), ("CLNAME", T_CHAR), ("CONGRPCT", T_INT),
  ("CONGRPNM", T_CHAR), ("USRCNT", T_INT), ("USRNM", T_CHAR), ("USRDATA", T_BIN),
  ("USRFLG", T_FLAG), ("SECLABEL", T_CHAR), ("CGGRPCT", T_INT), ("CGGRPNM", T_CHAR),
  ("CGAUTHDA", T_DATE), ("CGAUTHOR", T_CHAR), ("CGLJTIME", T_TIME), ("CGLJDATE", T_DATE),
  ("CGUACC", T_BIN), ("CGINITCT", T_INT), ("CGFLAG1", T_FLAG), ("CGFLAG2", T_FLAG),
  ("CGFLAG3", T_FLAG), ("CGFLAG4", T_FLAG), ("CGFLAG5", T_FLAG), ("CGNOTUAC", T_FLAG),
  ("CGGRPAUD", T_FLAG), ("CGREVKDT", T_DATE), ("CGRESMDT", T_DATE), ("TUCNT", T_INT),
  ("TUKEY", T_CHAR), ("TUDATA", T_BIN), ("CERTCT", T_INT), ("CERTNAME", T_CHAR),
  ("CERTLABL", T_CHAR), ("CERTSJDN", T_CHAR), ("CERTPUBK", T_BIN), ("CERTRSV3", T_BIN),
  ("FLAG9", T_FLAG), ("NMAPCT", T_INT), ("NMAPLABL", T_CHAR), ("NMAPNAME", T_CHAR),
  ("NMAPRSV1", T_CHAR), ("NMAPRSV2", T_CHAR), ("NMAPRSV3", T_CHAR), ("NMAPRSV4", T_CHAR),
  ("NMAPRSV5", T_CHAR), ("PWDENV", T_BIN), ("PASSASIS", T_FLAG), ("PHRASE", T_BIN),
  ("PHRDATE", T_DATE), ("PHRGEN", T_INT), ("PHRCNT", T_INT), ("OLDPHRNM", T_INT),
  ("OLDPHR", T_BIN), ("CERTSEQN", T_INT), ("PPHENV", T_BIN), ("DMAPCT", T_INT),
  ("DMAPLABL", T_CHAR), ("DMAPNAME", T_CHAR), ("DMAPRSV1", T_CHAR), ("DMAPRSV2", T_CHAR),
  ("PWDX", T_BIN), ("OPWDXCT", T_INT), ("OPWDXGEN", T_INT), ("OPWDX", T_BIN), ("PHRASEX", T_BIN),
  ("PHRCNTX", T_INT), ("OLDPHRNX", T_INT), ("OLDPHRX", T_BIN), ("FLAGROA", T_FLAG),
  ("MFAFLBK", T_BIN), ("FACTORN", T_INT), ("FACTOR", T_CHAR), ("FACACDT", T_CHAR),
  ("FACTAGS", T_BIN), ("MFAPOLN", T_INT), ("MFAPOLNM", T_CHAR), ("DATAAPPL", T_CHAR),
  ("DATACLAS", T_CHAR), ("MGMTCLAS", T_CHAR), ("STORCLAS", T_CHAR), ("TACCNT", T_CHAR),
  ("TCOMMAND", T_CHAR), ("TDEST", T_CHAR), ("THCLASS", T_CHAR), ("TJCLASS", T_CHAR),
  ("TLPROC", T_CHAR), ("TLSIZE", T_INT), ("TMCLASS", T_CHAR), ("TMSIZE", T_INT),
  ("TOPTION", T_BIN), ("TPERFORM", T_INT), ("TRBA", T_BIN), ("TSCLASS", T_CHAR), ("TUNIT", T_CHAR),
  ("TUPT", T_BIN), ("TSOSLABL", T_CHAR), ("TCONS", T_CHAR), ("OPIDENT", T_CHAR),
  ("OPCLASSN", T_INT), ("OPCLASS", T_INT), ("OPPRTY", T_INT), ("XRFSOFF", T_FLAG),
  ("TIMEOUT", T_BIN), ("RSLKEYN", T_INT), ("RSLKEY", T_INT), ("TSLKEYN", T_INT), ("TSLKEY", T_INT),
  ("USERNL1", T_CHAR), ("USERNL2", T_CHAR), ("OPERSTOR", T_BIN), ("OPERAUTH", T_FLAG),
  ("OPERMFRM", T_FLAG), ("OPERLEVL", T_FLAG), ("OPERMON", T_FLAG), ("OPERROUT", T_FLAG),
  ("OPERLOGC", T_FLAG), ("OPERMGID", T_FLAG), ("OPERDOM", T_FLAG), ("OPERKEY", T_BIN),
  ("OPERCMDS", T_BIN), ("OPERUD", T_FLAG), ("OPERMCNT", T_INT), ("OPERMSCP", T_CHAR),
  ("OPERALTG", T_FLAG), ("OPERAUTO", T_FLAG), ("OPERHC", T_FLAG), ("OPERINT", T_FLAG),
  ("OPERUNKN", T_FLAG), ("WANAME", T_CHAR), ("WABLDG", T_CHAR), ("WADEPT", T_CHAR),
  ("WAROOM", T_CHAR), ("WAADDR1", T_CHAR), ("WAADDR2", T_CHAR), ("WAADDR3", T_CHAR),
  ("WAADDR4", T_CHAR), ("WAACCNT", T_CHAR), ("WAEMAIL", T_CHAR), ("UID", T_INT), ("HOME", T_CHAR),
  ("PROGRAM", T_CHAR), ("CPUTIME", T_INT), ("ASSIZE", T_INT), ("FILEPROC", T_INT),
  ("PROCUSER", T_INT), ("THREADS", T_INT), ("MMAPAREA", T_INT), ("MEMLIMIT", T_CHAR),
  ("SHMEMMAX", T_CHAR), ("IC", T_CHAR), ("CONSNAME", T_CHAR), ("CTL", T_FLAG),
  ("MSGRECVR", T_FLAG), ("DOMAINSN", T_INT), ("DOMAINS", T_CHAR), ("NGMFADMN", T_FLAG),
  ("NGMFVSPN", T_BIN), ("UUID", T_CHAR), ("DCENAME", T_CHAR), ("HOMECELL", T_CHAR),
  ("HOMEUUID", T_CHAR), ("DCEFLAGS", T_FLAG), ("DPASSWDS", T_CHAR), ("DCEENCRY", T_BIN),
  ("FSROOT", T_CHAR), ("SNAME", T_CHAR), ("UNAME", T_CHAR), ("KERBNAME", T_CHAR),
  ("MINTKTLF", T_CHAR), ("MAXTKTLF", T_CHAR), ("DEFTKTLF", T_CHAR), ("SALT", T_CHAR),
  ("ENCTYPE", T_CHAR), ("CURKEYV", T_CHAR), ("CURKEY", T_CHAR), ("PREVKEYV", T_CHAR),
  ("PREVKEY", T_CHAR), ("ENCRYPT", T_BIN), ("KEYFROM", T_CHAR), ("LDAPHOST", T_CHAR),
  ("BINDDN", T_CHAR), ("BINDPW", T_CHAR), ("BINDPWKY", T_CHAR), ("LDAPPROF", T_CHAR),
  ("CSCNT", T_INT), ("CSTYPE", T_FLAG), ("CSKEY", T_CHAR), ("CSVALUE", T_CHAR)]

def fieldTypesConnect : List (String × Nat) := [
  ("ENTYPE", T_INT), ("VERSION", T_INT), ("AUTHDATE", T_DATE), ("AUTHOR", T_CHAR),
  ("LJTIME", T_TIME), ("LJDATE", T_DATE), ("UACC", T_FLAG), ("INITCNT", T_INT), ("FLAG1", T_FLAG),
  ("FLAG2", T_FLAG), ("FLAG3", T_FLAG), ("FLAG4", T_FLAG), ("FLAG5", T_FLAG), ("NOTRMUAC", T_BIN),
  ("GRPAUDIT", T_BIN), ("REVOKEDT", T_DATE), ("RESUMEDT", T_DATE)]

def fieldTypesDataset : List (String × Nat) := [
  ("ENTYPE", T_INT), ("VERSION", T_INT), ("CREADATE", T_DATE), ("AUTHOR", T_CHAR),
  ("LREFDAT", T_DATE), ("LCHGDAT", T_DATE), ("ACSALTR", T_INT), ("ACSCNTL", T_INT),
  ("ACSUPDT", T_INT), ("ACSREAD", T_INT), ("UNIVACS", T_FLAG), ("FLAG1", T_FLAG),
  ("AUDIT", T_FLAG), ("GROUPNM", T_CHAR), ("DSTYPE", T_FLAG), ("LEVEL", T_INT), ("DEVTYP", T_BIN),
  ("DEVTYPX", T_CHAR), ("GAUDIT", T_FLAG), ("INSTDATA", T_CHAR), ("GAUDITQF", T_FLAG),
  ("AUDITQS", T_BIN), ("AUDITQF", T_BIN), ("GAUDITQS", T_BIN), ("WARNING", T_FLAG),
  ("SECLEVEL", T_INT), ("NUMCTGY", T_INT), ("CATEGORY", T_BIN), ("NOTIFY", T_CHAR),
  ("RETPD", T_INT), ("ACL2CNT", T_INT), ("PROGRAM", T_CHAR), ("USER2ACS", T_CHAR),
  ("PROGACS", T_BIN), ("PACSCNT", T_INT), ("ACL2VAR", T_CHAR), ("FLDCNT", T_INT),
  ("FLDNAME", T_CHAR), ("FLDVALUE", T_BIN), ("FLDFLAG", T_FLAG), ("VOLCNT", T_INT),
  ("VOLSER", T_CHAR), ("ACLCNT", T_INT), ("USERID", T_CHAR), ("USERACS", T_FLAG),
  ("ACSCNT", T_INT), ("USRCNT", T_INT), ("USRNM", T_CHAR), ("USRDATA", T_BIN), ("USRFLG", T_FLAG),
  ("SECLABEL", T_CHAR), ("RESOWNER", T_CHAR), ("DATAKEY", T_CHAR), ("ROLEN", T_INT),
  ("ROLES", T_CHAR), ("CSCNT", T_INT), ("CSTYPE", T_FLAG), ("CSKEY", T_CHAR), ("CSVALUE", T_CHAR)]

def fieldTypesGeneral : List (String × Nat) := [
  ("ENTYPE", T_INT), ("VERSION", T_INT), ("CLASTYPE", T_INT), ("DEFDATE", T_DATE),
  ("OWNER", T_CHAR), ("LREFDAT", T_DATE), ("LCHGDAT", T_DATE), ("ACSALTR", T_INT),
  ("ACSCNTL", T_INT), ("ACSUPDT", T_INT), ("ACSREAD", T_INT), ("UACC", T_FLAG), ("AUDIT", T_FLAG),
  ("LEVEL", T_INT), ("GAUDIT", T_FLAG), ("INSTDATA", T_CHAR), ("GAUDITQF", T_FLAG),
  ("AUDITQS", T_FLAG), ("AUDITQF", T_FLAG), ("GAUDITQS", T_FLAG), ("WARNING", T_FLAG),
  ("RESFLG", T_FLAG), ("TVTOCCNT", T_INT), ("TVTOCSEQ", T_INT), ("TVTOCCRD", T_DATE),
  ("TVTOCIND", T_FLAG), ("TVTOCDSN", T_CHAR), ("TVTOCVOL", T_CHAR), ("TVTOCRDS", T_CHAR),
  ("NOTIFY", T_CHAR), ("LOGDAYS", T_FLAG), ("LOGTIME", T_TIME), ("LOGZONE", T_BIN),
  ("NUMCTGY", T_INT), ("CATEGORY", T_INT), ("SECLEVEL", T_INT), ("FLDCNT", T_INT),
  ("FLDNAME", T_CHAR), ("FLDVALUE", T_BIN), ("FLDFLAG", T_FLAG), ("APPLDATA", T_CHAR),
  ("MEMCNT", T_INT), ("MEMLST", T_BIN), ("VOLCNT", T_INT), ("VOLSER", T_CHAR), ("ACLCNT", T_INT),
  ("USERID", T_CHAR), ("USERACS", T_FLAG), ("ACSCNT", T_INT), ("USRCNT", T_INT), ("USRNM", T_CHAR),
  ("USRDATA", T_BIN), ("USRFLG", T_FLAG), ("SECLABEL", T_CHAR), ("ACL2CNT", T_INT),
  ("ACL2NAME", T_CHAR), ("ACL2UID", T_CHAR), ("ACL2ACC", T_BIN), ("ACL2ACNT", T_INT),
  ("ACL2RSVD", T_BIN), ("RACLHDR", T_CHAR), ("RACLDSP", T_CHAR), ("FILTERCT", T_INT),
  ("FLTRLABL", T_CHAR), ("FLTRSTAT", T_FLAG), ("FLTRUSER", T_CHAR), ("FLTRNAME", T_CHAR),
  ("FLTRSVD1", T_BIN), ("FLTRSVD2", T_BIN), ("FLTRSVD3", T_BIN), ("FLTRSVD4", T_BIN),
  ("FLTRSVD5", T_BIN), ("RACDHDR", T_BIN), ("DIDCT", T_INT), ("DIDLABL", T_CHAR),
  ("DIDUSER", T_CHAR), ("DIDRNAME", T_CHAR), ("DIDRSVD1", T_BIN), ("DIDRSVD2", T_BIN),
  ("SESSKEY", T_BIN), ("SLSFLAGS", T_FLAG), ("KEYDATE", T_DATE), ("KEYINTVL", T_INT),
  ("SLSFAIL", T_INT), ("MAXFAIL", T_INT), ("SENTCNT", T_INT), ("SENTITY", T_CHAR),
  ("SENTFLCT", T_INT), ("CONVSEC", T_FLAG), ("RETAIN", T_FLAG), ("JOBNMCNT", T_INT),
  ("JOBNAMES", T_CHAR), ("SSKEY", T_BIN), ("PTKEYLAB", T_CHAR), ("PTTYPE", T_CHAR),
  ("PTTIMEO", T_INT), ("PTREPLAY", T_BIN), ("STUSER", T_CHAR), ("STGROUP", T_CHAR),
  ("FLAGTRUS", T_FLAG), ("FLAGPRIV", T_FLAG), ("FLAGTRAC", T_FLAG), ("SCRIPTN", T_CHAR),
  ("PARMN", T_CHAR), ("CERT", T_BIN), ("CERTPRVK", T_BIN), ("RINGCT", T_INT), ("RINGNAME", T_CHAR),
  ("CERTSTRT", T_CHAR), ("CERTEND", T_CHAR), ("CERTCT", T_INT), ("CERTNAME", T_CHAR),
  ("CERTUSAG", T_BIN), ("CERTDFLT", T_FLAG), ("CERTSJDN", T_BIN), ("CERTLABL", T_CHAR),
  ("CERTRSV1", T_CHAR), ("CERTRSV2", T_CHAR), ("CERTRSV3", T_CHAR), ("CERTRSV4", T_CHAR),
  ("CERTRSV5", T_CHAR), ("CERTRSV6", T_CHAR), ("CERTRSV7", T_CHAR), ("CERTRSV8", T_CHAR),
  ("CERTRSV9", T_CHAR), ("CERTRSVA", T_CHAR), ("CERTRSVB", T_CHAR), ("CERTRSVC", T_CHAR),
  ("CERTRSVD", T_CHAR), ("CERTRSVE", T_CHAR), ("CERTRSVF", T_CHAR), ("CERTRSVG", T_CHAR),
  ("CERTRSVH", T_CHAR), ("CERTRSVI", T_CHAR), ("CERTRSVJ", T_CHAR), ("CERTRSVK", T_CHAR),
  ("CERTPRVT", T_BIN), ("CERTPRVS", T_INT), ("CERTLSER", T_BIN), ("RINGSEQN", T_INT),
  ("CERTGREQ", T_BIN), ("PARENT", T_CHAR), ("CHILDN", T_INT), ("CHILDREN", T_CHAR),
  ("RESN", T_INT), ("RESOURCE", T_CHAR), ("GROUPN", T_INT), ("GROUPS", T_CHAR), ("ROLEN", T_INT),
  ("ROLES", T_CHAR), ("KERBNAME", T_CHAR), ("MINTKTLF", T_CHAR), ("MAXTKTLF", T_CHAR),
  ("DEFTKTLF", T_CHAR), ("SALT", T_CHAR), ("ENCTYPE", T_CHAR), ("CURKEYV", T_CHAR),
  ("CURKEY", T_CHAR), ("PREVKEYV", T_CHAR), ("PREVKEY", T_CHAR), ("ENCRYPT", T_CHAR),
  ("CHKADDRS", T_CHAR), ("LDAPHOST", T_CHAR), ("BINDDN", T_CHAR), ("BINDPW", T_CHAR),
  ("BINDPWKY", T_CHAR), ("DOMAINDN", T_CHAR), ("OPTIONS", T_CHAR), ("LOCALREG", T_CHAR),
  ("KERBREG", T_CHAR), ("X509REG", T_CHAR), ("IPLOOK", T_CHAR), ("CDTPOSIT", T_INT),
  ("CDTMAXLN", T_INT), ("CDTMAXLX", T_INT), ("CDTDFTRC", T_INT), ("CDTKEYQL", T_INT),
  ("CDTGROUP", T_CHAR), ("CDTMEMBR", T_CHAR), ("CDTFIRST", T_FLAG), ("CDTOTHER", T_FLAG),
  ("CDTOPER", T_FLAG), ("CDTUACC", T_FLAG), ("CDTRACL", T_FLAG), ("CDTGENL", T_FLAG),
  ("CDTPRFAL", T_FLAG), ("CDTSLREQ", T_FLAG), ("CDTMAC", T_FLAG), ("CDTSIGL", T_FLAG),
  ("CDTCASE", T_FLAG), ("CDTGEN", T_FLAG), ("USEMAP", T_FLAG), ("DOMAP", T_FLAG),
  ("MAPREQ", T_FLAG), ("MAPTIMEO", T_INT), ("CFDTYPE", T_FLAG), ("CFMXLEN", T_INT),
  ("CFMXVAL", T_INT), ("CFMNVAL", T_INT), ("CFFIRST", T_FLAG), ("CFOTHER", T_FLAG),
  ("CFMIXED", T_FLAG), ("CFHELP", T_CHAR), ("CFLIST", T_CHAR), ("CFVALRX", T_CHAR),
  ("SIGREQD", T_FLAG), ("FAILLOAD", T_FLAG), ("SIGAUDIT", T_FLAG), ("CSFSEXP", T_FLAG),
  ("CSFSKLCT", T_INT), ("CSFSKLBS", T_CHAR), ("CSFSCLCT", T_INT), ("CSFSCLBS", T_CHAR),
  ("CSFAUSE", T_FLAG), ("CSFSCPW", T_FLAG), ("CSFSCPR", T_FLAG), ("MFDATA", T_CHAR),
  ("MFFCTRN", T_INT), ("MFFCTRS", T_CHAR), ("MFTIMEO", T_INT), ("MFREUSE", T_BIN),
  ("CSCNT", T_INT), ("CSTYPE", T_FLAG), ("CSKEY", T_CHAR), ("CSVALUE", T_CHAR),
  ("IDTTOKN", T_CHAR), ("IDTSEQN", T_CHAR), ("IDTCAT", T_CHAR), ("IDTSALG", T_CHAR),
  ("IDTTIMEO", T_INT), ("IDTANYAP", T_CHAR)]

/-- Variable `FieldTypes`: catalog of a template class, `none` for a class without catalog. -/
def FieldTypes (tmpName : List Nat) : Option (List (String × Nat)) :=
  if tmpName = str "GROUP" then some fieldTypesGroup
  else if tmpName = str "USER" then some fieldTypesUser
  else if tmpName = str "CONNECT" then some fieldTypesConnect
  else if tmpName = str "DATASET" then some fieldTypesDataset
  else if tmpName = str "GENERAL" then some fieldTypesGeneral
  else none


/-! ## Results of fallible code -/

/-- Outcome of a Go call that may return an `error` or panic at run time. -/
inductive Res (α : Type) where
  | ok (a : α)
  | err
  | panic
  deriving DecidableEq, Repr

/-- Sequencing: the first failure ends the computation. -/
def Res.bind {α β : Type} (r : Res α) (k : α → Res β) : Res β :=
  match r with
  | .ok a => k a
  | .err => .err
  | .panic => .panic

instance : Monad Res where
  pure := Res.ok
  bind := Res.bind

/-! ## Byte slices with capacity -/

/-- A Go `[]byte`: the `len` visible bytes, and the bytes of the backing array that lie
between `len` and `cap` (a slice expression may reach them). -/
structure ByteSlice where
  bytes : List Nat
  spare : List Nat
  deriving DecidableEq, Repr

/-- Slice expression `s[lo:]`: panics unless `lo ≤ len(s)`. -/
def ByteSlice.sliceFrom (s : ByteSlice) (lo : Nat) : Res ByteSlice :=
  if lo ≤ s.bytes.length then .ok ⟨s.bytes.drop lo, s.spare⟩ else .panic

/-- Slice expression `s[lo:hi]`: panics unless `lo ≤ hi ≤ cap(s)`. -/
def ByteSlice.slice (s : ByteSlice) (lo hi : Nat) : Res ByteSlice :=
  if lo ≤ hi ∧ hi ≤ s.bytes.length + s.spare.length then
    .ok ⟨((s.bytes ++ s.spare).take hi).drop lo, (s.bytes ++ s.spare).drop hi⟩
  else .panic

/-- Index expression `s[i]`: panics unless `i < len(s)`. -/
def ByteSlice.index (s : ByteSlice) (i : Nat) : Res Nat :=
  match s.bytes.get? i with
  | some b => .ok b
  | none => .panic

/-! ## sections/template.go -/

/-- Function `strings.TrimSpace` of the Go library on a byte string whose leading and trailing
white space is ASCII (tab, line feed, vertical tab, form feed, carriage return, blank). A byte
of 0x80 or more ends the trimming: alone it is not the UTF-8 encoding of a space. The
multi-byte UTF-8 encodings of the Unicode spaces are not modelled. -/
def asciiSpace (c : Nat) : Bool :=
  c == 9 || c == 10 || c == 11 || c == 12 || c == 13 || c == 32

def TrimSpace (s : List Nat) : List Nat :=
  ((s.dropWhile asciiSpace).reverse.dropWhile asciiSpace).reverse

def TEMPLATE_SIZE : Nat := 17

structure TemplateField where
  Name : List Nat
  ID : Nat
  Flag1 : Nat
  Flag2 : Nat
  Len : Nat
  DefaultValue : Nat
  deriving DecidableEq, Repr

namespace TemplateField

def IsSegmentName (f : TemplateField) : Bool :=
  f.ID == 1 && f.Flag1 == 0 && f.Flag2 == 0 && f.Len == 0 && f.DefaultValue == 0

def IsRepeatGroup (f : TemplateField) : Bool := f.Flag1 &&& 0x10 == 0x10

def IsRepeatGroupMember (f : TemplateField) : Bool := f.Flag1 &&& 0x80 == 0x80

def isCombinationField (f : TemplateField) : Bool := f.Flag1 &&& 0x40 == 0x40

def NameTrim (f : TemplateField) : List Nat := TrimSpace (EBCDICStr.String f.Name)

end TemplateField

/-- The Go types (`reflect.Type`) that `TemplateField.ToType` hands out. -/
inductive FieldKind where
  | uint8 | uint16 | uint32 | uint64
  | HexStr | EBCDICStr | Date | Time | Flag
  | bytes
  deriving DecidableEq, Repr

namespace TemplateField

/-- Detect the type if the field is not in the field catalog. -/
def ToTypeWithoutFieldDB (f : TemplateField) : FieldKind :=
  if f.Flag1 &&& 0x04 = 0x04 then .HexStr
  else if f.Flag2 &&& 0x20 = 0x20 then .Date
  else if f.Flag1 &&& 0x20 = 0x20 then .Flag
  else if f.Len = 1 then .uint8
  else if f.Len = 2 then .uint16
  else if f.Len = 4 then .uint32
  else if f.Len ≥ 8 ∨ f.Len = 0 then .EBCDICStr
  else .bytes

/-- Method `TemplateField.ToType`; `useFieldDB` is the option `common.Opt.UseFieldDB`. The
catalog is a Go map with distinct keys, so the `range` loop returns at its only match. -/
def ToType (useFieldDB : Bool) (f : TemplateField) (tmpName : List Nat) : FieldKind :=
  if useFieldDB then
    match (FieldTypes tmpName).bind (fun m => m.find? (fun kv => f.NameTrim = str kv.1)) with
    | some (_, v) =>
      if v = T_INT then
        if f.Len = 1 then .uint8
        else if f.Len = 2 then .uint16
        else if f.Len = 4 then .uint32
        else .uint64
      else if v = T_CHAR then
        if f.Flag1 &&& 0x04 = 0x04 then .HexStr else .EBCDICStr
      else if v = T_DATE then
        if f.Flag2 &&& 0x20 = 0x20 then .Date else .Date
      else if v = T_TIME then .Time
      else if v = T_BIN then
        if f.Flag1 &&& 0x20 = 0x20 then .Flag else .HexStr
      else if v = T_FLAG then .Flag
      else f.ToTypeWithoutFieldDB
    | none => f.ToTypeWithoutFieldDB
  else f.ToTypeWithoutFieldDB

end TemplateField

abbrev Template := List TemplateField

/-- Method `Template.Name`: panics on an empty template. -/
def Template.Name (tmp : Template) : Res (List Nat) :=
  match tmp with
  | [] => .panic
  | f :: _ => .ok f.NameTrim

/-- Loop of `Template.FieldByID`; `segmentFound` is the loop variable of that name. -/
def Template.FieldByID.loop (id : Nat) (sname : List Nat) :
    List TemplateField → Bool → Option TemplateField
  | [], _ => none
  | f :: rest, segmentFound =>
    if !segmentFound then
      if f.IsSegmentName && (f.NameTrim == sname) then
        Template.FieldByID.loop id sname rest true
      else
        Template.FieldByID.loop id sname rest segmentFound
    else if f.ID = id then some f
    else Template.FieldByID.loop id sname rest segmentFound

/-- Method `Template.FieldByID`: `some f` for `(f, true)`, `none` for `(nil, false)`. -/
def Template.FieldByID (tmp : Template) (id : Nat) (sname : List Nat) : Option TemplateField :=
  Template.FieldByID.loop id sname tmp (sname == str "BASE")


/-! ### Dynamic record types (`reflect.StructOf`) -/

/-- Type of a field of a segment record: a primitive, or the slice of records of a repeat
group (`reflect.SliceOf` of the struct of its members). -/
inductive FieldType where
  | prim (k : FieldKind)
  | rgSlice (members : List (List Nat × FieldKind))
  deriving DecidableEq, Repr

/-- A `reflect.StructField` of a segment record type. -/
structure StructField where
  Name : List Nat
  Typ : FieldType
  deriving DecidableEq, Repr

/-- A struct type made by `reflect.StructOf`. -/
abbrev StructType := List StructField

/-- Go library, `reflect.isLetter` on an ASCII byte. -/
def isLetter (c : Nat) : Bool :=
  (97 ≤ c && c ≤ 122) || (65 ≤ c && c ≤ 90) || c == 95

/-- Go library, `unicode.IsDigit` on an ASCII byte. -/
def isDigit (c : Nat) : Bool := 48 ≤ c && c ≤ 57

/-- Go library, `reflect.isValidFieldName`: a letter, then letters and digits. Bytes of 0x80 or
more are rejected (alone they decode to U+FFFD; UTF-8 letters are not modelled). -/
def isValidFieldName (fieldName : List Nat) : Bool :=
  match fieldName with
  | [] => false
  | c :: rest => isLetter c && rest.all (fun d => isLetter d || isDigit d)

/-- The check of `reflect.StructOf` that a field without package path is exported: its name
does not start with a lower-case letter or an underscore. -/
def isExportedName (fieldName : List Nat) : Bool :=
  match fieldName with
  | [] => true
  | c :: _ => !((97 ≤ c && c ≤ 122) || c == 95)

/-- The conditions under which `reflect.StructOf` does not panic: every name is a valid,
exported field name and no name occurs twice. -/
def StructOf.accepts (names : List (List Nat)) : Bool :=
  names.all (fun n => isValidFieldName n && isExportedName n) && decide names.Nodup

/-- Function `reflect.StructOf` on the fields of a segment record. -/
def StructOf (fields : List StructField) : Res StructType :=
  if StructOf.accepts (fields.map (fun f => f.Name)) then .ok fields else .panic

/-- Function `reflect.StructOf` on the members of a repeat group. -/
def StructOfMembers (rgFields : List (List Nat × FieldKind)) :
    Res (List (List Nat × FieldKind)) :=
  if StructOf.accepts (rgFields.map (fun f => f.1)) then .ok rgFields else .panic

/-- A Go `map[string]T`: at most one entry per key. -/
abbrev GoMap (α : Type) := List (List Nat × α)

/-- Assignment `m[k] = v`. -/
def GoMap.set {α : Type} (m : GoMap α) (k : List Nat) (v : α) : GoMap α :=
  (k, v) :: m.filter (fun e => e.1 != k)

/-- Lookup `v, ok := m[k]`. -/
def GoMap.get? {α : Type} (m : GoMap α) (k : List Nat) : Option α :=
  (m.find? (fun e => e.1 == k)).map (fun e => e.2)

/-- The keys of a map. -/
def GoMap.keys {α : Type} (m : GoMap α) : List (List Nat) := m.map (fun e => e.1)

/-- The local variables of `Template.ToType`. -/
structure ToTypeState where
  retVal : GoMap StructType
  fields : List StructField
  rgFields : List (List Nat × FieldKind)
  sName : List Nat
  rgName : List Nat
  isRepeatGroup : Bool
  deriving DecidableEq, Repr

/-- One iteration of the loop of `Template.ToType`, at index `i` on descriptor `f`;
`tmpName` is the value of `tmp.Name()`. -/
def Template.ToType.step (useFieldDB : Bool) (tmpName : List Nat) (i : Nat)
    (f : TemplateField) (st : ToTypeState) : Res ToTypeState :=
  -- Skip CombinationField
  if f.isCombinationField then .ok st
  -- Check that current field is a segment name
  else if f.IsSegmentName then do
    let st1 ← (if st.fields.length > 0 then do
        let t ← StructOf st.fields
        pure { st with retVal := st.retVal.set st.sName t, fields := [] }
      else pure st : Res ToTypeState)
    pure { st1 with sName := if i = 0 then str "BASE" else f.NameTrim }
  -- Handling RepeatGroup fields
  else if st.isRepeatGroup && f.IsRepeatGroupMember then
    .ok { st with rgFields := st.rgFields ++ [(f.NameTrim, f.ToType useFieldDB tmpName)] }
  else do
    let st1 ← (if st.isRepeatGroup then do
        let rgStruct ← StructOfMembers st.rgFields
        pure { st with isRepeatGroup := false,
                       fields := st.fields ++ [⟨st.rgName, .rgSlice rgStruct⟩],
                       rgFields := [] }
      else pure st : Res ToTypeState)
    -- Check that RepeatGroup is started
    let st2 : ToTypeState :=
      if f.IsRepeatGroup then
        { st1 with isRepeatGroup := true, rgName := f.NameTrim ++ str "_RG" }
      else st1
    -- Skip nameless field in template
    if f.NameTrim.length > 0 then
      pure { st2 with
        fields := st2.fields ++ [⟨f.NameTrim, .prim (f.ToType useFieldDB tmpName)⟩] }
    else pure st2

/-- The loop of `Template.ToType` from index `i` on. -/
def Template.ToType.loop (useFieldDB : Bool) (tmpName : List Nat) :
    Nat → List TemplateField → ToTypeState → Res ToTypeState
  | _, [], st => .ok st
  | i, f :: rest, st =>
    (Template.ToType.step useFieldDB tmpName i f st).bind
      (fun st1 => Template.ToType.loop useFieldDB tmpName (i + 1) rest st1)

/-- Method `Template.ToType`: the map from segment name to segment record type. -/
def Template.ToType (useFieldDB : Bool) (tmp : Template) : Res (GoMap StructType) :=
  match tmp with
  | [] => .ok []
  | f0 :: _ =>
    (Template.ToType.loop useFieldDB f0.NameTrim 0 tmp ⟨[], [], [], [], [], false⟩).bind
      (fun st => .ok st.retVal)


/-! ## sections/profile.go -/

/-- Method `ProfileSegmentFieldLength.Int`. -/
def ProfileSegmentFieldLength.Int (l : Nat) : Nat :=
  if l &&& 0x80000000 ≠ 0 then l &&& 0x7fffffff else l

/-- Method `ProfileSegmentFieldLength.Size`. -/
def ProfileSegmentFieldLength.Size (l : Nat) : Nat :=
  if l &&& 0x80000000 ≠ 0 then 4 else 1

structure ProfileSegmentRepeatGroupField where
  Len : Nat
  Value : ByteSlice
  deriving DecidableEq, Repr

def ProfileSegmentRepeatGroupField.UnmarshalBinary (data : ByteSlice) :
    Res ProfileSegmentRepeatGroupField := do
  let b0 ← data.index 0
  let len ← (if b0 &&& 0x80 ≠ 0 then
      (if data.bytes.length < 4 then .err else .ok (beUint (data.bytes.take 4)))
    else .ok b0 : Res Nat)
  let value ← data.slice (ProfileSegmentFieldLength.Size len)
    (ProfileSegmentFieldLength.Size len + ProfileSegmentFieldLength.Int len)
  pure ⟨len, value⟩

structure ProfileSegmentRepeatGroup where
  Num : Nat
  Fields : List ProfileSegmentRepeatGroupField
  deriving DecidableEq, Repr

/-- The loop of `ProfileSegmentRepeatGroup.UnmarshalBinary` with `n` iterations left. -/
def ProfileSegmentRepeatGroup.UnmarshalBinary.loop (data : ByteSlice) :
    Nat → Nat → Res (List ProfileSegmentRepeatGroupField)
  | 0, _ => .ok []
  | n + 1, ptr => do
    let d ← data.sliceFrom ptr
    let f ← ProfileSegmentRepeatGroupField.UnmarshalBinary d
    let rest ← ProfileSegmentRepeatGroup.UnmarshalBinary.loop data n
      (ptr + (ProfileSegmentFieldLength.Size f.Len + ProfileSegmentFieldLength.Int f.Len))
    pure (f :: rest)

def ProfileSegmentRepeatGroup.UnmarshalBinary (data : ByteSlice) :
    Res ProfileSegmentRepeatGroup := do
  let num ← data.index 0
  let fields ← ProfileSegmentRepeatGroup.UnmarshalBinary.loop data num 1
  pure ⟨num, fields⟩

/-- Method `ProfileSegmentRepeatGroup.Size`. -/
def ProfileSegmentRepeatGroup.Size (rp : ProfileSegmentRepeatGroup) : Nat :=
  1 + ((rp.Fields.take rp.Num).map (fun f =>
    ProfileSegmentFieldLength.Size f.Len + ProfileSegmentFieldLength.Int f.Len)).sum

structure ProfileSegmentHdr where
  Magic : Nat
  PhysicLen : Nat
  LogicLen : Nat
  SegmentName : List Nat
  ProfileNameLen : Nat
  ProfileName : List Nat
  deriving DecidableEq, Repr

structure ProfileSegmentField where
  Id : Nat
  Len : Nat
  Value : ByteSlice
  deriving DecidableEq, Repr

/-- Method `ProfileSegmentField.UnmarshalBinary`: the field that is set when `nil` is
returned, `.err` for a returned error. -/
def ProfileSegmentField.UnmarshalBinary (data : ByteSlice) : Res ProfileSegmentField :=
  if data.bytes.length < 2 then .err
  else do
    let id ← data.index 0
    let b1 ← data.index 1
    let lp ← (if b1 &&& 0x80 ≠ 0 then
        (if data.bytes.length < 5 then .err
         else .ok (beUint ((data.bytes.drop 1).take 4), 1 + 4))
      else .ok (b1, 1 + 1) : Res (Nat × Nat))
    if data.bytes.length < lp.2 + ProfileSegmentFieldLength.Int lp.1 then .err
    else do
      let value ← data.slice lp.2 (lp.2 + ProfileSegmentFieldLength.Int lp.1)
      pure ⟨id, lp.1, value⟩

structure ProfileSegment where
  Hdr : ProfileSegmentHdr
  Fields : List ProfileSegmentField
  deriving DecidableEq, Repr

/-! ### Dynamic record values (`reflect.Value`) -/

/-- Value of a primitive field: an unsigned integer (`uint8` to `uint64`), or the bytes of a
`HexStr`, `EBCDICStr`, `Date`, `Flag`, `[]byte` or of the four-byte array `Time`. -/
inductive PrimValue where
  | uint (n : Nat)
  | bytes (bs : List Nat)
  deriving DecidableEq, Repr

/-- Value of a field of a segment record; the records of a repeat group list the values of
the members in the order of the struct type. -/
inductive FieldValue where
  | prim (v : PrimValue)
  | rg (records : List (List PrimValue))
  deriving DecidableEq, Repr

/-- A segment record: the fields of its struct type, in order, each with its value. -/
abbrev Record := List (List Nat × FieldValue)

/-- Zero value of a primitive Go type. -/
def FieldKind.zero : FieldKind → PrimValue
  | .uint8 | .uint16 | .uint32 | .uint64 => .uint 0
  | .Time => .bytes [0, 0, 0, 0]
  | _ => .bytes []

/-- Zero value of a field type; the zero slice has no element. -/
def FieldType.zero : FieldType → FieldValue
  | .prim k => .prim k.zero
  | .rgSlice _ => .rg []

/-- Call `reflect.New(sType)`: the zero record of a struct type. -/
def StructType.new (sType : StructType) : Record :=
  sType.map (fun f => (f.Name, f.Typ.zero))

/-- Method `FieldByName` of a struct type. -/
def StructType.FieldByName (sType : StructType) (name : List Nat) : Option StructField :=
  sType.find? (fun f => f.Name == name)

/-- Read of the field `name` of a record. -/
def Record.field (r : Record) (name : List Nat) : Option FieldValue :=
  (r.find? (fun e => e.1 == name)).map (fun e => e.2)

/-- Store into the field `name` of a record (the first field of that name). -/
def Record.setField (r : Record) (name : List Nat) (v : FieldValue) : Record :=
  match r with
  | [] => []
  | e :: rest => if e.1 == name then (e.1, v) :: rest else e :: Record.setField rest name v

/-- Width in bytes of the unsigned integer kinds (`T.Size()`), `none` for the other kinds. -/
def FieldKind.uintSize : FieldKind → Option Nat
  | .uint8 => some 1
  | .uint16 => some 2
  | .uint32 => some 4
  | .uint64 => some 8
  | _ => none

/-- Function `setProfileSegmentField` on a primitive field: the value stored, and whether an
error is returned. `data` holds the `len(data)` visible bytes. -/
def setProfileSegmentField (k : FieldKind) (data : List Nat) (length : Nat) :
    PrimValue × Bool :=
  match k with
  | .uint8 => if data.length = 0 then (.uint 0, true) else (.uint (data.getD 0 0), false)
  | .uint16 => if data.length < 2 then (.uint 0, true) else (.uint (beUint (data.take 2)), false)
  | .uint32 => if data.length < 4 then (.uint 0, true) else (.uint (beUint (data.take 4)), false)
  | .uint64 => if data.length < 8 then (.uint 0, true) else (.uint (beUint (data.take 8)), false)
  | .Time => (.bytes ((List.range 4).map (fun i => data.getD i 0)), decide (data.length < 4))
  | _ => (.bytes ((List.range length).map (fun i => data.getD i 0)),
          decide (data.length < length))

/-- Function `setProfileSegmentField` on a field of a segment record. A slice of records is of
kind `reflect.Slice`: it is set to `length` zero records, and `SetUint` on the first of them
panics. -/
def setProfileSegmentFieldValue (t : FieldType) (data : List Nat) (length : Nat) :
    Res (FieldValue × Bool) :=
  match t with
  | .prim k => .ok (.prim (setProfileSegmentField k data length).1,
                    (setProfileSegmentField k data length).2)
  | .rgSlice _ => if length = 0 then .ok (.rg [], false) else .panic

/-- Fill a record of the repeat group: member `j` of the struct type takes `rp.Fields[j]`;
an index past the decoded fields panics. -/
def fillRepeatGroupRecord :
    List (List Nat × FieldKind) → List ProfileSegmentRepeatGroupField → Res (List PrimValue)
  | [], _ => .ok []
  | _ :: _, [] => .panic
  | m :: ms, f :: fs => do
    let rest ← fillRepeatGroupRecord ms fs
    pure ((setProfileSegmentField m.2 f.Value.bytes
      (ProfileSegmentFieldLength.Int f.Len)).1 :: rest)

/-- The loop over the items of a repeat group in `ProfileSegment.ToValue`, with `n` items
left and the cursor `rpPtr`; a decoding error leaves the remaining items at their zero
value (`break`). -/
def ToValue.rgLoop (members : List (List Nat × FieldKind)) (value : ByteSlice) :
    Nat → Nat → Res (List (List PrimValue))
  | 0, _ => .ok []
  | n + 1, rpPtr => do
    let d ← value.sliceFrom rpPtr
    match ProfileSegmentRepeatGroup.UnmarshalBinary d with
    | .panic => .panic
    | .err => .ok (List.replicate (n + 1) (members.map (fun m => m.2.zero)))
    | .ok rp => do
      let rec1 ← fillRepeatGroupRecord members rp.Fields
      let rest ← ToValue.rgLoop members value n (rpPtr + rp.Size)
      pure (rec1 :: rest)

/-- The body of the loop over the field slots in `ProfileSegment.ToValue`. -/
def ToValue.step (template : Template) (sName : List Nat) (sType : StructType)
    (sValue : Record) (f : ProfileSegmentField) : Res Record :=
  match template.FieldByID f.Id sName with
  | none => .ok sValue
  | some tf =>
    let fName := tf.NameTrim
    match sType.FieldByName fName with
    | none => .ok sValue
    | some fT => do
      let r ← setProfileSegmentFieldValue fT.Typ f.Value.bytes
        (ProfileSegmentFieldLength.Int f.Len)
      let sValue1 := sValue.setField fName r.1
      -- Handle RepeatGroup fields
      if tf.IsRepeatGroup then
        let rpName := fName ++ str "_RG"
        match r.1, fT.Typ with
        | .prim (.uint rpCount), .prim k =>
          match k.uintSize with
          | none => .panic
          | some rpPtr =>
            match sType.FieldByName rpName with
            | none => .ok sValue1
            | some rpSliceT =>
              match rpSliceT.Typ with
              | .prim k2 => if k2.uintSize.isSome then .panic else .ok sValue1
              | .rgSlice members =>
                if rpCount ≥ 2 ^ 63 then .panic
                else do
                  let recs ← ToValue.rgLoop members f.Value rpCount rpPtr
                  pure (sValue1.setField rpName (.rg recs))
        | _, _ => .panic
      else pure sValue1

/-- The loop over the field slots in `ProfileSegment.ToValue`. -/
def ToValue.loop (template : Template) (sName : List Nat) (sType : StructType) :
    List ProfileSegmentField → Record → Res Record
  | [], sValue => .ok sValue
  | f :: rest, sValue =>
    (ToValue.step template sName sType sValue f).bind
      (fun sValue1 => ToValue.loop template sName sType rest sValue1)

/-- Method `ProfileSegment.ToValue`. -/
def ProfileSegment.ToValue (ps : ProfileSegment) (profileType : List Nat) (template : Template)
    (profileStructs : GoMap (GoMap StructType)) : Res Record :=
  let sName := TrimSpace (EBCDICStr.String ps.Hdr.SegmentName)
  match (profileStructs.get? profileType).bind (fun m => m.get? sName) with
  | none => .err
  | some sType => ToValue.loop template sName sType ps.Fields (sType.new)


/-! ## decode/tag.go and decode/decode.go: the tag-driven decoder

The decoder works by reflection on Go struct types. A struct type is embedded as a `Layout`,
a value of such a type as a `Value`. Floating-point kinds occur in no record of the program
and are left out. -/

mutual
/-- The Go types the decoder meets (`reflect.Type`), by kind. -/
inductive Layout where
  | bool | uint8 | int8 | uint16 | int16 | uint32 | int32 | uint64 | int64
  | array (n : Nat) (elem : Layout)
  | slice (elem : Layout)
  | struct (fields : Fields)
/-- The fields of a struct type: name, the `racf` struct tag, type. -/
inductive Fields where
  | nil
  | cons (name : List Nat) (tag : List Nat) (typ : Layout) (rest : Fields)
end

/-- A value of a Go type (`reflect.Value`); arrays and slices are lists of elements, a struct
is the list of its field values in order. -/
inductive Value where
  | bool (b : Bool)
  | uint (n : Nat)
  | int (i : Int)
  | list (vs : List Value)
  | struct (vs : List Value)

instance : Inhabited Value := ⟨Value.uint 0⟩

/-- The fields of a struct type as a list of (name, tag, type). -/
def Fields.toList : Fields → List (List Nat × List Nat × Layout)
  | .nil => []
  | .cons name tag typ rest => (name, tag, typ) :: rest.toList

mutual
/-- Zero value of a type. -/
def Layout.zero : Layout → Value
  | .bool => .bool false
  | .uint8 | .uint16 | .uint32 | .uint64 => .uint 0
  | .int8 | .int16 | .int32 | .int64 => .int 0
  | .array n elem => .list (List.replicate n elem.zero)
  | .slice _ => .list []
  | .struct fields => .struct fields.zero
/-- Zero values of the fields of a struct type. -/
def Fields.zero : Fields → List Value
  | .nil => []
  | .cons _ _ typ rest => typ.zero :: rest.zero
end

/-- A field is exported, hence settable through reflection, when its name starts with an
upper-case letter; the blank field `_` is not. -/
def isExported (name : List Nat) : Bool :=
  match name with
  | [] => false
  | c :: _ => 65 ≤ c && c ≤ 90

/-- Go library, `strings.Split` with a separator of one byte. -/
def Split (sep : Nat) : List Nat → List (List Nat)
  | [] => [[]]
  | c :: rest =>
    if c = sep then [] :: Split sep rest
    else match Split sep rest with
      | [] => [[c]]
      | p :: ps => (c :: p) :: ps

/-- Value of a string of decimal digits, `none` when a byte is not a digit. -/
def parseDigits : List Nat → Nat → Option Nat
  | [], acc => some acc
  | c :: rest, acc => if 48 ≤ c ∧ c ≤ 57 then parseDigits rest (acc * 10 + (c - 48)) else none

/-- Go library, `strconv.Atoi`: an optional sign and decimal digits, in the range of a 64-bit
`int`; `none` stands for a returned error. -/
def Atoi (s : List Nat) : Option Int :=
  match s with
  | [] => none
  | c :: rest =>
    if c = 45 then
      match rest with
      | [] => none
      | _ => (parseDigits rest 0).bind (fun n => if n ≤ 2 ^ 63 then some (-(n : Int)) else none)
    else if c = 43 then
      match rest with
      | [] => none
      | _ => (parseDigits rest 0).bind (fun n => if n < 2 ^ 63 then some (n : Int) else none)
    else (parseDigits s 0).bind (fun n => if n < 2 ^ 63 then some (n : Int) else none)

/-- Type `FieldTag`, a `map[string]int`. -/
abbrev FieldTag := GoMap Int

/-- Outcome of `ParseTag`: the map, and whether an error is returned with it. -/
inductive TagRes where
  | panic
  | done (ft : FieldTag) (err : Bool)

/-- The loop of `ParseTag` over the comma-separated items; `root` is the struct value whose
fields a tag may name, as (name, tag, type) with the current value. -/
def ParseTag.loop (root : List ((List Nat × List Nat × Layout) × Value)) :
    List (List Nat) → FieldTag → TagRes
  | [], ft => .done ft false
  | f :: rest, ft =>
    match Split 61 f with
    | [p0, p1] =>
      match Atoi p1 with
      | some v => ParseTag.loop root rest ((ft.set p0 0).set p0 v)
      | none =>
        match root.find? (fun e => e.1.1 == p1) with
        | none => .done (ft.set p0 0) true
        | some (info, val) =>
          -- `v.Interface()` panics on a field that is not exported
          if !isExported info.1 then .panic
          else match info.2.2, val with
            | .uint8, .uint n => ParseTag.loop root rest ((ft.set p0 0).set p0 (n : Int))
            | .uint16, .uint n => ParseTag.loop root rest ((ft.set p0 0).set p0 (n : Int))
            | .uint32, .uint n => ParseTag.loop root rest ((ft.set p0 0).set p0 (n : Int))
            | _, _ => ParseTag.loop root rest (ft.set p0 0)
    | p0 :: _ => ParseTag.loop root rest (ft.set p0 0)
    | [] => ParseTag.loop root rest ft

/-- Function `ParseTag` on a tag and the struct value `root` (its fields and their values). -/
def ParseTag (tag : List Nat) (fields : Fields) (vals : List Value) : TagRes :=
  ParseTag.loop (fields.toList.zip vals) (Split 44 tag) []

/-- Function `zeroPadding`. -/
def zeroPadding (a : List Nat) (size : Nat) : List Nat :=
  List.replicate (size - a.length) 0 ++ a

/-- Slice expression `s[lo:]` with an `int` bound. -/
def ByteSlice.sliceFromInt (s : ByteSlice) (lo : Int) : Res ByteSlice :=
  if lo < 0 then .panic else s.sliceFrom lo.toNat

/-- Call `binary.BigEndian.UintN(data)` for N = 8 `n`: panics on fewer than `n` bytes. -/
def ByteSlice.beRead (s : ByteSlice) (n : Nat) : Res Nat :=
  if n ≤ s.bytes.length then .ok (beUint (s.bytes.take n)) else .panic

/-- Summation loop of `Size` over the `n` elements of an array. -/
def Size.elems (size : Value → Option Int) : Nat → List Value → Option Int
  | 0, _ => some 0
  | n + 1, vs =>
    match size (vs.headD default) with
    | none => none
    | some a => (Size.elems size n vs.tail).map (fun b => a + b)

mutual
/-- Function `Size` on a value of type `t`; `ro` tells that the value was reached through a
field that is not exported, on which `v.Interface()` panics. `none` stands for a panic. -/
def Layout.Size : Layout → Value → Bool → Option Int
  | _, _, true => none
  | .struct fields, .struct vals, false => fields.Size fields vals vals
  | .struct _, _, false => none
  | .array n elem, .list vs, false => Size.elems (fun v => elem.Size v false) n vs
  | .array _ _, _, false => none
  | .slice _, _, false => none
  | .bool, _, false => some 1
  | .uint8, _, false => some 1
  | .int8, _, false => some 1
  | .uint16, _, false => some 2
  | .int16, _, false => some 2
  | .uint32, _, false => some 4
  | .int32, _, false => some 4
  | .uint64, _, false => some 8
  | .int64, _, false => some 8
/-- The loop of `Size` over the remaining fields of a struct; `all` and `vals` are the fields
and values of the whole struct, `cur` the values of the remaining fields. -/
def Fields.Size : Fields → Fields → List Value → List Value → Option Int
  | .nil, _, _, _ => some 0
  | .cons name tag typ rest, all, vals, cur =>
    match ParseTag tag all vals with
    | .panic => none
    | .done tags _ =>
      match tags.get? (str "size") with
      | some size => (rest.Size all vals cur.tail).map (fun b => size + b)
      | none =>
        match typ.Size (cur.headD default) (!isExported name) with
        | none => none
        | some a => (rest.Size all vals cur.tail).map (fun b => a + b)
end


/-- Outcome of `DecodeValue`: a panic, or the value as it stands after the call, the number
of bytes reported and whether an error is returned. Go `int` arithmetic is exact here: the
sizes come from tags and data lengths, far from the 64-bit limits. -/
inductive DecodeRes where
  | panic
  | done (v : Value) (shift : Int) (err : Bool)

/-- The branch of `DecodeValue` for a value that cannot be set (a field that is not exported). -/
def DecodeValue.notSettable (v : Value) (tags : FieldTag) : DecodeRes :=
  match tags.get? (str "size") with
  | some shift => .done v shift false
  | none => .done v (-1) true

/-- The end of `DecodeValue`: a `shift` still at -1 is replaced by `Size(*v)`. -/
def DecodeValue.finish (t : Layout) (v : Value) (shift : Int) : DecodeRes :=
  if shift = -1 then
    match t.Size v false with
    | none => .panic
    | some s => .done v s false
  else .done v shift false

/-- Conversion to a signed integer of `bits` bits (`SetInt` truncates to the kind). -/
def toSigned (bits : Nat) (n : Nat) : Int :=
  if n % 2 ^ bits < 2 ^ (bits - 1) then (n % 2 ^ bits : Nat) else (n % 2 ^ bits : Nat) - 2 ^ bits

/-- The loop of `DecodeValue` over the elements of an array or slice: element `i` is decoded
at `data[Size(e)*i:]`, the result and error of the call are dropped, and `Size(e)` is added
to `shift`. `none` stands for a panic. -/
def DecodeValue.elems (dec : ByteSlice → Value → DecodeRes) (size : Value → Option Int)
    (data : ByteSlice) : List Value → Nat → Int → Option (List Value × Int)
  | [], _, shift => some ([], shift)
  | e :: rest, i, shift =>
    match size e with
    | none => none
    | some sz =>
      match data.sliceFromInt (sz * i) with
      | .ok d =>
        match dec d e with
        | .panic => none
        | .done e1 _ _ =>
          match size e1 with
          | none => none
          | some sz1 =>
            match DecodeValue.elems dec size data rest (i + 1) (shift + sz1) with
            | none => none
            | some (vs, sh) => some (e1 :: vs, sh)
      | _ => none

mutual
/-- Function `DecodeValue` on a value that can be set: the `switch` on the kind. -/
def Layout.decode : Layout → ByteSlice → Value → FieldTag → DecodeRes
  | .bool, data, _, tags =>
    match tags.get? (str "size") with
    | some size =>
      match (if size = 1 then data.index 0 else if size = 2 then data.beRead 2
             else if size = 4 then data.beRead 4 else .ok 0 : Res Nat) with
      | .ok n =>
        let bitNum : Int := (tags.get? (str "bit")).getD 0
        let shift : Int :=
          if (tags.get? (str "final")).isSome ∨ bitNum = 8 * size - 1 then size else 0
        match tags.get? (str "bit") with
        | some _ =>
          if (8 * size - 1) - bitNum < 0 then .panic
          else DecodeValue.finish .bool
            (.bool (((n % 2 ^ 64) >>> ((8 * size - 1) - bitNum).toNat) &&& 1 != 0)) shift
        | none => DecodeValue.finish .bool (.bool (n != 0)) shift
      | _ => .panic
    | none =>
      match data.index 0 with
      | .ok b => DecodeValue.finish .bool (.bool (b != 0)) (-1)
      | _ => .panic
  | .uint8, data, _, _ =>
    match data.index 0 with
    | .ok b => DecodeValue.finish .uint8 (.uint b) (-1)
    | _ => .panic
  | .int8, data, _, _ =>
    match data.index 0 with
    | .ok b => DecodeValue.finish .int8 (.int (toSigned 8 b)) (-1)
    | _ => .panic
  | .uint16, data, _, _ =>
    match data.beRead 2 with
    | .ok n => DecodeValue.finish .uint16 (.uint n) (-1)
    | _ => .panic
  | .int16, data, _, _ =>
    match data.beRead 2 with
    | .ok n => DecodeValue.finish .int16 (.int (toSigned 16 n)) (-1)
    | _ => .panic
  | .uint32, data, _, _ =>
    match data.beRead 4 with
    | .ok n => DecodeValue.finish .uint32 (.uint n) (-1)
    | _ => .panic
  | .int32, data, _, _ =>
    match data.beRead 4 with
    | .ok n => DecodeValue.finish .int32 (.int (toSigned 32 n)) (-1)
    | _ => .panic
  | .uint64, data, _, tags =>
    match tags.get? (str "size") with
    | some size =>
      if size < 0 then .panic
      else match data.slice 0 size.toNat with
        | .ok a =>
          DecodeValue.finish .uint64 (.uint (beUint ((zeroPadding a.bytes 8).take 8))) size
        | _ => .panic
    | none =>
      match data.beRead 8 with
      | .ok n => DecodeValue.finish .uint64 (.uint n) (-1)
      | _ => .panic
  | .int64, data, _, tags =>
    match tags.get? (str "size") with
    | some _ => .panic -- `SetUint` on a value of kind `Int64`
    | none =>
      match data.beRead 8 with
      | .ok n => DecodeValue.finish .int64 (.int (toSigned 64 n)) (-1)
      | _ => .panic
  | .array n elem, data, v, tags =>
    match v with
    | .list vs =>
      match DecodeValue.elems (fun d e => elem.decode d e tags) (fun e => elem.Size e false)
          data vs 0 0 with
      | none => .panic
      | some (vs1, shift) => DecodeValue.finish (.array n elem) (.list vs1) shift
    | _ => .panic
  | .slice elem, data, v, tags =>
    match tags.get? (str "size") with
    | some size =>
      if size < 0 then .panic
      else
        match DecodeValue.elems (fun d e => elem.decode d e tags) (fun e => elem.Size e false)
            data (List.replicate size.toNat elem.zero) 0 0 with
        | none => .panic
        | some (vs1, shift) => DecodeValue.finish (.slice elem) (.list vs1) shift
    | none => .done v (-1) true
  | .struct fields, data, v, _ =>
    match v with
    | .struct vals =>
      match fields.decode fields data vals 0 0 with
      | .done v1 shift false => DecodeValue.finish (.struct fields) v1 shift
      | r => r
    | _ => .panic
/-- The loop over the fields of a struct, in `DecodeValue` and in the `UnmarshalBinary`
methods: `all` and `vals` are the fields and current values of the whole struct, `i` the
index of the field at hand and `shift` the bytes consumed so far. -/
def Fields.decode : Fields → Fields → ByteSlice → List Value → Nat → Int → DecodeRes
  | .nil, _, _, vals, _, shift => .done (.struct vals) shift false
  | .cons name tag typ rest, all, data, vals, i, shift =>
    match ParseTag tag all vals with
    | .panic => .panic
    | .done tags _ =>
      match data.sliceFromInt shift with
      | .ok d =>
        match (if isExported name then typ.decode d (vals.getD i default) tags
               else DecodeValue.notSettable (vals.getD i default) tags) with
        | .panic => .panic
        | .done v1 size err =>
          if err then .done (.struct (vals.set i v1)) (-1) true
          else rest.decode all data (vals.set i v1) (i + 1) (shift + size)
      | _ => .panic
end

/-- Function `DecodeValue`; `canSet` is `v.CanSet()`. -/
def DecodeValue (t : Layout) (data : ByteSlice) (v : Value) (canSet : Bool) (tags : FieldTag) :
    DecodeRes :=
  if canSet then t.decode data v tags else DecodeValue.notSettable v tags

/-- The body shared by the `UnmarshalBinary` methods of the fixed records: the length check
against `Size`, then `DecodeValue` on each field in turn, a `ParseTag` error being dropped. -/
def unmarshalFields (fields : Fields) (data : ByteSlice) : Res (List Value) :=
  match (Layout.struct fields).Size (.struct fields.zero) false with
  | none => .panic
  | some sz =>
    if (data.bytes.length : Int) < sz then .err
    else match fields.decode fields data fields.zero 0 0 with
      | .panic => .panic
      | .done (.struct vals) _ false => .ok vals
      | .done _ _ _ => .err


/-- The bytes of a decoded `[]byte` or byte array. -/
def Value.toBytes : Value → List Nat
  | .list vs => vs.map (fun v => match v with | .uint b => b | _ => 0)
  | _ => []

/-! ## sections/indexblock.go -/

structure IndBlkHdr where
  Id1 : Nat
  Len : Nat
  Id2 : Nat
  FormatId : Nat
  Level : Nat
  OffsetLast : Nat
  OffsetFree : Nat
  OffsetTable : Nat
  EntryNum : Nat
  deriving DecidableEq, Repr

/-- The struct type `IndBlkHdr`. -/
def IndBlkHdr.layout : Fields :=
  .cons (str "Id1") [] .uint8 <|
  .cons (str "Len") [] .uint16 <|
  .cons (str "Id2") [] .uint8 <|
  .cons (str "FormatId") [] .uint8 <|
  .cons (str "Level") [] .uint8 <|
  .cons (str "OffsetLast") [] .uint16 <|
  .cons (str "OffsetFree") [] .uint16 <|
  .cons (str "OffsetTable") [] .uint16 <|
  .cons (str "EntryNum") [] .uint16 .nil

def IndBlkHdr.ofValues : List Value → Option IndBlkHdr
  | [.uint a, .uint b, .uint c, .uint d, .uint e, .uint f, .uint g, .uint h, .uint i] =>
    some ⟨a, b, c, d, e, f, g, h, i⟩
  | _ => none

def IndBlkHdr.toValues (h : IndBlkHdr) : List Value :=
  [.uint h.Id1, .uint h.Len, .uint h.Id2, .uint h.FormatId, .uint h.Level,
   .uint h.OffsetLast, .uint h.OffsetFree, .uint h.OffsetTable, .uint h.EntryNum]

def IndBlkHdr.UnmarshalBinary (data : ByteSlice) : Res IndBlkHdr :=
  (unmarshalFields IndBlkHdr.layout data).bind (fun vals =>
    match IndBlkHdr.ofValues vals with
    | some h => .ok h
    | none => .panic)

structure SegmentData where
  Id : Nat
  RBA : Nat
  deriving DecidableEq, Repr

/-- The struct type `SegmentData`. -/
def SegmentData.layout : Fields :=
  .cons (str "Id") [] .uint8 <|
  .cons (str "RBA") (str "size=6") .uint64 .nil

def SegmentData.ofValue : Value → Option SegmentData
  | .struct [.uint a, .uint b] => some ⟨a, b⟩
  | _ => none

structure SegmentDataL1Reg where
  Num : Nat
  Data : List SegmentData
  deriving DecidableEq, Repr

/-- The struct type `SegmentDataL1Reg`. -/
def SegmentDataL1Reg.layout : Fields :=
  .cons (str "Num") [] .uint8 <|
  .cons (str "Data") (str "size=Num") (.slice (.struct SegmentData.layout)) .nil

def SegmentDataL1Reg.ofValue : Value → Option SegmentDataL1Reg
  | .struct [.uint n, .list vs] => (vs.mapM SegmentData.ofValue).map (fun ds => ⟨n, ds⟩)
  | _ => none

structure IndBlkEntry where
  Id : Nat
  Typ : Nat
  LenEntry : Nat
  Offset : Nat
  CompressCount : Nat
  LenName : Nat
  Name : List Nat
  Data : SegmentDataL1Reg
  deriving DecidableEq, Repr

/-- The struct type `IndBlkEntry`. -/
def IndBlkEntry.layout : Fields :=
  .cons (str "Id") [] .uint8 <|
  .cons (str "Type") [] .uint8 <|
  .cons (str "LenEntry") [] .uint16 <|
  .cons (str "Offset") [] .uint16 <|
  .cons (str "CompressCount") [] .uint16 <|
  .cons (str "LenName") [] .uint16 <|
  .cons (str "_") (str "size=2") (.slice .uint8) <|
  .cons (str "Name") (str "size=LenName") (.slice .uint8) <|
  .cons (str "Data") [] (.struct SegmentDataL1Reg.layout) .nil

def IndBlkEntry.ofValues : List Value → Option IndBlkEntry
  | [.uint a, .uint b, .uint c, .uint d, .uint e, .uint f, _, name, data] =>
    (SegmentDataL1Reg.ofValue data).map (fun sd => ⟨a, b, c, d, e, f, name.toBytes, sd⟩)
  | _ => none

def IndBlkEntry.UnmarshalBinary (data : ByteSlice) : Res IndBlkEntry :=
  (unmarshalFields IndBlkEntry.layout data).bind (fun vals =>
    match IndBlkEntry.ofValues vals with
    | some e => .ok e
    | none => .panic)

structure SequenceSetChain where
  Id : Nat
  RBA : Nat
  deriving DecidableEq, Repr

/-- The struct type `SequenceSetChain`. -/
def SequenceSetChain.layout : Fields :=
  .cons (str "Id") [] .uint16 <|
  .cons (str "RBA") (str "size=6") .uint64 .nil

def SequenceSetChain.UnmarshalBinary (data : ByteSlice) : Res SequenceSetChain :=
  (unmarshalFields SequenceSetChain.layout data).bind (fun vals =>
    match vals with
    | [.uint a, .uint b] => .ok ⟨a, b⟩
    | _ => .panic)

structure IndBlk where
  Hdr : IndBlkHdr
  Entries : List IndBlkEntry
  SSC : SequenceSetChain
  deriving DecidableEq, Repr

/-- The step "Uncompress Name" of `IndBlk.UnmarshalBinary`: `prev` is `ib.Entries[i-1]`,
absent for `i = 0` (index out of range). The slice expression `Name[:C]` is within bounds for
`C ≤ len`; past `len` it panics here (Go allows it up to `cap`, which equals `len` for a name
that was not itself uncompressed). -/
def IndBlk.uncompressName (prev : Option IndBlkEntry) (entry : IndBlkEntry) : Res IndBlkEntry :=
  if entry.CompressCount ≠ 0 then
    match prev with
    | none => .panic
    | some p =>
      if entry.CompressCount ≤ p.Name.length then
        .ok { entry with Name := p.Name.take entry.CompressCount ++ entry.Name }
      else .panic
  else .ok entry

/-- The loop over the entries in `IndBlk.UnmarshalBinary`, with `n` entries left; `entries`
holds the entries stored so far. -/
def IndBlk.UnmarshalBinary.loop (data : ByteSlice) :
    Nat → Nat → List IndBlkEntry → Res (List IndBlkEntry)
  | 0, _, entries => .ok entries
  | n + 1, ptr, entries => do
    let d ← data.sliceFrom ptr
    let entry ← IndBlkEntry.UnmarshalBinary d
    let entry1 ← IndBlk.uncompressName entries.getLast? entry
    IndBlk.UnmarshalBinary.loop data n (ptr + entry.LenEntry) (entries ++ [entry1])

def IndBlk.UnmarshalBinary (data : ByteSlice) : Res IndBlk := do
  let hdr ← IndBlkHdr.UnmarshalBinary data
  let ptr ← (match (Layout.struct IndBlkHdr.layout).Size (.struct hdr.toValues) false with
    | some sz => if sz < 0 then .panic else .ok sz.toNat
    | none => .panic : Res Nat)
  let entries ← IndBlk.UnmarshalBinary.loop data hdr.EntryNum ptr []
  let d ← data.sliceFrom hdr.OffsetLast
  let ssc ← SequenceSetChain.UnmarshalBinary d
  pure ⟨hdr, entries, ssc⟩


/-! ## sections/template.go: decoding of the descriptors -/

/-- The struct type `TemplateField`. -/
def TemplateField.layout : Fields :=
  .cons (str "Name") (str "size=8") (.slice .uint8) <|
  .cons (str "ID") [] .uint8 <|
  .cons (str "Flag1") [] .uint8 <|
  .cons (str "Flag2") [] .uint8 <|
  .cons (str "_") (str "size=1") .uint8 <|
  .cons (str "Len") [] .uint32 <|
  .cons (str "DefaultValue") [] .uint8 .nil

/-- The typed view of the decoded field values of a `TemplateField`. -/
def TemplateField.ofValues : List Value → Option TemplateField
  | [name, .uint id, .uint f1, .uint f2, _, .uint len, .uint dv] =>
    some ⟨name.toBytes, id, f1, f2, len, dv⟩
  | _ => none

/-- Method `TemplateField.UnmarshalBinary`. -/
def TemplateField.UnmarshalBinary (data : ByteSlice) : Res TemplateField :=
  (unmarshalFields TemplateField.layout data).bind (fun vals =>
    match TemplateField.ofValues vals with
    | some f => .ok f
    | none => .panic)

/-- Loop of `Template.UnmarshalBinary` with cursor `ptr`; `tmp` is `*tmp` and `dec` stands
for `f.UnmarshalBinary`. The result is `none` for a run-time panic and `some (tmp, err)`
otherwise, `err` telling whether an error was returned. The cursor grows by 17 in each
round, so `len(data)` rounds of `fuel` are never used up. -/
def Template.UnmarshalBinary.loop (dec : ByteSlice → Res TemplateField) (data : ByteSlice) :
    Nat → Nat → Template → Option (Template × Bool)
  | 0, _, tmp => some (tmp, false)
  | fuel + 1, ptr, tmp =>
    if ptr < data.bytes.length then
      match data.slice ptr (ptr + TEMPLATE_SIZE) with
      | .ok d =>
        match dec d with
        | .ok f => Template.UnmarshalBinary.loop dec data fuel (ptr + TEMPLATE_SIZE) (tmp ++ [f])
        | .err => some (tmp, true)
        | .panic => none
      | _ => none
    else some (tmp, false)

/-- Method `Template.UnmarshalBinary`, which appends to `*tmp`. -/
def Template.UnmarshalBinary (tmp : Template) (data : ByteSlice) : Option (Template × Bool) :=
  Template.UnmarshalBinary.loop TemplateField.UnmarshalBinary data data.bytes.length 0 tmp

/-! ## db/runtime.go: the template directory loop of `ParseRACF` -/

/-- A template directory entry of the inventory control block (the fields that are read). -/
structure DEFNS where
  ICTMPL : Nat
  ICTMPN : Nat
  ICTMPRBA : Nat
  deriving DecidableEq, Repr

/-- A Go map with `uint8` keys. -/
abbrev ByteMap (α : Type) := List (Nat × α)

/-- Assignment `m[k] = v`. -/
def ByteMap.set {α : Type} (m : ByteMap α) (k : Nat) (v : α) : ByteMap α :=
  (k, v) :: m.filter (fun e => e.1 != k)

/-- Lookup `v, ok := m[k]`. -/
def ByteMap.get? {α : Type} (m : ByteMap α) (k : Nat) : Option α :=
  (m.find? (fun e => e.1 == k)).map (fun e => e.2)

/-- The maps `templates` and `templateNames` of `ParseRACF`. -/
structure TemplateMaps where
  templates : ByteMap Template
  templateNames : ByteMap (List Nat)
  deriving DecidableEq, Repr

/-- The template directory loop of `ParseRACF` over the entries `icb.ICBTEMP`; `data` is the
file image. `.err` is the error return of `ParseRACF`; the call `t.Name()` in the arguments
of the error message and of the log line is evaluated in every case. -/
def ParseRACF.templateLoop (data : ByteSlice) : List DEFNS → TemplateMaps → Res TemplateMaps
  | [], m => .ok m
  | th :: rest, m =>
    if th.ICTMPRBA = 0 then .ok m
    else
      match data.slice th.ICTMPRBA (th.ICTMPRBA + th.ICTMPL) with
      | .ok d =>
        match Template.UnmarshalBinary [] d with
        | none => .panic
        | some (t, true) =>
          match t.Name with
          | .ok _ => .err
          | _ => .panic
        | some (t, false) =>
          match t.Name with
          | .ok name =>
            match m.templates.get? th.ICTMPN with
            | none =>
              ParseRACF.templateLoop data rest
                ⟨m.templates.set th.ICTMPN t, m.templateNames.set th.ICTMPN name⟩
            | some old =>
              ParseRACF.templateLoop data rest
                ⟨m.templates.set th.ICTMPN (old ++ t), m.templateNames⟩
          | _ => .panic
      | _ => .panic

/-! ## db/runtime.go: rendering of a time value -/

/-- Verb `%02d` of `fmt.Sprintf` on a non-negative integer. -/
def fmtInt02 (n : Nat) : List Nat :=
  let ds := fmtInt n
  List.replicate (2 - ds.length) 48 ++ ds

/-- Function `isTime` on a `uint32`: the rendered text and whether the value is accepted. -/
def isTime (v : Nat) : List Nat × Bool :=
  if v < 0xff then ([], false)
  else
    match Atoi (fmtHex02 ((v >>> 24) &&& 0xff)) with
    | none => ([], false)
    | some hh =>
      if hh < 0 ∨ hh > 24 then ([], false)
      else
        match Atoi (fmtHex02 ((v >>> 16) &&& 0xff)) with
        | none => ([], false)
        | some mm =>
          if mm < 0 ∨ mm > 60 then ([], false)
          else
            match Atoi (fmtHex02 ((v >>> 8) &&& 0xff)) with
            | none => ([], false)
            | some ss =>
              if ss < 0 ∨ ss > 60 then ([], false)
              else
                match Atoi (fmtHex02 ((v >>> 8) &&& 0xff)) with
                | none => ([], false)
                | some ms =>
                  if ms < 0 ∨ ms > 60 then ([], false)
                  else
                    (fmtInt hh.toNat ++ str ":" ++ fmtInt02 mm.toNat ++ str ":" ++
                      fmtInt02 ss.toNat ++ str " (" ++ fmtInt02 ms.toNat ++ str " ms)", true)

/-! ## sections/profile.go: decoding of a segment -/

/-- The struct type `ProfileSegmentHdr`. -/
def ProfileSegmentHdr.layout : Fields :=
  .cons (str "Magic") [] .uint8 <|
  .cons (str "PhysicLen") [] .uint32 <|
  .cons (str "LogicLen") [] .uint32 <|
  .cons (str "SegmentName") (str "size=8") (.slice .uint8) <|
  .cons (str "ProfileNameLen") [] .uint16 <|
  .cons (str "_") (str "size=1") (.slice .uint8) <|
  .cons (str "ProfileName") (str "size=ProfileNameLen") (.slice .uint8) .nil

/-- The typed view of the decoded field values of a `ProfileSegmentHdr`. -/
def ProfileSegmentHdr.ofValues : List Value → Option ProfileSegmentHdr
  | [.uint m, .uint p, .uint l, sn, .uint n, _, pn] =>
    some ⟨m, p, l, sn.toBytes, n, pn.toBytes⟩
  | _ => none

/-- The field values of a `ProfileSegmentHdr`; the blank field is never set. -/
def ProfileSegmentHdr.toValues (h : ProfileSegmentHdr) : List Value :=
  [.uint h.Magic, .uint h.PhysicLen, .uint h.LogicLen, .list (h.SegmentName.map Value.uint),
   .uint h.ProfileNameLen, .list [], .list (h.ProfileName.map Value.uint)]

/-- Method `ProfileSegmentHdr.UnmarshalBinary`. -/
def ProfileSegmentHdr.UnmarshalBinary (data : ByteSlice) : Res ProfileSegmentHdr :=
  (unmarshalFields ProfileSegmentHdr.layout data).bind (fun vals =>
    match ProfileSegmentHdr.ofValues vals with
    | some h => .ok h
    | none => .panic)

/-- The loop over the field slots in `ProfileSegment.UnmarshalBinary`, with the cursor `ptr`
and the slots `fields` appended so far. The result is `none` when the `fuel` rounds are used
up before the loop ends. -/
def ProfileSegment.UnmarshalBinary.loop (data : ByteSlice) (logicLen : Nat) :
    Nat → Nat → List ProfileSegmentField → Option (Res (List ProfileSegmentField))
  | 0, _, _ => none
  | fuel + 1, ptr, fields =>
    if ptr < logicLen then
      match data.sliceFrom ptr with
      | .ok d =>
        match ProfileSegmentField.UnmarshalBinary d with
        | .ok f =>
          ProfileSegment.UnmarshalBinary.loop data logicLen fuel
            (ptr + (1 + ProfileSegmentFieldLength.Size f.Len + ProfileSegmentFieldLength.Int f.Len))
            (fields ++ [f])
        | .err => some .err
        | .panic => some .panic
      | _ => some .panic
    else some (.ok fields)

/-- Method `ProfileSegment.UnmarshalBinary` on a zero `ProfileSegment`, with `fuel` rounds for
the loop over the slots. -/
def ProfileSegment.UnmarshalBinary (fuel : Nat) (data : ByteSlice) :
    Option (Res ProfileSegment) :=
  match ProfileSegmentHdr.UnmarshalBinary data with
  | .ok hdr =>
    match (Layout.struct ProfileSegmentHdr.layout).Size (.struct hdr.toValues) false with
    | some sz =>
      if sz < 0 then some .panic
      else (ProfileSegment.UnmarshalBinary.loop data hdr.LogicLen fuel sz.toNat []).map
        (fun r => r.bind (fun fields => .ok ⟨hdr, fields⟩))
    | none => some .panic
  | .err => some .err
  | .panic => some .panic

/-! ## db/runtime.go: the segments of a profile in `ParseRACF` -/

/-- Type `Segment` of the runtime database; `Data` is the record that `ToValue` returns. -/
structure Segment where
  Name : List Nat
  ID : Nat
  Address : Nat
  PhysicalSize : Nat
  LogicalSize : Nat
  Raw : List Nat
  Data : Record
  deriving DecidableEq

/-- The body of the loop over the segment data `e.Data.Data` of an index entry in `ParseRACF`:
`data` is the file image, `profileType` and `template` are `templateNames[e.Type]` and
`templates[e.Type]`. The result `.ok none` stands for `continue` after a warning, `.ok (some s)`
for the segment that is appended, the outer `none` for a slot loop that ran out of `fuel`. -/
def ParseRACF.segmentOf (fuel : Nat) (data : ByteSlice) (profileType : List Nat)
    (template : Template) (profileStructs : GoMap (GoMap StructType)) (d : SegmentData) :
    Option (Res (Option Segment)) :=
  match data.sliceFrom d.RBA with
  | .ok sd =>
    match ProfileSegment.UnmarshalBinary fuel sd with
    | none => none
    | some .panic => some .panic
    | some .err => some (.ok none)
    | some (.ok ps) =>
      match ps.ToValue profileType template profileStructs with
      | .panic => some .panic
      | .err => some (.ok none)
      | .ok sValue =>
        match data.slice d.RBA (d.RBA + ps.Hdr.LogicLen) with
        | .ok raw =>
          some (.ok (some ⟨TrimSpace (EBCDICStr.String ps.Hdr.SegmentName), d.Id, d.RBA,
            ps.Hdr.PhysicLen, ps.Hdr.LogicLen, hexEncode raw.bytes, sValue⟩))
        | _ => some .panic
  | _ => some .panic

/-- The loop over the segment data of an index entry in `ParseRACF`; `segs` is `p.Segments`. -/
def ParseRACF.segmentLoop (fuel : Nat) (data : ByteSlice) (profileType : List Nat)
    (template : Template) (profileStructs : GoMap (GoMap StructType)) :
    List SegmentData → List Segment → Option (Res (List Segment))
  | [], segs => some (.ok segs)
  | d :: rest, segs =>
    match ParseRACF.segmentOf fuel data profileType template profileStructs d with
    | none => none
    | some (.ok none) =>
      ParseRACF.segmentLoop fuel data profileType template profileStructs rest segs
    | some (.ok (some s)) =>
      ParseRACF.segmentLoop fuel data profileType template profileStructs rest (segs ++ [s])
    | some .err => some .err
    | some .panic => some .panic

/-! ## db/runtime.go: the walk over the index blocks in `ParseRACF` -/

/-- The loop of `ParseRACF` over the sequence set of index blocks, with the address
`IndBlkAddr` of the next block and the blocks `ibs` appended so far; `data` is the file image
and `dec` stands for `ib.UnmarshalBinary`. The result is `none` when the `fuel` rounds are
used up before the loop ends. -/
def ParseRACF.indexWalk.loop (dec : ByteSlice → Res IndBlk) (data : ByteSlice) :
    Nat → Nat → List IndBlk → Option (Res (List IndBlk))
  | 0, _, _ => none
  | fuel + 1, addr, ibs =>
    if addr = 0 then some (.ok ibs)
    else
      match data.slice addr (addr + 0x1000) with
      | .ok d =>
        match dec d with
        | .ok ib => ParseRACF.indexWalk.loop dec data fuel ib.SSC.RBA (ibs ++ [ib])
        | .err => some .err
        | .panic => some .panic
      | _ => some .panic

/-- The walk of `ParseRACF` over the index blocks from the address `addr`. -/
def ParseRACF.indexWalk (data : ByteSlice) (fuel addr : Nat) (ibs : List IndBlk) :
    Option (Res (List IndBlk)) :=
  ParseRACF.indexWalk.loop IndBlk.UnmarshalBinary data fuel addr ibs

/-! ## sections/icb.go -/

/-- Struct `DEFNS`, an entry of the template directory: the fields with their tags. -/
def DEFNS.layout : Fields :=
  .cons (str "ICTMPL") [] .uint16 <|
  .cons (str "ICTMPN") [] .uint8 <|
  .cons (str "ICTMRSV1") [] .uint8 <|
  .cons (str "ICTMPRBA") (str "size=6") .uint64 <|
  .cons (str "ICTMRSV2") (str "size=6") .uint64 .nil

/-- Struct `PassSyntaxRules`. -/
def PassSyntaxRules.layout : Fields :=
  .cons (str "ICBPSLEN") [] .uint8 <|
  .cons (str "ICBPELEN") [] .uint8 <|
  .cons (str "ICBPRULS") [] (.array 8 .uint8) .nil

/-- Struct `ICB`, the fields that follow `ICBTEMP`. -/
def ICB.layoutRest : Fields :=
  .cons (str "_") (str "size=16") (.slice .uint8) <|
  .cons (str "ICBNLS") (str "size=1,bit=1") .bool <|
  .cons (str "ICBNDSS") (str "size=1,bit=2") .bool <|
  .cons (str "ICBNTVS") (str "size=1,bit=3") .bool <|
  .cons (str "ICBNDVS") (str "size=1,bit=4") .bool <|
  .cons (str "ICBNTMS") (str "size=1,bit=5") .bool <|
  .cons (str "ICBNADS") (str "size=1,bit=6") .bool <|
  .cons (str "ICBEGN") (str "size=1,bit=7") .bool <|
  .cons (str "ICBEXTA") [] .uint8 <|
  .cons (str "ICBTAPE") (str "size=1,bit=0") .bool <|
  .cons (str "ICBDASD") (str "size=1,bit=1") .bool <|
  .cons (str "ICBDGEN") (str "size=1,bit=2") .bool <|
  .cons (str "ICBDGCM") (str "size=1,bit=3") .bool <|
  .cons (str "ICBRDSN") (str "size=1,bit=4") .bool <|
  .cons (str "ICBJXAL") (str "size=1,bit=5") .bool <|
  .cons (str "ICBJCHK") (str "size=1,bit=6") .bool <|
  .cons (str "ICBJALL") (str "size=1,bit=7") .bool <|
  .cons (str "ICBAGRO") (str "size=1,bit=1") .bool <|
  .cons (str "ICBAUSE") (str "size=1,bit=2") .bool <|
  .cons (str "ICBADAT") (str "size=1,bit=3") .bool <|
  .cons (str "ICBADAS") (str "size=1,bit=4") .bool <|
  .cons (str "ICBATAP") (str "size=1,bit=5") .bool <|
  .cons (str "ICBATER") (str "size=1,bit=6") .bool <|
  .cons (str "ICBAOPR") (str "size=1,bit=7") .bool <|
  .cons (str "ICBAXTA") [] .uint8 <|
  .cons (str "ICBTERP") (str "size=1,bit=0") .bool <|
  .cons (str "ICBTUAC") (str "size=1,bit=1") .bool <|
  .cons (str "ICBAVIO") (str "size=1,bit=2") .bool <|
  .cons (str "ICBSAUD") (str "size=1,bit=3") .bool <|
  .cons (str "ICBMGDG") (str "size=1,bit=4") .bool <|
  .cons (str "ICBMUSR") (str "size=1,bit=5") .bool <|
  .cons (str "ICBMGRP") (str "size=1,bit=6") .bool <|
  .cons (str "ICBLGRP") (str "size=1,bit=7") .bool <|
  .cons (str "ICBCHCT") [] (.array 10 .int32) <|
  .cons (str "ICBPINV") [] .uint8 <|
  .cons (str "ICBCSTA") [] .uint32 <|
  .cons (str "ICBCAUD") [] .uint32 <|
  .cons (str "ICBCPRO") [] .uint32 <|
  .cons (str "ICBPHIST") [] .uint8 <|
  .cons (str "ICBPRVOK") [] .uint8 <|
  .cons (str "ICBPWARN") [] .uint8 <|
  .cons (str "ICBPSYN") [] (.array 8 (.struct PassSyntaxRules.layout)) <|
  .cons (str "ICBINACT") [] .uint8 <|
  .cons (str "ICBCGEN") [] .uint32 <|
  .cons (str "ICBCGCM") [] .uint32 <|
  .cons (str "ICBFPDS") (str "size=4,bit=0") .bool <|
  .cons (str "ICBTDSN") (str "size=4,bit=1") .bool <|
  .cons (str "ICBPRO") (str "size=4,bit=8") .bool <|
  .cons (str "ICBPROF") (str "size=4,bit=9") .bool <|
  .cons (str "ICBEOS") (str "size=4,bit=10") .bool <|
  .cons (str "ICBEOSL") (str "size=4,bit=11") .bool <|
  .cons (str "ICBEOSA") (str "size=4,bit=12") .bool <|
  .cons (str "ICBPLC") (str "size=4,bit=13") .bool <|
  .cons (str "ICBPSC") (str "size=4,bit=14") .bool <|
  .cons (str "ICBPROG") (str "size=4,bit=16,final") .bool <|
  .cons (str "ICBFPTH") [] .uint32 <|
  .cons (str "ICBSLVL") [] .uint8 <|
  .cons (str "ICBRETP") [] .uint16 <|
  .cons (str "ICBQLLN") [] .uint8 <|
  .cons (str "ICBQUAL") (str "size=9") (.slice .uint8) <|
  .cons (str "ICBSLAU") [] .uint8 <|
  .cons (str "ICBALIAS") [] .uint8 <|
  .cons (str "ICBCHCTD") [] .uint32 <|
  .cons (str "ICBSWPW") [] (.array 8 .uint8) <|
  .cons (str "ICBINPW") [] (.array 8 .uint8) <|
  .cons (str "ICBLRCL") [] (.array 16 .uint8) <|
  .cons (str "ICBLGNL") [] (.array 16 .uint8) <|
  .cons (str "ICBLSTAC") [] (.array 16 .uint8) <|
  .cons (str "ICBLAUDC") [] (.array 16 .uint8) <|
  .cons (str "ICBLPROC") [] (.array 16 .uint8) <|
  .cons (str "ICBLGENC") [] (.array 16 .uint8) <|
  .cons (str "ICBLGCMC") [] (.array 16 .uint8) <|
  .cons (str "ICBLFPTC") [] (.array 16 .uint8) <|
  .cons (str "ICBPMIN") [] .int8 <|
  .cons (str "ICNTMPCT") [] .uint8 <|
  .cons (str "ICBTMPRL") (str "size=8") (.slice .uint8) <|
  .cons (str "ICBTMPAL") (str "size=8") (.slice .uint8) <|
  .cons (str "ICBTXRBA") (str "size=6") .uint64 <|
  .cons (str "ICBTXLN") [] .int16 <|
  .cons (str "_") (str "size=136") (.slice .uint8) <|
  .cons (str "ICBVMSSP") [] .uint32 <|
  .cons (str "ICBVMSXA") [] .uint32 <|
  .cons (str "ICBBMAPA") (str "size=8") (.slice .uint8) <|
  .cons (str "ICBBMAPP") (str "size=8") (.slice .uint8) <|
  .cons (str "ICBMAPSZ") [] .uint16 <|
  .cons (str "ICBDIAL") [] .uint8 <|
  .cons (str "ICBPRMSG") [] .uint8 <|
  .cons (str "ICBEVENT") [] (.array 88 .uint8) <|
  .cons (str "ICBSINT") [] .int16 <|
  .cons (str "ICBLGAL") [] (.array 16 .uint8) <|
  .cons (str "ICBLNVR") [] (.array 16 .uint8) <|
  .cons (str "ICBLGSU") [] (.array 16 .uint8) <|
  .cons (str "ICBLGFL") [] (.array 16 .uint8) <|
  .cons (str "ICBJSYS") (str "size=8") (.slice .uint8) <|
  .cons (str "ICBJUND") (str "size=8") (.slice .uint8) <|
  .cons (str "ICBRCGSN") [] .int32 <|
  .cons (str "ICBDLGA") (str "size=1,bit=0") .bool <|
  .cons (str "ICBDLGN") (str "size=1,bit=1") .bool <|
  .cons (str "ICBDLGS") (str "size=1,bit=2") .bool <|
  .cons (str "ICBDLGF") (str "size=1,bit=3,final") .bool <|
  .cons (str "ICBCMPM") (str "size=1,bit=0") .bool <|
  .cons (str "ICBMLSF") (str "size=1,bit=1") .bool <|
  .cons (str "ICBMLAF") (str "size=1,bit=2") .bool <|
  .cons (str "ICBCATF") (str "size=1,bit=3") .bool <|
  .cons (str "ICBAAPL") (str "size=1,bit=4") .bool <|
  .cons (str "ICBNOADC") (str "size=1,bit=5,final") .bool <|
  .cons (str "ICBSPAUD") (str "size=8") (.slice .uint8) <|
  .cons (str "ICBSPCTL") (str "size=8") (.slice .uint8) <|
  .cons (str "ICBSLCL") (str "size=1,bit=0") .bool <|
  .cons (str "ICBCATD") (str "size=1,bit=1") .bool <|
  .cons (str "ICBMLQT") (str "size=1,bit=2") .bool <|
  .cons (str "ICBMLST") (str "size=1,bit=3") .bool <|
  .cons (str "ICBMLS") (str "size=1,bit=4") .bool <|
  .cons (str "ICBMLAC") (str "size=1,bit=5") .bool <|
  .cons (str "ICBGNOW") (str "size=1,bit=6") .bool <|
  .cons (str "ICBAUSL") (str "size=1,bit=7") .bool <|
  .cons (str "ICBNL1") (str "size=3") (.slice .uint8) <|
  .cons (str "ICBNL2") (str "size=3") (.slice .uint8) <|
  .cons (str "ICBSESS") (str "size=1,bit=0,final") .bool <|
  .cons (str "ICBMLFS") (str "size=1,bit=0") .bool <|
  .cons (str "ICBMLIP") (str "size=1,bit=1") .bool <|
  .cons (str "ICBMLNM") (str "size=1,bit=2") .bool <|
  .cons (str "ICBSBYS") (str "size=1,bit=3,final") .bool <|
  .cons (str "_") (str "size=85") (.slice .uint8) <|
  .cons (str "ICBALRBA") (str "size=6") .uint64 <|
  .cons (str "ICBASRBA") (str "size=6") .uint64 <|
  .cons (str "ICBSMCT") [] .uint32 <|
  .cons (str "ICBKRBLV") [] .uint8 <|
  .cons (str "_") (str "size=1") (.slice .uint8) <|
  .cons (str "ICBID") (str "size=8") (.slice .uint8) <|
  .cons (str "ICBVRMN") (str "size=6") (.slice .uint8) <|
  .cons (str "ICTSEGLN") [] .int16 <|
  .cons (str "ICTSEGRB") (str "size=6") .uint64 <|
  .cons (str "ICBINITF") (str "size=1,bit=0,final") .bool <|
  .cons (str "_") (str "size=3") (.slice .uint8) <|
  .cons (str "ICBUSCT") [] .uint32 <|
  .cons (str "ICBGPCT") [] .uint32 <|
  .cons (str "ICBGRCT") [] .uint32 <|
  .cons (str "ICBUMCT") [] .uint32 <|
  .cons (str "ICBGMCT") [] .uint32 <|
  .cons (str "ICBTMPLV") (str "size=7") (.slice .uint8) <|
  .cons (str "ICBVPROC") [] (.array 128 .uint8) <|
  .cons (str "ICBVGENC") [] (.array 128 .uint8) <|
  .cons (str "ICBVGCMC") [] (.array 128 .uint8) <|
  .cons (str "ICBVRCL") [] (.array 128 .uint8) <|
  .cons (str "ICBVGNL") [] (.array 128 .uint8) <|
  .cons (str "ICBVFPTC") [] (.array 128 .uint8) <|
  .cons (str "ICBVAUDC") [] (.array 128 .uint8) <|
  .cons (str "ICBVSTAC") [] (.array 128 .uint8) <|
  .cons (str "ICBVLGA") [] (.array 128 .uint8) <|
  .cons (str "ICBVLNV") [] (.array 128 .uint8) <|
  .cons (str "ICBVLGS") [] (.array 128 .uint8) <|
  .cons (str "ICBVLGF") [] (.array 128 .uint8) <|
  .cons (str "ICTMPXCT") [] .uint8 <|
  .cons (str "ICBPREP") [] .uint16 <|
  .cons (str "ICBPMEM") [] .uint16 <|
  .cons (str "ICBPALG") [] .uint8 .nil

/-- Struct `ICB`: the fields up to `ICBTEMP`, then those of `ICB.layoutRest`. -/
def ICB.layout : Fields :=
  .cons (str "ICBCHAIN") [] .int32 <|
  .cons (str "ICBBAMNO") [] .int32 <|
  .cons (str "ICCIBRBA") (str "size=6") .uint64 <|
  .cons (str "ICISSRBA") (str "size=6") .uint64 <|
  .cons (str "ICBAMRBA") (str "size=6") .uint64 <|
  .cons (str "ICBEXTND") (str "size=1,bit=0") .bool <|
  .cons (str "ICBEDAT") (str "size=1,bit=2") .bool <|
  .cons (str "ICBDSFMT") (str "size=1,bit=3") .bool <|
  .cons (str "ICBWIP") (str "size=1,bit=4,final") .bool <|
  .cons (str "ICTMPCNT") [] .int8 <|
  .cons (str "ICBAMHWM") (str "size=6") .uint64 <|
  .cons (str "ICBTEMP") [] (.array 9 (.struct DEFNS.layout)) ICB.layoutRest

/-- The loop of `ICB.UnmarshalBinary` over the fields: as the loop of the other records, but
an error of `ParseTag` is returned. -/
def Fields.decodeChecked : Fields → Fields → ByteSlice → List Value → Nat → Int → DecodeRes
  | .nil, _, _, vals, _, shift => .done (.struct vals) shift false
  | .cons name tag typ rest, all, data, vals, i, shift =>
    match ParseTag tag all vals with
    | .panic => .panic
    | .done _ true => .done (.struct vals) (-1) true
    | .done tags false =>
      match data.sliceFromInt shift with
      | .ok d =>
        match (if isExported name then typ.decode d (vals.getD i default) tags
               else DecodeValue.notSettable (vals.getD i default) tags) with
        | .panic => .panic
        | .done v1 size err =>
          if err then .done (.struct (vals.set i v1)) (-1) true
          else rest.decodeChecked all data (vals.set i v1) (i + 1) (shift + size)
      | _ => .panic

/-- Method `ICB.UnmarshalBinary`: the length check against `Size`, then the fields in turn.
The ICB is the list of the values of its fields, in the order of the declaration. -/
def ICB.UnmarshalBinary (data : ByteSlice) : Res (List Value) :=
  match (Layout.struct ICB.layout).Size (.struct ICB.layout.zero) false with
  | none => .panic
  | some sz =>
    if (data.bytes.length : Int) < sz then .err
    else match ICB.layout.decodeChecked ICB.layout data ICB.layout.zero 0 0 with
      | .panic => .panic
      | .done (.struct vals) _ false => .ok vals
      | .done _ _ _ => .err

/-- Function `ExtractICB`: the error of `UnmarshalBinary` is wrapped and returned. -/
def ExtractICB (data : ByteSlice) : Res (List Value) :=
  match ICB.UnmarshalBinary data with
  | .ok icb => .ok icb
  | .err => .err
  | .panic => .panic

/-! ## Vocabulary of the properties -/

/-- A lower-case hexadecimal digit. -/
def hexDigit (d : Nat) : Nat := if d < 10 then 48 + d else 87 + d

/-- The two hexadecimal digits of a byte. -/
def twoHex (b : Nat) : List Nat := [hexDigit (b / 16), hexDigit (b % 16)]

/-- A member value in the stream of a repeat group: the bytes of the length encoding, then
the value. -/
structure RgMember where
  lenBytes : List Nat
  value : List Nat
  deriving DecidableEq, Repr

/-- The length encoding of a member: one byte with the high bit clear, or four bytes whose
big-endian value is the length with bit 31 set. -/
def RgMember.WellFormed (m : RgMember) : Prop :=
  (m.lenBytes = [m.value.length] ∧ m.value.length < 128) ∨
  (m.lenBytes.length = 4 ∧ (∀ b ∈ m.lenBytes, b < 256) ∧
    beUint m.lenBytes = 0x80000000 + m.value.length ∧ m.value.length < 0x80000000)

instance (m : RgMember) : Decidable m.WellFormed := by
  unfold RgMember.WellFormed; infer_instance

def RgMember.encode (m : RgMember) : List Nat := m.lenBytes ++ m.value

/-- A record of the stream: the 1-byte member count, then the members. -/
def encodeRgRecord (r : List RgMember) : List Nat :=
  r.length :: (r.map RgMember.encode).flatten

def encodeRgRecords (rs : List (List RgMember)) : List Nat :=
  (rs.map encodeRgRecord).flatten

/-- The decoded record of a repeat group: member `j` of the struct type takes the value of
member `j` of the stream record, converted by `setProfileSegmentField`. -/
def rgRecordValue (members : List (List Nat × FieldKind)) (r : List RgMember) : List PrimValue :=
  List.zipWith (fun mem m => (setProfileSegmentField mem.2 m.value m.value.length).1) members r

/-- What the entry loop stores at `ptr` after `prev`: the decoded entry, its name uncompressed. -/
def IndBlk.StoredAt (data : ByteSlice) (ptr : Nat) (prev : Option IndBlkEntry)
    (cur : IndBlkEntry) : Prop :=
  ∃ stored, (data.sliceFrom ptr).bind IndBlkEntry.UnmarshalBinary = .ok stored ∧
    IndBlk.uncompressName prev stored = .ok cur


/-- The inverse of the table `e2a`: the EBCDIC code point of each ISO-8859-1 code point. -/
def a2e : List Nat := [
  0, 1, 2, 3, 55, 45, 46, 47, 22, 5, 37, 11, 12, 13, 14, 15,
  16, 17, 18, 19, 60, 61, 50, 38, 24, 25, 63, 39, 28, 29, 30, 31,
  64, 79, 127, 123, 91, 108, 80, 125, 77, 93, 92, 78, 107, 96, 75, 97,
  240, 241, 242, 243, 244, 245, 246, 247, 248, 249, 122, 94, 76, 126, 110, 111,
  124, 193, 194, 195, 196, 197, 198, 199, 200, 201, 209, 210, 211, 212, 213, 214,
  215, 216, 217, 226, 227, 228, 229, 230, 231, 232, 233, 74, 224, 90, 95, 109,
  121, 129, 130, 131, 132, 133, 134, 135, 136, 137, 145, 146, 147, 148, 149, 150,
  151, 152, 153, 162, 163, 164, 165, 166, 167, 168, 169, 192, 106, 208, 161, 7,
  32, 33, 34, 35, 36, 21, 6, 23, 40, 41, 42, 43, 44, 9, 10, 27,
  48, 49, 26, 51, 52, 53, 54, 8, 56, 57, 58, 59, 4, 20, 62, 225,
  65, 66, 67, 68, 69, 70, 71, 72, 73, 81, 82, 83, 84, 85, 86, 87,
  88, 89, 98, 99, 100, 101, 102, 103, 104, 105, 112, 113, 114, 115, 116, 117,
  118, 119, 120, 128, 138, 139, 140, 141, 142, 143, 144, 154, 155, 156, 157, 158,
  159, 160, 170, 171, 172, 173, 174, 175, 176, 177, 178, 179, 180, 181, 182, 183,
  184, 185, 186, 187, 188, 189, 190, 191, 202, 203, 204, 205, 206, 207, 218, 219,
  220, 221, 222, 223, 234, 235, 236, 237, 238, 239, 250, 251, 252, 253, 254, 255]

/-- The re-encoding of ISO-8859-1 text into EBCDIC, byte by byte through `a2e`. -/
def ascii2ebcdic (data : List Nat) : List Nat := data.map (fun c => a2e.getD c 0)

/-- Bit `k` of a byte sequence, numbered from the most significant bit of the first byte. -/
def bitMSB (bs : List Nat) (k : Nat) : Bool := (bs.getD (k / 8) 0 >>> (7 - k % 8)) &&& 1 != 0

/-- The pairs of a segment-data area: pair `j` of the bytes `rest` that follow the count. -/
def segmentDataPairs (rest : List Nat) (m : Nat) : List SegmentData :=
  (List.range m).map (fun j => ⟨rest.getD (7 * j) 0, beUint ((rest.drop (7 * j + 1)).take 6)⟩)

/-- The decoded value of a `SegmentData` pair. -/
def SegmentData.toValue (sd : SegmentData) : Value := .struct [.uint sd.Id, .uint sd.RBA]

/-- The descriptor that the first 17 bytes of `bs` encode. -/
def TemplateField.ofBytes (bs : List Nat) : TemplateField :=
  ⟨bs.take 8, bs.getD 8 0, bs.getD 9 0, bs.getD 10 0, beUint ((bs.drop 12).take 4),
    bs.getD 16 0⟩

/-- The descriptors that the first `17 * k` bytes of `bs` encode. -/
def Template.ofBytes (bs : List Nat) (k : Nat) : Template :=
  (List.range k).map (fun j => TemplateField.ofBytes (bs.drop (17 * j)))

/-- The fields `pre` followed by the fields `post`. -/
def Fields.append : Fields → Fields → Fields
  | .nil, post => post
  | .cons name tag typ rest, post => .cons name tag typ (rest.append post)

/-- An item of a tag in the words of the specification: a bare key, a key with a decimal
literal, a key with the name of a field of the root. -/
inductive TagItem where
  | bare (key : List Nat)
  | lit (key : List Nat) (digits : List Nat)
  | field (key : List Nat) (name : List Nat)
  deriving DecidableEq, Repr

/-- The key of an item. -/
def TagItem.key : TagItem → List Nat
  | .bare k => k
  | .lit k _ => k
  | .field k _ => k

/-- The text of an item: `key` or `key=value`. -/
def TagItem.text : TagItem → List Nat
  | .bare k => k
  | .lit k d => k ++ 61 :: d
  | .field k n => k ++ 61 :: n

/-- The tag string made of the items, separated by commas. -/
def tagText : List TagItem → List Nat
  | [] => []
  | [it] => it.text
  | it :: rest => it.text ++ 44 :: tagText rest

/-- The integer that a string of decimal digits denotes. -/
def decimalValue (ds : List Nat) : Nat := ds.foldl (fun acc c => acc * 10 + (c - 48)) 0

/-- The kinds `uint8`, `uint16` and `uint32`. -/
def Layout.isSmallUint : Layout → Bool
  | .uint8 => true
  | .uint16 => true
  | .uint32 => true
  | _ => false

/-- The integer the specification gives to an item, for a root with the given fields. -/
def TagItem.value (root : List ((List Nat × List Nat × Layout) × Value)) : TagItem → Int
  | .bare _ => 0
  | .lit _ d => decimalValue d
  | .field _ n =>
    match root.find? (fun e => e.1.1 == n) with
    | some (_, .uint v) => v
    | _ => 0

/-- No comma and no equals sign in a key or value. -/
def plainText (s : List Nat) : Bool := s.all (fun c => c != 44 && c != 61)

/-- The items the specification describes: plain keys; a literal of decimal digits in the
range of `int`; the name (not itself a number) of an exported field of the root of kind
`uint8`, `uint16` or `uint32`. -/
def TagItem.wellFormed (root : List ((List Nat × List Nat × Layout) × Value)) : TagItem → Bool
  | .bare k => plainText k
  | .lit k d =>
    plainText k && !d.isEmpty && d.all (fun c => 48 ≤ c && c ≤ 57) && decimalValue d < 2 ^ 63
  | .field k n =>
    plainText k && plainText n && (Atoi n).isNone &&
      match root.find? (fun e => e.1.1 == n) with
      | some (info, .uint _) => isExported info.1 && info.2.2.isSmallUint
      | _ => false

/-- The length prefix of a field slot in the words of the specification: the offset of the
value and its length. One byte when the high bit of `b[1]` is clear, otherwise four bytes
whose low 31 bits hold the length. -/
def slotPrefix (b : List Nat) : Nat × Nat :=
  if b.getD 1 0 < 128 then (2, b.getD 1 0)
  else (5, beUint ((b.drop 1).take 4) % 2 ^ 31)

/-- State of the loop of `Template.ToType` in which no field of a stored record type has an
empty name. -/
def ToTypeState.namesOk (st : ToTypeState) : Prop :=
  ∀ e ∈ st.retVal, ∀ fld ∈ e.2, fld.Name ≠ []

/-- State of the loop of `Template.ToType` in which members are pending only inside a repeat
group. -/
def ToTypeState.rgOk (st : ToTypeState) : Prop :=
  st.isRepeatGroup = false → st.rgFields = []

/-- The decimal reading of a byte whose two hexadecimal digits are decimal digits. -/
def decimalByte (b : Nat) : Option Nat :=
  if b / 16 < 10 ∧ b % 16 < 10 then some (10 * (b / 16) + b % 16) else none

/-- The text of a rendered 3-byte date up to its first comma: the year. -/
def Date.yearText (s : List Nat) : List Nat := s.takeWhile (fun c => c != 44)

/-- The cursor behind the slots `fields` when they lie one after the other from the offset
`ptr` of `data`: each slot is the one the slot decoder returns at the cursor, and the cursor
moves on by 1 + prefix size + value length. The result is `none` when a slot is not the one
decoded at its cursor. -/
def slotsEnd (data : ByteSlice) : Nat → List ProfileSegmentField → Option Nat
  | ptr, [] => some ptr
  | ptr, f :: rest =>
    if (data.sliceFrom ptr).bind ProfileSegmentField.UnmarshalBinary = .ok f then
      slotsEnd data
        (ptr + (1 + ProfileSegmentFieldLength.Size f.Len + ProfileSegmentFieldLength.Int f.Len))
        rest
    else none

/-- The value of a lower-case hexadecimal digit. -/
def hexValue (c : Nat) : Nat := if c ≤ 57 then c - 48 else c - 87

/-- Go library, `hex.DecodeString` on a text of hexadecimal digit pairs. -/
def hexDecode : List Nat → List Nat
  | a :: b :: rest => (16 * hexValue a + hexValue b) :: hexDecode rest
  | _ => []

/-- The blocks `ibs` are the chain of index blocks that starts at the address `addr` of the
file image, `dec` being the decoder of a block: each block is the one decoded from the 0x1000
bytes at the address at hand, which is not 0, the next address is the chain RBA of the block,
and the chain RBA of the last block is 0 (for no block at all, `addr` itself is 0). -/
def chainWith (dec : ByteSlice → Res IndBlk) (data : ByteSlice) : Nat → List IndBlk → Prop
  | addr, [] => addr = 0
  | addr, ib :: rest =>
    addr ≠ 0 ∧ (data.slice addr (addr + 0x1000)).bind dec = .ok ib ∧
      chainWith dec data ib.SSC.RBA rest

/-- The chain of index blocks from `addr`, decoded by `IndBlk.UnmarshalBinary`. -/
def chainFrom (data : ByteSlice) (addr : Nat) (ibs : List IndBlk) : Prop :=
  chainWith IndBlk.UnmarshalBinary data addr ibs

/-- The parse of a tag that names no field of the struct: the map that `ParseTag` returns
without an error on the struct with no fields, `none` when a value of the tag is not a number. -/
def staticTag (tag : List Nat) : Option FieldTag :=
  match ParseTag.loop [] (Split 44 tag) [] with
  | .done ft false => some ft
  | _ => none

mutual
/-- A value has the form of the values of a type: an array value has the elements of the
array, a struct value the values of the fields. -/
def Layout.shaped : Layout → Value → Bool
  | .array n elem, .list vs => vs.length == n && vs.all (fun v => elem.shaped v)
  | .array _ _, _ => false
  | .struct fields, .struct vals => fields.shaped vals
  | .struct _, _ => false
  | _, _ => true
/-- The values of the fields of a struct, one by one. -/
def Fields.shaped : Fields → List Value → Bool
  | .nil, vals => vals.isEmpty
  | .cons _ _ typ rest, v :: vs => typ.shaped v && rest.shaped vs
  | .cons _ _ _ _, [] => false
end

mutual
/-- The size of the values of a type as `Size` counts it, for the types whose size does not
depend on the value: a field with a size tag counts with the number of the tag. -/
def Layout.width : Layout → Option Nat
  | .bool | .uint8 | .int8 => some 1
  | .uint16 | .int16 => some 2
  | .uint32 | .int32 => some 4
  | .uint64 | .int64 => some 8
  | .array n elem => (elem.width).map (fun w => n * w)
  | .slice _ => none
  | .struct fields => fields.width
/-- The sum of `Size` over the fields of a struct. -/
def Fields.width : Fields → Option Nat
  | .nil => some 0
  | .cons name tag typ rest =>
    match staticTag tag with
    | none => none
    | some ft =>
      match ft.get? (str "size") with
      | some s => if 0 ≤ s then (rest.width).map (fun b => s.toNat + b) else none
      | none =>
        if isExported name then
          match typ.width with
          | none => none
          | some a => (rest.width).map (fun b => a + b)
        else none
end

mutual
/-- The bytes that `DecodeValue` reads and the byte count that it returns, for a value of a
type with the tags `ft`: the pair of the end of the bytes that are read, counted from the
start of the value, and the count returned. The result is `none` outside the types on which
the decoding succeeds whenever enough bytes are there. -/
def Layout.span : Layout → FieldTag → Option (Nat × Nat)
  | .bool, ft =>
    match ft.get? (str "size") with
    | some s =>
      if s = 1 ∨ s = 2 ∨ s = 4 then
        if (ft.get? (str "bit")).isSome ∧ 8 * s - 1 - (ft.get? (str "bit")).getD 0 < 0 then none
        else some (s.toNat,
          if (ft.get? (str "final")).isSome ∨ (ft.get? (str "bit")).getD 0 = 8 * s - 1
          then s.toNat else 0)
      else none
    | none => some (1, 1)
  | .uint8, _ => some (1, 1)
  | .int8, _ => some (1, 1)
  | .uint16, _ => some (2, 2)
  | .int16, _ => some (2, 2)
  | .uint32, _ => some (4, 4)
  | .int32, _ => some (4, 4)
  | .uint64, ft =>
    match ft.get? (str "size") with
    | some s => if 0 ≤ s then some (s.toNat, s.toNat) else none
    | none => some (8, 8)
  | .int64, ft =>
    match ft.get? (str "size") with
    | some _ => none
    | none => some (8, 8)
  | .array n elem, ft =>
    match elem.span ft, elem.width with
    | some (r, _), some w => some (if n = 0 then 0 else (n - 1) * w + r, n * w)
    | _, _ => none
  | .slice elem, ft =>
    match elem, ft.get? (str "size") with
    | .uint8, some s => if 0 ≤ s then some (s.toNat, s.toNat) else none
    | _, _ => none
  | .struct fields, _ => fields.span
/-- The same for the fields of a struct, counted from the start of the first of them. -/
def Fields.span : Fields → Option (Nat × Nat)
  | .nil => some (0, 0)
  | .cons name tag typ rest =>
    match staticTag tag with
    | none => none
    | some ft =>
      match (if isExported name then typ.span ft
             else match ft.get? (str "size") with
               | some s => if 0 ≤ s then some (0, s.toNat) else none
               | none => none), rest.span with
      | some (r1, a1), some (r2, a2) => some (max r1 (a1 + r2), a1 + a2)
      | _, _ => none
end

/-- A byte sequence: the slice of uint8. -/
def Layout.isBytes : Layout → Bool
  | .slice .uint8 => true
  | _ => false

mutual
/-- The types of the layouts built from fixed-width integers: an integer, a fixed array of such
types, a struct of such fields. -/
def Layout.plain : Layout → Bool
  | .uint8 | .int8 | .uint16 | .int16 | .uint32 | .int32 | .uint64 | .int64 => true
  | .array _ elem => elem.plain
  | .struct fields => fields.plain
  | .bool | .slice _ => false
/-- The fields of such a layout: each field has a tag whose values are numbers; without a size
it is an exported field of a plain type, with a size (not negative) it is a byte sequence or a
field that is not exported. -/
def Fields.plain : Fields → Bool
  | .nil => true
  | .cons name tag typ rest =>
    (match staticTag tag with
     | none => false
     | some ft =>
       match ft.get? (str "size") with
       | none => isExported name && typ.plain
       | some s =>
         decide (0 ≤ s) &&
           (!isExported name || typ.isBytes)) &&
    rest.plain
end

/-- The value of the field `name` in the values `vals` of a struct with the fields `fields`. -/
def Fields.field (fields : Fields) (vals : List Value) (name : List Nat) : Option Value :=
  ((fields.toList.zip vals).find? (fun e => e.1.1 == name)).map (fun e => e.2)

/-! ## Fixtures: descriptors, templates and segments of the scenarios

Names are EBCDIC, padded with blanks (0x40) to eight bytes. -/

namespace Fixture

/-- Class delimiter of the GROUP template, "GROUP": id 1, every other field zero. -/
def dGROUP : TemplateField := ⟨[0xc7, 0xd9, 0xd6, 0xe4, 0xd7, 0x40, 0x40, 0x40], 1, 0, 0, 0, 0⟩
/-- Descriptor "ENTYPE": id 1, one byte. -/
def dENTYPE : TemplateField := ⟨[0xc5, 0xd5, 0xe3, 0xe8, 0xd7, 0xc5, 0x40, 0x40], 1, 0, 0, 1, 1⟩
/-- Descriptor "SUPGROUP": id 3, eight bytes. -/
def dSUPGROUP : TemplateField :=
  ⟨[0xe2, 0xe4, 0xd7, 0xc7, 0xd9, 0xd6, 0xe4, 0xd7], 3, 0, 0x80, 8, 0xff⟩
/-- Descriptor "AUTHDATE": id 4, a 3-byte date. -/
def dAUTHDATE : TemplateField :=
  ⟨[0xc1, 0xe4, 0xe3, 0xc8, 0xc4, 0xc1, 0xe3, 0xc5], 4, 0, 0x20, 3, 0xff⟩
/-- Segment delimiter "DFP". -/
def dDFP : TemplateField := ⟨[0xc4, 0xc6, 0xd7, 0x40, 0x40, 0x40, 0x40, 0x40], 1, 0, 0, 0, 0⟩
/-- Descriptor "DATAAPPL": id 2. -/
def dDATAAPPL : TemplateField :=
  ⟨[0xc4, 0xc1, 0xe3, 0xc1, 0xc1, 0xd7, 0xd7, 0xd3], 2, 0, 0, 8, 0xff⟩

/-- The GROUP template of the first end-to-end scenario. -/
def groupTemplate : Template := [dGROUP, dENTYPE, dSUPGROUP, dAUTHDATE]

/-- A GROUP template with two segments, BASE and DFP. -/
def groupTemplate2 : Template := [dGROUP, dENTYPE, dSUPGROUP, dAUTHDATE, dDFP, dDATAAPPL]

/-- Header of a BASE segment of profile "SYS1". -/
def baseHdr : ProfileSegmentHdr :=
  ⟨0x83, 0x100, 41, [0xc2, 0xc1, 0xe2, 0xc5, 0x40, 0x40, 0x40, 0x40], 4, [0xe2, 0xe8, 0xe2, 0xf1]⟩

/-- The BASE segment of profile SYS1 with the three fields filled: ENTYPE = 1,
SUPGROUP = "SYS1    ", AUTHDATE = 23 04 5F. -/
def groupSegment : ProfileSegment :=
  { Hdr := baseHdr
    Fields := [⟨1, 1, ⟨[1], []⟩⟩,
               ⟨3, 8, ⟨[0xe2, 0xe8, 0xe2, 0xf1, 0x40, 0x40, 0x40, 0x40], []⟩⟩,
               ⟨4, 3, ⟨[0x23, 0x04, 0x5f], []⟩⟩] }

/-- The record type of BASE that the scenario expects. -/
def groupBaseType : StructType :=
  [⟨str "ENTYPE", .prim .uint8⟩, ⟨str "SUPGROUP", .prim .EBCDICStr⟩, ⟨str "AUTHDATE", .prim .Date⟩]

/-- Class delimiter of the USER template, "USER". -/
def dUSER : TemplateField := ⟨[0xe4, 0xe2, 0xc5, 0xd9, 0x40, 0x40, 0x40, 0x40], 1, 0, 0, 0, 0⟩
/-- Descriptor "CLCNT": id 40, head of a repeat group (Flag1 bit 0x10), two bytes. -/
def dCLCNT : TemplateField := ⟨[0xc3, 0xd3, 0xc3, 0xd5, 0xe3, 0x40, 0x40, 0x40], 40, 0x10, 0, 2, 0⟩
/-- Descriptor "CLNAME": id 41, member of a repeat group (Flag1 bit 0x80). -/
def dCLNAME : TemplateField := ⟨[0xc3, 0xd3, 0xd5, 0xc1, 0xd4, 0xc5, 0x40, 0x40], 41, 0x80, 0, 8, 0⟩
/-- Descriptor "SECLABEL": id 42, a plain field that ends the repeat group. -/
def dSECLABEL : TemplateField :=
  ⟨[0xe2, 0xc5, 0xc3, 0xd3, 0xc1, 0xc2, 0xc5, 0xd3], 42, 0, 0, 8, 0⟩
/-- A descriptor of the DFP segment that is also named "CLCNT": id 50, not a head. -/
def dCLCNT2 : TemplateField := ⟨[0xc3, 0xd3, 0xc3, 0xd5, 0xe3, 0x40, 0x40, 0x40], 50, 0, 0, 2, 0⟩

/-- Segment delimiter "TSO". -/
def dTSO : TemplateField := ⟨[0xe3, 0xe2, 0xd6, 0x40, 0x40, 0x40, 0x40, 0x40], 1, 0, 0, 0, 0⟩

/-- A USER template: BASE with the repeat group CLCNT/CLNAME, then the segment DFP. -/
def userTemplate : Template := [dUSER, dCLCNT, dCLNAME, dSECLABEL, dDFP, dCLCNT2, dDATAAPPL, dTSO]

/-- The record type of BASE of `userTemplate`. -/
def userBaseType : StructType :=
  [⟨str "CLCNT", .prim .uint16⟩,
   ⟨str "CLCNT_RG", .rgSlice [(str "CLNAME", .EBCDICStr)]⟩,
   ⟨str "SECLABEL", .prim .EBCDICStr⟩]

/-- The record type of DFP of `userTemplate`. -/
def userDfpType : StructType :=
  [⟨str "CLCNT", .prim .uint16⟩, ⟨str "DATAAPPL", .prim .EBCDICStr⟩]

/-- The slot of CLCNT with count 2 and the members "TSO" and "DB2". -/
def clcntSlot : ProfileSegmentField :=
  ⟨40, 12, ⟨[0, 2, 1, 3, 0xe3, 0xe2, 0xd6, 1, 3, 0xc4, 0xc2, 0xf2], []⟩⟩

/-- A BASE segment with the CLCNT slot, followed by a slot of id 50 with value 7. -/
def userSegment : ProfileSegment :=
  { Hdr := baseHdr
    Fields := [clcntSlot, ⟨50, 2, ⟨[0, 7], []⟩⟩] }

/-- An index block with two entries: "GRO" (compression count 0) and the stored name "OUP2"
with compression count 3; the chain pointer at offset 68 names the next block 0x5000. -/
def block : ByteSlice :=
  ⟨[0x8a, 0x10, 0x00, 0x4e, 0x00, 0x01, 0x00, 0x44, 0x00, 0x00, 0x00, 0x00, 0x00, 0x02,
    0x21, 0x01, 0x00, 0x17, 0x00, 0x0f, 0x00, 0x00, 0x00, 0x03, 0x00, 0x00, 0xc7, 0xd9, 0xd6,
    0x01, 0x01, 0x00, 0x00, 0x00, 0x00, 0x20, 0x00,
    0x21, 0x01, 0x00, 0x1f, 0x00, 0x10, 0x00, 0x03, 0x00, 0x04, 0x00, 0x00, 0xd6, 0xe4, 0xd7, 0xf2,
    0x02, 0x01, 0x00, 0x00, 0x00, 0x00, 0x30, 0x00, 0x02, 0x00, 0x00, 0x00, 0x00, 0x31, 0x00,
    0x20, 0x66, 0x00, 0x00, 0x00, 0x00, 0x50, 0x00], []⟩

def blockEntry0 : IndBlkEntry :=
  ⟨0x21, 1, 23, 15, 0, 3, [0xc7, 0xd9, 0xd6], ⟨1, [⟨1, 0x2000⟩]⟩⟩

def blockEntry1 : IndBlkEntry :=
  ⟨0x21, 1, 31, 16, 3, 4, [0xc7, 0xd9, 0xd6, 0xd6, 0xe4, 0xd7, 0xf2],
    ⟨2, [⟨1, 0x3000⟩, ⟨2, 0x3100⟩]⟩⟩

def blockDecoded : IndBlk :=
  ⟨⟨0x8a, 0x1000, 0x4e, 0, 1, 68, 0, 0, 2⟩, [blockEntry0, blockEntry1], ⟨0x2066, 0x5000⟩⟩

/-- The CLCNT slot as a stream: two records of one member each, "TSO" and "DB2". -/
def clcntRecords : List (List RgMember) :=
  [[⟨[3], [0xe3, 0xe2, 0xd6]⟩], [⟨[3], [0xc4, 0xc2, 0xf2]⟩]]

/-- A BASE segment with the CLCNT slot only. -/
def clcntSegment : ProfileSegment := { Hdr := baseHdr, Fields := [clcntSlot] }

/-- The schema of `userTemplate`, as `ToType` builds it. -/
def userSchema : GoMap (GoMap StructType) :=
  [(str "USER", [(str "DFP", userDfpType), (str "BASE", userBaseType)])]

/-- A file image: one pad byte, a region of 18 bytes at offset 1, 16 further bytes, a region
of 17 bytes at offset 35, and 16 trailing bytes. -/
def tmplFile : ByteSlice :=
  ⟨[0,
    0xC1, 0x40, 0x40, 0x40, 0x40, 0x40, 0x40, 0x40, 1, 0, 0, 0, 0, 0, 0, 0, 0,
    0xC2,
    0x40, 0x40, 0x40, 0x40, 0x40, 0x40, 0x40, 2, 0, 0, 0, 0, 0, 0, 1, 0,
    0xC3, 0x40, 0x40, 0x40, 0x40, 0x40, 0x40, 0x40, 3, 0, 0, 0, 0, 0, 0, 2, 0,
    0xC4, 0x40, 0x40, 0x40, 0x40, 0x40, 0x40, 0x40, 4, 0, 0, 0, 0, 0, 0, 3], []⟩

/-- A directory entry for the 18 bytes at offset 1, template number 1. -/
def tmplEntry1 : DEFNS := ⟨18, 1, 1⟩

/-- A directory entry for the 17 bytes at offset 35, template number 1. -/
def tmplEntry2 : DEFNS := ⟨17, 1, 35⟩

/-- The two regions, one after the other, as a single region with 16 spare bytes. -/
def tmplJoined : ByteSlice :=
  ⟨[0xC1, 0x40, 0x40, 0x40, 0x40, 0x40, 0x40, 0x40, 1, 0, 0, 0, 0, 0, 0, 0, 0,
    0xC2,
    0xC3, 0x40, 0x40, 0x40, 0x40, 0x40, 0x40, 0x40, 3, 0, 0, 0, 0, 0, 0, 2, 0],
   [0, 0, 0, 0, 0, 0, 0, 0, 0, 0, 0, 0, 0, 0, 0, 0]⟩

/-- The descriptors of the two regions, each parsed on its own. -/
def tmplMerged : Template :=
  [⟨[0xC1, 0x40, 0x40, 0x40, 0x40, 0x40, 0x40, 0x40], 1, 0, 0, 0, 0⟩,
   ⟨[0xC2, 0x40, 0x40, 0x40, 0x40, 0x40, 0x40, 0x40], 2, 0, 0, 1, 0⟩,
   ⟨[0xC3, 0x40, 0x40, 0x40, 0x40, 0x40, 0x40, 0x40], 3, 0, 0, 2, 0⟩]

/-- The descriptors of `tmplJoined`. -/
def tmplSingle : Template :=
  [⟨[0xC1, 0x40, 0x40, 0x40, 0x40, 0x40, 0x40, 0x40], 1, 0, 0, 0, 0⟩,
   ⟨[0xC2, 0xC3, 0x40, 0x40, 0x40, 0x40, 0x40, 0x40], 0x40, 3, 0, 0, 2⟩,
   ⟨[0, 0, 0, 0, 0, 0, 0, 0], 0, 0, 0, 0, 0⟩]

/-- A directory entry for the 17 bytes at offset 1, template number 1. -/
def tmplEntry0 : DEFNS := ⟨17, 1, 1⟩

/-- The region of `tmplEntry0` in `tmplFile`, with the rest of the file as spare capacity. -/
def tmplRegionA : ByteSlice :=
  ⟨[0xC1, 0x40, 0x40, 0x40, 0x40, 0x40, 0x40, 0x40, 1, 0, 0, 0, 0, 0, 0, 0, 0],
   [0xC2,
    0x40, 0x40, 0x40, 0x40, 0x40, 0x40, 0x40, 2, 0, 0, 0, 0, 0, 0, 1, 0,
    0xC3, 0x40, 0x40, 0x40, 0x40, 0x40, 0x40, 0x40, 3, 0, 0, 0, 0, 0, 0, 2, 0,
    0xC4, 0x40, 0x40, 0x40, 0x40, 0x40, 0x40, 0x40, 4, 0, 0, 0, 0, 0, 0, 3]⟩

/-- The region of `tmplEntry2` in `tmplFile`. -/
def tmplRegionB : ByteSlice :=
  ⟨[0xC3, 0x40, 0x40, 0x40, 0x40, 0x40, 0x40, 0x40, 3, 0, 0, 0, 0, 0, 0, 2, 0],
   [0xC4, 0x40, 0x40, 0x40, 0x40, 0x40, 0x40, 0x40, 4, 0, 0, 0, 0, 0, 0, 3]⟩

/-- A struct type whose second field is a sequence without a `size` tag. -/
def noSizeLayout : Fields :=
  .cons (str "ID") [] .uint8 <|
  .cons (str "Names") [] (.slice .uint8) .nil

/-- Descriptor "PASSWORD" of the USER template with the Flag1 bits 0x04 and 0x20. -/
def dPASSWORD24 : TemplateField :=
  ⟨[0xd7, 0xc1, 0xe2, 0xe2, 0xe6, 0xd6, 0xd9, 0xc4], 12, 0x24, 0, 8, 0⟩
/-- Descriptor "PASSWORD" of the USER template with the Flag1 bit 0x04 only. -/
def dPASSWORD : TemplateField :=
  ⟨[0xd7, 0xc1, 0xe2, 0xe2, 0xe6, 0xd6, 0xd9, 0xc4], 12, 0x04, 0, 8, 0⟩
/-- Descriptor "UID": an integer of the catalog with Len 8. -/
def dUID : TemplateField := ⟨[0xe4, 0xc9, 0xc4, 0x40, 0x40, 0x40, 0x40, 0x40], 2, 0, 0, 8, 0⟩

/-- A USER template whose repeat group CLCNT/CLNAME is followed at once by the delimiter of
the segment DFP. -/
def rgDelimTemplate : Template := [dUSER, dCLCNT, dCLNAME, dDFP, dDATAAPPL, dTSO]
/-- A USER template that ends with the members of its repeat group. -/
def rgEndTemplate : Template := [dUSER, dCLCNT, dCLNAME]
/-- Descriptor "CMB": a combination field (Flag1 bit 0x40), no member of a repeat group. -/
def dCMB : TemplateField := ⟨[0xc3, 0xd4, 0xc2, 0x40, 0x40, 0x40, 0x40, 0x40], 43, 0x40, 0, 0, 0⟩
/-- The USER template with the combination field CMB between CLNAME and SECLABEL. -/
def cmbTemplate : Template :=
  [dUSER, dCLCNT, dCLNAME, dCMB, dSECLABEL, dDFP, dCLCNT2, dDATAAPPL, dTSO]
/-- A BASE segment with the CLCNT slot and a slot of the unknown id 99. -/
def unknownSlotSegment : ProfileSegment :=
  { Hdr := baseHdr, Fields := [clcntSlot, ⟨99, 1, ⟨[7], []⟩⟩] }

/-- A BASE segment whose CLCNT slot holds the count 1 and nothing else: no byte of a record
follows the two count bytes. -/
def rgCutSegment : ProfileSegment :=
  { Hdr := baseHdr, Fields := [⟨40, 2, ⟨[0, 1], []⟩⟩] }

/-- A BASE segment whose CLCNT slot holds the count 1 and one record with a member count of 0,
while the schema declares the member CLNAME. -/
def rgShortSegment : ProfileSegment :=
  { Hdr := baseHdr, Fields := [⟨40, 3, ⟨[0, 1, 0], []⟩⟩, ⟨42, 2, ⟨[0xc1, 0xc2], []⟩⟩] }

/-- The bytes of a BASE segment of profile "SYS1": the header of 24 bytes with the logical
length 41, then the slots ENTYPE = 1, SUPGROUP = "SYS1    " and AUTHDATE = 23 04 5F. -/
def segmentBytes : ByteSlice :=
  ⟨[0x83, 0x00, 0x00, 0x01, 0x00, 0x00, 0x00, 0x00, 0x29,
    0xc2, 0xc1, 0xe2, 0xc5, 0x40, 0x40, 0x40, 0x40, 0x00, 0x04, 0x00, 0xe2, 0xe8, 0xe2, 0xf1,
    0x01, 0x01, 0x01,
    0x03, 0x08, 0xe2, 0xe8, 0xe2, 0xf1, 0x40, 0x40, 0x40, 0x40,
    0x04, 0x03, 0x23, 0x04, 0x5f], []⟩

/-- The segment decoded from `segmentBytes`; the value of a slot is a slice of the input, with
the bytes behind it as spare capacity. -/
def segmentDecoded : ProfileSegment :=
  { Hdr := baseHdr
    Fields :=
      [⟨1, 1, ⟨[0x01], [0x03, 0x08, 0xe2, 0xe8, 0xe2, 0xf1, 0x40, 0x40, 0x40, 0x40,
          0x04, 0x03, 0x23, 0x04, 0x5f]⟩⟩,
       ⟨3, 8, ⟨[0xe2, 0xe8, 0xe2, 0xf1, 0x40, 0x40, 0x40, 0x40], [0x04, 0x03, 0x23, 0x04, 0x5f]⟩⟩,
       ⟨4, 3, ⟨[0x23, 0x04, 0x5f], []⟩⟩] }

/-- A file image: 16 pad bytes, then the BASE segment of `segmentBytes` at the address 16. -/
def segmentFile : ByteSlice :=
  ⟨[0, 0, 0, 0, 0, 0, 0, 0, 0, 0, 0, 0, 0, 0, 0, 0,
    0x83, 0x00, 0x00, 0x01, 0x00, 0x00, 0x00, 0x00, 0x29,
    0xc2, 0xc1, 0xe2, 0xc5, 0x40, 0x40, 0x40, 0x40, 0x00, 0x04, 0x00, 0xe2, 0xe8, 0xe2, 0xf1,
    0x01, 0x01, 0x01,
    0x03, 0x08, 0xe2, 0xe8, 0xe2, 0xf1, 0x40, 0x40, 0x40, 0x40,
    0x04, 0x03, 0x23, 0x04, 0x5f], []⟩

/-- The schema of `groupTemplate2`: the segment BASE with the type `groupBaseType`. -/
def groupSchema : GoMap (GoMap StructType) :=
  [(str "GROUP", [(str "BASE", groupBaseType)])]

/-- The segment that `ParseRACF` stores for the segment data (1, 16) of `segmentFile`: the
slot of id 1 reaches the class delimiter (see `fieldByID_base_returns_delimiter`), so ENTYPE
keeps its zero value. -/
def segmentStored : Segment :=
  { Name := str "BASE", ID := 1, Address := 16, PhysicalSize := 0x100, LogicalSize := 41
    Raw := str ("830000010000000029c2c1e2c5404040400004" ++ "00e2e8e2f1010101" ++
      "0308e2e8e2f140404040" ++ "04032304")
    Data := [(str "ENTYPE", .prim (.uint 0)),
             (str "SUPGROUP", .prim (.bytes [0xe2, 0xe8, 0xe2, 0xf1, 0x40, 0x40, 0x40, 0x40])),
             (str "AUTHDATE", .prim (.bytes [0x23, 0x04, 0x5f]))] }



/-- A struct `{ A [4]byte "size=3" }`: a fixed array of bytes with a size tag of another
length. -/
def sizedArray : Fields :=
  .cons (str "A") (str "size=3") (.array 4 .uint8) .nil

/-- A struct `{ N []byte "size=L"; L uint8 }`: the size of the byte sequence names a field
that is decoded after it. -/
def lateSize : Fields :=
  .cons (str "N") (str "size=L") (.slice .uint8) <|
  .cons (str "L") [] .uint8 .nil

/-- Eight bytes of input, the first one 5. -/
def eightBytes : ByteSlice := ⟨[5, 1, 2, 3, 4, 6, 7, 8], []⟩

/-- Seventeen bytes of input for a template descriptor. -/
def descriptorBytes : ByteSlice :=
  ⟨[1, 2, 3, 4, 5, 6, 7, 8, 9, 10, 11, 12, 13, 14, 15, 16, 17], []⟩

/-- An input of 2688 zero bytes. -/
def icbZeros : ByteSlice := ⟨List.replicate 2688 0, []⟩

end Fixture


/-! ## Lemmas -/

set_option maxRecDepth 100000

theorem Res.bind_eq_ok {α β : Type} {r : Res α} {k : α → Res β} {b : β} :
    r.bind k = .ok b ↔ ∃ a, r = .ok a ∧ k a = .ok b := by
  cases r <;> simp [Res.bind]

theorem Res.bind_eq_ok' {α β : Type} {r : Res α} {k : α → Res β} {b : β} :
    (r >>= k) = .ok b ↔ ∃ a, r = .ok a ∧ k a = .ok b := Res.bind_eq_ok

theorem Res.ok_bind {α β : Type} (a : α) (k : α → Res β) : (Res.ok a >>= k) = k a := rfl

theorem Res.pure_eq {α : Type} (a : α) : (pure a : Res α) = .ok a := rfl

theorem and_fifteen (x : Nat) : x &&& 15 = x % 16 := Nat.and_pow_two_sub_one_eq_mod x 4

theorem fmtHex02_byte : ∀ b < 256, fmtHex02 b = twoHex b := by decide

theorem uncompressName_fields {prev : Option IndBlkEntry} {stored cur : IndBlkEntry}
    (h : IndBlk.uncompressName prev stored = .ok cur) :
    cur.LenEntry = stored.LenEntry ∧ cur.CompressCount = stored.CompressCount ∧
    (stored.CompressCount = 0 → cur = stored) ∧
    (stored.CompressCount ≠ 0 → ∃ p, prev = some p ∧ stored.CompressCount ≤ p.Name.length ∧
      cur.Name = p.Name.take stored.CompressCount ++ stored.Name) := by
  unfold IndBlk.uncompressName at h
  by_cases hc : stored.CompressCount ≠ 0
  · rw [if_pos hc] at h
    cases prev with
    | none => simp at h
    | some p =>
      by_cases hl : stored.CompressCount ≤ p.Name.length
      · simp only [hl, if_true] at h
        have := Res.ok.inj h
        subst this
        exact ⟨rfl, rfl, fun h0 => absurd h0 hc, fun _ => ⟨p, rfl, hl, rfl⟩⟩
      · simp [hl] at h
  · rw [if_neg hc] at h
    have := Res.ok.inj h
    subst this
    exact ⟨rfl, rfl, fun _ => rfl, fun h0 => absurd h0 hc⟩

theorem indBlk_loop_spec (data : ByteSlice) :
    ∀ (n ptr : Nat) (acc res : List IndBlkEntry),
      IndBlk.UnmarshalBinary.loop data n ptr acc = .ok res →
      ∃ new, res = acc ++ new ∧ new.length = n ∧
        ∀ (k : Nat) (cur : IndBlkEntry), new[k]? = some cur →
          IndBlk.StoredAt data (ptr + ((new.take k).map (fun e => e.LenEntry)).sum)
            ((acc ++ new.take k).getLast?) cur := by
  intro n
  induction n with
  | zero =>
    intro ptr acc res h
    simp only [IndBlk.UnmarshalBinary.loop] at h
    refine ⟨[], ?_, rfl, ?_⟩
    · simpa using (Res.ok.inj h).symm
    · intro k cur hk; simp at hk
  | succ n ih =>
    intro ptr acc res h
    simp only [IndBlk.UnmarshalBinary.loop] at h
    obtain ⟨d, hd, h⟩ := Res.bind_eq_ok'.mp h
    obtain ⟨entry, he, h⟩ := Res.bind_eq_ok'.mp h
    obtain ⟨entry1, he1, h⟩ := Res.bind_eq_ok'.mp h
    obtain ⟨new, hres, hlen, hnew⟩ := ih _ _ _ h
    have hf := uncompressName_fields he1
    refine ⟨entry1 :: new, ?_, by simp [hlen], ?_⟩
    · rw [hres]; simp
    · intro k cur hk
      cases k with
      | zero =>
        simp only [List.getElem?_cons_zero, Option.some.injEq] at hk
        subst hk
        refine ⟨entry, ?_, ?_⟩
        · simp [hd, Res.bind, he]
        · simpa using he1
      | succ k =>
        simp only [List.getElem?_cons_succ] at hk
        have := hnew k cur hk
        simpa [hf.1, Nat.add_assoc] using this

theorem indBlkHdr_size (h : IndBlkHdr) :
    (Layout.struct IndBlkHdr.layout).Size (.struct h.toValues) false = some 14 := by
  rfl

theorem and_128_of_lt : ∀ n < 128, n &&& 0x80 = 0 := by decide
theorem and_128_of_ge : ∀ n < 256, 128 ≤ n → n &&& 0x80 ≠ 0 := by decide

theorem and_bit31_of_lt {n : Nat} (h : n < 0x80000000) : n &&& 0x80000000 = 0 := by
  have e : (0x80000000 : Nat) = 2 ^ 31 := by norm_num
  rw [e] at h ⊢
  rw [Nat.and_two_pow, Nat.testBit_lt_two_pow h]; simp

theorem and_bit31_of_add {n : Nat} (h : n < 0x80000000) :
    (0x80000000 + n) &&& 0x80000000 ≠ 0 := by
  have e : (0x80000000 : Nat) = 2 ^ 31 := by norm_num
  rw [e] at h ⊢
  rw [Nat.and_two_pow, Nat.testBit_two_pow_add_eq, Nat.testBit_lt_two_pow h]; simp

theorem and_low31_of_add {n : Nat} (h : n < 0x80000000) :
    (0x80000000 + n) &&& 0x7fffffff = n := by
  have e : (0x7fffffff : Nat) = 2 ^ 31 - 1 := by norm_num
  rw [e, Nat.and_pow_two_sub_one_eq_mod]; omega

theorem fieldLength_short {n : Nat} (h : n < 128) :
    ProfileSegmentFieldLength.Size n = 1 ∧ ProfileSegmentFieldLength.Int n = n := by
  have h31 : n < 0x80000000 := by omega
  simp [ProfileSegmentFieldLength.Size, ProfileSegmentFieldLength.Int, and_bit31_of_lt h31]

theorem fieldLength_long {n : Nat} (h : n < 0x80000000) :
    ProfileSegmentFieldLength.Size (0x80000000 + n) = 4 ∧
    ProfileSegmentFieldLength.Int (0x80000000 + n) = n := by
  have h1 := and_bit31_of_add h
  have h2 := and_low31_of_add h
  simp only [ProfileSegmentFieldLength.Size, ProfileSegmentFieldLength.Int, ne_eq, h1,
    not_false_eq_true, if_true, h2, and_self]

theorem beUint_four (a b c d : Nat) :
    beUint [a, b, c, d] = ((a * 256 + b) * 256 + c) * 256 + d := by
  simp [beUint]

theorem byteSlice_slice_mid (pre v rest spare bytes : List Nat) (lo hi : Nat)
    (hb : bytes = pre ++ v ++ rest) (hlo : lo = pre.length) (hhi : hi = pre.length + v.length) :
    ByteSlice.slice ⟨bytes, spare⟩ lo hi = .ok ⟨v, rest ++ spare⟩ := by
  subst hb hlo hhi
  have e : pre ++ v ++ rest ++ spare = (pre ++ v) ++ (rest ++ spare) := by simp
  have hc : pre.length ≤ pre.length + v.length ∧
      pre.length + v.length ≤ (pre ++ v ++ rest).length + spare.length := by
    simp only [List.length_append]; omega
  simp only [ByteSlice.slice, hc, and_self, if_true, e]
  rw [List.take_left' (by simp), List.drop_left' (by simp), List.drop_left' (by simp)]

theorem byteSlice_sliceFrom_append (pre rest spare : List Nat) (lo : Nat) (hlo : lo = pre.length) :
    ByteSlice.sliceFrom ⟨pre ++ rest, spare⟩ lo = .ok ⟨rest, spare⟩ := by
  subst hlo
  simp [ByteSlice.sliceFrom]

/-- Decoding of one member: the field holds the value, and length prefix and value take
`m.encode.length` bytes. -/
theorem rgField_unmarshal (m : RgMember) (hm : m.WellFormed) (rest spare : List Nat) :
    ∃ l, ProfileSegmentRepeatGroupField.UnmarshalBinary ⟨m.encode ++ rest, spare⟩ =
        .ok ⟨l, ⟨m.value, rest ++ spare⟩⟩ ∧
      ProfileSegmentFieldLength.Int l = m.value.length ∧
      ProfileSegmentFieldLength.Size l + ProfileSegmentFieldLength.Int l = m.encode.length := by
  obtain ⟨lb, v⟩ := m
  rcases hm with ⟨hlb, hlt⟩ | ⟨hlen, hb, hbe, hlt⟩
  · simp only at hlb hlt
    subst hlb
    obtain ⟨hs, hi⟩ := fieldLength_short hlt
    refine ⟨v.length, ?_, hi, ?_⟩
    · have hsl := byteSlice_slice_mid [v.length] v rest spare (v.length :: (v ++ rest))
        (ProfileSegmentFieldLength.Size v.length)
        (ProfileSegmentFieldLength.Size v.length + ProfileSegmentFieldLength.Int v.length)
        (by simp) (by simp [hs]) (by simp [hs, hi])
      simp only [RgMember.encode, ProfileSegmentRepeatGroupField.UnmarshalBinary,
        ByteSlice.index, List.append_assoc, List.cons_append, List.nil_append,
        List.get?_cons_zero, Res.ok_bind, ne_eq, and_128_of_lt _ hlt, not_true_eq_false,
        if_false, hsl, Res.pure_eq]
    · simp [hs, hi, RgMember.encode]; omega
  · simp only at hlen hb hbe hlt
    obtain ⟨hs, hi⟩ := fieldLength_long hlt
    match lb, hlen with
    | [a, b, c, d], _ =>
      have ha : a < 256 := hb a (by simp)
      have hb' : b < 256 := hb b (by simp)
      have hc : c < 256 := hb c (by simp)
      have hd : d < 256 := hb d (by simp)
      have hge : 128 ≤ a := by
        rw [beUint_four] at hbe; omega
      refine ⟨0x80000000 + v.length, ?_, hi, ?_⟩
      · have hsl := byteSlice_slice_mid [a, b, c, d] v rest spare
          (a :: b :: c :: d :: (v ++ rest))
          (ProfileSegmentFieldLength.Size (0x80000000 + v.length))
          (ProfileSegmentFieldLength.Size (0x80000000 + v.length) +
            ProfileSegmentFieldLength.Int (0x80000000 + v.length))
          (by simp) (by simp [hs]) (by simp [hs, hi])
        have htake : List.take 4 (a :: b :: c :: d :: (v ++ rest)) = [a, b, c, d] := by simp
        have hlen4 : ¬ (a :: b :: c :: d :: (v ++ rest)).length < 4 := by simp
        simp only [RgMember.encode, ProfileSegmentRepeatGroupField.UnmarshalBinary,
          ByteSlice.index, List.append_assoc, List.cons_append, List.nil_append,
          List.get?_cons_zero, Res.ok_bind, ne_eq, and_128_of_ge a ha hge, not_false_eq_true,
          if_true, hlen4, if_false, htake, hbe, hsl, Res.pure_eq]
      · simp [hs, hi, RgMember.encode]; omega

theorem rgFields_loop (rest spare : List Nat) :
    ∀ (ms : List RgMember) (pre : List Nat), (∀ m ∈ ms, m.WellFormed) →
    ∃ fs, ProfileSegmentRepeatGroup.UnmarshalBinary.loop
          ⟨pre ++ (ms.map RgMember.encode).flatten ++ rest, spare⟩ ms.length pre.length = .ok fs ∧
      fs.map (fun f => (f.Value.bytes, ProfileSegmentFieldLength.Int f.Len)) =
        ms.map (fun m => (m.value, m.value.length)) ∧
      (fs.map (fun f => ProfileSegmentFieldLength.Size f.Len +
        ProfileSegmentFieldLength.Int f.Len)).sum = ((ms.map RgMember.encode).flatten).length := by
  intro ms
  induction ms with
  | nil => intro pre _; exact ⟨[], rfl, rfl, rfl⟩
  | cons m ms ih =>
    intro pre hms
    have hm : m.WellFormed := hms m (by simp)
    have hms' : ∀ x ∈ ms, x.WellFormed := fun x hx => hms x (by simp [hx])
    obtain ⟨l, hl, hint, hsz⟩ :=
      rgField_unmarshal m hm ((ms.map RgMember.encode).flatten ++ rest) spare
    obtain ⟨fs, hfs, hmap, hsum⟩ := ih (pre ++ m.encode) hms'
    have hdata : pre ++ ((m :: ms).map RgMember.encode).flatten ++ rest =
        pre ++ (m.encode ++ ((ms.map RgMember.encode).flatten ++ rest)) := by simp
    have hdata2 : pre ++ m.encode ++ (ms.map RgMember.encode).flatten ++ rest =
        pre ++ (m.encode ++ ((ms.map RgMember.encode).flatten ++ rest)) := by simp
    rw [hdata2] at hfs
    refine ⟨⟨l, ⟨m.value, ((ms.map RgMember.encode).flatten ++ rest) ++ spare⟩⟩ :: fs, ?_, ?_, ?_⟩
    · rw [hdata]
      simp only [List.length_cons, ProfileSegmentRepeatGroup.UnmarshalBinary.loop]
      rw [byteSlice_sliceFrom_append pre _ spare pre.length rfl]
      simp only [Res.ok_bind, hl, hsz]
      rw [List.length_append] at hfs
      rw [hfs]; rfl
    · simp [hmap, hint]
    · simp only [List.map_cons, List.sum_cons, hsum, hsz, List.flatten_cons, List.length_append]

theorem rgRecord_unmarshal (r : List RgMember) (hr : ∀ m ∈ r, m.WellFormed)
    (rest spare : List Nat) :
    ∃ rp, ProfileSegmentRepeatGroup.UnmarshalBinary ⟨encodeRgRecord r ++ rest, spare⟩ = .ok rp ∧
      rp.Fields.map (fun f => (f.Value.bytes, ProfileSegmentFieldLength.Int f.Len)) =
        r.map (fun m => (m.value, m.value.length)) ∧
      rp.Size = (encodeRgRecord r).length := by
  obtain ⟨fs, hfs, hmap, hsum⟩ := rgFields_loop rest spare r [r.length] hr
  have hlen : fs.length = r.length := by
    have := congrArg List.length hmap
    simpa using this
  refine ⟨⟨r.length, fs⟩, ?_, hmap, ?_⟩
  · simp only [List.length_singleton] at hfs
    simp only [ProfileSegmentRepeatGroup.UnmarshalBinary, encodeRgRecord, ByteSlice.index,
      List.cons_append, List.get?_cons_zero, Res.ok_bind]
    simp only [List.singleton_append, List.cons_append, List.nil_append] at hfs
    rw [hfs]; rfl
  · simp only [ProfileSegmentRepeatGroup.Size, encodeRgRecord, List.length_cons]
    rw [← hlen, List.take_length, hsum]; omega

theorem fillRepeatGroupRecord_ok :
    ∀ (members : List (List Nat × FieldKind)) (fs : List ProfileSegmentRepeatGroupField)
      (r : List RgMember), members.length ≤ fs.length →
      fs.map (fun f => (f.Value.bytes, ProfileSegmentFieldLength.Int f.Len)) =
        r.map (fun m => (m.value, m.value.length)) →
      fillRepeatGroupRecord members fs = .ok (rgRecordValue members r) := by
  intro members
  induction members with
  | nil => intro fs r _ _; cases fs <;> rfl
  | cons mem members ih =>
    intro fs r hlen hmap
    cases fs with
    | nil => simp at hlen
    | cons f fs =>
      cases r with
      | nil => simp at hmap
      | cons m r =>
        simp only [List.map_cons, List.cons.injEq, Prod.mk.injEq] at hmap
        obtain ⟨⟨hv, hi⟩, hrest⟩ := hmap
        have := ih fs r (by simpa using hlen) hrest
        simp only [fillRepeatGroupRecord, this, Res.ok_bind, Res.pure_eq, rgRecordValue,
          List.zipWith_cons_cons, hv, hi]

theorem rgLoop_ok (members : List (List Nat × FieldKind)) (rest spare : List Nat) :
    ∀ (recs : List (List RgMember)) (pre : List Nat),
      (∀ r ∈ recs, members.length ≤ r.length ∧ ∀ m ∈ r, m.WellFormed) →
      ToValue.rgLoop members ⟨pre ++ encodeRgRecords recs ++ rest, spare⟩ recs.length pre.length =
        .ok (recs.map (rgRecordValue members)) := by
  intro recs
  induction recs with
  | nil => intro pre _; rfl
  | cons r recs ih =>
    intro pre h
    obtain ⟨hrl, hrw⟩ := h r (by simp)
    have h' : ∀ x ∈ recs, members.length ≤ x.length ∧ ∀ m ∈ x, m.WellFormed :=
      fun x hx => h x (by simp [hx])
    obtain ⟨rp, hrp, hmap, hsize⟩ := rgRecord_unmarshal r hrw (encodeRgRecords recs ++ rest) spare
    have hfl : rp.Fields.length = r.length := by
      have := congrArg List.length hmap
      simpa using this
    have hfill := fillRepeatGroupRecord_ok members rp.Fields r (by omega) hmap
    have hdata : pre ++ encodeRgRecords (r :: recs) ++ rest =
        pre ++ (encodeRgRecord r ++ (encodeRgRecords recs ++ rest)) := by
      simp [encodeRgRecords]
    have hdata2 : pre ++ encodeRgRecord r ++ encodeRgRecords recs ++ rest =
        pre ++ (encodeRgRecord r ++ (encodeRgRecords recs ++ rest)) := by simp
    have := ih (pre ++ encodeRgRecord r) h'
    rw [hdata2, List.length_append, ← hsize] at this
    rw [hdata]
    simp only [List.length_cons, ToValue.rgLoop]
    rw [byteSlice_sliceFrom_append pre _ spare pre.length rfl]
    simp only [Res.ok_bind, hrp, hfill, this, Res.pure_eq, List.map_cons]

theorem encodeRgRecords_length (recs : List (List RgMember)) :
    recs.length ≤ (encodeRgRecords recs).length := by
  induction recs with
  | nil => simp
  | cons r recs ih =>
    simp only [encodeRgRecords, List.map_cons, List.flatten_cons, List.length_append,
      List.length_cons, encodeRgRecord] at ih ⊢
    omega

theorem record_setField_names (r : Record) (n : List Nat) (v : FieldValue) :
    (r.setField n v).map Prod.fst = r.map Prod.fst := by
  induction r with
  | nil => rfl
  | cons e r ih =>
    simp only [Record.setField]
    split
    · simp
    · simp [ih]

theorem record_field_setField_same (r : Record) (n : List Nat) (v : FieldValue)
    (h : n ∈ r.map Prod.fst) : (r.setField n v).field n = some v := by
  induction r with
  | nil => simp at h
  | cons e r ih =>
    simp only [Record.setField]
    by_cases he : e.1 = n
    · simp [he, Record.field]
    · have hn : n ∈ r.map Prod.fst := by
        simp only [List.map_cons, List.mem_cons] at h
        rcases h with h | h
        · exact absurd h.symm he
        · exact h
      have := ih hn
      simp only [Record.field] at this ⊢
      simp [he, this]

theorem record_field_setField_other (r : Record) (n n' : List Nat) (v : FieldValue)
    (h : n' ≠ n) : (r.setField n v).field n' = r.field n' := by
  induction r with
  | nil => rfl
  | cons e r ih =>
    simp only [Record.field] at ih
    by_cases he : e.1 = n
    · have h2 : ¬ n = n' := fun h3 => h h3.symm
      have h3 : ¬ e.1 = n' := fun h4 => h (h4.symm.trans he)
      simp [Record.setField, he, Record.field, h2]
    · by_cases he' : e.1 = n'
      · have hn : ¬ n' = n := h
        simp [Record.setField, he, Record.field, he', hn]
      · simp [Record.setField, he, Record.field, he', ih]

theorem structType_new_names (sType : StructType) :
    sType.new.map Prod.fst = sType.map (fun f => f.Name) := by
  simp [StructType.new]

theorem structType_fieldByName_some {sType : StructType} {n : List Nat} {f : StructField}
    (h : sType.FieldByName n = some f) : f.Name = n ∧ n ∈ sType.map (fun f => f.Name) := by
  unfold StructType.FieldByName at h
  have h1 := List.find?_some h
  have h2 := List.mem_of_find?_eq_some h
  simp only [beq_iff_eq] at h1
  exact ⟨h1, by rw [← h1]; exact List.mem_map_of_mem _ h2⟩

theorem toValue_step_names {template : Template} {sName : List Nat} {sType : StructType}
    {sValue r : Record} {f : ProfileSegmentField}
    (h : ToValue.step template sName sType sValue f = .ok r) :
    r.map Prod.fst = sValue.map Prod.fst := by
  unfold ToValue.step at h
  cases hF : template.FieldByID f.Id sName with
  | none => simp only [hF] at h; rw [← Res.ok.inj h]
  | some tf =>
    simp only [hF] at h
    cases hN : sType.FieldByName tf.NameTrim with
    | none => simp only [hN] at h; rw [← Res.ok.inj h]
    | some fT =>
      simp only [hN] at h
      obtain ⟨x, _, h⟩ := Res.bind_eq_ok'.mp h
      by_cases hrg : tf.IsRepeatGroup = true
      · simp only [hrg, if_true] at h
        split at h
        · split at h
          · cases h
          · split at h
            · rw [← Res.ok.inj h, record_setField_names]
            · split at h
              · split at h
                · cases h
                · rw [← Res.ok.inj h, record_setField_names]
              · split at h
                · cases h
                · obtain ⟨recs, _, h⟩ := Res.bind_eq_ok'.mp h
                  rw [← Res.ok.inj h, record_setField_names, record_setField_names]
        · cases h
      · simp only [hrg] at h
        rw [← Res.ok.inj h, record_setField_names]

theorem toValue_loop_names {template : Template} {sName : List Nat} {sType : StructType} :
    ∀ (fs : List ProfileSegmentField) (sValue r : Record),
      ToValue.loop template sName sType fs sValue = .ok r →
      r.map Prod.fst = sValue.map Prod.fst := by
  intro fs
  induction fs with
  | nil => intro sValue r h; rw [← Res.ok.inj h]
  | cons f fs ih =>
    intro sValue r h
    simp only [ToValue.loop] at h
    obtain ⟨r1, h1, h⟩ := Res.bind_eq_ok.mp h
    rw [ih _ _ h, toValue_step_names h1]

theorem toValue_loop_append {template : Template} {sName : List Nat} {sType : StructType} :
    ∀ (fs : List ProfileSegmentField) (f : ProfileSegmentField) (sValue : Record),
      ToValue.loop template sName sType (fs ++ [f]) sValue =
        (ToValue.loop template sName sType fs sValue).bind
          (fun r => ToValue.step template sName sType r f) := by
  intro fs
  induction fs with
  | nil =>
    intro f sValue
    simp only [List.nil_append, ToValue.loop, Res.bind]
    cases ToValue.step template sName sType sValue f <;> rfl
  | cons g fs ih =>
    intro f sValue
    simp only [List.cons_append, ToValue.loop]
    cases ToValue.step template sName sType sValue g with
    | ok r1 => simp only [Res.bind]; exact ih f r1
    | err => rfl
    | panic => rfl

theorem setProfileSegmentField_uint {k : FieldKind} {w : Nat} (hk : k.uintSize = some w)
    (hd rest : List Nat) (hhd : hd.length = w) (length : Nat) :
    setProfileSegmentField k (hd ++ rest) length = (.uint (beUint hd), false) := by
  cases k <;> simp only [FieldKind.uintSize, Option.some.injEq] at hk <;> try cases hk
  · match hd, hhd with
    | [a], _ => simp [setProfileSegmentField, beUint]
  · have h1 : ¬ (hd ++ rest).length < 2 := by simp; omega
    simp only [setProfileSegmentField, h1, if_false, List.take_left' hhd]
  · have h1 : ¬ (hd ++ rest).length < 4 := by simp; omega
    simp only [setProfileSegmentField, h1, if_false, List.take_left' hhd]
  · have h1 : ¬ (hd ++ rest).length < 8 := by simp; omega
    simp only [setProfileSegmentField, h1, if_false, List.take_left' hhd]


/-! ## Properties -/

/-- C1 (code at the failing input): on a template that begins with its class delimiter (id 1)
followed by ENTYPE (id 1), `FieldByID(1, "BASE")` returns the class delimiter, not the ENTYPE
descriptor: for BASE the scan starts in the found state at the delimiter itself. -/
theorem fieldByID_base_returns_delimiter :
    Template.FieldByID Fixture.groupTemplate 1 (str "BASE") = some Fixture.dGROUP ∧
    Fixture.dGROUP.IsSegmentName = true ∧
    Fixture.dENTYPE.IsSegmentName = false ∧
    Fixture.dGROUP ≠ Fixture.dENTYPE :=
  ⟨by decide, by decide, by decide, by decide⟩

/-- C2 (code at the failing input): the last segment of a template gets no key. The GROUP
template with the single segment BASE yields the empty map, and with the segments BASE and DFP
the map has the key BASE only, although DFP holds the named field DATAAPPL. -/
theorem toType_drops_last_segment :
    Template.ToType true Fixture.groupTemplate = .ok [] ∧
    Template.ToType true Fixture.groupTemplate2 = .ok [(str "BASE", Fixture.groupBaseType)] :=
  ⟨by decide, by decide⟩

/-- C3 (code at the failing input): in the first end-to-end scenario the schema built by
`ToType` has no BASE entry and `ToValue` returns an error; and with the BASE record type
supplied, the slot of id 1 is matched with the class delimiter, so that ENTYPE stays 0 while
SUPGROUP and AUTHDATE hold their stored bytes. -/
theorem scenario_group_base_not_decoded :
    Template.ToType true Fixture.groupTemplate = .ok [] ∧
    Fixture.groupSegment.ToValue (str "GROUP") Fixture.groupTemplate [(str "GROUP", [])] = .err ∧
    Fixture.groupSegment.ToValue (str "GROUP") Fixture.groupTemplate
        [(str "GROUP", [(str "BASE", Fixture.groupBaseType)])] =
      .ok [(str "ENTYPE", .prim (.uint 0)),
           (str "SUPGROUP", .prim (.bytes [0xe2, 0xe8, 0xe2, 0xf1, 0x40, 0x40, 0x40, 0x40])),
           (str "AUTHDATE", .prim (.bytes [0x23, 0x04, 0x5f]))] ∧
    Date.String [0x23, 0x04, 0x5f] = str "2023, day 45" :=
  ⟨by decide, by decide, by decide, by decide⟩

/-- C5 (code at the failing input): a USER template whose BASE segment has the repeat group
CLCNT/CLNAME and whose DFP segment has a descriptor of id 50 that is also named CLCNT. `ToType`
gives BASE the fields CLCNT, CLCNT_RG and SECLABEL. On a BASE segment with the CLCNT slot
(count 2, members TSO and DB2) followed by a slot of id 50, `FieldByID(50, "BASE")` reaches the
descriptor of DFP, the head field CLCNT is overwritten with 7, and the returned record has
CLCNT = 7 with a CLCNT_RG of 2 records. -/
theorem rg_count_differs_from_head :
    Template.ToType true Fixture.userTemplate =
      .ok [(str "DFP", Fixture.userDfpType), (str "BASE", Fixture.userBaseType)] ∧
    Template.FieldByID Fixture.userTemplate 50 (str "BASE") = some Fixture.dCLCNT2 ∧
    Fixture.userSegment.ToValue (str "USER") Fixture.userTemplate Fixture.userSchema =
      .ok [(str "CLCNT", .prim (.uint 7)),
           (str "CLCNT_RG", .rg [[.bytes [0xe3, 0xe2, 0xd6]], [.bytes [0xc4, 0xc2, 0xf2]]]),
           (str "SECLABEL", .prim (.bytes []))] :=
  ⟨by decide, by decide, by decide⟩

/-- C7, as stated, fails: the date 00 00 0F has decimal digits in its first five nibbles and is
none of the sentinels 00 00 00, FF FF FF, 00 00 0C, 00 00 0D, yet it renders as "1970, day 1"
and not as "2000, day 0". -/
theorem date3_zero_year_sign_counterexample :
    ¬ (∀ Y1 Y2 D1 D2 D3 s : Nat, Y1 < 10 → Y2 < 10 → D1 < 10 → D2 < 10 → D3 < 10 → s < 16 →
      [16 * Y1 + Y2, 16 * D1 + D2, 16 * D3 + s] ∉
        [[0x00, 0x00, 0x00], [0xff, 0xff, 0xff], [0x00, 0x00, 0x0c], [0x00, 0x00, 0x0d]] →
      Date.String [16 * Y1 + Y2, 16 * D1 + D2, 16 * D3 + s] =
        fmtInt (if 10 * Y1 + Y2 > 70 then 1900 + (10 * Y1 + Y2) else 2000 + (10 * Y1 + Y2))
          ++ str ", day " ++ fmtInt (100 * D1 + 10 * D2 + D3)) := by
  intro h
  have h1 := h 0 0 0 0 0 15 (by decide) (by decide) (by decide) (by decide) (by decide)
    (by decide) (by decide)
  revert h1
  decide

/-- C7 (amended): a 3-byte date with the nibbles Y1 Y2 D1 D2 D3 s, decimal digits in the first
five positions, that is not a zero date (year byte 00 with the twelve day bits zero, whatever
the sign nibble) renders as "<year>, day <day>" with day = 100 D1 + 10 D2 + D3 and
year = 1900 + YY when YY = 10 Y1 + Y2 is greater than 70, and 2000 + YY otherwise; the sign
nibble does not affect the result. -/
theorem date3_string_digits (Y1 Y2 D1 D2 D3 s : Nat)
    (_hY1 : Y1 < 10) (hY2 : Y2 < 10) (_hD1 : D1 < 10) (hD2 : D2 < 10) (hD3 : D3 < 10) (hs : s < 16)
    (hnz : ¬ (Y1 = 0 ∧ Y2 = 0 ∧ D1 = 0 ∧ D2 = 0 ∧ D3 = 0)) :
    Date.String [16 * Y1 + Y2, 16 * D1 + D2, 16 * D3 + s] =
      fmtInt (if 10 * Y1 + Y2 > 70 then 1900 + (10 * Y1 + Y2) else 2000 + (10 * Y1 + Y2))
        ++ str ", day " ++ fmtInt (100 * D1 + 10 * D2 + D3) := by
  have hday : ((16 * D1 + D2) * 256 + (16 * D3 + s)) >>> 4 = 256 * D1 + 16 * D2 + D3 := by
    rw [Nat.shiftRight_eq_div_pow]; omega
  have h1 : (16 * Y1 + Y2) &&& 15 = Y2 := by rw [and_fifteen]; omega
  have h2 : (16 * Y1 + Y2) >>> 4 = Y1 := by rw [Nat.shiftRight_eq_div_pow]; omega
  have h3 : (256 * D1 + 16 * D2 + D3) &&& 15 = D3 := by rw [and_fifteen]; omega
  have h4 : ((256 * D1 + 16 * D2 + D3) >>> 4) &&& 15 = D2 := by
    rw [and_fifteen, Nat.shiftRight_eq_div_pow]; omega
  have h5 : (256 * D1 + 16 * D2 + D3) >>> 8 = D1 := by rw [Nat.shiftRight_eq_div_pow]; omega
  have hc : ¬ ((16 * Y1 + Y2 = 0 ∧ 256 * D1 + 16 * D2 + D3 = 0) ∨
      (16 * Y1 + Y2 = 255 ∧ 256 * D1 + 16 * D2 + D3 = 4095 ∧ (16 * D3 + s) &&& 15 = 15)) := by
    omega
  have e15 : (0xf : Nat) = 15 := rfl
  have e255 : (0xff : Nat) = 255 := rfl
  have e4095 : (0xfff : Nat) = 4095 := rfl
  simp only [Date.String, Date.to3Human, hday, e15, e255, e4095, if_neg hc, h1, h2, h3, h4, h5,
    retFmt]
  have hy : Y2 + 10 * Y1 = 10 * Y1 + Y2 := by omega
  have hd : D3 + 10 * D2 + 100 * D1 = 100 * D1 + 10 * D2 + D3 := by omega
  rw [hy, hd]
  by_cases h : 10 * Y1 + Y2 > 70
  · simp only [if_pos h]; rw [Nat.add_comm]
  · simp only [if_neg h]; rw [Nat.add_comm]

/-- C7, witness: 23 04 5F renders as "2023, day 45"; year 70 renders as 2070 and year 71 as
1971. -/
theorem date3_string_digits_witness :
    Date.String [16 * 2 + 3, 16 * 0 + 4, 16 * 5 + 15] =
      fmtInt (if 10 * 2 + 3 > 70 then 1900 + (10 * 2 + 3) else 2000 + (10 * 2 + 3))
        ++ str ", day " ++ fmtInt (100 * 0 + 10 * 4 + 5) ∧
    Date.String [0x23, 0x04, 0x5f] = str "2023, day 45" ∧
    Date.String [0x70, 0x00, 0x1f] = str "2070, day 1" ∧
    Date.String [0x71, 0x00, 0x1f] = str "1971, day 1" :=
  ⟨date3_string_digits 2 3 0 4 5 15 (by decide) (by decide) (by decide) (by decide) (by decide)
    (by decide) (by decide), by decide, by decide, by decide⟩

/-- C8: each of the 3-byte zero sentinels 00 00 00, FF FF FF, 00 00 0C and 00 00 0D renders as
exactly "1970, day 1". -/
theorem date3_zero_sentinels :
    Date.String [0x00, 0x00, 0x00] = str "1970, day 1" ∧
    Date.String [0xff, 0xff, 0xff] = str "1970, day 1" ∧
    Date.String [0x00, 0x00, 0x0c] = str "1970, day 1" ∧
    Date.String [0x00, 0x00, 0x0d] = str "1970, day 1" :=
  ⟨by decide, by decide, by decide, by decide⟩

/-- C9: a 4-byte date b0 b1 b2 b3 renders as "1970.01.01" if the bytes are FF FF FF FF or
00 00 00 followed by 00, 0C or 0D, and otherwise as the two hexadecimal digits of each byte
laid out as b0b1.b2.b3. -/
theorem date4_string (b0 b1 b2 b3 : Nat)
    (h0 : b0 < 256) (h1 : b1 < 256) (h2 : b2 < 256) (h3 : b3 < 256) :
    Date.String [b0, b1, b2, b3] =
      if (b0 = 0xff ∧ b1 = 0xff ∧ b2 = 0xff ∧ b3 = 0xff) ∨
          (b0 = 0 ∧ b1 = 0 ∧ b2 = 0 ∧ (b3 = 0 ∨ b3 = 0x0c ∨ b3 = 0x0d)) then
        str "1970.01.01"
      else twoHex b0 ++ twoHex b1 ++ str "." ++ twoHex b2 ++ str "." ++ twoHex b3 := by
  have hc : ((b0 = 0xff ∧ b1 = 0xff ∧ b2 = 0xff ∧ b3 = 0xff) ∨
      (b0 = 0 ∧ b1 = 0 ∧ b2 = 0 ∧ (b3 = 0 ∨ b3 = 0x0c ∨ b3 = 0x0d ∨ b3 = 0x0d))) ↔
      ((b0 = 0xff ∧ b1 = 0xff ∧ b2 = 0xff ∧ b3 = 0xff) ∨
      (b0 = 0 ∧ b1 = 0 ∧ b2 = 0 ∧ (b3 = 0 ∨ b3 = 0x0c ∨ b3 = 0x0d))) := by
    simp only [or_self]
  simp only [Date.String, Date.to4Human, fmtHex02_byte b0 h0, fmtHex02_byte b1 h1,
    fmtHex02_byte b2 h2, fmtHex02_byte b3 h3]
  by_cases h : (b0 = 0xff ∧ b1 = 0xff ∧ b2 = 0xff ∧ b3 = 0xff) ∨
      (b0 = 0 ∧ b1 = 0 ∧ b2 = 0 ∧ (b3 = 0 ∨ b3 = 0x0c ∨ b3 = 0x0d))
  · rw [if_pos (hc.mpr h), if_pos h]
  · rw [if_neg (fun h4 => h (hc.mp h4)), if_neg h]

/-- C9, witness: 20 23 02 14 renders as "2023.02.14". -/
theorem date4_string_witness :
    Date.String [0x20, 0x23, 0x02, 0x14] =
      (if ((0x20 : Nat) = 0xff ∧ (0x23 : Nat) = 0xff ∧ (0x02 : Nat) = 0xff ∧ (0x14 : Nat) = 0xff) ∨
          ((0x20 : Nat) = 0 ∧ (0x23 : Nat) = 0 ∧ (0x02 : Nat) = 0 ∧
            ((0x14 : Nat) = 0 ∨ (0x14 : Nat) = 0x0c ∨ (0x14 : Nat) = 0x0d)) then
        str "1970.01.01"
      else twoHex 0x20 ++ twoHex 0x23 ++ str "." ++ twoHex 0x02 ++ str "." ++ twoHex 0x14) ∧
    Date.String [0x20, 0x23, 0x02, 0x14] = str "2023.02.14" ∧
    Date.String [0xff, 0xff, 0xff, 0xff] = str "1970.01.01" ∧
    Date.String [0x00, 0x00, 0x00, 0x0c] = str "1970.01.01" :=
  ⟨date4_string 0x20 0x23 0x02 0x14 (by decide) (by decide) (by decide) (by decide),
   by decide, by decide, by decide⟩

/-- C10: `EBCDICStr.String` returns a sequence of the same length whose byte `i` is
`e2a[s[i]]`; the table maps F0..F9 to '0'..'9', C1..C9 to 'A'..'I', D1..D9 to 'J'..'R',
E2..E9 to 'S'..'Z' and 40 to the blank, and F1 F2 F3 decodes to "123". -/
theorem ebcdicStr_string_table (s : List Nat) :
    (EBCDICStr.String s).length = s.length ∧
    (∀ i : Nat, (EBCDICStr.String s)[i]? = s[i]?.map (fun b => e2a.getD b 0)) ∧
    (List.range 10).map (fun d => e2a.getD (0xF0 + d) 0) = str "0123456789" ∧
    (List.range 9).map (fun d => e2a.getD (0xC1 + d) 0) = str "ABCDEFGHI" ∧
    (List.range 9).map (fun d => e2a.getD (0xD1 + d) 0) = str "JKLMNOPQR" ∧
    (List.range 8).map (fun d => e2a.getD (0xE2 + d) 0) = str "STUVWXYZ" ∧
    e2a.getD 0x40 0 = 32 ∧
    EBCDICStr.String [0xF1, 0xF2, 0xF3] = str "123" := by
  refine ⟨?_, ?_, by decide, by decide, by decide, by decide, by decide, by decide⟩
  · simp [EBCDICStr.String, ebcdic2ascii]
  · intro i
    simp only [EBCDICStr.String, ebcdic2ascii, List.getElem?_map]
    rfl


/-! ## Lemmas: translation table, dates, sized integers -/

theorem a2e_e2a : ∀ b < 256, a2e.getD (e2aAt b) 0 = b := by decide

theorem e2a_a2e : ∀ c < 256, e2aAt (a2e.getD c 0) = c ∧ a2e.getD c 0 < 256 := by decide

theorem e2a_lt : ∀ b < 256, e2aAt b < 256 := by decide

theorem ascii2ebcdic_ebcdic2ascii (a : List Nat) (ha : ∀ x ∈ a, x < 256) :
    ascii2ebcdic (ebcdic2ascii a) = a := by
  induction a with
  | nil => rfl
  | cons x a ih =>
    have hx : x < 256 := ha x (by simp)
    have ha1 : ∀ y ∈ a, y < 256 := fun y hy => ha y (by simp [hy])
    simp only [ebcdic2ascii, ascii2ebcdic, List.map_cons, List.map_map] at ih ⊢
    rw [a2e_e2a x hx, ih ha1]

theorem to3Human_digits (Y1 Y2 D1 D2 D3 s : Nat)
    (hY2 : Y2 < 10) (hD2 : D2 < 10) (hD3 : D3 < 10) (hs : s < 16)
    (hnz : ¬ (Y1 = 0 ∧ Y2 = 0 ∧ D1 = 0 ∧ D2 = 0 ∧ D3 = 0)) :
    Date.String [16 * Y1 + Y2, 16 * D1 + D2, 16 * D3 + s] =
      fmtInt (if 10 * Y1 + Y2 > 70 then 10 * Y1 + Y2 + 1900 else 10 * Y1 + Y2 + 2000)
        ++ (str ", day " ++ fmtInt (100 * D1 + 10 * D2 + D3)) := by
  have hday : ((16 * D1 + D2) * 256 + (16 * D3 + s)) >>> 4 = 256 * D1 + 16 * D2 + D3 := by
    rw [Nat.shiftRight_eq_div_pow]; omega
  have h1 : (16 * Y1 + Y2) &&& 15 = Y2 := by rw [and_fifteen]; omega
  have h2 : (16 * Y1 + Y2) >>> 4 = Y1 := by rw [Nat.shiftRight_eq_div_pow]; omega
  have h3 : (256 * D1 + 16 * D2 + D3) &&& 15 = D3 := by rw [and_fifteen]; omega
  have h4 : ((256 * D1 + 16 * D2 + D3) >>> 4) &&& 15 = D2 := by
    rw [and_fifteen, Nat.shiftRight_eq_div_pow]; omega
  have h5 : (256 * D1 + 16 * D2 + D3) >>> 8 = D1 := by rw [Nat.shiftRight_eq_div_pow]; omega
  have hc : ¬ ((16 * Y1 + Y2 = 0 ∧ 256 * D1 + 16 * D2 + D3 = 0) ∨
      (16 * Y1 + Y2 = 255 ∧ 256 * D1 + 16 * D2 + D3 = 4095 ∧ (16 * D3 + s) &&& 15 = 15)) := by
    omega
  have e15 : (0xf : Nat) = 15 := rfl
  have e255 : (0xff : Nat) = 255 := rfl
  have e4095 : (0xfff : Nat) = 4095 := rfl
  simp only [Date.String, Date.to3Human, hday, e15, e255, e4095, if_neg hc, h1, h2, h3, h4, h5,
    retFmt, List.append_assoc]
  have hy : Y2 + 10 * Y1 = 10 * Y1 + Y2 := by omega
  have hd : D3 + 10 * D2 + 100 * D1 = 100 * D1 + 10 * D2 + D3 := by omega
  rw [hy, hd]

theorem parseDigits_fmtInt_day : ∀ n < 1000, parseDigits (fmtInt n) 0 = some n := by decide

theorem parseDigits_fmtInt_year : ∀ y < 100,
    parseDigits (fmtInt (if y > 70 then y + 1900 else y + 2000)) 0 =
      some (if y > 70 then y + 1900 else y + 2000) ∧
    (fmtInt (if y > 70 then y + 1900 else y + 2000)).length = 4 := by decide

theorem beUint_append (a b : List Nat) : beUint (a ++ b) = beUint a * 256 ^ b.length + beUint b := by
  induction b using List.reverseRecOn with
  | nil => simp [beUint]
  | append_singleton b x ih =>
    rw [← List.append_assoc]
    simp only [beUint, List.foldl_append, List.foldl_cons, List.foldl_nil, List.length_append,
      List.length_singleton] at ih ⊢
    rw [ih]; ring

theorem beUint_replicate_zero (n : Nat) : beUint (List.replicate n 0) = 0 := by
  induction n with
  | zero => rfl
  | succ n ih =>
    rw [List.replicate_succ']
    simp only [beUint, List.foldl_append, List.foldl_cons, List.foldl_nil] at ih ⊢
    rw [ih]

theorem beUint_zeroPadding (a : List Nat) (h : a.length ≤ 8) :
    beUint ((zeroPadding a 8).take 8) = beUint a := by
  have hl : (zeroPadding a 8).length = 8 := by simp [zeroPadding]; omega
  rw [List.take_of_length_le (by omega)]
  simp [zeroPadding, beUint_append, beUint_replicate_zero]

theorem byteSlice_slice_zero (s : ByteSlice) (n : Nat) (h : n ≤ s.bytes.length) :
    s.slice 0 n = .ok ⟨s.bytes.take n, s.bytes.drop n ++ s.spare⟩ := by
  have hc : 0 ≤ n ∧ n ≤ s.bytes.length + s.spare.length := ⟨Nat.zero_le _, by omega⟩
  simp only [ByteSlice.slice, hc, and_self, if_true, List.drop_zero]
  rw [List.take_append_of_le_length h, List.drop_append_of_le_length h]

/-! ## Properties: translation table, dates, sized integers -/

/-- C11: the table `e2a` is a permutation of 0..255 (it has 256 entries, maps bytes to bytes,
and the table `a2e` inverts it on both sides), so `ebcdic2ascii` is injective on byte
sequences and `ascii2ebcdic` re-encodes the decoded rendering into the original bytes. -/
theorem ebcdic2ascii_injective (a b : List Nat) (ha : ∀ x ∈ a, x < 256)
    (hb : ∀ x ∈ b, x < 256) :
    e2a.length = 256 ∧ (∀ x < 256, e2aAt x < 256) ∧
    (∀ x < 256, a2e.getD (e2aAt x) 0 = x) ∧
    (∀ c < 256, e2aAt (a2e.getD c 0) = c ∧ a2e.getD c 0 < 256) ∧
    ascii2ebcdic (ebcdic2ascii a) = a ∧
    (ebcdic2ascii a = ebcdic2ascii b → a = b) := by
  refine ⟨by decide, e2a_lt, a2e_e2a, e2a_a2e, ascii2ebcdic_ebcdic2ascii a ha, fun h => ?_⟩
  rw [← ascii2ebcdic_ebcdic2ascii a ha, ← ascii2ebcdic_ebcdic2ascii b hb, h]

/-- C11, witness: the EBCDIC bytes C1 C2 C3 render as "ABC" and are recovered from it. -/
theorem ebcdic2ascii_injective_witness :
    ebcdic2ascii [0xC1, 0xC2, 0xC3] = str "ABC" ∧
    ascii2ebcdic (ebcdic2ascii [0xC1, 0xC2, 0xC3]) = [0xC1, 0xC2, 0xC3] ∧
    (ebcdic2ascii [0xC1, 0xC2, 0xC3] = ebcdic2ascii [0xC1, 0xC2, 0xC3] →
      ([0xC1, 0xC2, 0xC3] : List Nat) = [0xC1, 0xC2, 0xC3]) :=
  ⟨by decide,
   (ebcdic2ascii_injective [0xC1, 0xC2, 0xC3] [0xC1, 0xC2, 0xC3] (by decide) (by decide)).2.2.2.2.1,
   (ebcdic2ascii_injective [0xC1, 0xC2, 0xC3] [0xC1, 0xC2, 0xC3] (by decide) (by decide)).2.2.2.2.2⟩

/-- C12, as stated, fails: the dates 23 04 5F and 23 04 5C are not zero dates and have decimal
digits in the year and day positions; they render alike, as "2023, day 45", and differ in the
sign nibble, which the rendering drops. -/
theorem date3_sign_nibble_counterexample :
    Date.String [0x23, 0x04, 0x5f] = str "2023, day 45" ∧
    Date.String [0x23, 0x04, 0x5c] = str "2023, day 45" ∧
    ([0x23, 0x04, 0x5f] : List Nat) ≠ [0x23, 0x04, 0x5c] :=
  ⟨by decide, by decide, by decide⟩

/-- C12 (amended): two 3-byte dates with the nibbles Y1 Y2 D1 D2 D3 s and Z1 Z2 E1 E2 E3 t,
decimal digits in the first five positions, neither of them a zero date, that have the same
`Date.String` rendering agree in the year byte, in the second byte and in the high nibble of
the third byte; they are byte-for-byte equal when their sign nibbles agree as well. -/
theorem date3_string_determines_digits (Y1 Y2 D1 D2 D3 s Z1 Z2 E1 E2 E3 t : Nat)
    (hY1 : Y1 < 10) (hY2 : Y2 < 10) (hD1 : D1 < 10) (hD2 : D2 < 10) (hD3 : D3 < 10)
    (hs : s < 16)
    (hZ1 : Z1 < 10) (hZ2 : Z2 < 10) (hE1 : E1 < 10) (hE2 : E2 < 10) (hE3 : E3 < 10)
    (ht : t < 16)
    (hnz : ¬ (Y1 = 0 ∧ Y2 = 0 ∧ D1 = 0 ∧ D2 = 0 ∧ D3 = 0))
    (hnz2 : ¬ (Z1 = 0 ∧ Z2 = 0 ∧ E1 = 0 ∧ E2 = 0 ∧ E3 = 0))
    (heq : Date.String [16 * Y1 + Y2, 16 * D1 + D2, 16 * D3 + s] =
      Date.String [16 * Z1 + Z2, 16 * E1 + E2, 16 * E3 + t]) :
    16 * Y1 + Y2 = 16 * Z1 + Z2 ∧ 16 * D1 + D2 = 16 * E1 + E2 ∧ D3 = E3 ∧
    (s = t → [16 * Y1 + Y2, 16 * D1 + D2, 16 * D3 + s] =
      [16 * Z1 + Z2, 16 * E1 + E2, 16 * E3 + t]) := by
  rw [to3Human_digits Y1 Y2 D1 D2 D3 s hY2 hD2 hD3 hs hnz,
    to3Human_digits Z1 Z2 E1 E2 E3 t hZ2 hE2 hE3 ht hnz2] at heq
  obtain ⟨hy, hyl⟩ := parseDigits_fmtInt_year (10 * Y1 + Y2) (by omega)
  obtain ⟨hz, hzl⟩ := parseDigits_fmtInt_year (10 * Z1 + Z2) (by omega)
  have hd := parseDigits_fmtInt_day (100 * D1 + 10 * D2 + D3) (by omega)
  have he := parseDigits_fmtInt_day (100 * E1 + 10 * E2 + E3) (by omega)
  obtain ⟨hA, hB⟩ := List.append_inj heq (by rw [hyl, hzl])
  have hB1 := List.append_cancel_left hB
  rw [hA] at hy
  rw [hB1] at hd
  have hyear := Option.some.inj (hy.symm.trans hz)
  have hday := Option.some.inj (hd.symm.trans he)
  have hyy : 10 * Y1 + Y2 = 10 * Z1 + Z2 := by
    split_ifs at hyear <;> omega
  refine ⟨by omega, by omega, by omega, fun hst => ?_⟩
  have e1 : 16 * Y1 + Y2 = 16 * Z1 + Z2 := by omega
  have e2 : 16 * D1 + D2 = 16 * E1 + E2 := by omega
  have e3 : 16 * D3 + s = 16 * E3 + t := by omega
  rw [e1, e2, e3]

/-- C12, witness: 23 04 5F and 23 04 5C render alike and share their five digits. -/
theorem date3_string_determines_digits_witness :
    Date.String [16 * 2 + 3, 16 * 0 + 4, 16 * 5 + 15] =
      Date.String [16 * 2 + 3, 16 * 0 + 4, 16 * 5 + 12] ∧
    (16 * 2 + 3 = 16 * 2 + 3 ∧ 16 * 0 + 4 = 16 * 0 + 4 ∧ 5 = 5 ∧
      (15 = 12 → [16 * 2 + 3, 16 * 0 + 4, 16 * 5 + 15] = [16 * 2 + 3, 16 * 0 + 4, 16 * 5 + 12])) :=
  ⟨by decide,
   date3_string_determines_digits 2 3 0 4 5 15 2 3 0 4 5 12 (by decide) (by decide) (by decide)
    (by decide) (by decide) (by decide) (by decide) (by decide) (by decide) (by decide)
    (by decide) (by decide) (by decide) (by decide) (by decide)⟩

/-- C13: for N in 1..8 and data of at least N bytes, `DecodeValue` on a settable `uint64`
tagged size=N sets it to the big-endian integer of the first N bytes and returns N; the
padded sequence is those bytes with 8-N zero bytes in front, which has the same big-endian
value. -/
theorem decodeValue_uint64_size (n : Nat) (data : ByteSlice) (v : Value) (tags : FieldTag)
    (h1 : 1 ≤ n) (h8 : n ≤ 8) (hdata : n ≤ data.bytes.length)
    (htag : tags.get? (str "size") = some (n : Int)) :
    DecodeValue .uint64 data v true tags = .done (.uint (beUint (data.bytes.take n))) n false ∧
    zeroPadding (data.bytes.take n) 8 = List.replicate (8 - n) 0 ++ data.bytes.take n ∧
    beUint (zeroPadding (data.bytes.take n) 8) = beUint (data.bytes.take n) := by
  have hl : (data.bytes.take n).length = n := by simp; omega
  refine ⟨?_, by rw [zeroPadding, hl], ?_⟩
  · have hneg : ¬ (n : Int) < 0 := by omega
    have hne : ¬ (n : Int) = -1 := by omega
    simp only [DecodeValue, if_true, Layout.decode, htag, hneg, if_false, Int.toNat_ofNat,
      byteSlice_slice_zero data n hdata, DecodeValue.finish, hne]
    rw [beUint_zeroPadding _ (by simp; omega)]
  · simp [zeroPadding, beUint_append, beUint_replicate_zero]

/-- C13, witness: the 6-byte RBA 00 00 00 AB CD EF under size=6 decodes to 0xABCDEF with 6
bytes consumed. -/
theorem decodeValue_uint64_size_witness :
    DecodeValue .uint64 ⟨[0x00, 0x00, 0x00, 0xAB, 0xCD, 0xEF], []⟩ (.uint 0) true
        [(str "size", 6)] =
      .done (.uint (beUint (([0x00, 0x00, 0x00, 0xAB, 0xCD, 0xEF] : List Nat).take 6))) 6 false ∧
    beUint (([0x00, 0x00, 0x00, 0xAB, 0xCD, 0xEF] : List Nat).take 6) = 0xABCDEF :=
  ⟨(decodeValue_uint64_size 6 ⟨[0x00, 0x00, 0x00, 0xAB, 0xCD, 0xEF], []⟩ (.uint 0)
      [(str "size", 6)] (by decide) (by decide) (by decide) (by decide)).1,
   by decide⟩


/-! ## Lemmas: bit-packed booleans -/

theorem bool_word_read (n : Nat) (data : ByteSlice) (hn : n = 1 ∨ n = 2 ∨ n = 4)
    (hdata : n ≤ data.bytes.length) :
    (if (n : Int) = 1 then data.index 0 else if (n : Int) = 2 then data.beRead 2
      else if (n : Int) = 4 then data.beRead 4 else .ok 0 : Res Nat) =
      .ok (beUint (data.bytes.take n)) := by
  rcases hn with h | h | h <;> subst h
  · cases hb : data.bytes with
    | nil => rw [hb] at hdata; simp at hdata
    | cons b rest => simp [ByteSlice.index, hb, beUint]
  · simp [ByteSlice.beRead, hdata]
  · simp [ByteSlice.beRead, hdata]

theorem word_bit_eq (n k : Nat) (bs : List Nat) (hn : n = 1 ∨ n = 2 ∨ n = 4)
    (hlen : bs.length = n) (hb : ∀ b ∈ bs, b < 256) (hk : k ≤ 8 * n - 1) :
    (((beUint bs % 2 ^ 64) >>> (8 * n - 1 - k)) &&& 1 != 0) = bitMSB bs k := by
  rcases hn with h | h | h <;> subst h
  · match bs, hlen with
    | [a], _ =>
      have ha : a < 256 := hb a (by simp)
      simp only [bitMSB, beUint, List.foldl_cons, List.foldl_nil, Nat.and_one_is_mod,
        Nat.shiftRight_eq_div_pow]
      interval_cases k <;> simp <;> omega
  · match bs, hlen with
    | [a, b], _ =>
      have ha : a < 256 := hb a (by simp)
      have hb1 : b < 256 := hb b (by simp)
      simp only [bitMSB, beUint, List.foldl_cons, List.foldl_nil, Nat.and_one_is_mod,
        Nat.shiftRight_eq_div_pow]
      interval_cases k <;> simp <;> omega
  · match bs, hlen with
    | [a, b, c, d], _ =>
      have ha : a < 256 := hb a (by simp)
      have hb1 : b < 256 := hb b (by simp)
      have hc : c < 256 := hb c (by simp)
      have hd : d < 256 := hb d (by simp)
      simp only [bitMSB, beUint, List.foldl_cons, List.foldl_nil, Nat.and_one_is_mod,
        Nat.shiftRight_eq_div_pow]
      interval_cases k <;> simp <;> omega

theorem word_nonzero_mod (n : Nat) (bs : List Nat) (hn : n = 1 ∨ n = 2 ∨ n = 4)
    (hlen : bs.length = n) (hb : ∀ b ∈ bs, b < 256) : beUint bs < 2 ^ 64 := by
  rcases hn with h | h | h <;> subst h
  · match bs, hlen with
    | [a], _ =>
      have ha : a < 256 := hb a (by simp)
      simp [beUint]; omega
  · match bs, hlen with
    | [a, b], _ =>
      have ha : a < 256 := hb a (by simp)
      have hb1 : b < 256 := hb b (by simp)
      simp [beUint]; omega
  · match bs, hlen with
    | [a, b, c, d], _ =>
      have ha : a < 256 := hb a (by simp)
      have hb1 : b < 256 := hb b (by simp)
      have hc : c < 256 := hb c (by simp)
      have hd : d < 256 := hb d (by simp)
      simp [beUint]; omega

theorem bitMSB_testBit (n k : Nat) (bs : List Nat) (hn : n = 1 ∨ n = 2 ∨ n = 4)
    (hlen : bs.length = n) (hb : ∀ b ∈ bs, b < 256) (hk : k ≤ 8 * n - 1) :
    bitMSB bs k = (beUint bs).testBit (8 * n - 1 - k) := by
  rw [← word_bit_eq n k bs hn hlen hb hk, Nat.mod_eq_of_lt (word_nonzero_mod n bs hn hlen hb)]
  unfold Nat.testBit
  rw [Nat.land_comm]

/-! ## Properties: bit-packed booleans -/

/-- C14: for N in {1, 2, 4}, data of at least N bytes and a bit tag K with 0 <= K <= 8N-1,
`DecodeValue` on a settable boolean tagged size=N,bit=K sets it to bit K of the first N bytes,
counted from the most significant bit of the first byte, which is bit 8N-1-K of the
big-endian word; with a size tag and no bit tag the boolean is set to whether the N-byte word
is nonzero. -/
theorem decodeValue_bool_value (n : Nat) (data : ByteSlice) (v : Value) (tags : FieldTag)
    (hn : n = 1 ∨ n = 2 ∨ n = 4) (hdata : n ≤ data.bytes.length)
    (hbytes : ∀ b ∈ data.bytes, b < 256)
    (hsize : tags.get? (str "size") = some (n : Int))
    (hbit : ∀ k : Int, tags.get? (str "bit") = some k → 0 ≤ k ∧ k ≤ 8 * (n : Int) - 1) :
    (∃ shift, DecodeValue .bool data v true tags =
      .done (.bool (match tags.get? (str "bit") with
        | some k => bitMSB (data.bytes.take n) k.toNat
        | none => beUint (data.bytes.take n) != 0)) shift false) ∧
    ∀ k : Nat, k ≤ 8 * n - 1 →
      bitMSB (data.bytes.take n) k = (beUint (data.bytes.take n)).testBit (8 * n - 1 - k) := by
  have hw := bool_word_read n data hn hdata
  have hlen : (data.bytes.take n).length = n := by simp; omega
  have hb : ∀ b ∈ data.bytes.take n, b < 256 := fun b h => hbytes b (List.mem_of_mem_take h)
  have hn0 : ¬ ((n : Int) = -1) := by omega
  have h0 : ¬ ((0 : Int) = -1) := by omega
  refine ⟨?_, fun k hk => bitMSB_testBit n k _ hn hlen hb hk⟩
  cases hk : tags.get? (str "bit") with
  | none =>
    refine ⟨if (tags.get? (str "final")).isSome then n else 0, ?_⟩
    simp only [DecodeValue, if_true, Layout.decode, hsize, hw, hk, Option.getD_none]
    have h1 : ¬ ((0 : Int) = 8 * (n : Int) - 1) := by omega
    by_cases hf : (tags.get? (str "final")).isSome = true
    · simp [hf, DecodeValue.finish, hn0]
    · simp [hf, h1, DecodeValue.finish]
  | some k =>
    obtain ⟨hk0, hk1⟩ := hbit k hk
    refine ⟨if (tags.get? (str "final")).isSome ∨ k = 8 * (n : Int) - 1 then n else 0, ?_⟩
    have hnn : ¬ (8 * (n : Int) - 1 - k < 0) := by omega
    have hto : (8 * (n : Int) - 1 - k).toNat = 8 * n - 1 - k.toNat := by omega
    have hkn : k.toNat ≤ 8 * n - 1 := by omega
    simp only [DecodeValue, if_true, Layout.decode, hsize, hw, hk, Option.getD_some, hnn,
      if_false, hto, word_bit_eq n k.toNat _ hn hlen hb hkn]
    by_cases hf : (tags.get? (str "final")).isSome = true ∨ k = 8 * (n : Int) - 1
    · simp only [hf, if_true, DecodeValue.finish, hn0, if_false]
    · simp only [hf, if_false, DecodeValue.finish, h0]

/-- C14, witness: under size=1,bit=1 the byte 40 gives true; under size=2 without a bit tag
the bytes 00 01 give true. -/
theorem decodeValue_bool_value_witness :
    (∃ shift, DecodeValue .bool ⟨[0x40], []⟩ (.bool false) true
      [(str "size", 1), (str "bit", 1)] = .done (.bool true) shift false) ∧
    (∃ shift, DecodeValue .bool ⟨[0x00, 0x01], []⟩ (.bool false) true
      [(str "size", 2)] = .done (.bool true) shift false) :=
  ⟨(decodeValue_bool_value 1 ⟨[0x40], []⟩ (.bool false) [(str "size", 1), (str "bit", 1)]
      (by decide) (by decide) (by decide) (by decide) (by decide)).1,
   (decodeValue_bool_value 2 ⟨[0x00, 0x01], []⟩ (.bool false) [(str "size", 2)]
      (by decide) (by decide) (by decide) (by decide) (by decide)).1⟩

/-- C15: a settable boolean tagged size=N, on data that the read of N bytes does not overrun
and with a bit tag, if any, of at most 8N-1, is decoded with a reported size of N when the tag
set contains `final` or the bit tag equals 8N-1, and of 0 otherwise. -/
theorem decodeValue_bool_shift (n : Nat) (data : ByteSlice) (v : Value) (tags : FieldTag)
    (hsize : tags.get? (str "size") = some (n : Int))
    (hdata : n = 1 ∨ n = 2 ∨ n = 4 → n ≤ data.bytes.length)
    (hbit : ∀ k : Int, tags.get? (str "bit") = some k → k ≤ 8 * (n : Int) - 1) :
    ∃ b, DecodeValue .bool data v true tags =
      .done (.bool b)
        (if (tags.get? (str "final")).isSome ∨ tags.get? (str "bit") = some (8 * (n : Int) - 1)
          then (n : Int) else 0) false := by
  have hw : ∃ w, (if (n : Int) = 1 then data.index 0 else if (n : Int) = 2 then data.beRead 2
      else if (n : Int) = 4 then data.beRead 4 else .ok 0 : Res Nat) = .ok w := by
    by_cases hn : n = 1 ∨ n = 2 ∨ n = 4
    · exact ⟨_, bool_word_read n data hn (hdata hn)⟩
    · have h1 : ¬ (n : Int) = 1 := by omega
      have h2 : ¬ (n : Int) = 2 := by omega
      have h4 : ¬ (n : Int) = 4 := by omega
      exact ⟨0, by simp only [h1, h2, h4, if_false]⟩
  obtain ⟨w, hw⟩ := hw
  have hn0 : ¬ ((n : Int) = -1) := by omega
  have h0 : ¬ ((0 : Int) = -1) := by omega
  cases hk : tags.get? (str "bit") with
  | none =>
    have h1 : ¬ ((0 : Int) = 8 * (n : Int) - 1) := by omega
    refine ⟨w != 0, ?_⟩
    simp only [DecodeValue, if_true, Layout.decode, hsize, hw, hk, Option.getD_none, h1,
      or_false, reduceCtorEq]
    by_cases hf : (tags.get? (str "final")).isSome = true
    · simp only [hf, if_true, DecodeValue.finish, hn0, if_false]
    · simp [hf, DecodeValue.finish]
  | some k =>
    have hk1 := hbit k hk
    have hnn : ¬ (8 * (n : Int) - 1 - k < 0) := by omega
    refine ⟨((w % 2 ^ 64) >>> (8 * (n : Int) - 1 - k).toNat) &&& 1 != 0, ?_⟩
    simp only [DecodeValue, if_true, Layout.decode, hsize, hw, hk, Option.getD_some, hnn,
      if_false, Option.some.injEq]
    by_cases hf : (tags.get? (str "final")).isSome = true ∨ k = 8 * (n : Int) - 1
    · simp only [hf, if_true, DecodeValue.finish, hn0, if_false]
    · simp only [hf, if_false, DecodeValue.finish, h0]

/-- C15, witness: size=4,bit=0 without `final` reports 0 bytes, and so does size=1 with no
bit tag and no `final`; size=1,bit=7 reports 1 byte. -/
theorem decodeValue_bool_shift_witness :
    (∃ b, DecodeValue .bool ⟨[0x80, 0, 0, 0], []⟩ (.bool false) true
      [(str "size", 4), (str "bit", 0)] = .done (.bool b) 0 false) ∧
    (∃ b, DecodeValue .bool ⟨[0x80], []⟩ (.bool false) true
      [(str "size", 1)] = .done (.bool b) 0 false) ∧
    (∃ b, DecodeValue .bool ⟨[0x80], []⟩ (.bool false) true
      [(str "size", 1), (str "bit", 7)] = .done (.bool b) 1 false) :=
  ⟨decodeValue_bool_shift 4 ⟨[0x80, 0, 0, 0], []⟩ (.bool false)
      [(str "size", 4), (str "bit", 0)] (by decide) (by decide) (by decide),
   decodeValue_bool_shift 1 ⟨[0x80], []⟩ (.bool false) [(str "size", 1)]
      (by decide) (by decide) (by decide),
   decodeValue_bool_shift 1 ⟨[0x80], []⟩ (.bool false) [(str "size", 1), (str "bit", 7)]
      (by decide) (by decide) (by decide)⟩


/-! ## Lemmas: structs and sized sequences -/

theorem parseTag_empty (fields : Fields) (vals : List Value) :
    ParseTag [] fields vals = .done [([], 0)] false := rfl

theorem parseTag_size6 (fields : Fields) (vals : List Value) :
    ParseTag (str "size=6") fields vals = .done [(str "size", 6)] false := by
  rfl

theorem segmentData_size (vals : List Value) :
    (Layout.struct SegmentData.layout).Size (.struct vals) false = some 7 := by
  rfl

theorem parseTag_sizeNum (n : Nat) (b : Value) :
    ParseTag (str "size=Num") SegmentDataL1Reg.layout [.uint n, b] =
      .done [(str "size", (n : Int))] false := by
  rfl

/-- Decoding of one `SegmentData` element: the id byte, then six bytes of RBA. -/
theorem segmentData_decode (id : Nat) (r rest spare : List Nat) (x y : Value) (tags : FieldTag)
    (hr : r.length = 6) :
    (Layout.struct SegmentData.layout).decode ⟨id :: (r ++ rest), spare⟩ (.struct [x, y]) tags =
      .done (.struct [.uint id, .uint (beUint r)]) 7 false := by
  have hsl : ByteSlice.slice ⟨r ++ rest, spare⟩ 0 6 = .ok ⟨r, rest ++ spare⟩ := by
    have := byteSlice_slice_zero ⟨r ++ rest, spare⟩ 6 (by simp; omega)
    simpa [List.take_left' hr, List.drop_left' hr] using this
  have he1 : isExported (str "Id") = true := by decide
  have he2 : isExported (str "RBA") = true := by decide
  have hs0 : ByteSlice.sliceFromInt ⟨id :: (r ++ rest), spare⟩ 0 =
      .ok ⟨id :: (r ++ rest), spare⟩ := by
    simp [ByteSlice.sliceFromInt, ByteSlice.sliceFrom]
  have hs1 : ByteSlice.sliceFromInt ⟨id :: (r ++ rest), spare⟩ (0 + 1) =
      .ok ⟨r ++ rest, spare⟩ := by
    simp [ByteSlice.sliceFromInt, ByteSlice.sliceFrom]
  have hsz : GoMap.get? [(str "size", (6 : Int))] (str "size") = some 6 := by decide
  have hpad : beUint (List.take 8 (zeroPadding r 8)) = beUint r :=
    beUint_zeroPadding r (by omega)
  simp only [Layout.decode, SegmentData.layout, Fields.decode, parseTag_empty, parseTag_size6,
    he1, he2, if_true, hs0, hs1, ByteSlice.index, List.get?_cons_zero, DecodeValue.finish,
    Layout.Size, hsz]
  simp [hsl, hpad]

theorem segmentDataPairs_succ (id : Nat) (r rest : List Nat) (hr : r.length = 6) (m : Nat) :
    segmentDataPairs (id :: (r ++ rest)) (m + 1) = ⟨id, beUint r⟩ :: segmentDataPairs rest m := by
  simp only [segmentDataPairs, List.range_succ_eq_map, List.map_cons, List.map_map]
  congr 1
  · simp [List.take_left' hr]
  · apply List.map_congr_left
    intro j _
    have e1 : 7 * (j + 1) = (7 * j + 6) + 1 := by ring
    have e2 : 7 * (j + 1) + 1 = (7 * j + 1 + 6) + 1 := by ring
    simp only [Function.comp, Nat.succ_eq_add_one, e1, e2, List.getD_cons_succ, List.drop_succ_cons]
    have h6 : r.length ≤ 7 * j + 6 := by omega
    congr 1
    · rw [List.getD_append_right _ _ _ _ h6, hr, Nat.add_sub_cancel]
    · rw [List.drop_append_eq_append_drop, List.drop_of_length_le (by omega)]
      simp [hr]

theorem segmentData_elems (tags : FieldTag) (spare : List Nat) :
    ∀ (m : Nat) (pre rest : List Nat) (i : Nat) (shift : Int),
      pre.length = 7 * i → 7 * m ≤ rest.length →
      DecodeValue.elems (fun d e => (Layout.struct SegmentData.layout).decode d e tags)
          (fun e => (Layout.struct SegmentData.layout).Size e false) ⟨pre ++ rest, spare⟩
          (List.replicate m (Layout.struct SegmentData.layout).zero) i shift =
        some ((segmentDataPairs rest m).map SegmentData.toValue, shift + 7 * (m : Int)) := by
  intro m
  induction m with
  | zero => intro pre rest i shift _ _; simp [DecodeValue.elems, segmentDataPairs]
  | succ m ih =>
    intro pre rest i shift hpre hrest
    obtain ⟨id, r, rest', hr, rfl⟩ : ∃ id r rest', r.length = 6 ∧ rest = id :: (r ++ rest') := by
      match rest, hrest with
      | a :: b :: c :: d :: e :: f :: g :: rest', _ =>
        exact ⟨a, [b, c, d, e, f, g], rest', rfl, rfl⟩
    have hz : (Layout.struct SegmentData.layout).zero = .struct [.uint 0, .uint 0] := rfl
    have hsl : ByteSlice.sliceFromInt ⟨pre ++ id :: (r ++ rest'), spare⟩ (7 * (i : Int)) =
        .ok ⟨id :: (r ++ rest'), spare⟩ := by
      have h0 : ¬ (7 * (i : Int) < 0) := by omega
      have h1 : (7 * (i : Int)).toNat = pre.length := by omega
      simp only [ByteSlice.sliceFromInt, h0, if_false, h1]
      simp [ByteSlice.sliceFrom]
    have hrest' : 7 * m ≤ rest'.length := by
      simp only [List.length_cons, List.length_append] at hrest; omega
    have hdata : pre ++ id :: (r ++ rest') = (pre ++ id :: r) ++ rest' := by simp
    have := ih (pre ++ id :: r) rest' (i + 1) (shift + 7) (by simp; omega) hrest'
    rw [← hdata] at this
    rw [List.replicate_succ, hz]
    simp only [DecodeValue.elems, segmentData_size, hsl, segmentData_decode id r rest' spare _ _ tags hr]
    rw [← hz, this, segmentDataPairs_succ id r rest' hr]
    simp [SegmentData.toValue]; ring

theorem segmentDataPairs_length (rest : List Nat) (m : Nat) :
    (segmentDataPairs rest m).length = m := by
  simp [segmentDataPairs]

theorem decode_struct (fields : Fields) (data : ByteSlice) (vals : List Value) (tags : FieldTag) :
    (Layout.struct fields).decode data (.struct vals) tags =
      (match fields.decode fields data vals 0 0 with
        | .done v1 shift false => DecodeValue.finish (.struct fields) v1 shift
        | r => r) := by
  rw [Layout.decode]

theorem decode_slice (elem : Layout) (data : ByteSlice) (v : Value) (tags : FieldTag)
    (n : Nat) (h : tags.get? (str "size") = some (n : Int)) :
    (Layout.slice elem).decode data v tags =
      (match DecodeValue.elems (fun d e => elem.decode d e tags) (fun e => elem.Size e false)
          data (List.replicate n elem.zero) 0 0 with
        | none => .panic
        | some (vs1, shift) => DecodeValue.finish (.slice elem) (.list vs1) shift) := by
  have hneg : ¬ ((n : Int) < 0) := by omega
  rw [Layout.decode]
  simp only [h, hneg, if_false, Int.toNat_ofNat]

theorem decode_uint8 (b : Nat) (rest spare : List Nat) (v : Value) (tags : FieldTag) :
    Layout.uint8.decode ⟨b :: rest, spare⟩ v tags = .done (.uint b) 1 false := by
  rw [Layout.decode]
  rfl

theorem fields_decode_cons (name tag : List Nat) (typ : Layout) (rest all : Fields)
    (data : ByteSlice) (vals : List Value) (i : Nat) (shift : Int) :
    Fields.decode (.cons name tag typ rest) all data vals i shift =
      (match ParseTag tag all vals with
        | .panic => .panic
        | .done tags _ =>
          match data.sliceFromInt shift with
          | .ok d =>
            match (if isExported name then typ.decode d (vals.getD i default) tags
                   else DecodeValue.notSettable (vals.getD i default) tags) with
            | .panic => .panic
            | .done v1 size err =>
              if err then .done (.struct (vals.set i v1)) (-1) true
              else rest.decode all data (vals.set i v1) (i + 1) (shift + size)
          | _ => .panic) := by
  rw [Fields.decode]

theorem fields_decode_nil (all : Fields) (data : ByteSlice) (vals : List Value) (i : Nat)
    (shift : Int) : Fields.decode .nil all data vals i shift = .done (.struct vals) shift false := by
  rw [Fields.decode]

theorem segmentDataL1Reg_decode (n : Nat) (rest spare : List Nat) (a b : Value)
    (tags : FieldTag) (hlen : 7 * n ≤ rest.length) :
    (Layout.struct SegmentDataL1Reg.layout).decode ⟨n :: rest, spare⟩ (.struct [a, b]) tags =
      .done (.struct [.uint n, .list ((segmentDataPairs rest n).map SegmentData.toValue)])
        (1 + 7 * (n : Int)) false := by
  have he1 : isExported (str "Num") = true := by decide
  have he2 : isExported (str "Data") = true := by decide
  have hs0 : ByteSlice.sliceFromInt ⟨n :: rest, spare⟩ 0 = .ok ⟨n :: rest, spare⟩ := by
    simp [ByteSlice.sliceFromInt, ByteSlice.sliceFrom]
  have hs1 : ByteSlice.sliceFromInt ⟨n :: rest, spare⟩ (0 + 1) = .ok ⟨rest, spare⟩ := by
    simp [ByteSlice.sliceFromInt, ByteSlice.sliceFrom]
  have hsz : GoMap.get? [(str "size", (n : Int))] (str "size") = some (n : Int) := by
    simp [GoMap.get?]
  have hel := segmentData_elems [(str "size", (n : Int))] spare n [] rest 0 0 (by simp) hlen
  simp only [List.nil_append] at hel
  have hne : ¬ (0 + 1 + (0 + 7 * (n : Int)) = -1) := by omega
  have hne2 : ¬ (0 + 7 * (n : Int) = -1) := by omega
  rw [decode_struct]
  simp only [SegmentDataL1Reg.layout, fields_decode_cons, fields_decode_nil, parseTag_empty,
    he1, he2, if_true, hs0, decode_uint8, List.set_cons_zero]
  rw [← SegmentDataL1Reg.layout.eq_1, parseTag_sizeNum]
  simp only [hs1, List.getD_cons_succ, List.getD_cons_zero,
    decode_slice _ _ _ _ n hsz, hel, DecodeValue.finish, hne2, if_false, Bool.false_eq_true,
    List.set_cons_succ, List.set_cons_zero, hne]
  congr 1
  ring

theorem segmentData_ofValue_toValue (l : List SegmentData) :
    (l.map SegmentData.toValue).mapM SegmentData.ofValue = some l := by
  induction l with
  | nil => rfl
  | cons x l ih =>
    rw [List.map_cons, List.mapM_cons, ih]
    rfl

theorem segmentDataPairs_get (rest : List Nat) (n i : Nat) (hi : i < n) (d0 : Nat) :
    (segmentDataPairs rest n)[i]? =
      some ⟨(d0 :: rest).getD (1 + 7 * i) 0, beUint (((d0 :: rest).drop (2 + 7 * i)).take 6)⟩ := by
  have h1 : 1 + 7 * i = (7 * i) + 1 := by omega
  have h2 : 2 + 7 * i = (7 * i + 1) + 1 := by omega
  rw [h1, h2, List.getD_cons_succ, List.drop_succ_cons]
  simp [segmentDataPairs, List.getElem?_map, List.getElem?_range hi]

/-! ## Properties: structs and sized sequences -/

/-- C16: on data d with d[0] = n and at least 1 + 7n bytes, `DecodeValue` on a settable
`SegmentDataL1Reg` sets Num = n and Data to exactly n pairs, pair i having Id = d[1+7i] and
RBA = the big-endian value of d[2+7i .. 7+7i], and returns 1 + 7n; the length of the sequence
is the value of the sibling field Num decoded just before. -/
theorem decodeValue_segmentDataL1Reg (n : Nat) (rest spare : List Nat) (a b : Value)
    (tags : FieldTag) (hlen : 7 * n ≤ rest.length) :
    ∃ v, DecodeValue (.struct SegmentDataL1Reg.layout) ⟨n :: rest, spare⟩ (.struct [a, b]) true
          tags = .done v (1 + 7 * (n : Int)) false ∧
      SegmentDataL1Reg.ofValue v = some ⟨n, segmentDataPairs rest n⟩ ∧
      (segmentDataPairs rest n).length = n ∧
      ∀ i < n, (segmentDataPairs rest n)[i]? =
        some ⟨(n :: rest).getD (1 + 7 * i) 0,
          beUint (((n :: rest).drop (2 + 7 * i)).take 6)⟩ := by
  refine ⟨.struct [.uint n, .list ((segmentDataPairs rest n).map SegmentData.toValue)], ?_, ?_,
    segmentDataPairs_length rest n,
    fun i hi => segmentDataPairs_get rest n i hi n⟩
  · simp only [DecodeValue, if_true]
    exact segmentDataL1Reg_decode n rest spare a b tags hlen
  · simp only [SegmentDataL1Reg.ofValue, segmentData_ofValue_toValue, Option.map_some']

/-- C16, witness: the count 2 followed by the pairs (1, 0x1000) and (2, 0x2000). -/
theorem decodeValue_segmentDataL1Reg_witness :
    ∃ v, DecodeValue (.struct SegmentDataL1Reg.layout)
          ⟨[2, 1, 0, 0, 0, 0, 0x10, 0x00, 2, 0, 0, 0, 0, 0x20, 0x00], []⟩
          (.struct [.uint 0, .list []]) true [] = .done v 15 false ∧
      SegmentDataL1Reg.ofValue v = some ⟨2, [⟨1, 0x1000⟩, ⟨2, 0x2000⟩]⟩ := by
  obtain ⟨v, h1, h2, _⟩ := decodeValue_segmentDataL1Reg 2
    [1, 0, 0, 0, 0, 0x10, 0x00, 2, 0, 0, 0, 0, 0x20, 0x00] [] (.uint 0) (.list []) []
    (by decide)
  exact ⟨v, h1, h2.trans (by decide)⟩

/-! ## Lemmas: template descriptors -/

theorem bytes_elems (dec : ByteSlice → Value → DecodeRes) (size : Value → Option Int)
    (spare : List Nat) (z : Value) (hsize : ∀ e, size e = some 1)
    (hdec : ∀ b r e, dec ⟨b :: r, spare⟩ e = .done (.uint b) 1 false) :
    ∀ (m : Nat) (pre rest : List Nat) (i : Nat) (shift : Int),
      pre.length = i → m ≤ rest.length →
      DecodeValue.elems dec size ⟨pre ++ rest, spare⟩ (List.replicate m z) i shift =
        some ((rest.take m).map Value.uint, shift + (m : Int)) := by
  intro m
  induction m with
  | zero => intro pre rest i shift _ _; simp [DecodeValue.elems]
  | succ m ih =>
    intro pre rest i shift hpre hrest
    match rest, hrest with
    | b :: rest', hrest =>
      have hsl : ByteSlice.sliceFromInt ⟨pre ++ b :: rest', spare⟩ (1 * (i : Int)) =
          .ok ⟨b :: rest', spare⟩ := by
        have h0 : ¬ (1 * (i : Int) < 0) := by omega
        have h1 : (1 * (i : Int)).toNat = pre.length := by omega
        simp only [ByteSlice.sliceFromInt, h0, if_false, h1]
        simp [ByteSlice.sliceFrom]
      have hdata : pre ++ b :: rest' = (pre ++ [b]) ++ rest' := by simp
      have := ih (pre ++ [b]) rest' (i + 1) (shift + 1) (by simp; omega)
        (by simpa using hrest)
      rw [← hdata] at this
      rw [List.replicate_succ]
      simp only [DecodeValue.elems, hsize, hsl, hdec, this]
      simp only [List.take_succ_cons, List.map_cons, Nat.cast_add, Nat.cast_one]
      congr 2
      ring

theorem parseTag_size8 (fields : Fields) (vals : List Value) :
    ParseTag (str "size=8") fields vals = .done [(str "size", 8)] false := by
  rfl

theorem parseTag_size1 (fields : Fields) (vals : List Value) :
    ParseTag (str "size=1") fields vals = .done [(str "size", 1)] false := by
  rfl

theorem decode_uint32 (a b c d : Nat) (rest spare : List Nat) (v : Value) (tags : FieldTag) :
    Layout.uint32.decode ⟨a :: b :: c :: d :: rest, spare⟩ v tags =
      .done (.uint (beUint [a, b, c, d])) 4 false := by
  rw [Layout.decode]
  simp [ByteSlice.beRead, DecodeValue.finish, Layout.Size]

theorem templateField_size (vals : List Value) :
    (Layout.struct TemplateField.layout).Size (.struct vals) false = some 17 := by
  rfl

theorem templateField_decode (b0 b1 b2 b3 b4 b5 b6 b7 b8 b9 b10 b11 b12 b13 b14 b15 b16 : Nat)
    (rest spare : List Nat) :
    TemplateField.layout.decode TemplateField.layout
        ⟨b0 :: b1 :: b2 :: b3 :: b4 :: b5 :: b6 :: b7 :: b8 :: b9 :: b10 :: b11 :: b12 :: b13 ::
          b14 :: b15 :: b16 :: rest, spare⟩ TemplateField.layout.zero 0 0 =
      .done (.struct [.list ([b0, b1, b2, b3, b4, b5, b6, b7].map Value.uint), .uint b8,
        .uint b9, .uint b10, .uint 0, .uint (beUint [b12, b13, b14, b15]), .uint b16]) 17
        false := by
  have hz : TemplateField.layout.zero =
      [.list [], .uint 0, .uint 0, .uint 0, .uint 0, .uint 0, .uint 0] := rfl
  have hsz : ∀ e : Value, Layout.uint8.Size e false = some 1 := fun e => by
    rw [Layout.Size]
  have hel := bytes_elems (fun d e => Layout.uint8.decode d e [(str "size", 8)])
    (fun e => Layout.uint8.Size e false) spare Layout.uint8.zero hsz (fun b r e => decode_uint8 b r spare e _) 8 []
    (b0 :: b1 :: b2 :: b3 :: b4 :: b5 :: b6 :: b7 :: b8 :: b9 :: b10 :: b11 :: b12 :: b13 ::
          b14 :: b15 :: b16 :: rest) 0 0 rfl (by simp)
  simp only [List.nil_append] at hel
  have hsz8 : GoMap.get? [(str "size", (8 : Int))] (str "size") = some ((8 : Nat) : Int) := by
    decide
  have hsz1 : GoMap.get? [(str "size", (1 : Int))] (str "size") = some 1 := by decide
  have he : isExported (str "Name") = true ∧ isExported (str "ID") = true ∧
      isExported (str "Flag1") = true ∧ isExported (str "Flag2") = true ∧
      isExported (str "_") = false ∧ isExported (str "Len") = true ∧
      isExported (str "DefaultValue") = true :=
    ⟨by decide, by decide, by decide, by decide, by decide, by decide, by decide⟩
  have hs0 : ∀ d : ByteSlice, d.sliceFromInt 0 = .ok d := fun d => by
    simp [ByteSlice.sliceFromInt, ByteSlice.sliceFrom]
  rw [hz]
  simp only [TemplateField.layout, fields_decode_cons, fields_decode_nil, parseTag_empty,
    parseTag_size8, parseTag_size1, he, if_true, hs0, List.getD_cons_zero,
    decode_slice _ _ _ _ 8 hsz8, hel]
  simp [DecodeValue.finish, decode_uint8, decode_uint32,
    DecodeValue.notSettable, hsz1, ByteSlice.sliceFromInt, ByteSlice.sliceFrom]

theorem toBytes_map_uint (l : List Nat) : (Value.list (l.map Value.uint)).toBytes = l := by
  induction l with
  | nil => rfl
  | cons x l ih => simp_all [Value.toBytes]

theorem templateField_unmarshal_short (data : ByteSlice) (h : data.bytes.length < 17) :
    TemplateField.UnmarshalBinary data = .err := by
  have hs := templateField_size TemplateField.layout.zero
  have hlt : ((data.bytes.length : Nat) : Int) < 17 := by omega
  simp only [TemplateField.UnmarshalBinary, unmarshalFields, hs, hlt, if_true]
  rfl

theorem exists_cons_of_succ_le {n : Nat} (l : List Nat) (h : n + 1 ≤ l.length) :
    ∃ b r, l = b :: r ∧ n ≤ r.length := by
  cases l with
  | nil => simp at h
  | cons b r => exact ⟨b, r, rfl, by simpa using h⟩

theorem templateField_decode_ge (data : ByteSlice) (h : 17 ≤ data.bytes.length) :
    ∃ vals, TemplateField.layout.decode TemplateField.layout data TemplateField.layout.zero 0 0 =
        .done (.struct vals) 17 false ∧
      TemplateField.ofValues vals = some (TemplateField.ofBytes data.bytes) := by
  obtain ⟨bytes, spare⟩ := data
  simp only at h
  obtain ⟨b0, l0, rfl, h0⟩ := exists_cons_of_succ_le bytes h
  obtain ⟨b1, l1, rfl, h1⟩ := exists_cons_of_succ_le l0 h0
  obtain ⟨b2, l2, rfl, h2⟩ := exists_cons_of_succ_le l1 h1
  obtain ⟨b3, l3, rfl, h3⟩ := exists_cons_of_succ_le l2 h2
  obtain ⟨b4, l4, rfl, h4⟩ := exists_cons_of_succ_le l3 h3
  obtain ⟨b5, l5, rfl, h5⟩ := exists_cons_of_succ_le l4 h4
  obtain ⟨b6, l6, rfl, h6⟩ := exists_cons_of_succ_le l5 h5
  obtain ⟨b7, l7, rfl, h7⟩ := exists_cons_of_succ_le l6 h6
  obtain ⟨b8, l8, rfl, h8⟩ := exists_cons_of_succ_le l7 h7
  obtain ⟨b9, l9, rfl, h9⟩ := exists_cons_of_succ_le l8 h8
  obtain ⟨b10, l10, rfl, h10⟩ := exists_cons_of_succ_le l9 h9
  obtain ⟨b11, l11, rfl, h11⟩ := exists_cons_of_succ_le l10 h10
  obtain ⟨b12, l12, rfl, h12⟩ := exists_cons_of_succ_le l11 h11
  obtain ⟨b13, l13, rfl, h13⟩ := exists_cons_of_succ_le l12 h12
  obtain ⟨b14, l14, rfl, h14⟩ := exists_cons_of_succ_le l13 h13
  obtain ⟨b15, l15, rfl, h15⟩ := exists_cons_of_succ_le l14 h14
  obtain ⟨b16, l16, rfl, h16⟩ := exists_cons_of_succ_le l15 h15
  refine ⟨_, templateField_decode _ _ _ _ _ _ _ _ _ _ _ _ _ _ _ _ _ _ _, ?_⟩
  simp only [TemplateField.ofValues, toBytes_map_uint, TemplateField.ofBytes]
  rfl

theorem templateField_unmarshal (data : ByteSlice) (h : 17 ≤ data.bytes.length) :
    TemplateField.UnmarshalBinary data = .ok (TemplateField.ofBytes data.bytes) := by
  obtain ⟨vals, hdec, hval⟩ := templateField_decode_ge data h
  have hs := templateField_size TemplateField.layout.zero
  have hlt : ¬ ((data.bytes.length : Nat) : Int) < 17 := by omega
  simp only [TemplateField.UnmarshalBinary, unmarshalFields, hs, hlt, if_false, hdec, Res.bind,
    hval]

theorem templateField_ofBytes_take (l : List Nat) (n : Nat) (h : 17 ≤ n) :
    TemplateField.ofBytes (l.take n) = TemplateField.ofBytes l := by
  have h8 : min 8 n = 8 := by omega
  have h4 : min 4 (n - 12) = 4 := by omega
  simp only [TemplateField.ofBytes, List.take_take, h8, List.drop_take, h4]
  have hg : ∀ i, i < 17 → (l.take n).getD i 0 = l.getD i 0 := by
    intro i hi
    simp only [List.getD_eq_getElem?_getD]
    rw [List.getElem?_take_of_lt (by omega)]
  rw [hg 8 (by omega), hg 9 (by omega), hg 10 (by omega), hg 16 (by omega)]

theorem template_loop (data : ByteSlice) :
    ∀ (k fuel ptr : Nat) (tmp : Template), k ≤ fuel →
      ptr + 17 * k ≤ data.bytes.length + data.spare.length →
      data.bytes.length ≤ ptr + 17 * k → (k ≠ 0 → ptr + 17 * (k - 1) < data.bytes.length) →
      Template.UnmarshalBinary.loop TemplateField.UnmarshalBinary data fuel ptr tmp =
        some (tmp ++ Template.ofBytes ((data.bytes ++ data.spare).drop ptr) k, false) := by
  intro k
  induction k with
  | zero =>
    intro fuel ptr tmp _ _ hlen _
    have hn : ¬ ptr < data.bytes.length := by omega
    cases fuel with
    | zero => simp [Template.UnmarshalBinary.loop, Template.ofBytes]
    | succ f => simp [Template.UnmarshalBinary.loop, Template.ofBytes, hn]
  | succ k ih =>
    intro fuel ptr tmp hf hcap hlen hlast
    cases fuel with
    | zero => omega
    | succ f =>
      have hp : ptr < data.bytes.length := by
        have := hlast (by omega)
        simp only [Nat.add_sub_cancel] at this
        omega
      have hsl : data.slice ptr (ptr + TEMPLATE_SIZE) =
          .ok ⟨((data.bytes ++ data.spare).take (ptr + 17)).drop ptr,
            (data.bytes ++ data.spare).drop (ptr + 17)⟩ := by
        have : ptr ≤ ptr + 17 ∧ ptr + 17 ≤ data.bytes.length + data.spare.length := by omega
        simp only [ByteSlice.slice, TEMPLATE_SIZE, this, and_self, if_true]
      have hlen17 : 17 ≤ (((data.bytes ++ data.spare).take (ptr + 17)).drop ptr).length := by
        simp only [List.length_drop, List.length_take, List.length_append]
        omega
      have hf1 := templateField_unmarshal
        ⟨((data.bytes ++ data.spare).take (ptr + 17)).drop ptr,
          (data.bytes ++ data.spare).drop (ptr + 17)⟩ hlen17
      have hch : ((data.bytes ++ data.spare).take (ptr + 17)).drop ptr =
          ((data.bytes ++ data.spare).drop ptr).take 17 := by
        rw [List.drop_take]
        congr 1
        omega
      have hrec := ih f (ptr + 17) (tmp ++ [TemplateField.ofBytes
        ((data.bytes ++ data.spare).drop ptr)]) (by omega) (by omega) (by omega)
        (fun hk => by
          have := hlast (by omega)
          simp only [Nat.add_sub_cancel] at this
          have : 17 * (k - 1) + 17 = 17 * k := by
            cases k with
            | zero => exact absurd rfl hk
            | succ k => simp only [Nat.add_sub_cancel]; ring
          omega)
      rw [Template.UnmarshalBinary.loop]
      simp only [hch] at hf1 hsl
      rw [templateField_ofBytes_take _ 17 (le_refl _)] at hf1
      simp only [hp, if_true, hsl, hf1]
      rw [show ptr + TEMPLATE_SIZE = ptr + 17 from rfl, hrec]
      simp only [Template.ofBytes, List.range_succ_eq_map, List.map_cons, List.map_map,
        List.append_assoc, List.singleton_append, Nat.mul_zero, List.drop_zero,
        List.drop_drop]
      congr 3
      rw [Nat.add_zero]
      congr 1
      apply List.map_congr_left
      intro j _
      simp only [Function.comp]
      congr 2
      rw [Nat.succ_eq_add_one]
      ring

theorem template_unmarshal (data : ByteSlice) (tmp : Template) (k : Nat)
    (hcap : 17 * k ≤ data.bytes.length + data.spare.length)
    (hlen : data.bytes.length ≤ 17 * k) (hlast : k ≠ 0 → 17 * (k - 1) < data.bytes.length) :
    Template.UnmarshalBinary tmp data =
      some (tmp ++ Template.ofBytes (data.bytes ++ data.spare) k, false) := by
  have hk : k ≤ data.bytes.length := by
    cases k with
    | zero => omega
    | succ k =>
      have := hlast (by omega)
      simp only [Nat.add_sub_cancel] at this
      omega
  have := template_loop data k data.bytes.length 0 tmp hk (by omega) (by omega)
    (fun h => by have := hlast h; omega)
  simpa [Template.UnmarshalBinary] using this

theorem template_ofBytes_append_left (x y : List Nat) (k : Nat) (h : 17 * k ≤ x.length) :
    Template.ofBytes (x ++ y) k = Template.ofBytes x k := by
  simp only [Template.ofBytes]
  apply List.map_congr_left
  intro j hj
  have hj1 : j < k := List.mem_range.mp hj
  have hle : 17 * j ≤ x.length := by nlinarith
  rw [← templateField_ofBytes_take _ 17 (le_refl _),
    ← templateField_ofBytes_take (List.drop (17 * j) x) 17 (le_refl _)]
  congr 1
  rw [List.drop_append_of_le_length hle, List.take_append_of_le_length]
  simp only [List.length_drop]
  have : 17 * j + 17 ≤ 17 * k := by nlinarith
  omega

theorem template_ofBytes_add (x y : List Nat) (m n : Nat) (h : x.length = 17 * m) :
    Template.ofBytes (x ++ y) (m + n) = Template.ofBytes x m ++ Template.ofBytes y n := by
  rw [← template_ofBytes_append_left x y m (by omega)]
  simp only [Template.ofBytes, List.range_add, List.map_append, List.map_map]
  congr 1
  apply List.map_congr_left
  intro j _
  simp only [Function.comp]
  congr 1
  rw [Nat.mul_add, ← h, ← List.drop_drop, List.drop_left]

theorem template_ofBytes_length (x : List Nat) (k : Nat) : (Template.ofBytes x k).length = k := by
  simp [Template.ofBytes]

theorem template_name_ofBytes (x : List Nat) (k : Nat) (hk : 0 < k) :
    ∃ name, Template.Name (Template.ofBytes x k) = .ok name := by
  cases k with
  | zero => omega
  | succ k =>
    simp only [Template.ofBytes, List.range_succ_eq_map, List.map_cons, Template.Name]
    exact ⟨_, rfl⟩

/-! ## Properties: template descriptors -/

/-- C19: `TemplateField.UnmarshalBinary` returns an error exactly on inputs of fewer than 17
bytes; on an input b of at least 17 bytes it returns Name = b[0..7], ID = b[8], Flag1 = b[9],
Flag2 = b[10], Len = the big-endian value of b[12..15] and DefaultValue = b[16], the byte
b[11] having no influence, and the field loop ends with its cursor at 17, the `Size` of the
record. -/
theorem templateField_unmarshalBinary (data : ByteSlice) :
    (TemplateField.UnmarshalBinary data = .err ↔ data.bytes.length < 17) ∧
    (17 ≤ data.bytes.length →
      TemplateField.UnmarshalBinary data =
        .ok ⟨data.bytes.take 8, data.bytes.getD 8 0, data.bytes.getD 9 0, data.bytes.getD 10 0,
          beUint ((data.bytes.drop 12).take 4), data.bytes.getD 16 0⟩ ∧
      ∃ vals, TemplateField.layout.decode TemplateField.layout data TemplateField.layout.zero
        0 0 = .done (.struct vals) 17 false) ∧
    (Layout.struct TemplateField.layout).Size (.struct TemplateField.layout.zero) false =
      some 17 := by
  refine ⟨⟨fun h => ?_, templateField_unmarshal_short data⟩, fun h => ⟨?_, ?_⟩,
    templateField_size _⟩
  · by_contra hlt
    rw [templateField_unmarshal data (by omega)] at h
    exact absurd h (by simp)
  · rw [templateField_unmarshal data h]
    rfl
  · obtain ⟨vals, hdec, _⟩ := templateField_decode_ge data h
    exact ⟨vals, hdec⟩

/-- C19, witness: the 17 bytes C3 40 40 40 40 40 40 40 03 00 00 00 00 00 00 02 00 give the
descriptor named "C" with ID 3 and Len 2; three bytes give an error. -/
theorem templateField_unmarshalBinary_witness :
    TemplateField.UnmarshalBinary Fixture.tmplRegionB =
      .ok ⟨[0xC3, 0x40, 0x40, 0x40, 0x40, 0x40, 0x40, 0x40], 3, 0, 0, 2, 0⟩ ∧
    TemplateField.UnmarshalBinary ⟨[1, 2, 3], []⟩ = .err :=
  ⟨((templateField_unmarshalBinary Fixture.tmplRegionB).2.1 (by decide)).1,
   (templateField_unmarshalBinary ⟨[1, 2, 3], []⟩).1.2 (by decide)⟩

/-- C20, as stated, fails: for a region of 18 bytes and a region of 17 bytes under the same
template number, the template directory loop builds 3 descriptors, not (18 + 17) / 17 = 2, and
the three descriptors differ from those of the two regions parsed as one region: a region
whose length is no multiple of 17 yields a last descriptor read from the bytes that follow
it. -/
theorem templateLoop_merge_counterexample :
    ParseRACF.templateLoop Fixture.tmplFile [Fixture.tmplEntry1, Fixture.tmplEntry2] ⟨[], []⟩ =
      .ok ⟨[(1, Fixture.tmplMerged)], [(1, str "A")]⟩ ∧
    Template.UnmarshalBinary [] Fixture.tmplJoined = some (Fixture.tmplSingle, false) ∧
    Fixture.tmplMerged ≠ Fixture.tmplSingle ∧
    Fixture.tmplMerged.length = 3 ∧ (18 + 17) / 17 = 2 :=
  ⟨by decide, by decide, by decide, by decide, by decide⟩

/-- C20 (amended): for two directory entries with the same template number whose regions a
and b have lengths that are positive multiples of 17, the template directory loop of
`ParseRACF` stores under that number the descriptors parsed from a followed by those parsed
from b; this is the descriptor list that `Template.UnmarshalBinary` returns on the single
region a followed by b, and it has (L1 + L2) / 17 descriptors. -/
theorem templateLoop_merge (data a b : ByteSlice) (e1 e2 : DEFNS) (m n : Nat)
    (h1 : e1.ICTMPRBA ≠ 0) (h2 : e2.ICTMPRBA ≠ 0) (hnum : e1.ICTMPN = e2.ICTMPN)
    (ha : data.slice e1.ICTMPRBA (e1.ICTMPRBA + e1.ICTMPL) = .ok a)
    (hb : data.slice e2.ICTMPRBA (e2.ICTMPRBA + e2.ICTMPL) = .ok b)
    (hm : a.bytes.length = 17 * (m + 1)) (hn : b.bytes.length = 17 * (n + 1)) :
    ∃ ta tb name,
      Template.UnmarshalBinary [] a = some (ta, false) ∧
      Template.UnmarshalBinary [] b = some (tb, false) ∧
      ParseRACF.templateLoop data [e1, e2] ⟨[], []⟩ =
        .ok ⟨[(e1.ICTMPN, ta ++ tb)], [(e1.ICTMPN, name)]⟩ ∧
      (∀ tmp spare, Template.UnmarshalBinary tmp ⟨a.bytes ++ b.bytes, spare⟩ =
        some (tmp ++ (ta ++ tb), false)) ∧
      (ta ++ tb).length = (a.bytes.length + b.bytes.length) / 17 := by
  have hta := template_unmarshal a [] (m + 1) (by omega) (by omega)
    (fun _ => by simp only [Nat.add_sub_cancel]; omega)
  have htb := template_unmarshal b [] (n + 1) (by omega) (by omega)
    (fun _ => by simp only [Nat.add_sub_cancel]; omega)
  rw [template_ofBytes_append_left _ _ _ (by omega), List.nil_append] at hta htb
  obtain ⟨name, hname⟩ := template_name_ofBytes a.bytes (m + 1) (by omega)
  obtain ⟨name2, hname2⟩ := template_name_ofBytes b.bytes (n + 1) (by omega)
  refine ⟨_, _, name, hta, htb, ?_, ?_, ?_⟩
  · simp only [ParseRACF.templateLoop, h1, h2, if_false, ha, hb, hta, htb, hname, hname2,
      ← hnum]
    simp [ByteMap.get?, ByteMap.set]
  · intro tmp spare
    have := template_unmarshal ⟨a.bytes ++ b.bytes, spare⟩ tmp (m + 1 + (n + 1))
      (by simp only [List.length_append]; omega) (by simp only [List.length_append]; omega)
      (fun _ => by simp only [List.length_append]; omega)
    rw [this, template_ofBytes_append_left _ _ _ (by simp only [List.length_append]; omega),
      template_ofBytes_add _ _ _ _ hm]
  · simp only [List.length_append, template_ofBytes_length, hm, hn]
    omega

/-- C20, witness: the regions of 17 bytes at the offsets 1 and 35 of the file image, both
under template number 1. -/
theorem templateLoop_merge_witness :
    Fixture.tmplFile.slice 1 (1 + 17) = .ok Fixture.tmplRegionA ∧
    Fixture.tmplFile.slice 35 (35 + 17) = .ok Fixture.tmplRegionB ∧
    ∃ ta tb name,
      Template.UnmarshalBinary [] Fixture.tmplRegionA = some (ta, false) ∧
      Template.UnmarshalBinary [] Fixture.tmplRegionB = some (tb, false) ∧
      ParseRACF.templateLoop Fixture.tmplFile [Fixture.tmplEntry0, Fixture.tmplEntry2]
          ⟨[], []⟩ = .ok ⟨[(1, ta ++ tb)], [(1, name)]⟩ ∧
      (∀ tmp spare, Template.UnmarshalBinary tmp
          ⟨Fixture.tmplRegionA.bytes ++ Fixture.tmplRegionB.bytes, spare⟩ =
        some (tmp ++ (ta ++ tb), false)) ∧
      (ta ++ tb).length =
        (Fixture.tmplRegionA.bytes.length + Fixture.tmplRegionB.bytes.length) / 17 :=
  ⟨by decide, by decide,
   templateLoop_merge Fixture.tmplFile Fixture.tmplRegionA Fixture.tmplRegionB
    Fixture.tmplEntry0 Fixture.tmplEntry2 0 0 (by decide) (by decide) (by decide) (by decide)
    (by decide) (by decide) (by decide)⟩

/-! ## Lemmas: sequences without a size, tag parsing -/

theorem finish_not_err (t : Layout) (v : Value) (shift : Int) (v1 : Value) (s : Int) :
    DecodeValue.finish t v shift ≠ .done v1 s true := by
  unfold DecodeValue.finish
  split
  · split <;> simp
  · simp

theorem fields_decode_append : ∀ (pre post all : Fields) (data : ByteSlice) (vals : List Value)
    (i : Nat) (shift : Int) (vals1 : List Value) (shift1 : Int),
    pre.decode all data vals i shift = .done (.struct vals1) shift1 false →
    ∃ i1, (pre.append post).decode all data vals i shift = post.decode all data vals1 i1 shift1
  | .nil, post, all, data, vals, i, shift, vals1, shift1, h => by
    rw [Fields.decode] at h
    injection h with h1 h2 h3
    injection h1 with h1
    subst h1 h2
    exact ⟨i, rfl⟩
  | .cons name tag typ rest, post, all, data, vals, i, shift, vals1, shift1, h => by
    rw [Fields.decode] at h
    rw [Fields.append, Fields.decode]
    cases hp : ParseTag tag all vals with
    | panic => rw [hp] at h; simp at h
    | done ft e =>
      rw [hp] at h
      simp only at h ⊢
      cases hs : data.sliceFromInt shift with
      | ok d =>
        rw [hs] at h
        simp only at h ⊢
        cases hd : (if isExported name then typ.decode d (vals.getD i default) ft
               else DecodeValue.notSettable (vals.getD i default) ft) with
        | panic => rw [hd] at h; simp at h
        | done v1 size err =>
          rw [hd] at h
          simp only at h ⊢
          cases err with
          | true => simp at h
          | false =>
            simp only [Bool.false_eq_true, if_false] at h ⊢
            exact fields_decode_append rest post all data _ _ _ vals1 shift1 h
      | err => rw [hs] at h; simp at h
      | panic => rw [hs] at h; simp at h

theorem slice_err_iff (elem : Layout) (data : ByteSlice) (v : Value) (tags : FieldTag) :
    (∃ v1 s, DecodeValue (.slice elem) data v true tags = .done v1 s true) ↔
      tags.get? (str "size") = none := by
  simp only [DecodeValue, if_true]
  rw [Layout.decode]
  cases h : tags.get? (str "size") with
  | none => simp
  | some size =>
    simp only [reduceCtorEq, iff_false, not_exists]
    intro v1 s
    split
    · simp
    · split
      · simp
      · exact finish_not_err _ _ _ _ _

theorem goMap_find_filter {α : Type} (m : GoMap α) (k k1 : List Nat) (h : ¬ k1 = k) :
    (m.filter (fun e => e.1 != k)).find? (fun e => e.1 == k1) =
      m.find? (fun e => e.1 == k1) := by
  induction m with
  | nil => rfl
  | cons e m ih =>
    by_cases he : e.1 = k
    · have h2 : (e.1 == k1) = false := by
        simp only [beq_eq_false_iff_ne, ne_eq]
        exact fun e1 => h (e1.symm.trans he)
      have h3 : (e.1 != k) = false := by simp [he]
      rw [List.filter_cons, h3, List.find?_cons, h2]
      simpa using ih
    · have h3 : (e.1 != k) = true := by simp [he]
      rw [List.filter_cons, h3]
      simp only [if_true, List.find?_cons, ih]

theorem goMap_get_set {α : Type} (m : GoMap α) (k k1 : List Nat) (v : α) :
    (m.set k v).get? k1 = if k1 = k then some v else m.get? k1 := by
  unfold GoMap.set GoMap.get?
  by_cases h : k1 = k
  · subst h
    simp
  · have hb : (k == k1) = false := by
      simp only [beq_eq_false_iff_ne, ne_eq]
      exact fun e => h e.symm
    rw [List.find?_cons]
    simp only [hb, h, if_false, goMap_find_filter m k k1 h]

theorem split_plain (sep : Nat) (s : List Nat) (h : ∀ c ∈ s, c ≠ sep) : Split sep s = [s] := by
  induction s with
  | nil => rfl
  | cons c s ih =>
    have hc : c ≠ sep := h c (by simp)
    have := ih (fun x hx => h x (by simp [hx]))
    simp [Split, hc, this]

theorem split_append (sep : Nat) (s t : List Nat) (h : ∀ c ∈ s, c ≠ sep) :
    Split sep (s ++ sep :: t) = s :: Split sep t := by
  induction s with
  | nil => simp [Split]
  | cons c s ih =>
    have hc : c ≠ sep := h c (by simp)
    have := ih (fun x hx => h x (by simp [hx]))
    simp [Split, hc, this]

theorem parseDigits_digits (ds : List Nat) (h : ∀ c ∈ ds, 48 ≤ c ∧ c ≤ 57) :
    ∀ acc, parseDigits ds acc = some (ds.foldl (fun acc c => acc * 10 + (c - 48)) acc) := by
  induction ds with
  | nil => intro acc; rfl
  | cons c ds ih =>
    intro acc
    have hc := h c (by simp)
    simp only [parseDigits, hc, and_self, if_true, List.foldl_cons]
    exact ih (fun x hx => h x (by simp [hx])) _

theorem atoi_digits (ds : List Nat) (hne : ds ≠ []) (h : ∀ c ∈ ds, 48 ≤ c ∧ c ≤ 57)
    (hr : decimalValue ds < 2 ^ 63) : Atoi ds = some (decimalValue ds : Int) := by
  cases ds with
  | nil => exact absurd rfl hne
  | cons c rest =>
    have hc := h c (by simp)
    have h45 : ¬ c = 45 := by omega
    have h43 : ¬ c = 43 := by omega
    have hp := parseDigits_digits (c :: rest) h 0
    unfold decimalValue at hr ⊢
    simp only [Atoi, h45, h43, if_false, hp, Option.bind, hr, if_true]

theorem plainText_ne (s : List Nat) (h : plainText s = true) :
    (∀ c ∈ s, c ≠ 44) ∧ (∀ c ∈ s, c ≠ 61) := by
  simp only [plainText, List.all_eq_true, Bool.and_eq_true, bne_iff_ne, ne_eq] at h
  exact ⟨fun c hc => (h c hc).1, fun c hc => (h c hc).2⟩

theorem tagItem_text_ne (root : List ((List Nat × List Nat × Layout) × Value)) (it : TagItem)
    (h : it.wellFormed root = true) : ∀ c ∈ it.text, c ≠ 44 := by
  cases it with
  | bare k =>
    simp only [TagItem.wellFormed] at h
    exact (plainText_ne k h).1
  | lit k d =>
    simp only [TagItem.wellFormed, Bool.and_eq_true, List.all_eq_true, decide_eq_true_eq] at h
    intro c hc
    simp only [TagItem.text, List.mem_append, List.mem_cons] at hc
    rcases hc with hc | hc | hc
    · exact (plainText_ne k h.1.1.1).1 c hc
    · omega
    · have := h.1.2 c hc
      omega
  | field k n =>
    simp only [TagItem.wellFormed, Bool.and_eq_true] at h
    intro c hc
    simp only [TagItem.text, List.mem_append, List.mem_cons] at hc
    rcases hc with hc | hc | hc
    · exact (plainText_ne k h.1.1.1).1 c hc
    · omega
    · exact (plainText_ne n h.1.1.2).1 c hc

theorem split_tagText (root : List ((List Nat × List Nat × Layout) × Value)) :
    ∀ (items : List TagItem), items ≠ [] → (∀ it ∈ items, it.wellFormed root = true) →
      Split 44 (tagText items) = items.map TagItem.text
  | [], hne, _ => absurd rfl hne
  | [it], _, h => by
    simp only [tagText, List.map_cons, List.map_nil]
    exact split_plain 44 _ (tagItem_text_ne root it (h it (by simp)))
  | it :: it2 :: rest, _, h => by
    have ih := split_tagText root (it2 :: rest) (by simp) (fun x hx => h x (by simp [hx]))
    show Split 44 (it.text ++ 44 :: tagText (it2 :: rest)) = _
    rw [split_append 44 _ _ (tagItem_text_ne root it (h it (by simp))), ih]
    rfl

theorem parseTag_step (root : List ((List Nat × List Nat × Layout) × Value)) (it : TagItem)
    (h : it.wellFormed root = true) (fs : List (List Nat)) (ft : FieldTag) :
    ∃ ft1, ParseTag.loop root (it.text :: fs) ft = ParseTag.loop root fs ft1 ∧
      ∀ k, ft1.get? k = if k = it.key then some (it.value root) else ft.get? k := by
  cases it with
  | bare k =>
    simp only [TagItem.wellFormed] at h
    refine ⟨ft.set k 0, ?_, fun k1 => goMap_get_set ft k k1 0⟩
    rw [ParseTag.loop, TagItem.text, split_plain 61 k (plainText_ne k h).2]
  | lit k d =>
    simp only [TagItem.wellFormed, Bool.and_eq_true, List.all_eq_true, decide_eq_true_eq,
      Bool.not_eq_true', List.isEmpty_eq_false] at h
    obtain ⟨⟨⟨hk, hne⟩, hd⟩, hr⟩ := h
    have hdig : ∀ c ∈ d, 48 ≤ c ∧ c ≤ 57 := hd
    have hd61 : ∀ c ∈ d, c ≠ 61 := fun c hc => by have := hdig c hc; omega
    refine ⟨(ft.set k 0).set k (decimalValue d : Int), ?_, fun k1 => ?_⟩
    · rw [ParseTag.loop, TagItem.text, split_append 61 k d (plainText_ne k hk).2,
        split_plain 61 d hd61]
      simp only [atoi_digits d hne hdig hr]
    · rw [goMap_get_set, goMap_get_set]
      by_cases hk1 : k1 = k <;> simp [hk1, TagItem.key, TagItem.value]
  | field k n =>
    simp only [TagItem.wellFormed, Bool.and_eq_true, Option.isNone_iff_eq_none] at h
    obtain ⟨⟨⟨hk, hn⟩, ha⟩, hf⟩ := h
    cases hfind : root.find? (fun e => e.1.1 == n) with
    | none => rw [hfind] at hf; simp at hf
    | some e =>
      obtain ⟨info, val⟩ := e
      rw [hfind] at hf
      cases val with
      | uint v =>
        simp only [Bool.and_eq_true] at hf
        refine ⟨(ft.set k 0).set k (v : Int), ?_, fun k1 => ?_⟩
        · rw [ParseTag.loop, TagItem.text, split_append 61 k n (plainText_ne k hk).2,
            split_plain 61 n (plainText_ne n hn).2]
          simp only [ha, hfind, hf.1, Bool.not_true, Bool.false_eq_true, if_false]
          obtain ⟨nm, tg, ty⟩ := info
          cases ty <;> simp [Layout.isSmallUint] at hf <;> rfl
        · rw [goMap_get_set, goMap_get_set]
          by_cases hk1 : k1 = k <;> simp [hk1, TagItem.key, TagItem.value, hfind]
      | bool b => simp at hf
      | int b => simp at hf
      | list b => simp at hf
      | struct b => simp at hf

theorem parseTag_loop_items (root : List ((List Nat × List Nat × Layout) × Value)) :
    ∀ (items : List TagItem) (ft : FieldTag), (∀ it ∈ items, it.wellFormed root = true) →
      ∃ ft1, ParseTag.loop root (items.map TagItem.text) ft = .done ft1 false ∧
        ∀ k, ft1.get? k =
          match items.reverse.find? (fun it => it.key == k) with
          | some it => some (it.value root)
          | none => ft.get? k := by
  intro items
  induction items with
  | nil =>
    intro ft _
    exact ⟨ft, by rw [List.map_nil, ParseTag.loop], fun k => rfl⟩
  | cons it rest ih =>
    intro ft h
    obtain ⟨ft1, hstep, hget⟩ := parseTag_step root it (h it (by simp)) (rest.map TagItem.text) ft
    obtain ⟨ft2, hloop, hget2⟩ := ih ft1 (fun x hx => h x (by simp [hx]))
    refine ⟨ft2, ?_, fun k => ?_⟩
    · rw [List.map_cons, hstep, hloop]
    · rw [hget2 k, List.reverse_cons, List.find?_append]
      cases hr : rest.reverse.find? (fun it => it.key == k) with
      | some x => rfl
      | none =>
        simp only [Option.none_or, List.find?_cons, List.find?_nil, hget k]
        by_cases hk : k = it.key
        · subst hk; simp
        · have : (it.key == k) = false := by
            simp only [beq_eq_false_iff_ne, ne_eq]
            exact fun e => hk e.symm
          simp [this, hk]

theorem find_reverse_nodup (items : List TagItem) (hnd : (items.map TagItem.key).Nodup)
    (it : TagItem) (hit : it ∈ items) :
    items.reverse.find? (fun x => x.key == it.key) = some it := by
  induction items with
  | nil => simp at hit
  | cons a rest ih =>
    rw [List.map_cons, List.nodup_cons] at hnd
    rw [List.reverse_cons, List.find?_append]
    rcases List.mem_cons.mp hit with rfl | hin
    · have : rest.reverse.find? (fun x => x.key == it.key) = none := by
        rw [List.find?_eq_none]
        intro x hx hk
        simp only [beq_iff_eq] at hk
        exact hnd.1 (hk ▸ List.mem_map_of_mem _ (List.mem_reverse.mp hx))
      simp [this]
    · rw [ih hnd.2 hin]
      rfl

/-! ## Properties: sequences without a size, tag parsing -/

/-- C17: `DecodeValue` on a settable slice returns an error exactly when the tag set has no
`size` key; and when the fields of a struct before such a slice field decode without error,
`DecodeValue` on the struct returns an error as well, with the size -1. -/
theorem decodeValue_slice_missing_size :
    (∀ (elem : Layout) (data : ByteSlice) (v : Value) (tags : FieldTag),
      (∃ v1 s, DecodeValue (.slice elem) data v true tags = .done v1 s true) ↔
        tags.get? (str "size") = none) ∧
    (∀ (pre rest : Fields) (name tag : List Nat) (elem : Layout) (data d : ByteSlice)
        (vals vals1 : List Value) (shift1 : Int) (ft outer : FieldTag) (e : Bool),
      isExported name = true →
      pre.decode (pre.append (.cons name tag (.slice elem) rest)) data vals 0 0 =
        .done (.struct vals1) shift1 false →
      ParseTag tag (pre.append (.cons name tag (.slice elem) rest)) vals1 = .done ft e →
      ft.get? (str "size") = none →
      data.sliceFromInt shift1 = .ok d →
      ∃ v1, DecodeValue (.struct (pre.append (.cons name tag (.slice elem) rest))) data
        (.struct vals) true outer = .done v1 (-1) true) := by
  refine ⟨slice_err_iff, ?_⟩
  intro pre rest name tag elem data d vals vals1 shift1 ft outer e hex hpre htag hsize hd
  obtain ⟨i1, happ⟩ := fields_decode_append pre (.cons name tag (.slice elem) rest)
    (pre.append (.cons name tag (.slice elem) rest)) data vals 0 0 vals1 shift1 hpre
  have hsl : (Layout.slice elem).decode d (vals1.getD i1 default) ft =
      .done (vals1.getD i1 default) (-1) true := by
    rw [Layout.decode, hsize]
  refine ⟨.struct (vals1.set i1 (vals1.getD i1 default)), ?_⟩
  simp only [DecodeValue, if_true]
  rw [decode_struct, happ, fields_decode_cons, htag]
  simp only [hd, hex, if_true, hsl]

/-- C17, witness: a struct with a one-byte field followed by a slice without a tag. -/
theorem decodeValue_slice_missing_size_witness :
    ∃ v1, DecodeValue (.struct Fixture.noSizeLayout) ⟨[1, 2, 3], []⟩
      (.struct [.uint 0, .list []]) true [] = .done v1 (-1) true :=
  decodeValue_slice_missing_size.2 (.cons (str "ID") [] .uint8 .nil) .nil (str "Names") []
    .uint8 ⟨[1, 2, 3], []⟩ ⟨[2, 3], []⟩ [.uint 0, .list []] [.uint 1, .list []] 1
    [([], 0)] [] false (by decide) (by rfl) (by rfl) (by decide) (by decide)

/-- C18, as stated, fails: on a root without a field `Foo` the tag "size=Foo,final" gives the
map {size: 0} together with an error; the bare item `final` that follows is not in the map. -/
theorem parseTag_missing_field_counterexample :
    ParseTag (str "size=Foo,final") .nil [] = .done [(str "size", 0)] true ∧
    GoMap.get? [(str "size", (0 : Int))] (str "final") = none :=
  ⟨by rfl, by decide⟩

/-- C18 (amended): for a tag that is a non-empty comma-separated sequence of items, each a
bare key, a key with a decimal literal in the range of `int`, or a key with the name of an
exported field of the root of kind `uint8`, `uint16` or `uint32`, `ParseTag` returns without
error a map that holds, for each key, the value of the last item with that key (0 for a bare
item, the literal, the current value of the field) and no other key; in particular every
item maps to its value when the keys are pairwise distinct. -/
theorem parseTag_items (fields : Fields) (vals : List Value) (items : List TagItem)
    (hne : items ≠ [])
    (hwf : ∀ it ∈ items, it.wellFormed (fields.toList.zip vals) = true) :
    ∃ ft, ParseTag (tagText items) fields vals = .done ft false ∧
      (∀ k, ft.get? k = (items.reverse.find? (fun it => it.key == k)).map
        (TagItem.value (fields.toList.zip vals))) ∧
      ((items.map TagItem.key).Nodup →
        ∀ it ∈ items, ft.get? it.key = some (it.value (fields.toList.zip vals))) := by
  obtain ⟨ft, hloop, hget⟩ := parseTag_loop_items (fields.toList.zip vals) items [] hwf
  have hget1 : ∀ k, ft.get? k = (items.reverse.find? (fun it => it.key == k)).map
      (TagItem.value (fields.toList.zip vals)) := by
    intro k
    rw [hget k]
    cases items.reverse.find? (fun it => it.key == k) <;> rfl
  refine ⟨ft, ?_, hget1, fun hnd it hit => ?_⟩
  · rw [ParseTag, split_tagText _ items hne hwf, hloop]
  · rw [hget1, find_reverse_nodup items hnd it hit]
    rfl

/-- C18, witness: "size=1,bit=4,final" gives {size: 1, bit: 4, final: 0}, and "size=Num" on a
`SegmentDataL1Reg` whose field Num holds 3 gives {size: 3}. -/
theorem parseTag_items_witness :
    tagText [.lit (str "size") (str "1"), .lit (str "bit") (str "4"), .bare (str "final")] =
      str "size=1,bit=4,final" ∧
    (∃ ft, ParseTag (str "size=1,bit=4,final") .nil [] = .done ft false ∧
      ft.get? (str "size") = some 1 ∧ ft.get? (str "bit") = some 4 ∧
      ft.get? (str "final") = some 0 ∧ ft.get? (str "other") = none) ∧
    (∃ ft, ParseTag (str "size=Num") SegmentDataL1Reg.layout [.uint 3, .list []] =
        .done ft false ∧
      ft.get? (str "size") = some 3) := by
  obtain ⟨ft, h1, h2, _⟩ := parseTag_items .nil []
    [.lit (str "size") (str "1"), .lit (str "bit") (str "4"), .bare (str "final")]
    (by decide) (by decide)
  obtain ⟨ft3, h3, h4, _⟩ := parseTag_items SegmentDataL1Reg.layout [.uint 3, .list []]
    [.field (str "size") (str "Num")] (by decide) (by decide)
  exact ⟨by decide,
    ⟨ft, h1, by rw [h2]; decide, by rw [h2]; decide, by rw [h2]; decide, by rw [h2]; decide⟩,
    ⟨ft3, h3, by rw [h4]; decide⟩⟩


/-! ## Lemmas: the static catalog -/

theorem fieldTypes_keys_nodup (tmpName : List Nat) (cat : List (String × Nat))
    (h : FieldTypes tmpName = some cat) : (cat.map (fun kv => str kv.1)).Nodup := by
  have key : ∀ c : List (String × Nat), (c.map (fun kv => beUint (str kv.1))).Nodup →
      (c.map (fun kv => str kv.1)).Nodup := fun c hc =>
    List.Nodup.of_map beUint (by simpa [List.map_map] using hc)
  unfold FieldTypes at h
  split_ifs at h <;> cases h
  · exact key _ (by decide)
  · exact key _ (by decide)
  · exact key _ (by decide)
  · exact key _ (by decide)
  · exact key _ (by decide)

theorem find_of_mem_nodup (name : List Nat) :
    ∀ (cat : List (String × Nat)) (k : String) (v : Nat),
      (cat.map (fun kv => str kv.1)).Nodup → (k, v) ∈ cat → name = str k →
      cat.find? (fun kv => name = str kv.1) = some (k, v) := by
  intro cat
  induction cat with
  | nil => intro k v _ hmem; simp at hmem
  | cons e cat ih =>
    intro k v hnd hmem hname
    rw [List.map_cons, List.nodup_cons] at hnd
    rcases List.mem_cons.mp hmem with heq | hin
    · subst heq
      simp [List.find?_cons, hname]
    · have hne : ¬ name = str e.1 := by
        intro he
        apply hnd.1
        rw [← he, hname]
        exact List.mem_map_of_mem (fun kv => str kv.1) hin
      rw [List.find?_cons]
      simp only [hne, decide_False]
      exact ih k v hnd.2 hin hname

theorem catalog_lookup (f : TemplateField) (tmpName : List Nat) (cat : List (String × Nat))
    (k : String) (v : Nat) (hcat : FieldTypes tmpName = some cat) (hmem : (k, v) ∈ cat)
    (hname : f.NameTrim = str k) :
    (FieldTypes tmpName).bind (fun m => m.find? (fun kv => f.NameTrim = str kv.1)) =
      some (k, v) := by
  rw [hcat]
  exact find_of_mem_nodup f.NameTrim cat k v (fieldTypes_keys_nodup tmpName cat hcat) hmem hname

theorem catalog_values (tmpName : List Nat) (cat : List (String × Nat))
    (h : FieldTypes tmpName = some cat) :
    ∀ kv ∈ cat, kv.2 = T_INT ∨ kv.2 = T_CHAR ∨ kv.2 = T_DATE ∨ kv.2 = T_TIME ∨ kv.2 = T_BIN ∨
      kv.2 = T_FLAG := by
  unfold FieldTypes at h
  split_ifs at h <;> cases h <;> decide

/-! ## Properties: the static catalog -/

/-- C24, as stated, fails: the catalog of USER lists PASSWORD as BIN, and a BIN descriptor
with Flag1 bit 0x20 is a flag. The descriptor PASSWORD with Flag1 = 0x24 has bit 0x04 set and
is classified as a flag, not as a hex string. -/
theorem toType_password_flag_counterexample :
    Fixture.dPASSWORD24.NameTrim = str "PASSWORD" ∧
    Fixture.dPASSWORD24.Flag1 &&& 0x04 = 0x04 ∧
    Fixture.dPASSWORD24.ToType true (str "USER") = .Flag :=
  ⟨by decide, by decide, by decide⟩

/-- C24 (amended): with the static catalog enabled, a descriptor of the USER template named
PASSWORD with Flag1 bit 0x04 set and Flag1 bit 0x20 clear is classified as a hex string; the
stored value C1 C2 C3 is then kept as it is and rendered as "c1c2c3", while the EBCDIC text of
these bytes is "ABC". -/
theorem toType_password_hex (f : TemplateField) (hname : f.NameTrim = str "PASSWORD")
    (_h04 : f.Flag1 &&& 0x04 = 0x04) (h20 : f.Flag1 &&& 0x20 ≠ 0x20) :
    f.ToType true (str "USER") = .HexStr ∧
    setProfileSegmentField (f.ToType true (str "USER")) [0xC1, 0xC2, 0xC3] 3 =
      (.bytes [0xC1, 0xC2, 0xC3], false) ∧
    HexStr.String [0xC1, 0xC2, 0xC3] = str "c1c2c3" ∧
    EBCDICStr.String [0xC1, 0xC2, 0xC3] = str "ABC" := by
  have hl := catalog_lookup f (str "USER") fieldTypesUser "PASSWORD" T_BIN (by decide)
    (by decide) hname
  have ht : f.ToType true (str "USER") = .HexStr := by
    simp only [TemplateField.ToType, if_true, hl]
    simp [h20, T_BIN, T_TIME, T_DATE, T_CHAR, T_INT]
  refine ⟨ht, ?_, by decide, by decide⟩
  rw [ht]
  decide

/-- C24, witness: the descriptor PASSWORD with Flag1 = 0x04. -/
theorem toType_password_hex_witness :
    Fixture.dPASSWORD.NameTrim = str "PASSWORD" ∧
    Fixture.dPASSWORD.ToType true (str "USER") = .HexStr :=
  ⟨by decide,
   (toType_password_hex Fixture.dPASSWORD (by decide) (by decide) (by decide)).1⟩

/-- C29: for an unsigned integer kind of width W (1, 2, 4 or 8 bytes), `setProfileSegmentField`
stores the big-endian integer of the first W bytes of the value and returns no error when the
value has at least W bytes, and stores 0 and returns an error when it has fewer; so a value of
1 to 7 bytes for a descriptor that the catalog lists as INT with a Len other than 1, 2 and 4,
which is typed as a 64-bit integer, is decoded to 0. -/
theorem setProfileSegmentField_uint_width (k : FieldKind) (W : Nat) (v : List Nat)
    (length : Nat) (f : TemplateField) (tmpName : List Nat) (cat : List (String × Nat))
    (key : String) (hk : k.uintSize = some W) :
    (W = 1 ∨ W = 2 ∨ W = 4 ∨ W = 8) ∧
    (W ≤ v.length → setProfileSegmentField k v length = (.uint (beUint (v.take W)), false)) ∧
    (v.length < W → setProfileSegmentField k v length = (.uint 0, true)) ∧
    (FieldTypes tmpName = some cat → (key, T_INT) ∈ cat → f.NameTrim = str key →
      f.Len ≠ 1 ∧ f.Len ≠ 2 ∧ f.Len ≠ 4 → 1 ≤ v.length → v.length ≤ 7 →
      f.ToType true tmpName = .uint64 ∧
      setProfileSegmentField (f.ToType true tmpName) v length = (.uint 0, true)) := by
  refine ⟨?_, ?_, ?_, ?_⟩
  · cases k <;> simp [FieldKind.uintSize] at hk <;> omega
  · intro hW
    have := setProfileSegmentField_uint hk (v.take W) (v.drop W)
      (by rw [List.length_take]; omega) length
    rwa [List.take_append_drop] at this
  · intro hW
    cases k <;> simp only [FieldKind.uintSize, Option.some.injEq] at hk <;> try cases hk
    · have : v.length = 0 := by omega
      simp [setProfileSegmentField, this]
    · simp [setProfileSegmentField, hW]
    · simp [setProfileSegmentField, hW]
    · simp [setProfileSegmentField, hW]
  · intro hcat hmem hname hlen h1 h7
    have hl := catalog_lookup f tmpName cat key T_INT hcat hmem hname
    have ht : f.ToType true tmpName = .uint64 := by
      simp only [TemplateField.ToType, if_true, hl]
      simp [hlen.1, hlen.2.1, hlen.2.2]
    have h8 : v.length < 8 := by omega
    refine ⟨ht, ?_⟩
    rw [ht]
    simp [setProfileSegmentField, h8]

/-- C29, witness: a 16-bit field takes 0x0102 from the value 01 02 03 and 0 with an error
from the value 01; the descriptor UID (INT, Len 8) is a 64-bit integer and a value of three
bytes gives 0. -/
theorem setProfileSegmentField_uint_width_witness :
    setProfileSegmentField .uint16 [1, 2, 3] 3 = (.uint 0x0102, false) ∧
    setProfileSegmentField .uint16 [1] 1 = (.uint 0, true) ∧
    Fixture.dUID.ToType true (str "USER") = .uint64 ∧
    setProfileSegmentField (Fixture.dUID.ToType true (str "USER")) [1, 2, 3] 3 =
      (.uint 0, true) :=
  ⟨(setProfileSegmentField_uint_width .uint16 2 [1, 2, 3] 3 Fixture.dUID (str "USER")
      fieldTypesUser "UID" rfl).2.1 (by decide),
   (setProfileSegmentField_uint_width .uint16 2 [1] 1 Fixture.dUID (str "USER")
      fieldTypesUser "UID" rfl).2.2.1 (by decide),
   ((setProfileSegmentField_uint_width .uint64 8 [1, 2, 3] 3 Fixture.dUID (str "USER")
      fieldTypesUser "UID" rfl).2.2.2 (by decide) (by decide) (by decide) (by decide)
      (by decide) (by decide)).1,
   ((setProfileSegmentField_uint_width .uint64 8 [1, 2, 3] 3 Fixture.dUID (str "USER")
      fieldTypesUser "UID" rfl).2.2.2 (by decide) (by decide) (by decide) (by decide)
      (by decide) (by decide)).2⟩

/-! ## Lemmas: field slots -/

theorem beUint_four_high (a b c d : Nat) (ha : 128 ≤ a) (ha2 : a < 256) (hb : b < 256)
    (hc : c < 256) (hd : d < 256) :
    ∃ m, m < 0x80000000 ∧ beUint [a, b, c, d] = 0x80000000 + m ∧
      beUint [a, b, c, d] % 2 ^ 31 = m := by
  refine ⟨beUint [a, b, c, d] - 0x80000000, ?_, ?_, ?_⟩ <;> rw [beUint_four] <;> omega

theorem take_four_of_length (l : List Nat) (h : 4 ≤ l.length) :
    ∃ a b c d, l.take 4 = [a, b, c, d] ∧ a = l.getD 0 0 := by
  match l, h with
  | a :: b :: c :: d :: _, _ => exact ⟨a, b, c, d, rfl, rfl⟩

theorem profileSegmentField_unmarshal (data : ByteSlice) (hb : ∀ x ∈ data.bytes, x < 256) :
    ProfileSegmentField.UnmarshalBinary data =
      if data.bytes.length < 2 ∨ (128 ≤ data.bytes.getD 1 0 ∧ data.bytes.length < 5) ∨
          data.bytes.length < (slotPrefix data.bytes).1 + (slotPrefix data.bytes).2 then .err
      else .ok ⟨data.bytes.getD 0 0,
        if data.bytes.getD 1 0 < 128 then data.bytes.getD 1 0
          else beUint ((data.bytes.drop 1).take 4),
        ⟨(data.bytes.drop (slotPrefix data.bytes).1).take (slotPrefix data.bytes).2,
          data.bytes.drop ((slotPrefix data.bytes).1 + (slotPrefix data.bytes).2) ++
            data.spare⟩⟩ := by
  obtain ⟨bytes, spare⟩ := data
  simp only at hb ⊢
  by_cases h2 : bytes.length < 2
  · simp [ProfileSegmentField.UnmarshalBinary, h2]
  · rcases bytes with _ | ⟨b0, _ | ⟨b1, rest⟩⟩
    · simp at h2
    · simp at h2
    · have hb1 : b1 < 256 := hb b1 (by simp)
      have hi0 : ByteSlice.index ⟨b0 :: b1 :: rest, spare⟩ 0 = .ok b0 := rfl
      have hi1 : ByteSlice.index ⟨b0 :: b1 :: rest, spare⟩ 1 = .ok b1 := rfl
      have hg1 : (b0 :: b1 :: rest).getD 1 0 = b1 := rfl
      have hg0 : (b0 :: b1 :: rest).getD 0 0 = b0 := rfl
      have hlen : (b0 :: b1 :: rest).length = rest.length + 2 := rfl
      by_cases hs : b1 < 128
      · have hand : ¬ (b1 &&& 0x80 ≠ 0) := by
          simp only [ne_eq, not_not]
          exact and_128_of_lt b1 hs
        have hint := (fieldLength_short hs).2
        have hsp : slotPrefix (b0 :: b1 :: rest) = (2, b1) := by
          simp [slotPrefix, hs]
        have hn2 : ¬ (rest.length + 2 < 2) := by omega
        have hn128 : ¬ (128 ≤ b1) := by omega
        simp only [ProfileSegmentField.UnmarshalBinary, hlen, hn2, if_false, hi0, hi1, hand,
          Res.bind, bind, hint, hsp, hg1, hg0, hs, if_true, hn128, false_and, false_or]
        by_cases hv : rest.length + 2 < 2 + b1
        · simp only [hv, if_true]
        · simp only [hv, if_false]
          have hc : 1 + 1 ≤ 1 + 1 + b1 ∧ 1 + 1 + b1 ≤ rest.length + 2 + spare.length := by
            omega
          simp only [ByteSlice.slice, List.length_cons, hc, and_self, if_true, pure]
          have e1 : (b0 :: b1 :: rest ++ spare).take (1 + 1 + b1) =
              b0 :: b1 :: (rest.take b1) := by
            rw [show 1 + 1 + b1 = b1 + 2 by omega]
            simp only [List.cons_append, List.take_succ_cons]
            rw [List.take_append_of_le_length (by omega)]
          have e2 : (b0 :: b1 :: rest ++ spare).drop (1 + 1 + b1) =
              rest.drop b1 ++ spare := by
            rw [show 1 + 1 + b1 = b1 + 2 by omega]
            simp only [List.cons_append, List.drop_succ_cons]
            rw [List.drop_append_of_le_length (by omega)]
          have e3 : (b0 :: b1 :: rest).drop (2 + b1) = rest.drop b1 := by
            rw [show 2 + b1 = b1 + 2 by omega]
            simp only [List.drop_succ_cons]
          rw [e1, e2, e3]
          rfl
      · have hge : 128 ≤ b1 := by omega
        have hand : b1 &&& 0x80 ≠ 0 := and_128_of_ge b1 hb1 hge
        by_cases h5 : rest.length + 2 < 5
        · have hor : rest.length + 2 < 2 ∨ (128 ≤ b1 ∧ rest.length + 2 < 5) ∨
              rest.length + 2 < (slotPrefix (b0 :: b1 :: rest)).1 +
                (slotPrefix (b0 :: b1 :: rest)).2 := Or.inr (Or.inl ⟨hge, h5⟩)
          have hn2 : ¬ (rest.length + 2 < 2) := by omega
          simp only [ProfileSegmentField.UnmarshalBinary, hlen, hn2, if_false, hi0, hi1, hand,
            Res.bind, bind, ne_eq, not_false_eq_true, if_true, h5, hg1]
          simp [hge]
        · have hrl : 4 ≤ (b1 :: rest).length := by simp only [List.length_cons]; omega
          obtain ⟨a, b, c, d, ht, ha⟩ := take_four_of_length (b1 :: rest) hrl
          have ha1 : a = b1 := ha
          subst ha1
          have hmem : ∀ x ∈ [a, b, c, d], x < 256 := by
            intro x hx
            rw [← ht] at hx
            exact hb x (List.mem_cons_of_mem _ (List.mem_of_mem_take hx))
          obtain ⟨m, hm, hbe, hmod⟩ := beUint_four_high a b c d hge hb1
            (hmem b (by simp)) (hmem c (by simp)) (hmem d (by simp))
          have hd1 : (b0 :: a :: rest).drop 1 = a :: rest := rfl
          have hint : ProfileSegmentFieldLength.Int (beUint [a, b, c, d]) = m := by
            rw [hbe]; exact (fieldLength_long hm).2
          have hsp : slotPrefix (b0 :: a :: rest) = (5, m) := by
            simp only [slotPrefix, hg1, hs, if_false, hd1, ht, hmod]
          have hn2 : ¬ (rest.length + 2 < 2) := by omega
          simp only [ProfileSegmentField.UnmarshalBinary, hlen, hn2, if_false, hi0, hi1, hand,
            Res.bind, bind, ne_eq, not_false_eq_true, if_true, h5, hg1, hd1, ht, hint, hsp,
            hg0, hs, and_false, false_or]
          by_cases hv : rest.length + 2 < 5 + m
          · simp only [hv, if_true]
          · simp only [hv, if_false]
            have hc : 1 + 4 ≤ 1 + 4 + m ∧ 1 + 4 + m ≤ rest.length + 2 + spare.length := by
              omega
            simp only [ByteSlice.slice, List.length_cons, hc, and_self, if_true, pure]
            have hbs : (b0 :: a :: rest).length ≥ 5 + m := by rw [hlen]; omega
            have e1 : ((b0 :: a :: rest ++ spare).take (1 + 4 + m)).drop (1 + 4) =
                ((b0 :: a :: rest).drop 5).take m := by
              rw [show b0 :: a :: rest ++ spare = (b0 :: a :: rest) ++ spare from rfl,
                List.take_append_of_le_length (by omega), List.drop_take]
              congr 1
              omega
            have e2 : (b0 :: a :: rest ++ spare).drop (1 + 4 + m) =
                (b0 :: a :: rest).drop (5 + m) ++ spare := by
              rw [show b0 :: a :: rest ++ spare = (b0 :: a :: rest) ++ spare from rfl,
                List.drop_append_of_le_length (by omega)]
            rw [e1, e2]

/-! ## Properties: field slots -/

/-- C28: on a sequence of bytes, `ProfileSegmentField.UnmarshalBinary` returns an error exactly
when the data has fewer than 2 bytes, or the high bit of data[1] is set and the data has fewer
than 5 bytes, or fewer than `length` bytes follow the prefix; otherwise it returns the field
with Id = data[0] and Value = the `length` bytes after the prefix, where the prefix is the byte
data[1] and `length` its value when its high bit is clear, and the four bytes data[1..4] with
`length` the low 31 bits of their big-endian value otherwise. -/
theorem profileSegmentField_unmarshalBinary (data : ByteSlice)
    (hb : ∀ x ∈ data.bytes, x < 256) :
    (ProfileSegmentField.UnmarshalBinary data = .err ↔
      (data.bytes.length < 2 ∨ (128 ≤ data.bytes.getD 1 0 ∧ data.bytes.length < 5) ∨
        data.bytes.length < (slotPrefix data.bytes).1 + (slotPrefix data.bytes).2)) ∧
    (∀ f, ProfileSegmentField.UnmarshalBinary data = .ok f →
      f.Id = data.bytes.getD 0 0 ∧
      (data.bytes.getD 1 0 < 128 →
        f.Len = data.bytes.getD 1 0 ∧
        ProfileSegmentFieldLength.Int f.Len = data.bytes.getD 1 0 ∧
        f.Value.bytes = (data.bytes.drop 2).take (data.bytes.getD 1 0)) ∧
      (128 ≤ data.bytes.getD 1 0 →
        f.Len = beUint ((data.bytes.drop 1).take 4) ∧
        ProfileSegmentFieldLength.Int f.Len = beUint ((data.bytes.drop 1).take 4) % 2 ^ 31 ∧
        f.Value.bytes = (data.bytes.drop 5).take (ProfileSegmentFieldLength.Int f.Len))) ∧
    ProfileSegmentField.UnmarshalBinary data ≠ .panic := by
  have h := profileSegmentField_unmarshal data hb
  by_cases hc : data.bytes.length < 2 ∨ (128 ≤ data.bytes.getD 1 0 ∧ data.bytes.length < 5) ∨
      data.bytes.length < (slotPrefix data.bytes).1 + (slotPrefix data.bytes).2
  · rw [if_pos hc] at h
    rw [h]
    refine ⟨⟨fun _ => hc, fun _ => rfl⟩, ?_, ?_⟩
    · intro f hf
      cases hf
    · intro he
      cases he
  · rw [if_neg hc] at h
    rw [h]
    refine ⟨⟨?_, fun he => absurd he hc⟩, ?_, ?_⟩
    · intro he
      cases he
    rotate_left
    · intro he
      cases he
    intro f hf
    cases hf
    refine ⟨rfl, fun hs => ?_, fun hs => ?_⟩
    · have hsp : slotPrefix data.bytes = (2, data.bytes.getD 1 0) := by
        simp only [slotPrefix, hs, if_true]
      simp only [hs, if_true, hsp, (fieldLength_short hs).2, and_self]
    · have hns : ¬ data.bytes.getD 1 0 < 128 := by omega
      have hsp : slotPrefix data.bytes = (5, beUint ((data.bytes.drop 1).take 4) % 2 ^ 31) := by
        simp only [slotPrefix, hns, if_false]
      have h5 : 5 ≤ data.bytes.length := by
        by_contra h5
        exact hc (Or.inr (Or.inl ⟨hs, by omega⟩))
      obtain ⟨a, b, c, d, ht, ha⟩ := take_four_of_length (data.bytes.drop 1)
        (by rw [List.length_drop]; omega)
      have ha1 : a = data.bytes.getD 1 0 := by
        rw [ha]
        cases hd : data.bytes with
        | nil => rw [hd] at h5; simp at h5
        | cons x xs => rfl
      have hmem : ∀ x ∈ [a, b, c, d], x < 256 := by
        intro x hx
        rw [← ht] at hx
        exact hb x (List.mem_of_mem_drop (List.mem_of_mem_take hx))
      obtain ⟨m, hm, hbe, hmod⟩ := beUint_four_high a b c d (by omega)
        (hmem a (by simp)) (hmem b (by simp)) (hmem c (by simp)) (hmem d (by simp))
      have hint : ProfileSegmentFieldLength.Int (beUint ((data.bytes.drop 1).take 4)) =
          beUint ((data.bytes.drop 1).take 4) % 2 ^ 31 := by
        rw [ht, hmod, hbe]; exact (fieldLength_long hm).2
      simp only [hns, if_false, hsp, hint, and_self]

/-- C28, witness: the slot 05 03 C1 C2 C3 09 has Id 5 and the value C1 C2 C3; the slot
05 80 00 00 02 01 02 has the four-byte prefix with length 2 and the value 01 02; a single byte,
a four-byte prefix cut short and a value cut short give an error. -/
theorem profileSegmentField_unmarshalBinary_witness :
    ProfileSegmentField.UnmarshalBinary ⟨[5, 3, 0xC1, 0xC2, 0xC3, 9], []⟩ =
      .ok ⟨5, 3, ⟨[0xC1, 0xC2, 0xC3], [9]⟩⟩ ∧
    ProfileSegmentField.UnmarshalBinary ⟨[5, 0x80, 0, 0, 2, 1, 2], []⟩ =
      .ok ⟨5, 0x80000002, ⟨[1, 2], []⟩⟩ ∧
    ProfileSegmentField.UnmarshalBinary ⟨[5], []⟩ = .err ∧
    ProfileSegmentField.UnmarshalBinary ⟨[5, 0x80, 0, 0], []⟩ = .err ∧
    ProfileSegmentField.UnmarshalBinary ⟨[5, 3, 0xC1], []⟩ = .err :=
  ⟨by decide, by decide,
   (profileSegmentField_unmarshalBinary ⟨[5], []⟩ (by decide)).1.2 (by decide),
   (profileSegmentField_unmarshalBinary ⟨[5, 0x80, 0, 0], []⟩ (by decide)).1.2 (by decide),
   (profileSegmentField_unmarshalBinary ⟨[5, 3, 0xC1], []⟩ (by decide)).1.2 (by decide)⟩

/-! ## Lemmas: the slot loop of `ToValue` -/

theorem toValue_loop_split {template : Template} {sName : List Nat} {sType : StructType} :
    ∀ (fs gs : List ProfileSegmentField) (sValue : Record),
      ToValue.loop template sName sType (fs ++ gs) sValue =
        (ToValue.loop template sName sType fs sValue).bind
          (fun r => ToValue.loop template sName sType gs r) := by
  intro fs
  induction fs with
  | nil => intro gs sValue; rfl
  | cons g fs ih =>
    intro gs sValue
    simp only [List.cons_append, ToValue.loop]
    cases ToValue.step template sName sType sValue g with
    | ok r => exact ih gs r
    | err => rfl
    | panic => rfl

/-! ## Properties: lookups and slots -/

/-- C21 (code at the failing input): in the GROUP template with the segments BASE (ENTYPE id 1,
SUPGROUP id 3, AUTHDATE id 4) and DFP (DATAAPPL id 2), `FieldByID(2, "BASE")` returns the
descriptor DATAAPPL of the segment DFP: the scan, once in the found state, does not stop at
the next segment delimiter. No field descriptor of BASE has the id 2. -/
theorem fieldByID_leaves_segment :
    Fixture.groupTemplate2 = [Fixture.dGROUP, Fixture.dENTYPE, Fixture.dSUPGROUP,
      Fixture.dAUTHDATE, Fixture.dDFP, Fixture.dDATAAPPL] ∧
    Fixture.dDFP.IsSegmentName = true ∧
    (∀ f ∈ [Fixture.dENTYPE, Fixture.dSUPGROUP, Fixture.dAUTHDATE], f.ID ≠ 2) ∧
    Template.FieldByID Fixture.groupTemplate2 2 (str "BASE") = some Fixture.dDATAAPPL :=
  ⟨rfl, by decide, by decide, by decide⟩

/-- C26 (code at the failing input): in a USER template whose repeat group CLCNT/CLNAME is
followed at once by the delimiter of DFP, the record type of BASE has the field CLCNT only;
the field CLCNT_RG with the member CLNAME is attached to the record type of DFP, when the
descriptor DATAAPPL is met. A template that ends with the members gives no record type. -/
theorem toType_group_not_closed_at_delimiter :
    Template.ToType true Fixture.rgDelimTemplate =
      .ok [(str "DFP", [⟨str "CLCNT_RG", .rgSlice [(str "CLNAME", .EBCDICStr)]⟩,
                        ⟨str "DATAAPPL", .prim .EBCDICStr⟩]),
           (str "BASE", [⟨str "CLCNT", .prim .uint16⟩])] ∧
    Template.ToType true Fixture.rgEndTemplate = .ok [] :=
  ⟨by decide, by decide⟩

/-- C30: a slot whose id has no descriptor according to `Template.FieldByID` for the name of
the segment leaves `ProfileSegment.ToValue` unchanged: the result, a record or a failure, is
the one for the stream without that slot. -/
theorem toValue_unknown_slot (ps : ProfileSegment) (profileType : List Nat)
    (template : Template) (profileStructs : GoMap (GoMap StructType))
    (pre post : List ProfileSegmentField) (f : ProfileSegmentField)
    (hf : ps.Fields = pre ++ f :: post)
    (hnone : template.FieldByID f.Id (TrimSpace (EBCDICStr.String ps.Hdr.SegmentName)) = none) :
    ps.ToValue profileType template profileStructs =
      ProfileSegment.ToValue ⟨ps.Hdr, pre ++ post⟩ profileType template profileStructs ∧
    (∀ r, ProfileSegment.ToValue ⟨ps.Hdr, pre ++ post⟩ profileType template profileStructs =
        .ok r → ps.ToValue profileType template profileStructs = .ok r) := by
  have heq : ps.ToValue profileType template profileStructs =
      ProfileSegment.ToValue ⟨ps.Hdr, pre ++ post⟩ profileType template profileStructs := by
    simp only [ProfileSegment.ToValue, hf]
    cases (profileStructs.get? profileType).bind
        (fun m => m.get? (TrimSpace (EBCDICStr.String ps.Hdr.SegmentName))) with
    | none => rfl
    | some sType =>
      simp only [toValue_loop_split]
      congr 1
      funext r
      rw [ToValue.loop]
      simp only [ToValue.step, hnone, Res.bind]
  exact ⟨heq, fun r hr => heq.trans hr⟩

/-- C30, witness: a BASE segment of the USER template with the CLCNT slot and a slot of the
unknown id 99 gives the record of the segment with the CLCNT slot alone. -/
theorem toValue_unknown_slot_witness :
    Template.FieldByID Fixture.userTemplate 99 (str "BASE") = none ∧
    Fixture.unknownSlotSegment.ToValue (str "USER") Fixture.userTemplate Fixture.userSchema =
      Fixture.clcntSegment.ToValue (str "USER") Fixture.userTemplate Fixture.userSchema :=
  ⟨by decide,
   (toValue_unknown_slot Fixture.unknownSlotSegment (str "USER") Fixture.userTemplate
      Fixture.userSchema [Fixture.clcntSlot] [] ⟨99, 1, ⟨[7], []⟩⟩ rfl (by decide)).1⟩

/-! ## Lemmas: the loop of `Template.ToType` -/

theorem segmentName_flag1 (f : TemplateField) (h : f.IsSegmentName = true) : f.Flag1 = 0 := by
  simp only [TemplateField.IsSegmentName, Bool.and_eq_true, beq_iff_eq] at h
  exact h.1.1.1.2

theorem segmentName_not_combination (f : TemplateField) (h : f.IsSegmentName = true) :
    f.isCombinationField = false := by
  simp [TemplateField.isCombinationField, segmentName_flag1 f h]

theorem repeatGroup_not_segmentName (f : TemplateField) (h : f.IsRepeatGroup = true) :
    f.IsSegmentName = false := by
  cases hs : f.IsSegmentName with
  | false => rfl
  | true =>
    rw [TemplateField.IsRepeatGroup, segmentName_flag1 f hs] at h
    simp at h

theorem member_not_segmentName (f : TemplateField) (h : f.IsRepeatGroupMember = true) :
    f.IsSegmentName = false := by
  cases hs : f.IsSegmentName with
  | false => rfl
  | true =>
    rw [TemplateField.IsRepeatGroupMember, segmentName_flag1 f hs] at h
    simp at h

theorem toType_step_combination (u : Bool) (n : List Nat) (i : Nat) (f : TemplateField)
    (st : ToTypeState) (h : f.isCombinationField = true) :
    Template.ToType.step u n i f st = .ok st := by
  simp [Template.ToType.step, h]

theorem toType_step_index (u : Bool) (n : List Nat) (i j : Nat) (f : TemplateField)
    (st : ToTypeState) (hi : i ≠ 0) (hj : j ≠ 0) :
    Template.ToType.step u n i f st = Template.ToType.step u n j f st := by
  simp only [Template.ToType.step, hi, hj, if_false]

theorem toType_loop_filter (u : Bool) (n : List Nat) :
    ∀ (tmp : Template) (i j : Nat) (st : ToTypeState), i ≠ 0 → j ≠ 0 →
      Template.ToType.loop u n i tmp st =
        Template.ToType.loop u n j (tmp.filter (fun f => !f.isCombinationField)) st := by
  intro tmp
  induction tmp with
  | nil => intro i j st _ _; rfl
  | cons f rest ih =>
    intro i j st hi hj
    cases hc : f.isCombinationField with
    | true =>
      rw [List.filter_cons, hc]
      simp only [Bool.not_true, Bool.false_eq_true, if_false]
      rw [Template.ToType.loop, toType_step_combination u n i f st hc]
      exact ih (i + 1) j st (by omega) hj
    | false =>
      rw [List.filter_cons, hc]
      simp only [Bool.not_false, if_true]
      rw [Template.ToType.loop, Template.ToType.loop, toType_step_index u n i j f st hi hj]
      congr 1
      funext st1
      exact ih (i + 1) (j + 1) st1 (by omega) (by omega)

theorem structOf_eq_ok (fields : List StructField) (t : StructType)
    (h : StructOf fields = .ok t) :
    t = fields ∧ ∀ fld ∈ fields, fld.Name ≠ [] := by
  unfold StructOf at h
  split_ifs at h with hacc
  cases h
  refine ⟨rfl, fun fld hfld hname => ?_⟩
  simp only [StructOf.accepts, Bool.and_eq_true, List.all_eq_true, List.mem_map,
    forall_exists_index, and_imp, forall_apply_eq_imp_iff₂] at hacc
  have := (hacc.1 fld hfld).1
  rw [hname] at this
  simp [isValidFieldName] at this

theorem goMap_mem_set {α : Type} (m : GoMap α) (k : List Nat) (v : α) (e : List Nat × α)
    (h : e ∈ m.set k v) : e = (k, v) ∨ e ∈ m := by
  simp only [GoMap.set, List.mem_cons, List.mem_filter] at h
  rcases h with h | h
  · exact Or.inl h
  · exact Or.inr h.1

theorem toType_step_delimiter (u : Bool) (n : List Nat) (i : Nat) (f : TemplateField)
    (st : ToTypeState) (hs : f.IsSegmentName = true) :
    Template.ToType.step u n i f st =
      if st.fields.length > 0 then
        (StructOf st.fields).bind (fun t => .ok
          { st with retVal := st.retVal.set st.sName t, fields := [],
                    sName := if i = 0 then str "BASE" else f.NameTrim })
      else .ok { st with sName := if i = 0 then str "BASE" else f.NameTrim } := by
  have hc := segmentName_not_combination f hs
  simp only [Template.ToType.step, hc, hs, if_true, Bool.false_eq_true, if_false]
  split_ifs <;> first | rfl | (cases StructOf st.fields <;> rfl)

theorem toType_step_member (u : Bool) (n : List Nat) (i : Nat) (f : TemplateField)
    (st : ToTypeState) (hc : f.isCombinationField = false) (hg : st.isRepeatGroup = true)
    (hm : f.IsRepeatGroupMember = true) :
    Template.ToType.step u n i f st =
      .ok { st with rgFields := st.rgFields ++ [(f.NameTrim, f.ToType u n)] } := by
  have hs := member_not_segmentName f hm
  simp [Template.ToType.step, hc, hs, hg, hm]

theorem structOfMembers_eq_ok (rgFields rg : List (List Nat × FieldKind))
    (h : StructOfMembers rgFields = .ok rg) : rg = rgFields := by
  unfold StructOfMembers at h
  split_ifs at h
  cases h
  rfl

theorem toType_step_field (u : Bool) (n : List Nat) (i : Nat) (f : TemplateField)
    (st st1 : ToTypeState) (hc : f.isCombinationField = false) (hs : f.IsSegmentName = false)
    (hm : (st.isRepeatGroup && f.IsRepeatGroupMember) = false)
    (h : Template.ToType.step u n i f st = .ok st1) :
    st1.retVal = st.retVal ∧ st1.sName = st.sName ∧
    st1.fields = st.fields ++
      (if st.isRepeatGroup then [⟨st.rgName, .rgSlice st.rgFields⟩] else []) ++
      (if f.NameTrim.length > 0 then [⟨f.NameTrim, .prim (f.ToType u n)⟩] else []) ∧
    st1.rgFields = (if st.isRepeatGroup then [] else st.rgFields) ∧
    st1.isRepeatGroup = f.IsRepeatGroup ∧
    st1.rgName = (if f.IsRepeatGroup then f.NameTrim ++ str "_RG" else st.rgName) := by
  simp only [Template.ToType.step, hc, hs, hm, Bool.false_eq_true, if_false, bind, pure] at h
  cases hg : st.isRepeatGroup with
  | true =>
    rw [hg] at h
    simp only [if_true] at h
    cases hso : StructOfMembers st.rgFields with
    | ok rg =>
      have hrg := structOfMembers_eq_ok _ _ hso
      subst hrg
      rw [hso] at h
      simp only [Res.bind] at h
      cases hr : f.IsRepeatGroup <;> rw [hr] at h <;>
        by_cases hn : f.NameTrim.length > 0 <;>
        simp only [hn, if_true, if_false, Bool.false_eq_true] at h <;> cases h <;> simp [hn]
    | err => rw [hso] at h; simp [Res.bind] at h
    | panic => rw [hso] at h; simp [Res.bind] at h
  | false =>
    rw [hg] at h
    simp only [Bool.false_eq_true, if_false, Res.bind] at h
    cases hr : f.IsRepeatGroup <;> rw [hr] at h <;>
      by_cases hn : f.NameTrim.length > 0 <;>
      simp only [hn, if_true, if_false, Bool.false_eq_true] at h <;> cases h <;> simp [hn, hg]

theorem toType_loop_append (u : Bool) (n : List Nat) :
    ∀ (a b : Template) (i : Nat) (st : ToTypeState),
      Template.ToType.loop u n i (a ++ b) st =
        (Template.ToType.loop u n i a st).bind
          (fun st1 => Template.ToType.loop u n (i + a.length) b st1) := by
  intro a
  induction a with
  | nil => intro b i st; rfl
  | cons f a ih =>
    intro b i st
    rw [List.cons_append, Template.ToType.loop, Template.ToType.loop]
    cases Template.ToType.step u n i f st with
    | ok st1 =>
      show Template.ToType.loop u n (i + 1) (a ++ b) st1 =
        (Template.ToType.loop u n (i + 1) a st1).bind _
      rw [ih b (i + 1) st1]
      congr 1
      funext st2
      congr 1
      rw [List.length_cons]
      omega
    | err => rfl
    | panic => rfl

/-- What a step that returns leaves of the stored record types: they stay, or the step is at
a delimiter and stores the pending fields, all of them named, under the current name. -/
theorem toType_step_retVal (u : Bool) (n : List Nat) (i : Nat) (f : TemplateField)
    (st st1 : ToTypeState) (h : Template.ToType.step u n i f st = .ok st1) :
    (f.IsSegmentName = false ∧ st1.retVal = st.retVal ∧ st1.sName = st.sName) ∨
      (f.IsSegmentName = true ∧
        st1.sName = (if i = 0 then str "BASE" else f.NameTrim) ∧
        (st1.retVal = st.retVal ∨
          (st.fields ≠ [] ∧ st1.fields = [] ∧ st1.retVal = st.retVal.set st.sName st.fields ∧
            ∀ fld ∈ st.fields, fld.Name ≠ []))) := by
  cases hs : f.IsSegmentName with
  | true =>
    rw [toType_step_delimiter u n i f st hs] at h
    refine Or.inr ⟨rfl, ?_⟩
    by_cases hl : st.fields.length > 0
    · rw [if_pos hl, Res.bind_eq_ok] at h
      obtain ⟨t, ht, h1⟩ := h
      obtain ⟨rfl, hn⟩ := structOf_eq_ok _ _ ht
      cases h1
      refine ⟨rfl, Or.inr ⟨?_, rfl, rfl, hn⟩⟩
      intro he
      rw [he] at hl
      simp at hl
    · rw [if_neg hl] at h
      cases h
      exact ⟨rfl, Or.inl rfl⟩
  | false =>
    refine Or.inl ⟨rfl, ?_⟩
    cases hc : f.isCombinationField with
    | true =>
      rw [toType_step_combination u n i f st hc] at h
      cases h
      exact ⟨rfl, rfl⟩
    | false =>
      cases hm : (st.isRepeatGroup && f.IsRepeatGroupMember) with
      | true =>
        simp only [Bool.and_eq_true] at hm
        rw [toType_step_member u n i f st hc hm.1 hm.2] at h
        cases h
        exact ⟨rfl, rfl⟩
      | false =>
        have := toType_step_field u n i f st st1 hc hs hm h
        exact ⟨this.1, this.2.1⟩

theorem toType_step_namesOk (u : Bool) (n : List Nat) (i : Nat) (f : TemplateField)
    (st st1 : ToTypeState) (h : Template.ToType.step u n i f st = .ok st1)
    (hok : st.namesOk) : st1.namesOk := by
  rcases toType_step_retVal u n i f st st1 h with ⟨_, hr, _⟩ | ⟨_, _, hr | ⟨_, _, hr, hn⟩⟩
  · intro e he; rw [hr] at he; exact hok e he
  · intro e he; rw [hr] at he; exact hok e he
  · intro e he
    rw [hr] at he
    rcases goMap_mem_set _ _ _ _ he with heq | hin
    · subst heq; exact hn
    · exact hok e hin

theorem toType_loop_namesOk (u : Bool) (n : List Nat) :
    ∀ (tmp : Template) (i : Nat) (st stF : ToTypeState),
      Template.ToType.loop u n i tmp st = .ok stF → st.namesOk → stF.namesOk := by
  intro tmp
  induction tmp with
  | nil =>
    intro i st stF h hok
    rw [Template.ToType.loop] at h
    cases h
    exact hok
  | cons f rest ih =>
    intro i st stF h hok
    rw [Template.ToType.loop, Res.bind_eq_ok] at h
    obtain ⟨st1, h1, h2⟩ := h
    exact ih (i + 1) st1 stF h2 (toType_step_namesOk u n i f st st1 h1 hok)

/-! ## Properties: combination fields -/

/-- C27: for a template whose first descriptor is a segment delimiter, `Template.ToType`
returns the same result on the template without its combination descriptors (Flag1 bit 0x40),
none of which is left in that template; and no field of a returned record type has an empty
name. -/
theorem toType_ignores_combination (useFieldDB : Bool) (tmp : Template) (f0 : TemplateField)
    (rest : Template) (htmp : tmp = f0 :: rest) (h0 : f0.IsSegmentName = true) :
    Template.ToType useFieldDB (tmp.filter (fun f => !f.isCombinationField)) =
      Template.ToType useFieldDB tmp ∧
    (∀ f ∈ tmp.filter (fun f => !f.isCombinationField), f.Flag1 &&& 0x40 ≠ 0x40) ∧
    (∀ m, Template.ToType useFieldDB tmp = .ok m → ∀ e ∈ m, ∀ fld ∈ e.2, fld.Name ≠ []) := by
  subst htmp
  have hc := segmentName_not_combination f0 h0
  refine ⟨?_, ?_, ?_⟩
  · rw [List.filter_cons, hc]
    simp only [Bool.not_false, if_true, Template.ToType, Template.ToType.loop]
    congr 1
    congr 1
    funext st1
    exact (toType_loop_filter useFieldDB f0.NameTrim rest (0 + 1) (0 + 1) st1 (by omega)
      (by omega)).symm
  · intro f hf
    have := (List.mem_filter.mp hf).2
    simpa [TemplateField.isCombinationField] using this
  · intro m hm
    simp only [Template.ToType, Res.bind_eq_ok] at hm
    obtain ⟨stF, hloop, hret⟩ := hm
    cases hret
    exact toType_loop_namesOk useFieldDB f0.NameTrim _ 0 _ stF hloop
      (fun e he => by simp at he)

/-- C27, witness: the USER template with the combination field CMB between CLNAME and SECLABEL
gives the record types of the template without CMB. -/
theorem toType_ignores_combination_witness :
    Fixture.cmbTemplate.filter (fun f => !f.isCombinationField) = Fixture.userTemplate ∧
    Template.ToType true Fixture.userTemplate = Template.ToType true Fixture.cmbTemplate :=
  ⟨by decide,
   (toType_ignores_combination true Fixture.cmbTemplate Fixture.dUSER
      [Fixture.dCLCNT, Fixture.dCLNAME, Fixture.dCMB, Fixture.dSECLABEL, Fixture.dDFP,
        Fixture.dCLCNT2, Fixture.dDATAAPPL, Fixture.dTSO] rfl (by decide)).1⟩

theorem toType_step_rgOk (u : Bool) (n : List Nat) (i : Nat) (f : TemplateField)
    (st st1 : ToTypeState) (h : Template.ToType.step u n i f st = .ok st1)
    (hok : st.rgOk) : st1.rgOk := by
  cases hs : f.IsSegmentName with
  | true =>
    rw [toType_step_delimiter u n i f st hs] at h
    by_cases hl : st.fields.length > 0
    · rw [if_pos hl, Res.bind_eq_ok] at h
      obtain ⟨t, _, h1⟩ := h
      cases h1
      exact hok
    · rw [if_neg hl] at h
      cases h
      exact hok
  | false =>
    cases hc : f.isCombinationField with
    | true =>
      rw [toType_step_combination u n i f st hc] at h
      cases h
      exact hok
    | false =>
      cases hm : (st.isRepeatGroup && f.IsRepeatGroupMember) with
      | true =>
        simp only [Bool.and_eq_true] at hm
        rw [toType_step_member u n i f st hc hm.1 hm.2] at h
        cases h
        intro hfalse
        rw [hm.1] at hfalse
        cases hfalse
      | false =>
        have := toType_step_field u n i f st st1 hc hs hm h
        intro _
        rw [this.2.2.2.1]
        cases hg : st.isRepeatGroup with
        | true => rfl
        | false => simpa using hok hg

theorem toType_loop_rgOk (u : Bool) (n : List Nat) :
    ∀ (tmp : Template) (i : Nat) (st stF : ToTypeState),
      Template.ToType.loop u n i tmp st = .ok stF → st.rgOk → stF.rgOk := by
  intro tmp
  induction tmp with
  | nil =>
    intro i st stF h hok
    rw [Template.ToType.loop] at h
    cases h
    exact hok
  | cons f rest ih =>
    intro i st stF h hok
    rw [Template.ToType.loop, Res.bind_eq_ok] at h
    obtain ⟨st1, h1, h2⟩ := h
    exact ih (i + 1) st1 stF h2 (toType_step_rgOk u n i f st st1 h1 hok)

theorem toType_loop_members (u : Bool) (n : List Nat) :
    ∀ (ms : Template) (i : Nat) (st : ToTypeState), st.isRepeatGroup = true →
      (∀ f ∈ ms, f.isCombinationField = false ∧ f.IsRepeatGroupMember = true) →
      Template.ToType.loop u n i ms st =
        .ok { st with rgFields := st.rgFields ++ ms.map (fun f => (f.NameTrim, f.ToType u n)) } := by
  intro ms
  induction ms with
  | nil =>
    intro i st _ _
    rw [Template.ToType.loop, List.map_nil, List.append_nil]
  | cons f ms ih =>
    intro i st hg hms
    have hf := hms f (by simp)
    rw [Template.ToType.loop, toType_step_member u n i f st hf.1 hg hf.2]
    show Template.ToType.loop u n (i + 1) ms _ = _
    rw [ih (i + 1) { st with rgFields := st.rgFields ++ [(f.NameTrim, f.ToType u n)] } hg
      (fun g hgm => hms g (by simp [hgm]))]
    simp

theorem toType_step_nondelimiter (u : Bool) (n : List Nat) (i : Nat) (f : TemplateField)
    (st st1 : ToTypeState) (hs : f.IsSegmentName = false)
    (h : Template.ToType.step u n i f st = .ok st1) :
    st1.retVal = st.retVal ∧ st1.sName = st.sName ∧ ∃ G, st1.fields = st.fields ++ G := by
  cases hc : f.isCombinationField with
  | true =>
    rw [toType_step_combination u n i f st hc] at h
    cases h
    exact ⟨rfl, rfl, [], by simp⟩
  | false =>
    cases hm : (st.isRepeatGroup && f.IsRepeatGroupMember) with
    | true =>
      simp only [Bool.and_eq_true] at hm
      rw [toType_step_member u n i f st hc hm.1 hm.2] at h
      cases h
      exact ⟨rfl, rfl, [], by simp⟩
    | false =>
      have := toType_step_field u n i f st st1 hc hs hm h
      exact ⟨this.1, this.2.1, _, by rw [this.2.2.1, List.append_assoc]⟩

theorem toType_loop_nondelimiter (u : Bool) (n : List Nat) :
    ∀ (mid : Template) (i : Nat) (st stF : ToTypeState),
      (∀ f ∈ mid, f.IsSegmentName = false) →
      Template.ToType.loop u n i mid st = .ok stF →
      stF.retVal = st.retVal ∧ stF.sName = st.sName ∧ ∃ G, stF.fields = st.fields ++ G := by
  intro mid
  induction mid with
  | nil =>
    intro i st stF _ h
    rw [Template.ToType.loop] at h
    cases h
    exact ⟨rfl, rfl, [], by simp⟩
  | cons f mid ih =>
    intro i st stF hmid h
    rw [Template.ToType.loop, Res.bind_eq_ok] at h
    obtain ⟨st1, h1, h2⟩ := h
    obtain ⟨a1, a2, G1, a3⟩ := toType_step_nondelimiter u n i f st st1 (hmid f (by simp)) h1
    obtain ⟨b1, b2, G2, b3⟩ := ih (i + 1) st1 stF (fun g hg => hmid g (by simp [hg])) h2
    exact ⟨b1.trans a1, b2.trans a2, G1 ++ G2, by rw [b3, a3, List.append_assoc]⟩

theorem toType_loop_keeps (u : Bool) (n : List Nat) (s0 : List Nat) :
    ∀ (post : Template) (i : Nat) (st stF : ToTypeState), i ≠ 0 →
      (∀ d ∈ post, d.IsSegmentName = true → d.NameTrim ≠ s0) → st.sName ≠ s0 →
      Template.ToType.loop u n i post st = .ok stF →
      stF.retVal.get? s0 = st.retVal.get? s0 := by
  intro post
  induction post with
  | nil =>
    intro i st stF _ _ _ h
    rw [Template.ToType.loop] at h
    cases h
    rfl
  | cons f post ih =>
    intro i st stF hi hpost hne h
    rw [Template.ToType.loop, Res.bind_eq_ok] at h
    obtain ⟨st1, h1, h2⟩ := h
    have hrest : ∀ d ∈ post, d.IsSegmentName = true → d.NameTrim ≠ s0 :=
      fun d hd => hpost d (by simp [hd])
    rcases toType_step_retVal u n i f st st1 h1 with ⟨_, hr, hsn⟩ | ⟨hs, hsn, hr⟩
    · rw [ih (i + 1) st1 stF (by omega) hrest (by rw [hsn]; exact hne) h2, hr]
    · have hne1 : st1.sName ≠ s0 := by
        rw [hsn, if_neg hi]
        exact hpost f (by simp) hs
      rw [ih (i + 1) st1 stF (by omega) hrest hne1 h2]
      rcases hr with hr | ⟨_, _, hr, _⟩
      · rw [hr]
      · rw [hr, goMap_get_set, if_neg (fun e => hne e.symm)]

theorem toType_step_delimiter_store (u : Bool) (n : List Nat) (i : Nat) (f : TemplateField)
    (st st1 : ToTypeState) (hs : f.IsSegmentName = true) (hi : i ≠ 0) (hf : st.fields ≠ [])
    (h : Template.ToType.step u n i f st = .ok st1) :
    st1.retVal = st.retVal.set st.sName st.fields ∧ st1.sName = f.NameTrim := by
  rw [toType_step_delimiter u n i f st hs] at h
  have hl : st.fields.length > 0 := List.length_pos.mpr hf
  rw [if_pos hl, Res.bind_eq_ok] at h
  obtain ⟨t, ht, h1⟩ := h
  obtain ⟨rfl, _⟩ := structOf_eq_ok _ _ ht
  cases h1
  exact ⟨rfl, by simp [hi]⟩

/-! ## Properties: repeat groups in record types -/

/-- C25, as stated, fails: in the USER template with the head CLCNT, the member CLNAME, the
combination field CMB (no member) and then SECLABEL in BASE, the record type of BASE has the
fields CLCNT, CLCNT_RG and SECLABEL: the non-member descriptor CMB that follows the members is
skipped and is no field of the record type. -/
theorem toType_group_combination_counterexample :
    Fixture.cmbTemplate = [Fixture.dUSER, Fixture.dCLCNT, Fixture.dCLNAME, Fixture.dCMB,
      Fixture.dSECLABEL, Fixture.dDFP, Fixture.dCLCNT2, Fixture.dDATAAPPL, Fixture.dTSO] ∧
    Fixture.dCLCNT.IsRepeatGroup = true ∧ Fixture.dCLNAME.IsRepeatGroupMember = true ∧
    Fixture.dCMB.IsRepeatGroupMember = false ∧ Fixture.dCMB.IsSegmentName = false ∧
    Fixture.dCMB.NameTrim = str "CMB" ∧
    Template.ToType true Fixture.cmbTemplate =
      .ok [(str "DFP", Fixture.userDfpType), (str "BASE", Fixture.userBaseType)] ∧
    (∀ fld ∈ Fixture.userBaseType, fld.Name ≠ str "CMB") :=
  ⟨rfl, by decide, by decide, by decide, by decide, by decide, by decide, by decide⟩

/-- C25 (amended): let the descriptors of a segment contain a repeat-group head H (Flag1 bit
0x10, no member), then members M1..Mk (Flag1 bit 0x80), then a descriptor X that is neither a
member nor a segment delimiter, none of them a combination field and H and X with non-empty
names, and let the segment be closed by a later delimiter D, no later segment having its name.
If `Template.ToType` returns a map, the record type of the segment in it contains, one after
the other, the field H, the field `<H>_RG` whose type is the sequence of records with exactly
the fields M1..Mk in template order, and the field X. -/
theorem toType_repeat_group (u : Bool) (f0 H X D : TemplateField)
    (pre Ms mid post : Template) (st0 : ToTypeState) (m : GoMap StructType)
    (hpre : Template.ToType.loop u f0.NameTrim 0 (f0 :: pre) ⟨[], [], [], [], [], false⟩ =
      .ok st0)
    (hH : H.isCombinationField = false ∧ H.IsRepeatGroup = true ∧
      H.IsRepeatGroupMember = false ∧ H.NameTrim ≠ [])
    (hMs : ∀ M ∈ Ms, M.isCombinationField = false ∧ M.IsRepeatGroupMember = true)
    (hX : X.isCombinationField = false ∧ X.IsSegmentName = false ∧
      X.IsRepeatGroupMember = false ∧ X.NameTrim ≠ [])
    (hmid : ∀ f ∈ mid, f.IsSegmentName = false)
    (hD : D.IsSegmentName = true)
    (hpost : ∀ d ∈ D :: post, d.IsSegmentName = true → d.NameTrim ≠ st0.sName)
    (hres : Template.ToType u
      ((f0 :: pre) ++ ((H :: Ms) ++ ((X :: mid) ++ (D :: post)))) = .ok m) :
    ∃ A B, m.get? st0.sName = some (A ++
      [⟨H.NameTrim, .prim (H.ToType u f0.NameTrim)⟩,
       ⟨H.NameTrim ++ str "_RG",
        .rgSlice (Ms.map (fun M => (M.NameTrim, M.ToType u f0.NameTrim)))⟩,
       ⟨X.NameTrim, .prim (X.ToType u f0.NameTrim)⟩] ++ B) := by
  obtain ⟨hHc, hHg, hHm, hHn⟩ := hH
  obtain ⟨hXc, hXs, hXm, hXn⟩ := hX
  have hHs := repeatGroup_not_segmentName H hHg
  have hHl : H.NameTrim.length > 0 := List.length_pos.mpr hHn
  have hXl : X.NameTrim.length > 0 := List.length_pos.mpr hXn
  -- the whole loop
  rw [List.cons_append] at hres
  simp only [Template.ToType, Res.bind_eq_ok] at hres
  obtain ⟨stF, hloop, hret⟩ := hres
  cases hret
  rw [← List.cons_append, toType_loop_append, hpre] at hloop
  change Template.ToType.loop u f0.NameTrim (0 + (f0 :: pre).length)
    ((H :: Ms) ++ ((X :: mid) ++ (D :: post))) st0 = .ok stF at hloop
  generalize hi1 : 0 + (f0 :: pre).length = i1 at hloop
  have hi1pos : i1 ≠ 0 := by rw [← hi1, List.length_cons]; omega
  -- the head and the members
  rw [toType_loop_append, Res.bind_eq_ok] at hloop
  obtain ⟨st2, hHM, hloop⟩ := hloop
  rw [Template.ToType.loop, Res.bind_eq_ok] at hHM
  obtain ⟨st1, hstepH, hMsl⟩ := hHM
  have hm0 : (st0.isRepeatGroup && H.IsRepeatGroupMember) = false := by simp [hHm]
  obtain ⟨h1r, h1s, h1f, h1rg, h1g, h1n⟩ :=
    toType_step_field u f0.NameTrim i1 H st0 st1 hHc hHs hm0 hstepH
  have hrg0 : st1.rgFields = [] := by
    rw [h1rg]
    cases hg : st0.isRepeatGroup with
    | true => rfl
    | false =>
      simpa using toType_loop_rgOk u f0.NameTrim _ 0 _ st0 hpre (fun _ => rfl) hg
  rw [hHg] at h1g
  rw [toType_loop_members u f0.NameTrim Ms (i1 + 1) st1 h1g hMs] at hMsl
  have hst2 := Res.ok.inj hMsl
  have h2g : st2.isRepeatGroup = true := by rw [← hst2]; exact h1g
  have h2rg : st2.rgFields = Ms.map (fun f => (f.NameTrim, f.ToType u f0.NameTrim)) := by
    rw [← hst2]
    simp [hrg0]
  have h2n : st2.rgName = H.NameTrim ++ str "_RG" := by rw [← hst2]; simpa [hHg] using h1n
  have h2f : st2.fields = st1.fields := by rw [← hst2]
  have h2r : st2.retVal = st1.retVal := by rw [← hst2]
  have h2s : st2.sName = st1.sName := by rw [← hst2]
  -- the descriptor that ends the group, and the rest of the segment
  rw [toType_loop_append, Res.bind_eq_ok] at hloop
  obtain ⟨st4, hXmid, hloop⟩ := hloop
  rw [Template.ToType.loop, Res.bind_eq_ok] at hXmid
  obtain ⟨st3, hstepX, hmidl⟩ := hXmid
  have hm2 : (st2.isRepeatGroup && X.IsRepeatGroupMember) = false := by simp [hXm]
  obtain ⟨h3r, h3s, h3f, _, _, _⟩ :=
    toType_step_field u f0.NameTrim _ X st2 st3 hXc hXs hm2 hstepX
  simp only [h2g, if_true, hXl, h2rg, h2n, h2f] at h3f
  obtain ⟨h4r, h4s, G, h4f⟩ := toType_loop_nondelimiter u f0.NameTrim mid _ st3 st4 hmid hmidl
  -- the delimiter that closes the segment
  rw [Template.ToType.loop, Res.bind_eq_ok] at hloop
  obtain ⟨st5, hstepD, hpostl⟩ := hloop
  have hne4 : st4.fields ≠ [] := by
    rw [h4f, h3f]
    simp
  obtain ⟨h5r, h5s⟩ := toType_step_delimiter_store u f0.NameTrim _ D st4 st5 hD
    (by omega) hne4 hstepD
  have hname4 : st4.sName = st0.sName := by rw [h4s, h3s, h2s]; exact h1s
  have hkeep := toType_loop_keeps u f0.NameTrim st0.sName post _ st5 stF (by omega)
    (fun d hd => hpost d (by simp [hd])) (by rw [h5s]; exact hpost D (by simp) hD) hpostl
  refine ⟨st0.fields ++ (if st0.isRepeatGroup then [⟨st0.rgName, .rgSlice st0.rgFields⟩]
    else []), G, ?_⟩
  rw [hkeep, h5r, hname4, goMap_get_set, if_pos rfl, h4f, h3f, h1f]
  simp [hHl]

/-- C25, witness: in the USER template the head CLCNT, the member CLNAME and the field
SECLABEL of BASE, closed by the delimiter of DFP. -/
theorem toType_repeat_group_witness :
    Template.ToType true Fixture.userTemplate =
      .ok [(str "DFP", Fixture.userDfpType), (str "BASE", Fixture.userBaseType)] ∧
    ∃ A B, GoMap.get? [(str "DFP", Fixture.userDfpType), (str "BASE", Fixture.userBaseType)]
        (str "BASE") = some (A ++
      [⟨Fixture.dCLCNT.NameTrim, .prim (Fixture.dCLCNT.ToType true Fixture.dUSER.NameTrim)⟩,
       ⟨Fixture.dCLCNT.NameTrim ++ str "_RG",
        .rgSlice ([Fixture.dCLNAME].map
          (fun M => (M.NameTrim, M.ToType true Fixture.dUSER.NameTrim)))⟩,
       ⟨Fixture.dSECLABEL.NameTrim,
        .prim (Fixture.dSECLABEL.ToType true Fixture.dUSER.NameTrim)⟩] ++ B) :=
  ⟨by decide,
   toType_repeat_group true Fixture.dUSER Fixture.dCLCNT Fixture.dSECLABEL Fixture.dDFP
    [] [Fixture.dCLNAME] [] [Fixture.dCLCNT2, Fixture.dDATAAPPL, Fixture.dTSO]
    ⟨[], [], [], str "BASE", [], false⟩
    [(str "DFP", Fixture.userDfpType), (str "BASE", Fixture.userBaseType)]
    (by decide) (by decide) (by decide) (by decide) (by decide) (by decide) (by decide)
    (by decide)⟩

/-! ## Lemmas: time values and the year of a date -/

theorem atoi_fmtHex02 : ∀ b < 256,
    Atoi (fmtHex02 b) = (decimalByte b).map Int.ofNat := by decide

theorem isTime_of_ge (v : Nat) (h : 0xff ≤ v) :
    isTime v =
      match decimalByte ((v >>> 24) &&& 0xff), decimalByte ((v >>> 16) &&& 0xff),
        decimalByte ((v >>> 8) &&& 0xff) with
      | some hh, some mm, some ss =>
        if hh ≤ 24 ∧ mm ≤ 60 ∧ ss ≤ 60 then
          (fmtInt hh ++ str ":" ++ fmtInt02 mm ++ str ":" ++ fmtInt02 ss ++ str " (" ++
            fmtInt02 ss ++ str " ms)", true)
        else ([], false)
      | _, _, _ => ([], false) := by
  have hb : ∀ k, (v >>> k) &&& 0xff < 256 := fun k => Nat.lt_succ_of_le Nat.and_le_right
  rw [isTime, if_neg (by omega), atoi_fmtHex02 _ (hb 24), atoi_fmtHex02 _ (hb 16),
    atoi_fmtHex02 _ (hb 8)]
  cases h1 : decimalByte ((v >>> 24) &&& 0xff) with
  | none => rfl
  | some hh =>
    cases h2 : decimalByte ((v >>> 16) &&& 0xff) with
    | none => simp only [Option.map_some', Option.map_none']; split_ifs <;> rfl
    | some mm =>
      cases h3 : decimalByte ((v >>> 8) &&& 0xff) with
      | none => simp only [Option.map_some', Option.map_none']; split_ifs <;> rfl
      | some ss =>
        simp only [Option.map_some', Int.ofNat_eq_coe, Int.toNat_ofNat]
        by_cases c1 : hh ≤ 24
        · by_cases c2 : mm ≤ 60
          · by_cases c3 : ss ≤ 60
            · rw [if_neg (by omega), if_neg (by omega), if_neg (by omega), if_neg (by omega),
                if_pos ⟨c1, c2, c3⟩]
            · rw [if_neg (by omega), if_neg (by omega), if_pos (by omega),
                if_neg (fun h => c3 h.2.2)]
          · rw [if_neg (by omega), if_pos (by omega), if_neg (fun h => c2 h.2.1)]
        · rw [if_pos (by omega), if_neg (fun h => c1 h.1)]

theorem fmtInt_year_not_1970 : ∀ y < 166,
    (fmtInt (if y > 70 then y + 1900 else y + 2000)).all (fun c => c != 44) = true ∧
    fmtInt (if y > 70 then y + 1900 else y + 2000) ≠ str "1970" := by decide

theorem yearText_retFmt (year day : Nat) (h : (fmtInt year).all (fun c => c != 44) = true) :
    Date.yearText (retFmt year day) = fmtInt year := by
  have hs : str ", day " = 44 :: str " day " := by decide
  rw [Date.yearText, retFmt, List.append_assoc, hs, List.cons_append]
  rw [List.takeWhile_append_of_pos]
  · simp [List.takeWhile_cons]
  · intro c hc
    exact List.all_eq_true.mp h c hc

/-! ## Properties: time values and the year of a date -/

/-- C37, the claim fails: 0xfe and 0xff differ only in the least significant byte, and
`isTime` rejects the first and accepts the second. -/
theorem isTime_low_byte_counterexample :
    0xfe / 256 = 0xff / 256 ∧ (isTime 0xfe).2 = false ∧
      isTime 0xff = (str "0:00:00 (00 ms)", true) :=
  ⟨by decide, by decide, by decide⟩

/-- C37, amended: `isTime` accepts a 32-bit value v iff v >= 0xff and the three upper bytes
each read as two decimal digits, of value at most 24, 60 and 60; the text is then
"h:mm:ss (ss ms)", the ms component repeating the ss component; and two values that are both
at least 0xff and differ only in the least significant byte get the same result. -/
theorem isTime_accepts_iff (v : Nat) (hv : v < 2 ^ 32) :
    ((isTime v).2 = true ↔
      0xff ≤ v ∧ ∃ hh mm ss, decimalByte ((v >>> 24) &&& 0xff) = some hh ∧ hh ≤ 24 ∧
        decimalByte ((v >>> 16) &&& 0xff) = some mm ∧ mm ≤ 60 ∧
        decimalByte ((v >>> 8) &&& 0xff) = some ss ∧ ss ≤ 60) ∧
    (∀ hh mm ss, 0xff ≤ v → decimalByte ((v >>> 24) &&& 0xff) = some hh → hh ≤ 24 →
        decimalByte ((v >>> 16) &&& 0xff) = some mm → mm ≤ 60 →
        decimalByte ((v >>> 8) &&& 0xff) = some ss → ss ≤ 60 →
      isTime v = (fmtInt hh ++ str ":" ++ fmtInt02 mm ++ str ":" ++ fmtInt02 ss ++ str " (" ++
        fmtInt02 ss ++ str " ms)", true)) ∧
    (∀ w, w < 2 ^ 32 → 0xff ≤ v → 0xff ≤ w → v / 256 = w / 256 → isTime v = isTime w) := by
  refine ⟨⟨fun h => ?_, fun h => ?_⟩, ?_, ?_⟩
  · by_cases hge : 0xff ≤ v
    · refine ⟨hge, ?_⟩
      rw [isTime_of_ge v hge] at h
      cases h1 : decimalByte ((v >>> 24) &&& 0xff) with
      | none => rw [h1] at h; simp at h
      | some hh =>
        cases h2 : decimalByte ((v >>> 16) &&& 0xff) with
        | none => rw [h1, h2] at h; simp at h
        | some mm =>
          cases h3 : decimalByte ((v >>> 8) &&& 0xff) with
          | none => rw [h1, h2, h3] at h; simp at h
          | some ss =>
            rw [h1, h2, h3] at h
            by_cases c : hh ≤ 24 ∧ mm ≤ 60 ∧ ss ≤ 60
            · exact ⟨hh, mm, ss, rfl, c.1, rfl, c.2.1, rfl, c.2.2⟩
            · simp only [if_neg c] at h
              exact absurd h (by decide)
    · rw [isTime, if_pos (by omega)] at h
      exact absurd h (by decide)
  · obtain ⟨hge, hh, mm, ss, h1, c1, h2, c2, h3, c3⟩ := h
    rw [isTime_of_ge v hge, h1, h2, h3]
    simp only [if_pos (And.intro c1 (And.intro c2 c3))]
  · intro hh mm ss hge h1 c1 h2 c2 h3 c3
    rw [isTime_of_ge v hge, h1, h2, h3]
    simp only [if_pos (And.intro c1 (And.intro c2 c3))]
  · intro w _ hgv hgw hvw
    have e : ∀ x k, x >>> (8 + k) = (x / 256) >>> k := by
      intro x k
      rw [Nat.shiftRight_add, Nat.shiftRight_eq_div_pow x 8]
    rw [isTime_of_ge v hgv, isTime_of_ge w hgw]
    rw [show (24 : Nat) = 8 + 16 from rfl, show (16 : Nat) = 8 + 8 from rfl,
      show v >>> 8 = v >>> (8 + 0) from rfl, show w >>> 8 = w >>> (8 + 0) from rfl]
    simp only [e, hvw]

theorem isTime_accepts_iff_witness :
    (isTime 0x12345678).2 = true ∧
    isTime 0x12345678 = (str "12:34:56 (56 ms)", true) ∧
    isTime 0x12345678 = isTime 0x123456ff := by
  have h := isTime_accepts_iff 0x12345678 (by decide)
  exact ⟨h.1.mpr ⟨by decide, 12, 34, 56, by decide, by decide, by decide, by decide, by decide,
      by decide⟩,
    h.2.1 12 34 56 (by decide) (by decide) (by decide) (by decide) (by decide) (by decide)
      (by decide),
    h.2.2 0x123456ff (by decide) (by decide) (by decide) (by decide)⟩

/-- C40: a 3-byte date renders the year 1970 exactly when the year byte is 00 and the twelve
day bits are zero, whatever the sign nibble, or when the three bytes are FF FF FF; in these
cases the text is "1970, day 1", and no other 3-byte input renders a year of 1970. -/
theorem date3_year_1970_iff (b0 b1 b2 : Nat) (h0 : b0 < 256) (h1 : b1 < 256) (h2 : b2 < 256) :
    (Date.yearText (Date.String [b0, b1, b2]) = str "1970" ↔
      (b0 = 0 ∧ b1 = 0 ∧ b2 / 16 = 0) ∨ (b0 = 0xff ∧ b1 = 0xff ∧ b2 = 0xff)) ∧
    ((b0 = 0 ∧ b1 = 0 ∧ b2 / 16 = 0) ∨ (b0 = 0xff ∧ b1 = 0xff ∧ b2 = 0xff) →
      Date.String [b0, b1, b2] = str "1970, day 1") := by
  have e15 : (0xf : Nat) = 15 := rfl
  have hz : ((b0 = 0 ∧ (b1 * 256 + b2) >>> 4 = 0) ∨
      (b0 = 0xff ∧ (b1 * 256 + b2) >>> 4 = 0xfff ∧ b2 &&& 0xf = 0xf)) ↔
      ((b0 = 0 ∧ b1 = 0 ∧ b2 / 16 = 0) ∨ (b0 = 0xff ∧ b1 = 0xff ∧ b2 = 0xff)) := by
    rw [e15, and_fifteen, Nat.shiftRight_eq_div_pow]
    norm_num
    omega
  have hzero : Date.yearText (str "1970, day 1") = str "1970" := by decide
  by_cases hc : (b0 = 0 ∧ b1 = 0 ∧ b2 / 16 = 0) ∨ (b0 = 0xff ∧ b1 = 0xff ∧ b2 = 0xff)
  · have hs : Date.String [b0, b1, b2] = str "1970, day 1" := by
      simp only [Date.String, Date.to3Human]
      rw [if_pos (hz.mpr hc)]; decide
    exact ⟨⟨fun _ => hc, fun _ => by rw [hs]; exact hzero⟩, fun _ => hs⟩
  · refine ⟨⟨fun h => ?_, fun h => absurd h hc⟩, fun h => absurd h hc⟩
    exfalso
    have hy : (b0 &&& 0xf) + 10 * (b0 >>> 4) < 166 := by
      rw [e15, and_fifteen, Nat.shiftRight_eq_div_pow]; norm_num; omega
    simp only [Date.String, Date.to3Human] at h
    rw [if_neg (fun hh => hc (hz.mp hh))] at h
    rw [yearText_retFmt _ _ (fmtInt_year_not_1970 _ hy).1] at h
    exact (fmtInt_year_not_1970 _ hy).2 h

theorem date3_year_1970_iff_witness :
    (Date.yearText (Date.String [0x00, 0x00, 0x0d]) = str "1970" ↔
      ((0x00 : Nat) = 0 ∧ (0x00 : Nat) = 0 ∧ 0x0d / 16 = 0) ∨
        ((0x00 : Nat) = 0xff ∧ (0x00 : Nat) = 0xff ∧ (0x0d : Nat) = 0xff)) ∧
    (((0x00 : Nat) = 0 ∧ (0x00 : Nat) = 0 ∧ 0x0d / 16 = 0) ∨
        ((0x00 : Nat) = 0xff ∧ (0x00 : Nat) = 0xff ∧ (0x0d : Nat) = 0xff) →
      Date.String [0x00, 0x00, 0x0d] = str "1970, day 1") :=
  date3_year_1970_iff 0x00 0x00 0x0d (by decide) (by decide) (by decide)

/-! ## Properties: the template directory, repeat groups on short input -/

/-- C33: the template directory loop of `ParseRACF` stops at the first entry whose RBA is 0:
on the entries `pre`, then an entry with RBA 0, then any entries `post`, its outcome is the
outcome on `pre` alone, so the entries after the zero entry contribute nothing. -/
theorem templateLoop_stops_at_zero (data : ByteSlice) (pre post : List DEFNS) (e0 : DEFNS)
    (m : TemplateMaps) (h0 : e0.ICTMPRBA = 0) :
    ParseRACF.templateLoop data (pre ++ e0 :: post) m = ParseRACF.templateLoop data pre m := by
  induction pre generalizing m with
  | nil => simp only [List.nil_append, ParseRACF.templateLoop, h0, if_true]
  | cons th rest ih =>
    rw [List.cons_append, ParseRACF.templateLoop, ParseRACF.templateLoop]
    by_cases hz : th.ICTMPRBA = 0
    · rw [if_pos hz, if_pos hz]
    · rw [if_neg hz, if_neg hz]
      cases data.slice th.ICTMPRBA (th.ICTMPRBA + th.ICTMPL) with
      | ok d =>
        simp only []
        cases Template.UnmarshalBinary [] d with
        | none => rfl
        | some r =>
          obtain ⟨t, b⟩ := r
          cases b with
          | true => rfl
          | false =>
            simp only []
            cases t.Name with
            | ok name =>
              simp only []
              cases m.templates.get? th.ICTMPN with
              | none => exact ih _
              | some old => exact ih _
            | err => rfl
            | panic => rfl
      | err => rfl
      | panic => rfl

theorem templateLoop_stops_at_zero_witness :
    ParseRACF.templateLoop Fixture.tmplFile
        ([Fixture.tmplEntry0] ++ (⟨17, 2, 0⟩ : DEFNS) :: [Fixture.tmplEntry2]) ⟨[], []⟩ =
      ParseRACF.templateLoop Fixture.tmplFile [Fixture.tmplEntry0] ⟨[], []⟩ :=
  templateLoop_stops_at_zero Fixture.tmplFile [Fixture.tmplEntry0] [Fixture.tmplEntry2]
    ⟨17, 2, 0⟩ ⟨[], []⟩ rfl

/-- C35 (code at the failing input): on the empty byte sequence both decoders of a repeat group
panic at `data[0]` instead of returning an error; a record cut short inside a member value
panics at the slice expression when the backing array ends with the input, and reads the bytes
behind the input when the backing array goes on; `ProfileSegment.ToValue` reaches the decoder
with an empty sequence on a slot whose count is 1 and that holds no record. -/
theorem rg_unmarshal_short_input :
    ProfileSegmentRepeatGroup.UnmarshalBinary ⟨[], []⟩ = .panic ∧
    ProfileSegmentRepeatGroupField.UnmarshalBinary ⟨[], []⟩ = .panic ∧
    ProfileSegmentRepeatGroup.UnmarshalBinary ⟨[1, 3, 0xe3], []⟩ = .panic ∧
    ProfileSegmentRepeatGroupField.UnmarshalBinary ⟨[3, 0xe3], [0xe2, 0xd6]⟩ =
      .ok ⟨3, ⟨[0xe3, 0xe2, 0xd6], []⟩⟩ ∧
    Fixture.rgCutSegment.ToValue (str "USER") Fixture.userTemplate Fixture.userSchema =
      .panic :=
  ⟨by decide, by decide, by decide, by decide, by decide⟩

/-- C36 (code at the failing input): the CLCNT slot holds one record with a member count of 0
while the record type of the group has the member CLNAME; the record decodes, the loop over
the members of the type indexes `rp.Fields[0]`, and `ToValue` panics instead of returning the
segment record. -/
theorem toValue_short_record_panics :
    (ByteSlice.sliceFrom ⟨[0, 1, 0], []⟩ 2).bind ProfileSegmentRepeatGroup.UnmarshalBinary =
      .ok ⟨0, []⟩ ∧
    fillRepeatGroupRecord [(str "CLNAME", FieldKind.EBCDICStr)] [] = .panic ∧
    Fixture.rgShortSegment.ToValue (str "USER") Fixture.userTemplate Fixture.userSchema =
      .panic :=
  ⟨by decide, by decide, by decide⟩

/-! ## Lemmas: the slot walk of a segment -/

theorem profileSegmentHdr_size (h : ProfileSegmentHdr) :
    (Layout.struct ProfileSegmentHdr.layout).Size (.struct h.toValues) false =
      some (20 + (h.ProfileNameLen : Int)) := by
  have e : (20 + (h.ProfileNameLen : Int)) = 1 + (4 + (4 + (8 + (2 + (1 + (h.ProfileNameLen + 0)))))) := by
    omega
  rw [e]
  rfl

theorem slot_unmarshal_ok {d : ByteSlice} {f : ProfileSegmentField}
    (h : ProfileSegmentField.UnmarshalBinary d = .ok f) : 2 ≤ d.bytes.length := by
  by_contra hc
  rw [ProfileSegmentField.UnmarshalBinary, if_pos (by omega)] at h
  cases h

theorem fieldLength_size_pos (l : Nat) : 1 ≤ ProfileSegmentFieldLength.Size l := by
  rw [ProfileSegmentFieldLength.Size]; split_ifs <;> omega

theorem slot_advance (d : ByteSlice) (hb : ∀ x ∈ d.bytes, x < 256) (f : ProfileSegmentField)
    (h : ProfileSegmentField.UnmarshalBinary d = .ok f) :
    1 + ProfileSegmentFieldLength.Size f.Len + ProfileSegmentFieldLength.Int f.Len ≤
      d.bytes.length ∧
    f.Value.bytes = (d.bytes.drop (1 + ProfileSegmentFieldLength.Size f.Len)).take
      (ProfileSegmentFieldLength.Int f.Len) := by
  have h0 := profileSegmentField_unmarshal d hb
  rw [h] at h0
  by_cases hc : d.bytes.length < 2 ∨ (128 ≤ d.bytes.getD 1 0 ∧ d.bytes.length < 5) ∨
      d.bytes.length < (slotPrefix d.bytes).1 + (slotPrefix d.bytes).2
  · rw [if_pos hc] at h0; cases h0
  · rw [if_neg hc] at h0
    have hf := Res.ok.inj h0
    have hlen : ¬ d.bytes.length < (slotPrefix d.bytes).1 + (slotPrefix d.bytes).2 :=
      fun hh => hc (Or.inr (Or.inr hh))
    by_cases hs : d.bytes.getD 1 0 < 128
    · have hsp : slotPrefix d.bytes = (2, d.bytes.getD 1 0) := by
        simp only [slotPrefix, hs, if_true]
      rw [hsp] at hlen hf
      simp only [hs, if_true] at hf
      subst hf
      simp only [(fieldLength_short hs).1, (fieldLength_short hs).2]
      exact ⟨by omega, trivial⟩
    · have hsp : slotPrefix d.bytes = (5, beUint ((d.bytes.drop 1).take 4) % 2 ^ 31) := by
        simp only [slotPrefix, hs, if_false]
      have h5 : 5 ≤ d.bytes.length := by
        by_contra h5
        exact hc (Or.inr (Or.inl ⟨by omega, by omega⟩))
      obtain ⟨a, b, c, e, ht, ha⟩ := take_four_of_length (d.bytes.drop 1)
        (by rw [List.length_drop]; omega)
      have ha1 : a = d.bytes.getD 1 0 := by
        rw [ha]; simp [List.getD_eq_getElem?_getD, List.getElem?_drop]
      have hmem : ∀ x ∈ [a, b, c, e], x < 256 := by
        intro x hx
        rw [← ht] at hx
        exact hb x (List.mem_of_mem_drop (List.mem_of_mem_take hx))
      obtain ⟨m, hm, hbe, hmod⟩ := beUint_four_high a b c e (by omega)
        (hmem a (by simp)) (hmem b (by simp)) (hmem c (by simp)) (hmem e (by simp))
      rw [hsp, ht, hmod] at hlen
      rw [hsp, ht, hmod, hbe] at hf
      simp only [hs, if_false] at hf
      subst hf
      simp only [(fieldLength_long hm).1, (fieldLength_long hm).2]
      exact ⟨by omega, trivial⟩

theorem segment_loop_total (data : ByteSlice) (logicLen : Nat) :
    ∀ fuel ptr fields, data.bytes.length + 1 ≤ ptr + 2 * fuel → 1 ≤ fuel →
      ∃ r, ProfileSegment.UnmarshalBinary.loop data logicLen fuel ptr fields = some r := by
  intro fuel
  induction fuel with
  | zero => intro _ _ _ h; omega
  | succ n ih =>
    intro ptr fields hf _
    rw [ProfileSegment.UnmarshalBinary.loop]
    by_cases hp : ptr < logicLen
    · rw [if_pos hp]
      cases hs : data.sliceFrom ptr with
      | ok d =>
        simp only []
        cases hd : ProfileSegmentField.UnmarshalBinary d with
        | ok f =>
          simp only []
          have h2 := slot_unmarshal_ok hd
          have hdl : d.bytes.length = data.bytes.length - ptr := by
            rw [ByteSlice.sliceFrom] at hs
            split_ifs at hs
            cases hs
            simp
          have hsz := fieldLength_size_pos f.Len
          exact ih _ _ (by omega) (by omega)
        | err => exact ⟨_, rfl⟩
        | panic => exact ⟨_, rfl⟩
      | err => exact ⟨_, rfl⟩
      | panic => exact ⟨_, rfl⟩
    · rw [if_neg hp]; exact ⟨_, rfl⟩

theorem segment_loop_mono (data : ByteSlice) (logicLen : Nat) :
    ∀ fuel ptr fields r,
      ProfileSegment.UnmarshalBinary.loop data logicLen fuel ptr fields = some r →
      ∀ k, ProfileSegment.UnmarshalBinary.loop data logicLen (fuel + k) ptr fields = some r := by
  intro fuel
  induction fuel with
  | zero => intro _ _ _ h; rw [ProfileSegment.UnmarshalBinary.loop] at h; cases h
  | succ n ih =>
    intro ptr fields r h k
    rw [show n + 1 + k = (n + k) + 1 by omega, ProfileSegment.UnmarshalBinary.loop]
    rw [ProfileSegment.UnmarshalBinary.loop] at h
    by_cases hp : ptr < logicLen
    · rw [if_pos hp] at h ⊢
      cases hs : data.sliceFrom ptr with
      | ok d =>
        rw [hs] at h
        simp only [] at h ⊢
        cases hd : ProfileSegmentField.UnmarshalBinary d with
        | ok f =>
          rw [hd] at h
          exact ih _ _ _ h k
        | err => rw [hd] at h; exact h
        | panic => rw [hd] at h; exact h
      | err => rw [hs] at h; exact h
      | panic => rw [hs] at h; exact h
    · rw [if_neg hp] at h ⊢; exact h

theorem segment_loop_slots (data : ByteSlice) (logicLen : Nat) :
    ∀ fuel ptr fields out,
      ProfileSegment.UnmarshalBinary.loop data logicLen fuel ptr fields = some (.ok out) →
      ∃ new e, out = fields ++ new ∧ slotsEnd data ptr new = some e ∧ logicLen ≤ e ∧
        ptr + 2 * new.length ≤ e ∧ (logicLen ≤ ptr → new = []) ∧
        ((∀ x ∈ data.bytes, x < 256) → new ≠ [] → e ≤ data.bytes.length) := by
  intro fuel
  induction fuel with
  | zero => intro _ _ _ h; rw [ProfileSegment.UnmarshalBinary.loop] at h; cases h
  | succ n ih =>
    intro ptr fields out h
    rw [ProfileSegment.UnmarshalBinary.loop] at h
    by_cases hp : ptr < logicLen
    · rw [if_pos hp] at h
      cases hs : data.sliceFrom ptr with
      | ok d =>
        rw [hs] at h
        simp only [] at h
        cases hd : ProfileSegmentField.UnmarshalBinary d with
        | ok f =>
          rw [hd] at h
          obtain ⟨new, e, hout, hse, hle, hadv, _, hbound⟩ := ih _ _ _ h
          have hsz := fieldLength_size_pos f.Len
          have hdb : d.bytes = data.bytes.drop ptr ∧ ptr ≤ data.bytes.length := by
            rw [ByteSlice.sliceFrom] at hs
            split_ifs at hs with hpl
            cases hs
            exact ⟨rfl, hpl⟩
          refine ⟨f :: new, e, ?_, ?_, hle, ?_, fun hh => absurd hp (by omega), ?_⟩
          · rw [hout, List.append_assoc]; rfl
          · rw [slotsEnd, hs]
            simp only [Res.bind, hd, if_true]
            exact hse
          · simp only [List.length_cons]; omega
          · intro hb _
            by_cases hn : new = []
            · subst hn
              rw [slotsEnd] at hse
              have he := Option.some.inj hse
              have hbd : ∀ x ∈ d.bytes, x < 256 := by
                intro x hx
                rw [hdb.1] at hx
                exact hb x (List.mem_of_mem_drop hx)
              have hadv2 := (slot_advance d hbd f hd).1
              rw [hdb.1, List.length_drop] at hadv2
              omega
            · exact hbound hb hn
        | err => rw [hd] at h; cases h
        | panic => rw [hd] at h; cases h
      | err => rw [hs] at h; cases h
      | panic => rw [hs] at h; cases h
    · rw [if_neg hp] at h
      have ho := Res.ok.inj (Option.some.inj h)
      exact ⟨[], ptr, by rw [← ho, List.append_nil], rfl, by omega, by simp, fun _ => rfl,
        fun _ hn => absurd rfl hn⟩

theorem profileSegment_unmarshal_eq (fuel : Nat) (data : ByteSlice) :
    ProfileSegment.UnmarshalBinary fuel data =
      match ProfileSegmentHdr.UnmarshalBinary data with
      | .ok hdr =>
        (ProfileSegment.UnmarshalBinary.loop data hdr.LogicLen fuel (20 + hdr.ProfileNameLen)
          []).map (fun r => r.bind (fun fields => .ok ⟨hdr, fields⟩))
      | .err => some .err
      | .panic => some .panic := by
  unfold ProfileSegment.UnmarshalBinary
  cases ProfileSegmentHdr.UnmarshalBinary data with
  | ok hdr =>
    simp only [profileSegmentHdr_size]
    rw [if_neg (by omega)]
    have e : (20 + (hdr.ProfileNameLen : Int)).toNat = 20 + hdr.ProfileNameLen := by omega
    rw [e]
  | err => rfl
  | panic => rfl

/-! ## Properties: the slot walk of a segment -/

/-- C38: `ProfileSegment.UnmarshalBinary` ends on every input, with the same outcome for every
number of rounds above the length of the input. When it succeeds, the header is the decoded
header, whose size is 20 + ProfileNameLen; the slots lie one after the other from that offset,
each being the slot decoded at the cursor and moving the cursor on by 1 + prefix size + value
length, which is at least 2; the cursor behind the last slot is at or beyond LogicLen; and
with LogicLen at most 20 + ProfileNameLen there is no slot. -/
theorem profileSegment_unmarshalBinary_walk (data : ByteSlice) :
    (∃ r, ∀ fuel, data.bytes.length + 1 ≤ fuel →
      ProfileSegment.UnmarshalBinary fuel data = some r) ∧
    (∀ fuel ps, ProfileSegment.UnmarshalBinary fuel data = some (.ok ps) →
      ProfileSegmentHdr.UnmarshalBinary data = .ok ps.Hdr ∧
      (Layout.struct ProfileSegmentHdr.layout).Size (.struct ps.Hdr.toValues) false =
        some (20 + (ps.Hdr.ProfileNameLen : Int)) ∧
      (∃ e, slotsEnd data (20 + ps.Hdr.ProfileNameLen) ps.Fields = some e ∧
        ps.Hdr.LogicLen ≤ e ∧ 20 + ps.Hdr.ProfileNameLen + 2 * ps.Fields.length ≤ e) ∧
      (∀ f ∈ ps.Fields, 2 ≤ 1 + ProfileSegmentFieldLength.Size f.Len +
        ProfileSegmentFieldLength.Int f.Len) ∧
      (ps.Hdr.LogicLen ≤ 20 + ps.Hdr.ProfileNameLen → ps.Fields = [])) := by
  constructor
  · cases hh : ProfileSegmentHdr.UnmarshalBinary data with
    | ok hdr =>
      obtain ⟨r0, hr0⟩ := segment_loop_total data hdr.LogicLen (data.bytes.length + 1)
        (20 + hdr.ProfileNameLen) [] (by omega) (by omega)
      refine ⟨r0.bind (fun fields => .ok ⟨hdr, fields⟩), fun fuel hf => ?_⟩
      obtain ⟨k, rfl⟩ := Nat.exists_eq_add_of_le hf
      rw [profileSegment_unmarshal_eq, hh]
      simp only [segment_loop_mono data hdr.LogicLen _ _ _ _ hr0 k, Option.map_some']
    | err => exact ⟨.err, fun fuel _ => by rw [profileSegment_unmarshal_eq, hh]⟩
    | panic => exact ⟨.panic, fun fuel _ => by rw [profileSegment_unmarshal_eq, hh]⟩
  · intro fuel ps h
    rw [profileSegment_unmarshal_eq] at h
    cases hh : ProfileSegmentHdr.UnmarshalBinary data with
    | ok hdr =>
      rw [hh] at h
      simp only [] at h
      cases hl : ProfileSegment.UnmarshalBinary.loop data hdr.LogicLen fuel
          (20 + hdr.ProfileNameLen) [] with
      | none => rw [hl] at h; cases h
      | some r =>
        rw [hl] at h
        cases r with
        | ok fields =>
          have hps : ps = ⟨hdr, fields⟩ := (Res.ok.inj (Option.some.inj h)).symm
          subst hps
          obtain ⟨new, e, hout, hse, hle, hadv, hnil, _⟩ := segment_loop_slots _ _ _ _ _ _ hl
          rw [List.nil_append] at hout
          subst hout
          refine ⟨rfl, profileSegmentHdr_size hdr, ⟨e, hse, hle, hadv⟩, fun f _ => ?_, hnil⟩
          have := fieldLength_size_pos f.Len
          omega
        | err => cases h
        | panic => cases h
    | err => rw [hh] at h; cases h
    | panic => rw [hh] at h; cases h

theorem profileSegment_unmarshalBinary_walk_witness :
    ProfileSegment.UnmarshalBinary 43 Fixture.segmentBytes = some (.ok Fixture.segmentDecoded) ∧
    (∃ e, slotsEnd Fixture.segmentBytes (20 + Fixture.segmentDecoded.Hdr.ProfileNameLen)
        Fixture.segmentDecoded.Fields = some e ∧
      Fixture.segmentDecoded.Hdr.LogicLen ≤ e ∧
      20 + Fixture.segmentDecoded.Hdr.ProfileNameLen +
        2 * Fixture.segmentDecoded.Fields.length ≤ e) ∧
    slotsEnd Fixture.segmentBytes 24 Fixture.segmentDecoded.Fields = some 42 :=
  ⟨by decide,
   ((profileSegment_unmarshalBinary_walk Fixture.segmentBytes).2 43 Fixture.segmentDecoded
     (by decide)).2.2.1,
   by decide⟩

/-! ## Lemmas: the header of a segment, stored segments -/

theorem decode_uint16 (a b : Nat) (rest spare : List Nat) (v : Value) (tags : FieldTag) :
    Layout.uint16.decode ⟨a :: b :: rest, spare⟩ v tags =
      .done (.uint (beUint [a, b])) 2 false := by
  rw [Layout.decode]
  simp [ByteSlice.beRead, DecodeValue.finish, Layout.Size]

theorem bytes_elems_short (dec : ByteSlice → Value → DecodeRes) (size : Value → Option Int)
    (spare : List Nat) (z : Value) (hsize : ∀ e, size e = some 1)
    (hdec : ∀ b r e, dec ⟨b :: r, spare⟩ e = .done (.uint b) 1 false)
    (hemp : ∀ e, dec ⟨[], spare⟩ e = .panic) :
    ∀ (rest pre : List Nat) (m i : Nat) (shift : Int),
      pre.length = i → rest.length < m →
      DecodeValue.elems dec size ⟨pre ++ rest, spare⟩ (List.replicate m z) i shift = none := by
  intro rest
  induction rest with
  | nil =>
    intro pre m i shift hpre hm
    obtain ⟨k, rfl⟩ : ∃ k, m = k + 1 := ⟨m - 1, by simp at hm; omega⟩
    have hsl : ByteSlice.sliceFromInt ⟨pre ++ [], spare⟩ (1 * (i : Int)) = .ok ⟨[], spare⟩ := by
      have h0 : ¬ (1 * (i : Int) < 0) := by omega
      have h1 : (1 * (i : Int)).toNat = pre.length := by omega
      simp only [ByteSlice.sliceFromInt, h0, if_false, h1]
      simp [ByteSlice.sliceFrom]
    rw [List.replicate_succ]
    simp only [DecodeValue.elems, hsize, hsl, hemp]
  | cons b rest' ih =>
    intro pre m i shift hpre hm
    obtain ⟨k, rfl⟩ : ∃ k, m = k + 1 := ⟨m - 1, by simp at hm; omega⟩
    have hsl : ByteSlice.sliceFromInt ⟨pre ++ b :: rest', spare⟩ (1 * (i : Int)) =
        .ok ⟨b :: rest', spare⟩ := by
      have h0 : ¬ (1 * (i : Int) < 0) := by omega
      have h1 : (1 * (i : Int)).toNat = pre.length := by omega
      simp only [ByteSlice.sliceFromInt, h0, if_false, h1]
      simp [ByteSlice.sliceFrom]
    have hdata : pre ++ b :: rest' = (pre ++ [b]) ++ rest' := by simp
    have := ih (pre ++ [b]) k (i + 1) (shift + 1) (by simp; omega)
      (by simp only [List.length_cons] at hm; omega)
    rw [← hdata] at this
    rw [List.replicate_succ]
    simp only [DecodeValue.elems, hsize, hsl, hdec, this]

theorem parseTag_profileNameLen (a b c d f g : Value) (n : Nat) :
    ParseTag (str "size=ProfileNameLen") ProfileSegmentHdr.layout
        [a, b, c, d, .uint n, f, g] = .done [(str "size", (n : Int))] false := by
  rfl

theorem profileSegmentHdr_decode
    (b0 b1 b2 b3 b4 b5 b6 b7 b8 b9 b10 b11 b12 b13 b14 b15 b16 b17 b18 b19 : Nat)
    (rest spare : List Nat) :
    ProfileSegmentHdr.layout.decode ProfileSegmentHdr.layout
        ⟨b0 :: b1 :: b2 :: b3 :: b4 :: b5 :: b6 :: b7 :: b8 :: b9 :: b10 :: b11 :: b12 :: b13 ::
          b14 :: b15 :: b16 :: b17 :: b18 :: b19 :: rest, spare⟩
        ProfileSegmentHdr.layout.zero 0 0 =
      if beUint [b17, b18] ≤ rest.length then
        .done (.struct [.uint b0, .uint (beUint [b1, b2, b3, b4]),
          .uint (beUint [b5, b6, b7, b8]),
          .list ([b9, b10, b11, b12, b13, b14, b15, b16].map Value.uint),
          .uint (beUint [b17, b18]), .list [],
          .list ((rest.take (beUint [b17, b18])).map Value.uint)])
          (20 + (beUint [b17, b18] : Int)) false
      else .panic := by
  have hz : ProfileSegmentHdr.layout.zero =
      [.uint 0, .uint 0, .uint 0, .list [], .uint 0, .list [], .list []] := rfl
  have hsz : ∀ e : Value, Layout.uint8.Size e false = some 1 := fun e => by
    rw [Layout.Size]
  have hemp : ∀ (tags : FieldTag) (e : Value), Layout.uint8.decode ⟨[], spare⟩ e tags = .panic :=
    fun tags e => by rw [Layout.decode]; rfl
  have hel := bytes_elems (fun d e => Layout.uint8.decode d e [(str "size", 8)])
    (fun e => Layout.uint8.Size e false) spare Layout.uint8.zero hsz
    (fun b r e => decode_uint8 b r spare e _) 8 []
    (b9 :: b10 :: b11 :: b12 :: b13 :: b14 :: b15 :: b16 :: b17 :: b18 :: b19 :: rest) 0 0
    rfl (by simp)
  simp only [List.nil_append] at hel
  have hsz8 : GoMap.get? [(str "size", (8 : Int))] (str "size") = some ((8 : Nat) : Int) := by
    decide
  have hsz1 : GoMap.get? [(str "size", (1 : Int))] (str "size") = some 1 := by decide
  have hszn : GoMap.get? [(str "size", ((beUint [b17, b18] : Nat) : Int))] (str "size") =
      some ((beUint [b17, b18] : Nat) : Int) := by
    simp [GoMap.get?]
  have he : isExported (str "Magic") = true ∧ isExported (str "PhysicLen") = true ∧
      isExported (str "LogicLen") = true ∧ isExported (str "SegmentName") = true ∧
      isExported (str "ProfileNameLen") = true ∧ isExported (str "_") = false ∧
      isExported (str "ProfileName") = true :=
    ⟨by decide, by decide, by decide, by decide, by decide, by decide, by decide⟩
  have hs0 : ∀ d : ByteSlice, d.sliceFromInt 0 = .ok d := fun d => by
    simp [ByteSlice.sliceFromInt, ByteSlice.sliceFrom]
  have hs1 : ByteSlice.sliceFromInt ⟨b0 :: b1 :: b2 :: b3 :: b4 :: b5 :: b6 :: b7 :: b8 :: b9 ::
      b10 :: b11 :: b12 :: b13 :: b14 :: b15 :: b16 :: b17 :: b18 :: b19 :: rest, spare⟩ 1 =
      .ok ⟨b1 :: b2 :: b3 :: b4 :: b5 :: b6 :: b7 :: b8 :: b9 ::
      b10 :: b11 :: b12 :: b13 :: b14 :: b15 :: b16 :: b17 :: b18 :: b19 :: rest, spare⟩ := by
    simp [ByteSlice.sliceFromInt, ByteSlice.sliceFrom]
  have hs5 : ByteSlice.sliceFromInt ⟨b0 :: b1 :: b2 :: b3 :: b4 :: b5 :: b6 :: b7 :: b8 :: b9 ::
      b10 :: b11 :: b12 :: b13 :: b14 :: b15 :: b16 :: b17 :: b18 :: b19 :: rest, spare⟩ 5 =
      .ok ⟨b5 :: b6 :: b7 :: b8 :: b9 ::
      b10 :: b11 :: b12 :: b13 :: b14 :: b15 :: b16 :: b17 :: b18 :: b19 :: rest, spare⟩ := by
    simp [ByteSlice.sliceFromInt, ByteSlice.sliceFrom]
  have hs9 : ByteSlice.sliceFromInt ⟨b0 :: b1 :: b2 :: b3 :: b4 :: b5 :: b6 :: b7 :: b8 :: b9 ::
      b10 :: b11 :: b12 :: b13 :: b14 :: b15 :: b16 :: b17 :: b18 :: b19 :: rest, spare⟩ 9 =
      .ok ⟨b9 ::
      b10 :: b11 :: b12 :: b13 :: b14 :: b15 :: b16 :: b17 :: b18 :: b19 :: rest, spare⟩ := by
    simp [ByteSlice.sliceFromInt, ByteSlice.sliceFrom]
  have hs17 : ByteSlice.sliceFromInt ⟨b0 :: b1 :: b2 :: b3 :: b4 :: b5 :: b6 :: b7 :: b8 :: b9 ::
      b10 :: b11 :: b12 :: b13 :: b14 :: b15 :: b16 :: b17 :: b18 :: b19 :: rest, spare⟩ 17 =
      .ok ⟨b17 :: b18 :: b19 :: rest, spare⟩ := by
    simp [ByteSlice.sliceFromInt, ByteSlice.sliceFrom]
  have hs19 : ByteSlice.sliceFromInt ⟨b0 :: b1 :: b2 :: b3 :: b4 :: b5 :: b6 :: b7 :: b8 :: b9 ::
      b10 :: b11 :: b12 :: b13 :: b14 :: b15 :: b16 :: b17 :: b18 :: b19 :: rest, spare⟩ 19 =
      .ok ⟨b19 :: rest, spare⟩ := by
    simp [ByteSlice.sliceFromInt, ByteSlice.sliceFrom]
  have hs20 : ByteSlice.sliceFromInt ⟨b0 :: b1 :: b2 :: b3 :: b4 :: b5 :: b6 :: b7 :: b8 :: b9 ::
      b10 :: b11 :: b12 :: b13 :: b14 :: b15 :: b16 :: b17 :: b18 :: b19 :: rest, spare⟩ 20 =
      .ok ⟨rest, spare⟩ := by
    simp [ByteSlice.sliceFromInt, ByteSlice.sliceFrom]
  have hfin : ∀ (t : Layout) (v : Value) (k : Nat),
      DecodeValue.finish t v (k : Int) = .done v k false := by
    intro t v k
    have : ¬ ((k : Int) = -1) := by omega
    simp only [DecodeValue.finish, this, if_false]
  have hfin8 : ∀ (t : Layout) (v : Value), DecodeValue.finish t v 8 = .done v 8 false :=
    fun t v => hfin t v 8
  rw [hz]
  simp only [ProfileSegmentHdr.layout, fields_decode_cons, fields_decode_nil, parseTag_empty,
    parseTag_size8, parseTag_size1, he, if_true, hs0, List.getD_cons_zero, decode_uint8,
    zero_add, hs1, decode_uint32, List.set_cons_zero, List.set_cons_succ, List.getD_cons_succ,
    hs5, Int.reduceAdd, hs9, decode_slice _ _ _ _ 8 hsz8, hel, hfin8, hs17, decode_uint16,
    Bool.false_eq_true, if_false, hs19, DecodeValue.notSettable, hsz1, hs20,
    parseTag_profileNameLen, decode_slice _ _ _ _ _ hszn, Nat.cast_ofNat, List.take_succ_cons,
    List.take_zero]
  have hpt := parseTag_profileNameLen (.uint b0) (.uint (beUint [b1, b2, b3, b4]))
    (.uint (beUint [b5, b6, b7, b8]))
    (.list (List.map Value.uint [b9, b10, b11, b12, b13, b14, b15, b16])) (.list []) (.list [])
    (beUint [b17, b18])
  simp only [ProfileSegmentHdr.layout] at hpt
  rw [hpt]
  simp only [decode_slice _ _ _ _ _ hszn]
  by_cases hn : beUint [b17, b18] ≤ rest.length
  · have hel2 := bytes_elems
      (fun d e => Layout.uint8.decode d e [(str "size", ((beUint [b17, b18] : Nat) : Int))])
      (fun e => Layout.uint8.Size e false) spare Layout.uint8.zero hsz
      (fun b r e => decode_uint8 b r spare e _) (beUint [b17, b18]) [] rest 0 0 rfl hn
    simp only [List.nil_append] at hel2
    rw [if_pos hn]
    simp only [hel2, zero_add, hfin, Bool.false_eq_true, if_false]
  · have hel2 := bytes_elems_short
      (fun d e => Layout.uint8.decode d e [(str "size", ((beUint [b17, b18] : Nat) : Int))])
      (fun e => Layout.uint8.Size e false) spare Layout.uint8.zero hsz
      (fun b r e => decode_uint8 b r spare e _) (hemp _) rest [] (beUint [b17, b18]) 0 0 rfl
      (by omega)
    simp only [List.nil_append] at hel2
    rw [if_neg hn]
    simp only [hel2]

theorem profileSegmentHdr_zero_size :
    (Layout.struct ProfileSegmentHdr.layout).Size (.struct ProfileSegmentHdr.layout.zero) false =
      some 20 := by
  rfl

theorem profileSegmentHdr_unmarshal_ok (data : ByteSlice) (hdr : ProfileSegmentHdr)
    (h : ProfileSegmentHdr.UnmarshalBinary data = .ok hdr) :
    20 + hdr.ProfileNameLen ≤ data.bytes.length ∧
    hdr.Magic = data.bytes.getD 0 0 ∧
    hdr.PhysicLen = beUint ((data.bytes.drop 1).take 4) ∧
    hdr.LogicLen = beUint ((data.bytes.drop 5).take 4) ∧
    hdr.SegmentName = (data.bytes.drop 9).take 8 ∧
    hdr.ProfileNameLen = beUint ((data.bytes.drop 17).take 2) ∧
    hdr.ProfileName = (data.bytes.drop 20).take hdr.ProfileNameLen := by
  obtain ⟨bytes, spare⟩ := data
  simp only at h ⊢
  by_cases hlt : ((bytes.length : Nat) : Int) < 20
  · simp only [ProfileSegmentHdr.UnmarshalBinary, unmarshalFields, profileSegmentHdr_zero_size, hlt,
      if_true, Res.bind] at h
    cases h
  · have h20 : 19 + 1 ≤ bytes.length := by omega
    obtain ⟨b0, l0, rfl, h0⟩ := exists_cons_of_succ_le bytes h20
    obtain ⟨b1, l1, rfl, h1⟩ := exists_cons_of_succ_le l0 h0
    obtain ⟨b2, l2, rfl, h2⟩ := exists_cons_of_succ_le l1 h1
    obtain ⟨b3, l3, rfl, h3⟩ := exists_cons_of_succ_le l2 h2
    obtain ⟨b4, l4, rfl, h4⟩ := exists_cons_of_succ_le l3 h3
    obtain ⟨b5, l5, rfl, h5⟩ := exists_cons_of_succ_le l4 h4
    obtain ⟨b6, l6, rfl, h6⟩ := exists_cons_of_succ_le l5 h5
    obtain ⟨b7, l7, rfl, h7⟩ := exists_cons_of_succ_le l6 h6
    obtain ⟨b8, l8, rfl, h8⟩ := exists_cons_of_succ_le l7 h7
    obtain ⟨b9, l9, rfl, h9⟩ := exists_cons_of_succ_le l8 h8
    obtain ⟨b10, l10, rfl, h10⟩ := exists_cons_of_succ_le l9 h9
    obtain ⟨b11, l11, rfl, h11⟩ := exists_cons_of_succ_le l10 h10
    obtain ⟨b12, l12, rfl, h12⟩ := exists_cons_of_succ_le l11 h11
    obtain ⟨b13, l13, rfl, h13⟩ := exists_cons_of_succ_le l12 h12
    obtain ⟨b14, l14, rfl, h14⟩ := exists_cons_of_succ_le l13 h13
    obtain ⟨b15, l15, rfl, h15⟩ := exists_cons_of_succ_le l14 h14
    obtain ⟨b16, l16, rfl, h16⟩ := exists_cons_of_succ_le l15 h15
    obtain ⟨b17, l17, rfl, h17⟩ := exists_cons_of_succ_le l16 h16
    obtain ⟨b18, l18, rfl, h18⟩ := exists_cons_of_succ_le l17 h17
    obtain ⟨b19, l19, rfl, h19⟩ := exists_cons_of_succ_le l18 h18
    simp only [ProfileSegmentHdr.UnmarshalBinary, unmarshalFields, profileSegmentHdr_zero_size, hlt,
      if_false, profileSegmentHdr_decode] at h
    by_cases hn : beUint [b17, b18] ≤ l19.length
    · simp only [hn, if_true, Res.bind, ProfileSegmentHdr.ofValues, toBytes_map_uint] at h
      have hh := Res.ok.inj h
      subst hh
      simp only [List.length_cons, List.getD_cons_zero, List.drop_succ_cons, List.drop_zero,
        List.take_succ_cons, List.take_zero, and_true]
      omega
    · simp only [hn, if_false, Res.bind] at h
      cases h

theorem hexValue_hexDigit : ∀ d < 16, hexValue (hexDigit d) = d := by decide

theorem hexDecode_hexEncode (bs : List Nat) (hb : ∀ x ∈ bs, x < 256) :
    hexDecode (hexEncode bs) = bs ∧ (hexEncode bs).length = 2 * bs.length := by
  induction bs with
  | nil => exact ⟨rfl, rfl⟩
  | cons b rest ih =>
    have hb0 : b < 256 := hb b (List.mem_cons_self _ _)
    obtain ⟨ih1, ih2⟩ := ih (fun x hx => hb x (List.mem_cons_of_mem _ hx))
    have e : hexEncode (b :: rest) =
        hexDigit (b / 16) :: hexDigit (b % 16) :: hexEncode rest := by
      simp only [hexEncode, List.map_cons, List.flatten_cons, fmtHex02_byte b hb0, twoHex,
        List.cons_append, List.nil_append]
    rw [e, hexDecode, ih1, hexValue_hexDigit _ (by omega), hexValue_hexDigit _ (by omega)]
    refine ⟨?_, ?_⟩
    · congr 1; omega
    · simp only [List.length_cons, ih2]; omega

theorem take_drop_take (bs : List Nat) (n m k : Nat) (h : m + k ≤ n) :
    ((bs.take n).drop m).take k = (bs.drop m).take k := by
  rw [List.drop_take, List.take_take]
  congr 1
  omega

theorem segmentOf_raw (fuel : Nat) (data : ByteSlice) (hb : ∀ x ∈ data.bytes, x < 256)
    (profileType : List Nat) (template : Template) (profileStructs : GoMap (GoMap StructType))
    (d : SegmentData) (s : Segment)
    (h : ParseRACF.segmentOf fuel data profileType template profileStructs d = some (.ok (some s))) :
    s.Address + s.LogicalSize ≤ data.bytes.length ∧
    s.Raw = hexEncode ((data.bytes.drop s.Address).take s.LogicalSize) ∧
    (9 ≤ s.LogicalSize →
      s.PhysicalSize = beUint ((((data.bytes.drop s.Address).take s.LogicalSize).drop 1).take 4) ∧
      s.LogicalSize =
        beUint ((((data.bytes.drop s.Address).take s.LogicalSize).drop 5).take 4)) := by
  unfold ParseRACF.segmentOf at h
  cases hsd : data.sliceFrom d.RBA with
  | ok sd =>
    rw [hsd] at h
    simp only [] at h
    have hsdb : sd.bytes = data.bytes.drop d.RBA ∧ d.RBA ≤ data.bytes.length := by
      rw [ByteSlice.sliceFrom] at hsd
      split_ifs at hsd with hpl
      cases hsd
      exact ⟨rfl, hpl⟩
    cases hu : ProfileSegment.UnmarshalBinary fuel sd with
    | none => rw [hu] at h; cases h
    | some r =>
      rw [hu] at h
      cases r with
      | ok ps =>
        simp only [] at h
        rw [profileSegment_unmarshal_eq] at hu
        cases hh : ProfileSegmentHdr.UnmarshalBinary sd with
        | ok hdr =>
          rw [hh] at hu
          simp only [] at hu
          cases hl : ProfileSegment.UnmarshalBinary.loop sd hdr.LogicLen fuel
              (20 + hdr.ProfileNameLen) [] with
          | none => rw [hl] at hu; cases hu
          | some r2 =>
            rw [hl] at hu
            cases r2 with
            | ok fields =>
              have hps : ps = ⟨hdr, fields⟩ := (Res.ok.inj (Option.some.inj hu)).symm
              subst hps
              obtain ⟨hlen, _, hphys, hlog, _, _, _⟩ := profileSegmentHdr_unmarshal_ok sd hdr hh
              obtain ⟨new, e, _, hse, hle, _, _, hbound⟩ := segment_loop_slots _ _ _ _ _ _ hl
              have hsdbytes : ∀ x ∈ sd.bytes, x < 256 := by
                intro x hx
                rw [hsdb.1] at hx
                exact hb x (List.mem_of_mem_drop hx)
              have hL : hdr.LogicLen ≤ sd.bytes.length := by
                by_cases hn : new = []
                · subst hn
                  rw [slotsEnd] at hse
                  have := Option.some.inj hse
                  omega
                · have := hbound hsdbytes hn
                  omega
              have hL2 : d.RBA + hdr.LogicLen ≤ data.bytes.length := by
                rw [hsdb.1, List.length_drop] at hL
                omega
              cases htv : ProfileSegment.ToValue ⟨hdr, fields⟩ profileType template
                  profileStructs with
              | ok sValue =>
                rw [htv] at h
                simp only [] at h
                have hsl : data.slice d.RBA (d.RBA + hdr.LogicLen) =
                    .ok ⟨(data.bytes.drop d.RBA).take hdr.LogicLen,
                      data.bytes.drop (d.RBA + hdr.LogicLen) ++ data.spare⟩ := by
                  have hc : d.RBA ≤ d.RBA + hdr.LogicLen ∧
                      d.RBA + hdr.LogicLen ≤ data.bytes.length + data.spare.length := by omega
                  simp only [ByteSlice.slice, hc, and_self, if_true]
                  rw [List.take_append_of_le_length hL2, List.drop_append_of_le_length hL2,
                    List.drop_take]
                  simp
                rw [hsl] at h
                have hs := Res.ok.inj (Option.some.inj h)
                simp only [Option.some.injEq] at hs
                subst hs
                refine ⟨hL2, rfl, fun h9 => ?_⟩
                have h9' : 9 ≤ hdr.LogicLen := h9
                show hdr.PhysicLen = beUint ((((data.bytes.drop d.RBA).take hdr.LogicLen).drop
                    1).take 4) ∧
                  hdr.LogicLen = beUint ((((data.bytes.drop d.RBA).take hdr.LogicLen).drop
                    5).take 4)
                rw [take_drop_take _ _ 1 4 (by omega), take_drop_take _ _ 5 4 (by omega),
                  ← hsdb.1]
                exact ⟨hphys, hlog⟩
              | err => rw [htv] at h; cases h
              | panic => rw [htv] at h; cases h
            | err => cases hu
            | panic => cases hu
        | err => rw [hh] at hu; cases hu
        | panic => rw [hh] at hu; cases hu
      | err => cases h
      | panic => cases h
  | err => rw [hsd] at h; cases h
  | panic => rw [hsd] at h; cases h

theorem profileSegment_unmarshal_total (data : ByteSlice) (fuel : Nat)
    (hf : data.bytes.length + 1 ≤ fuel) :
    ∃ r, ProfileSegment.UnmarshalBinary fuel data = some r := by
  rw [profileSegment_unmarshal_eq]
  cases ProfileSegmentHdr.UnmarshalBinary data with
  | ok hdr =>
    obtain ⟨r0, hr0⟩ := segment_loop_total data hdr.LogicLen fuel (20 + hdr.ProfileNameLen) []
      (by omega) (by omega)
    exact ⟨r0.bind (fun fields => .ok ⟨hdr, fields⟩), by simp only [hr0, Option.map_some']⟩
  | err => exact ⟨_, rfl⟩
  | panic => exact ⟨_, rfl⟩

theorem segmentOf_total (fuel : Nat) (data : ByteSlice) (hf : data.bytes.length + 1 ≤ fuel)
    (profileType : List Nat) (template : Template) (profileStructs : GoMap (GoMap StructType))
    (d : SegmentData) :
    ∃ r, ParseRACF.segmentOf fuel data profileType template profileStructs d = some r := by
  unfold ParseRACF.segmentOf
  cases hsd : data.sliceFrom d.RBA with
  | ok sd =>
    simp only []
    have hsl : sd.bytes.length ≤ data.bytes.length := by
      rw [ByteSlice.sliceFrom] at hsd
      split_ifs at hsd
      cases hsd
      simp
    obtain ⟨r, hr⟩ := profileSegment_unmarshal_total sd fuel (by omega)
    rw [hr]
    cases r with
    | ok ps =>
      simp only []
      cases ps.ToValue profileType template profileStructs with
      | ok sValue =>
        simp only []
        cases data.slice d.RBA (d.RBA + ps.Hdr.LogicLen) <;> exact ⟨_, rfl⟩
      | err => exact ⟨_, rfl⟩
      | panic => exact ⟨_, rfl⟩
    | err => exact ⟨_, rfl⟩
    | panic => exact ⟨_, rfl⟩
  | err => exact ⟨_, rfl⟩
  | panic => exact ⟨_, rfl⟩

theorem segmentLoop_total (fuel : Nat) (data : ByteSlice) (hf : data.bytes.length + 1 ≤ fuel)
    (profileType : List Nat) (template : Template) (profileStructs : GoMap (GoMap StructType)) :
    ∀ ds segs, ∃ r,
      ParseRACF.segmentLoop fuel data profileType template profileStructs ds segs = some r := by
  intro ds
  induction ds with
  | nil => intro segs; exact ⟨_, rfl⟩
  | cons d rest ih =>
    intro segs
    obtain ⟨r, hr⟩ := segmentOf_total fuel data hf profileType template profileStructs d
    rw [ParseRACF.segmentLoop, hr]
    cases r with
    | ok o =>
      cases o with
      | none => exact ih segs
      | some s => exact ih _
    | err => exact ⟨_, rfl⟩
    | panic => exact ⟨_, rfl⟩

theorem segmentLoop_mem (fuel : Nat) (data : ByteSlice) (profileType : List Nat)
    (template : Template) (profileStructs : GoMap (GoMap StructType)) :
    ∀ ds segs out,
      ParseRACF.segmentLoop fuel data profileType template profileStructs ds segs =
        some (.ok out) →
      ∀ s ∈ out, s ∈ segs ∨ ∃ d ∈ ds,
        ParseRACF.segmentOf fuel data profileType template profileStructs d =
          some (.ok (some s)) := by
  intro ds
  induction ds with
  | nil =>
    intro segs out h s hs
    rw [ParseRACF.segmentLoop] at h
    have := Res.ok.inj (Option.some.inj h)
    subst this
    exact Or.inl hs
  | cons d rest ih =>
    intro segs out h s hs
    rw [ParseRACF.segmentLoop] at h
    cases hr : ParseRACF.segmentOf fuel data profileType template profileStructs d with
    | none => rw [hr] at h; cases h
    | some r =>
      rw [hr] at h
      cases r with
      | ok o =>
        cases o with
        | none =>
          rcases ih segs out h s hs with h1 | ⟨d2, hd2, h2⟩
          · exact Or.inl h1
          · exact Or.inr ⟨d2, List.mem_cons_of_mem _ hd2, h2⟩
        | some s1 =>
          rcases ih _ out h s hs with h1 | ⟨d2, hd2, h2⟩
          · rcases List.mem_append.mp h1 with h3 | h3
            · exact Or.inl h3
            · have : s = s1 := by simpa using h3
              subst this
              exact Or.inr ⟨d, List.mem_cons_self _ _, hr⟩
          · exact Or.inr ⟨d2, List.mem_cons_of_mem _ hd2, h2⟩
      | err => cases h
      | panic => cases h

/-! ## Properties: stored segments -/

/-- C31: let `data` be the file image and let the loop of `ParseRACF` over the segment data of
an index entry return the segments `segs`. Then for every stored segment the LogicalSize bytes
from its address lie inside the image, Raw is their lower-case hexadecimal encoding, so Raw has
2 x LogicalSize characters and decodes to these bytes, and with LogicalSize >= 9 the bytes 1..4
and 5..8 of the decoded Raw are the big-endian PhysicalSize and LogicalSize. The loop ends
for every number of rounds above the length of the image. -/
theorem parseRACF_segment_raw (fuel : Nat) (data : ByteSlice) (hb : ∀ x ∈ data.bytes, x < 256)
    (profileType : List Nat) (template : Template) (profileStructs : GoMap (GoMap StructType))
    (ds : List SegmentData) (segs : List Segment)
    (h : ParseRACF.segmentLoop fuel data profileType template profileStructs ds [] =
      some (.ok segs)) :
    (∀ s ∈ segs,
      s.Address + s.LogicalSize ≤ data.bytes.length ∧
      s.Raw = hexEncode ((data.bytes.drop s.Address).take s.LogicalSize) ∧
      s.Raw.length = 2 * s.LogicalSize ∧
      hexDecode s.Raw = (data.bytes.drop s.Address).take s.LogicalSize ∧
      (9 ≤ s.LogicalSize →
        beUint (((hexDecode s.Raw).drop 1).take 4) = s.PhysicalSize ∧
        beUint (((hexDecode s.Raw).drop 5).take 4) = s.LogicalSize)) ∧
    (∀ fuel2, data.bytes.length + 1 ≤ fuel2 → ∃ r,
      ParseRACF.segmentLoop fuel2 data profileType template profileStructs ds [] = some r) := by
  refine ⟨fun s hs => ?_, fun fuel2 hf => segmentLoop_total fuel2 data hf _ _ _ ds []⟩
  rcases segmentLoop_mem fuel data profileType template profileStructs ds [] segs h s hs with
    h1 | ⟨d, _, hd⟩
  · cases h1
  · obtain ⟨hin, hraw, h9⟩ := segmentOf_raw fuel data hb _ _ _ d s hd
    have hbs : ∀ x ∈ (data.bytes.drop s.Address).take s.LogicalSize, x < 256 :=
      fun x hx => hb x (List.mem_of_mem_drop (List.mem_of_mem_take hx))
    obtain ⟨hdec, hlen⟩ := hexDecode_hexEncode _ hbs
    have hl : ((data.bytes.drop s.Address).take s.LogicalSize).length = s.LogicalSize := by
      rw [List.length_take, List.length_drop]; omega
    refine ⟨hin, hraw, ?_, ?_, fun hh => ?_⟩
    · rw [hraw, hlen, hl]
    · rw [hraw, hdec]
    · rw [hraw, hdec]
      exact ⟨(h9 hh).1.symm, (h9 hh).2.symm⟩

theorem parseRACF_segment_raw_witness :
    ParseRACF.segmentLoop 43 Fixture.segmentFile (str "GROUP") Fixture.groupTemplate2
      Fixture.groupSchema [⟨1, 16⟩] [] = some (.ok [Fixture.segmentStored]) ∧
    Fixture.segmentStored.Raw.length = 2 * Fixture.segmentStored.LogicalSize ∧
    beUint (((hexDecode Fixture.segmentStored.Raw).drop 1).take 4) =
      Fixture.segmentStored.PhysicalSize ∧
    beUint (((hexDecode Fixture.segmentStored.Raw).drop 5).take 4) =
      Fixture.segmentStored.LogicalSize := by
  have hrun : ParseRACF.segmentLoop 43 Fixture.segmentFile (str "GROUP") Fixture.groupTemplate2
      Fixture.groupSchema [⟨1, 16⟩] [] = some (.ok [Fixture.segmentStored]) := by decide
  have h := (parseRACF_segment_raw 43 Fixture.segmentFile (by decide) (str "GROUP")
    Fixture.groupTemplate2 Fixture.groupSchema [⟨1, 16⟩] [Fixture.segmentStored] hrun).1
    Fixture.segmentStored (List.mem_singleton.mpr rfl)
  exact ⟨hrun, h.2.2.1, h.2.2.2.2 (by decide)⟩

/-! ## Lemmas: the chain of index blocks -/

theorem decode_uint64_size6 (r rest spare : List Nat) (v : Value) (hr : r.length = 6) :
    Layout.uint64.decode ⟨r ++ rest, spare⟩ v [(str "size", 6)] =
      .done (.uint (beUint r)) 6 false := by
  have hsl : ByteSlice.slice ⟨r ++ rest, spare⟩ 0 6 = .ok ⟨r, rest ++ spare⟩ := by
    have := byteSlice_slice_zero ⟨r ++ rest, spare⟩ 6 (by simp; omega)
    simpa [List.take_left' hr, List.drop_left' hr] using this
  have hsz : GoMap.get? [(str "size", (6 : Int))] (str "size") = some 6 := by decide
  have hpad : beUint (List.take 8 (zeroPadding r 8)) = beUint r :=
    beUint_zeroPadding r (by omega)
  rw [Layout.decode]
  simp only [hsz]
  simp [hsl, hpad, DecodeValue.finish]

theorem sequenceSetChain_unmarshal (a b : Nat) (r rest spare : List Nat) (hr : r.length = 6) :
    SequenceSetChain.UnmarshalBinary ⟨a :: b :: (r ++ rest), spare⟩ =
      .ok ⟨beUint [a, b], beUint r⟩ := by
  have hs : (Layout.struct SequenceSetChain.layout).Size
      (.struct [.uint 0, .uint 0]) false = some 8 := rfl
  have hlt : ¬ (((a :: b :: (r ++ rest)).length : Nat) : Int) < 8 := by
    simp only [List.length_cons, List.length_append, hr]; omega
  have he : isExported (str "Id") = true ∧ isExported (str "RBA") = true :=
    ⟨by decide, by decide⟩
  have hs0 : ∀ d : ByteSlice, d.sliceFromInt 0 = .ok d := fun d => by
    simp [ByteSlice.sliceFromInt, ByteSlice.sliceFrom]
  have hs2 : ByteSlice.sliceFromInt ⟨a :: b :: (r ++ rest), spare⟩ 2 = .ok ⟨r ++ rest, spare⟩ := by
    simp [ByteSlice.sliceFromInt, ByteSlice.sliceFrom]
  have hz : SequenceSetChain.layout.zero = [.uint 0, .uint 0] := rfl
  simp only [SequenceSetChain.UnmarshalBinary, unmarshalFields, hz, hs, hlt, if_false]
  simp only [SequenceSetChain.layout, fields_decode_cons, fields_decode_nil, parseTag_empty,
    parseTag_size6, he, if_true, hs0, decode_uint16, zero_add, hs2, Bool.false_eq_true,
    decode_uint64_size6 _ _ _ _ hr, List.set_cons_zero, List.set_cons_succ, Res.bind,
    List.getD_cons_zero, List.getD_cons_succ, if_false]

theorem sequenceSetChain_unmarshal_ok (d : ByteSlice) (ssc : SequenceSetChain)
    (h : SequenceSetChain.UnmarshalBinary d = .ok ssc) :
    8 ≤ d.bytes.length ∧ ssc.Id = beUint (d.bytes.take 2) ∧
      ssc.RBA = beUint ((d.bytes.drop 2).take 6) := by
  obtain ⟨bytes, spare⟩ := d
  simp only at h ⊢
  by_cases hlt : ((bytes.length : Nat) : Int) < 8
  · have hs : (Layout.struct SequenceSetChain.layout).Size
        (.struct SequenceSetChain.layout.zero) false = some 8 := rfl
    simp only [SequenceSetChain.UnmarshalBinary, unmarshalFields, hs, hlt, if_true, Res.bind] at h
    cases h
  · have h8 : 7 + 1 ≤ bytes.length := by omega
    obtain ⟨a, l0, rfl, h0⟩ := exists_cons_of_succ_le bytes h8
    obtain ⟨b, l1, rfl, h1⟩ := exists_cons_of_succ_le l0 h0
    have e : l1 = l1.take 6 ++ l1.drop 6 := (List.take_append_drop 6 l1).symm
    rw [e, sequenceSetChain_unmarshal a b (l1.take 6) (l1.drop 6) spare
      (by rw [List.length_take]; omega)] at h
    have := Res.ok.inj h
    subst this
    simp only [List.length_cons, List.take_succ_cons, List.take_zero, List.drop_succ_cons,
      List.drop_zero, List.take_append_drop, and_true]
    omega

theorem indBlk_unmarshal_ssc (data : ByteSlice) (ib : IndBlk)
    (h : IndBlk.UnmarshalBinary data = .ok ib) :
    (data.sliceFrom ib.Hdr.OffsetLast).bind SequenceSetChain.UnmarshalBinary = .ok ib.SSC ∧
    ib.Hdr.OffsetLast + 8 ≤ data.bytes.length ∧
    ib.SSC.Id = beUint ((data.bytes.drop ib.Hdr.OffsetLast).take 2) ∧
    ib.SSC.RBA = beUint ((data.bytes.drop (ib.Hdr.OffsetLast + 2)).take 6) := by
  simp only [IndBlk.UnmarshalBinary] at h
  obtain ⟨hdr, _, h⟩ := Res.bind_eq_ok'.mp h
  rw [indBlkHdr_size] at h
  obtain ⟨ptr, _, h⟩ := Res.bind_eq_ok'.mp h
  obtain ⟨entries, _, h⟩ := Res.bind_eq_ok'.mp h
  obtain ⟨d, hd, h⟩ := Res.bind_eq_ok'.mp h
  obtain ⟨ssc, hssc, h⟩ := Res.bind_eq_ok'.mp h
  have hib : ib = ⟨hdr, entries, ssc⟩ := (Res.ok.inj h).symm
  subst hib
  simp only
  have hdb : d.bytes = data.bytes.drop hdr.OffsetLast ∧ hdr.OffsetLast ≤ data.bytes.length := by
    rw [ByteSlice.sliceFrom] at hd
    split_ifs at hd with hpl
    cases hd
    exact ⟨rfl, hpl⟩
  obtain ⟨h8, hid, hrba⟩ := sequenceSetChain_unmarshal_ok d ssc hssc
  rw [hdb.1] at hid hrba h8
  rw [List.length_drop] at h8
  refine ⟨?_, by omega, hid, ?_⟩
  · rw [hd]; exact hssc
  · rw [hrba, List.drop_drop, Nat.add_comm]

theorem indexWalk_chain (dec : ByteSlice → Res IndBlk) (data : ByteSlice) :
    ∀ fuel addr acc out, ParseRACF.indexWalk.loop dec data fuel addr acc = some (.ok out) →
      ∃ new, out = acc ++ new ∧ chainWith dec data addr new := by
  intro fuel
  induction fuel with
  | zero => intro _ _ _ h; rw [ParseRACF.indexWalk.loop] at h; cases h
  | succ n ih =>
    intro addr acc out h
    rw [ParseRACF.indexWalk.loop] at h
    by_cases h0 : addr = 0
    · rw [if_pos h0] at h
      have := Res.ok.inj (Option.some.inj h)
      exact ⟨[], by rw [← this, List.append_nil], h0⟩
    · rw [if_neg h0] at h
      cases hs : data.slice addr (addr + 0x1000) with
      | ok d =>
        rw [hs] at h
        simp only [] at h
        cases hd : dec d with
        | ok ib =>
          rw [hd] at h
          obtain ⟨new, hout, hch⟩ := ih _ _ _ h
          refine ⟨ib :: new, by rw [hout, List.append_assoc]; rfl, h0, ?_, hch⟩
          rw [hs]; exact hd
        | err => rw [hd] at h; cases h
        | panic => rw [hd] at h; cases h
      | err => rw [hs] at h; cases h
      | panic => rw [hs] at h; cases h

theorem chain_indexWalk (dec : ByteSlice → Res IndBlk) (data : ByteSlice) :
    ∀ new addr acc fuel, chainWith dec data addr new → new.length + 1 ≤ fuel →
      ParseRACF.indexWalk.loop dec data fuel addr acc = some (.ok (acc ++ new)) := by
  intro new
  induction new with
  | nil =>
    intro addr acc fuel hch hf
    obtain ⟨n, rfl⟩ : ∃ n, fuel = n + 1 := ⟨fuel - 1, by simp at hf; omega⟩
    have h0 : addr = 0 := hch
    rw [ParseRACF.indexWalk.loop, if_pos h0, List.append_nil]
  | cons ib rest ih =>
    intro addr acc fuel hch hf
    obtain ⟨n, rfl⟩ : ∃ n, fuel = n + 1 := ⟨fuel - 1, by simp at hf; omega⟩
    obtain ⟨h0, hdec, hrest⟩ := hch
    obtain ⟨d, hs, hd⟩ := Res.bind_eq_ok.mp hdec
    rw [ParseRACF.indexWalk.loop, if_neg h0, hs]
    simp only [hd]
    rw [ih _ _ n hrest (by simp only [List.length_cons] at hf; omega), List.append_assoc]
    rfl

/-! ## Properties: the chain of index blocks -/

theorem parseTag_loop_static : ∀ (items : List (List Nat)) (ft0 ft : FieldTag),
    ParseTag.loop [] items ft0 = .done ft false →
    ∀ root, ParseTag.loop root items ft0 = .done ft false := by
  intro items
  induction items with
  | nil => intro ft0 ft h root; rw [ParseTag.loop] at h ⊢; exact h
  | cons f rest ih =>
    intro ft0 ft h root
    rw [ParseTag.loop] at h ⊢
    split at h
    · rename_i p0 p1 hsp
      cases ha : Atoi p1 with
      | some v =>
        rw [ha] at h
        exact ih _ _ h root
      | none =>
        rw [ha] at h
        simp only [List.find?_nil] at h
        cases h
    · exact ih _ _ h root
    · exact ih _ _ h root

theorem parseTag_static (tag : List Nat) (ft : FieldTag) (h : staticTag tag = some ft)
    (fields : Fields) (vals : List Value) : ParseTag tag fields vals = .done ft false := by
  rw [staticTag] at h
  split at h
  · rename_i ft1 hl
    have := Option.some.inj h
    subst this
    exact parseTag_loop_static _ _ _ hl _
  · cases h

theorem size_elems_const (size : Value → Option Int) (w : Nat) :
    ∀ (n : Nat) (vs : List Value), vs.length = n → (∀ v ∈ vs, size v = some (w : Int)) →
      Size.elems size n vs = some ((n * w : Nat) : Int) := by
  intro n
  induction n with
  | zero => intro vs _ _; simp [Size.elems]
  | succ n ih =>
    intro vs hl hv
    match vs, hl with
    | v :: tl, hl =>
      have h1 := hv v (List.mem_cons_self _ _)
      have h2 := ih tl (by simpa using hl) (fun x hx => hv x (List.mem_cons_of_mem _ hx))
      simp only [Size.elems, List.headD_cons, List.tail_cons, h1, h2, Option.map_some']
      congr 1
      push_cast
      ring

mutual
theorem layout_size_width : ∀ (t : Layout) (v : Value) (w : Nat),
    t.width = some w → t.shaped v = true → t.Size v false = some (w : Int)
  | .bool, v, w, hw, _ => by
    rw [Layout.width] at hw; cases hw; rw [Layout.Size]; rfl
  | .uint8, v, w, hw, _ => by
    rw [Layout.width] at hw; cases hw; rw [Layout.Size]; rfl
  | .int8, v, w, hw, _ => by
    rw [Layout.width] at hw; cases hw; rw [Layout.Size]; rfl
  | .uint16, v, w, hw, _ => by
    rw [Layout.width] at hw; cases hw; rw [Layout.Size]; rfl
  | .int16, v, w, hw, _ => by
    rw [Layout.width] at hw; cases hw; rw [Layout.Size]; rfl
  | .uint32, v, w, hw, _ => by
    rw [Layout.width] at hw; cases hw; rw [Layout.Size]; rfl
  | .int32, v, w, hw, _ => by
    rw [Layout.width] at hw; cases hw; rw [Layout.Size]; rfl
  | .uint64, v, w, hw, _ => by
    rw [Layout.width] at hw; cases hw; rw [Layout.Size]; rfl
  | .int64, v, w, hw, _ => by
    rw [Layout.width] at hw; cases hw; rw [Layout.Size]; rfl
  | .slice _, v, w, hw, _ => by
    rw [Layout.width] at hw; cases hw
  | .array n elem, .list vs, w, hw, hs => by
    rw [Layout.width] at hw
    cases hwe : elem.width with
    | none => rw [hwe] at hw; cases hw
    | some we =>
      rw [hwe] at hw
      have hw2 : n * we = w := Option.some.inj hw
      rw [Layout.shaped] at hs
      simp only [Bool.and_eq_true, beq_iff_eq, List.all_eq_true] at hs
      rw [Layout.Size, ← hw2]
      exact size_elems_const _ we n vs hs.1
        (fun x hx => layout_size_width elem x we hwe (hs.2 x hx))
  | .array n elem, .bool _, w, hw, hs => by simp [Layout.shaped] at hs
  | .array n elem, .uint _, w, hw, hs => by simp [Layout.shaped] at hs
  | .array n elem, .int _, w, hw, hs => by simp [Layout.shaped] at hs
  | .array n elem, .struct _, w, hw, hs => by simp [Layout.shaped] at hs
  | .struct fields, .struct vals, w, hw, hs => by
    rw [Layout.width] at hw
    rw [Layout.shaped] at hs
    rw [Layout.Size]
    exact fields_size_width fields fields vals vals w hw hs
  | .struct fields, .bool _, w, hw, hs => by simp [Layout.shaped] at hs
  | .struct fields, .uint _, w, hw, hs => by simp [Layout.shaped] at hs
  | .struct fields, .int _, w, hw, hs => by simp [Layout.shaped] at hs
  | .struct fields, .list _, w, hw, hs => by simp [Layout.shaped] at hs
theorem fields_size_width : ∀ (rest all : Fields) (vals cur : List Value) (w : Nat),
    rest.width = some w → rest.shaped cur = true → rest.Size all vals cur = some (w : Int)
  | .nil, all, vals, cur, w, hw, _ => by
    rw [Fields.width] at hw; cases hw; rw [Fields.Size]; rfl
  | .cons name tag typ rest, all, vals, [], w, hw, hs => by
    rw [Fields.shaped] at hs; cases hs
  | .cons name tag typ rest, all, vals, v :: vs, w, hw, hs => by
    rw [Fields.shaped] at hs
    simp only [Bool.and_eq_true] at hs
    rw [Fields.width] at hw
    cases hst : staticTag tag with
    | none => rw [hst] at hw; cases hw
    | some ft =>
      rw [hst] at hw
      simp only [] at hw
      rw [Fields.Size, parseTag_static tag ft hst]
      simp only []
      cases hsz : ft.get? (str "size") with
      | some s =>
        rw [hsz] at hw
        simp only [] at hw ⊢
        by_cases h0 : 0 ≤ s
        · rw [if_pos h0] at hw
          cases hr : rest.width with
          | none => rw [hr] at hw; cases hw
          | some b =>
            rw [hr] at hw
            have hw2 : s.toNat + b = w := Option.some.inj hw
            rw [List.tail_cons, fields_size_width rest all vals vs b hr hs.2]
            simp only [Option.map_some']
            congr 1
            omega
        · rw [if_neg h0] at hw; cases hw
      | none =>
        rw [hsz] at hw
        simp only [] at hw ⊢
        by_cases he : isExported name = true
        · rw [if_pos he] at hw
          cases ht : typ.width with
          | none => rw [ht] at hw; cases hw
          | some a =>
            rw [ht] at hw
            simp only [] at hw
            cases hr : rest.width with
            | none => rw [hr] at hw; cases hw
            | some b =>
              rw [hr] at hw
              have hw2 : a + b = w := Option.some.inj hw
              rw [List.headD_cons, List.tail_cons, he]
              simp only [Bool.not_true]
              rw [layout_size_width typ v a ht hs.1, fields_size_width rest all vals vs b hr hs.2]
              simp only [Option.map_some']
              congr 1
              omega
        · rw [if_neg he] at hw; cases hw
end

theorem byteSlice_index_zero (d : ByteSlice) (h : 1 ≤ d.bytes.length) :
    ∃ b, d.index 0 = .ok b := by
  obtain ⟨bytes, spare⟩ := d
  cases bytes with
  | nil => simp at h
  | cons b rest => exact ⟨b, rfl⟩

theorem finish_nonneg (t : Layout) (v : Value) (k : Nat) :
    DecodeValue.finish t v (k : Int) = .done v k false := by
  have : ¬ ((k : Int) = -1) := by omega
  simp only [DecodeValue.finish, this, if_false]

theorem finish_width (t : Layout) (v : Value) (w : Nat) (h : t.Size v false = some (w : Int)) :
    DecodeValue.finish t v (-1) = .done v w false := by
  simp only [DecodeValue.finish, if_true, h]

theorem decode_uint8_span (ft : FieldTag) (d : ByteSlice) (v : Value) (r a : Nat)
    (hs : Layout.uint8.span ft = some (r, a)) (hr : r ≤ d.bytes.length) :
    ∃ v1, Layout.uint8.decode d v ft = .done v1 (a : Int) false := by
  rw [Layout.span] at hs
  cases hs
  obtain ⟨b, hb⟩ := byteSlice_index_zero d hr
  rw [Layout.decode, hb]
  exact ⟨_, finish_width _ _ 1 (by rw [Layout.Size]; rfl)⟩

theorem decode_int8_span (ft : FieldTag) (d : ByteSlice) (v : Value) (r a : Nat)
    (hs : Layout.int8.span ft = some (r, a)) (hr : r ≤ d.bytes.length) :
    ∃ v1, Layout.int8.decode d v ft = .done v1 (a : Int) false := by
  rw [Layout.span] at hs
  cases hs
  obtain ⟨b, hb⟩ := byteSlice_index_zero d hr
  rw [Layout.decode, hb]
  exact ⟨_, finish_width _ _ 1 (by rw [Layout.Size]; rfl)⟩

theorem decode_uint16_span (ft : FieldTag) (d : ByteSlice) (v : Value) (r a : Nat)
    (hs : Layout.uint16.span ft = some (r, a)) (hr : r ≤ d.bytes.length) :
    ∃ v1, Layout.uint16.decode d v ft = .done v1 (a : Int) false := by
  rw [Layout.span] at hs
  cases hs
  rw [Layout.decode, ByteSlice.beRead, if_pos hr]
  exact ⟨_, finish_width _ _ 2 (by rw [Layout.Size]; rfl)⟩

theorem decode_int16_span (ft : FieldTag) (d : ByteSlice) (v : Value) (r a : Nat)
    (hs : Layout.int16.span ft = some (r, a)) (hr : r ≤ d.bytes.length) :
    ∃ v1, Layout.int16.decode d v ft = .done v1 (a : Int) false := by
  rw [Layout.span] at hs
  cases hs
  rw [Layout.decode, ByteSlice.beRead, if_pos hr]
  exact ⟨_, finish_width _ _ 2 (by rw [Layout.Size]; rfl)⟩

theorem decode_uint32_span (ft : FieldTag) (d : ByteSlice) (v : Value) (r a : Nat)
    (hs : Layout.uint32.span ft = some (r, a)) (hr : r ≤ d.bytes.length) :
    ∃ v1, Layout.uint32.decode d v ft = .done v1 (a : Int) false := by
  rw [Layout.span] at hs
  cases hs
  rw [Layout.decode, ByteSlice.beRead, if_pos hr]
  exact ⟨_, finish_width _ _ 4 (by rw [Layout.Size]; rfl)⟩

theorem decode_int32_span (ft : FieldTag) (d : ByteSlice) (v : Value) (r a : Nat)
    (hs : Layout.int32.span ft = some (r, a)) (hr : r ≤ d.bytes.length) :
    ∃ v1, Layout.int32.decode d v ft = .done v1 (a : Int) false := by
  rw [Layout.span] at hs
  cases hs
  rw [Layout.decode, ByteSlice.beRead, if_pos hr]
  exact ⟨_, finish_width _ _ 4 (by rw [Layout.Size]; rfl)⟩

theorem decode_uint64_span (ft : FieldTag) (d : ByteSlice) (v : Value) (r a : Nat)
    (hs : Layout.uint64.span ft = some (r, a)) (hr : r ≤ d.bytes.length) :
    ∃ v1, Layout.uint64.decode d v ft = .done v1 (a : Int) false := by
  rw [Layout.span] at hs
  rw [Layout.decode]
  cases hsz : ft.get? (str "size") with
  | some s =>
    rw [hsz] at hs
    simp only [] at hs ⊢
    by_cases h0 : 0 ≤ s
    · rw [if_pos h0] at hs
      cases hs
      rw [if_neg (by omega)]
      have hc : 0 ≤ s.toNat ∧ s.toNat ≤ d.bytes.length + d.spare.length := ⟨Nat.zero_le _, by omega⟩
      simp only [ByteSlice.slice, hc, and_self, if_true]
      have hsn : s = ((s.toNat : Nat) : Int) := by omega
      rw [hsn]
      exact ⟨_, finish_nonneg _ _ _⟩
    · rw [if_neg h0] at hs; cases hs
  | none =>
    rw [hsz] at hs
    cases hs
    simp only []
    rw [ByteSlice.beRead, if_pos hr]
    exact ⟨_, finish_width _ _ 8 (by rw [Layout.Size]; rfl)⟩

theorem decode_int64_span (ft : FieldTag) (d : ByteSlice) (v : Value) (r a : Nat)
    (hs : Layout.int64.span ft = some (r, a)) (hr : r ≤ d.bytes.length) :
    ∃ v1, Layout.int64.decode d v ft = .done v1 (a : Int) false := by
  rw [Layout.span] at hs
  rw [Layout.decode]
  cases hsz : ft.get? (str "size") with
  | some s => rw [hsz] at hs; cases hs
  | none =>
    rw [hsz] at hs
    cases hs
    simp only []
    rw [ByteSlice.beRead, if_pos hr]
    exact ⟨_, finish_width _ _ 8 (by rw [Layout.Size]; rfl)⟩

theorem decode_bool_span (ft : FieldTag) (d : ByteSlice) (v : Value) (r a : Nat)
    (hs : Layout.bool.span ft = some (r, a)) (hr : r ≤ d.bytes.length) :
    ∃ v1, Layout.bool.decode d v ft = .done v1 (a : Int) false := by
  rw [Layout.span] at hs
  rw [Layout.decode]
  cases hsz : ft.get? (str "size") with
  | some s =>
    rw [hsz] at hs
    simp only [] at hs ⊢
    by_cases h124 : s = 1 ∨ s = 2 ∨ s = 4
    · rw [if_pos h124] at hs
      by_cases hbit : (ft.get? (str "bit")).isSome ∧
          8 * s - 1 - (ft.get? (str "bit")).getD 0 < 0
      · rw [if_pos hbit] at hs; cases hs
      · rw [if_neg hbit] at hs
        have hra := Option.some.inj hs
        have hr1 : r = s.toNat := (congrArg Prod.fst hra).symm
        have ha1 : (if (ft.get? (str "final")).isSome ∨
            (ft.get? (str "bit")).getD 0 = 8 * s - 1 then s.toNat else 0) = a :=
          congrArg Prod.snd hra
        have hread : ∃ n, (if s = 1 then d.index 0 else if s = 2 then d.beRead 2
            else if s = 4 then d.beRead 4 else .ok 0 : Res Nat) = .ok n := by
          rcases h124 with h | h | h
          · subst h
            obtain ⟨b, hb⟩ := byteSlice_index_zero d (by omega)
            exact ⟨b, by simp only [if_true, hb]⟩
          · subst h
            have : (2 : Nat) ≤ d.bytes.length := by omega
            exact ⟨beUint (d.bytes.take 2), by simp [ByteSlice.beRead, this]⟩
          · subst h
            have : (4 : Nat) ≤ d.bytes.length := by omega
            exact ⟨beUint (d.bytes.take 4), by simp [ByteSlice.beRead, this]⟩
        obtain ⟨n, hn⟩ := hread
        rw [hn]
        simp only []
        have hshift : (if (ft.get? (str "final")).isSome ∨
            (ft.get? (str "bit")).getD 0 = 8 * s - 1 then s else 0 : Int) = (a : Int) := by
          rw [← ha1]
          split_ifs
          · omega
          · rfl
        rw [hshift]
        cases hb : ft.get? (str "bit") with
        | some bn =>
          simp only []
          have hnn : ¬ (8 * s - 1 - (some bn).getD 0 < 0) := by
            intro hh
            exact hbit ⟨by rw [hb]; rfl, by rw [hb]; exact hh⟩
          rw [if_neg hnn]
          exact ⟨_, finish_nonneg _ _ _⟩
        | none =>
          simp only []
          exact ⟨_, finish_nonneg _ _ _⟩
    · rw [if_neg h124] at hs; cases hs
  | none =>
    rw [hsz] at hs
    cases hs
    simp only []
    obtain ⟨b, hb⟩ := byteSlice_index_zero d hr
    rw [hb]
    exact ⟨_, finish_width _ _ 1 (by rw [Layout.Size]; rfl)⟩

theorem decode_byteSlice_span (ft : FieldTag) (d : ByteSlice) (v : Value) (r a : Nat)
    (hs : (Layout.slice .uint8).span ft = some (r, a)) (hr : r ≤ d.bytes.length) :
    ∃ v1, (Layout.slice .uint8).decode d v ft = .done v1 (a : Int) false := by
  cases hsz : ft.get? (str "size") with
  | some s =>
    simp only [Layout.span, hsz] at hs
    by_cases h0 : 0 ≤ s
    · rw [if_pos h0] at hs
      cases hs
      have hsn : ft.get? (str "size") = some ((s.toNat : Nat) : Int) := by
        rw [hsz]; congr 1; omega
      obtain ⟨bytes, spare⟩ := d
      have hszv : ∀ e : Value, Layout.uint8.Size e false = some 1 := fun e => by
        rw [Layout.Size]
      have hel := bytes_elems (fun d e => Layout.uint8.decode d e ft)
        (fun e => Layout.uint8.Size e false) spare Layout.uint8.zero hszv
        (fun b r e => decode_uint8 b r spare e _) s.toNat [] bytes 0 0 rfl hr
      simp only [List.nil_append] at hel
      rw [decode_slice _ _ _ _ _ hsn, hel]
      simp only [zero_add]
      exact ⟨_, finish_nonneg _ _ _⟩
    · rw [if_neg h0] at hs; cases hs
  | none => simp only [Layout.span, hsz] at hs; cases hs

theorem elems_spec (dec : ByteSlice → Value → DecodeRes) (size : Value → Option Int)
    (P : Value → Prop) (w r : Nat) (data : ByteSlice)
    (hsize : ∀ e, P e → size e = some (w : Int))
    (hdec : ∀ (d : ByteSlice) e, P e → r ≤ d.bytes.length →
      ∃ e1 s err, dec d e = .done e1 s err ∧ P e1) :
    ∀ (vs : List Value) (i : Nat) (shift : Int), (∀ v ∈ vs, P v) →
      (vs ≠ [] → w * (i + vs.length - 1) + r ≤ data.bytes.length) →
      ∃ out, DecodeValue.elems dec size data vs i shift =
          some (out, shift + ((vs.length * w : Nat) : Int)) ∧
        out.length = vs.length ∧ ∀ v ∈ out, P v := by
  intro vs
  induction vs with
  | nil =>
    intro i shift _ _
    exact ⟨[], by simp [DecodeValue.elems], rfl, fun v hv => by cases hv⟩
  | cons e rest ih =>
    intro i shift hP hlen
    have hlen1 := hlen (by simp)
    simp only [List.length_cons] at hlen1
    have hwi : w * i + r ≤ data.bytes.length := by
      have : w * i ≤ w * (i + (rest.length + 1) - 1) := Nat.mul_le_mul_left _ (by omega)
      omega
    have hPe := hP e (List.mem_cons_self _ _)
    have hsl : data.sliceFromInt ((w : Int) * (i : Int)) =
        .ok ⟨data.bytes.drop (w * i), data.spare⟩ := by
      have h0 : ¬ ((w : Int) * (i : Int) < 0) := by
        have : (0 : Int) ≤ (w : Int) * (i : Int) := by positivity
        omega
      have h1 : ((w : Int) * (i : Int)).toNat = w * i := by
        rw [← Int.natCast_mul]; exact Int.toNat_natCast _
      simp only [ByteSlice.sliceFromInt, h0, if_false, h1, ByteSlice.sliceFrom]
      rw [if_pos (by omega)]
    obtain ⟨e1, s, err, hd, hP1⟩ := hdec ⟨data.bytes.drop (w * i), data.spare⟩ e hPe
      (by simp only [List.length_drop]; omega)
    obtain ⟨out, hout, hol, hoP⟩ := ih (i + 1) (shift + (w : Int))
      (fun v hv => hP v (List.mem_cons_of_mem _ hv))
      (fun hne => by
        have : w * (i + 1 + rest.length - 1) = w * (i + (rest.length + 1) - 1) := by
          congr 1; omega
        omega)
    refine ⟨e1 :: out, ?_, by simp [hol], ?_⟩
    · simp only [DecodeValue.elems, hsize e hPe, hsl, hd, hsize e1 hP1, hout, List.length_cons]
      congr 2
      push_cast
      ring
    · intro v hv
      rcases List.mem_cons.mp hv with h | h
      · rw [h]; exact hP1
      · exact hoP v h

theorem set_take_drop (v1 : Value) :
    ∀ (i : Nat) (vals : List Value) (v : Value) (vs : List Value), vals.drop i = v :: vs →
      (vals.set i v1).take (i + 1) = vals.take i ++ [v1] ∧ (vals.set i v1).drop (i + 1) = vs ∧
        vals.getD i default = v := by
  intro i
  induction i with
  | zero =>
    intro vals v vs h
    rw [List.drop_zero] at h
    subst h
    exact ⟨rfl, rfl, rfl⟩
  | succ n ih =>
    intro vals v vs h
    cases vals with
    | nil => simp at h
    | cons x tl =>
      rw [List.drop_succ_cons] at h
      obtain ⟨h1, h2, h3⟩ := ih tl v vs h
      refine ⟨?_, ?_, ?_⟩
      · rw [List.set_cons_succ, List.take_succ_cons, h1, List.take_succ_cons, List.cons_append]
      · rw [List.set_cons_succ, List.drop_succ_cons, h2]
      · rw [List.getD_cons_succ, h3]

theorem sliceFromInt_nat (data : ByteSlice) (k : Nat) (h : k ≤ data.bytes.length) :
    data.sliceFromInt (k : Int) = .ok ⟨data.bytes.drop k, data.spare⟩ := by
  have h0 : ¬ ((k : Int) < 0) := by omega
  simp only [ByteSlice.sliceFromInt, h0, if_false, Int.toNat_ofNat, ByteSlice.sliceFrom, h,
    if_true]

theorem shaped_leaf (t : Layout) (v : Value)
    (h : (∀ n e, t ≠ .array n e) ∧ ∀ f, t ≠ .struct f) : t.shaped v = true := by
  cases t with
  | array n e => exact absurd rfl (h.1 n e)
  | struct f => exact absurd rfl (h.2 f)
  | _ => cases v <;> rfl

mutual
theorem layout_decode_span : ∀ (t : Layout) (ft : FieldTag) (d : ByteSlice) (v : Value)
    (r a : Nat), t.span ft = some (r, a) → t.shaped v = true → r ≤ d.bytes.length →
    ∃ v1, t.decode d v ft = .done v1 (a : Int) false ∧ t.shaped v1 = true
  | .bool, ft, d, v, r, a, hs, _, hr => by
    obtain ⟨v1, h⟩ := decode_bool_span ft d v r a hs hr
    exact ⟨v1, h, shaped_leaf _ _ ⟨fun _ _ hh => Layout.noConfusion hh, fun _ hh => Layout.noConfusion hh⟩⟩
  | .uint8, ft, d, v, r, a, hs, _, hr => by
    obtain ⟨v1, h⟩ := decode_uint8_span ft d v r a hs hr
    exact ⟨v1, h, shaped_leaf _ _ ⟨fun _ _ hh => Layout.noConfusion hh, fun _ hh => Layout.noConfusion hh⟩⟩
  | .int8, ft, d, v, r, a, hs, _, hr => by
    obtain ⟨v1, h⟩ := decode_int8_span ft d v r a hs hr
    exact ⟨v1, h, shaped_leaf _ _ ⟨fun _ _ hh => Layout.noConfusion hh, fun _ hh => Layout.noConfusion hh⟩⟩
  | .uint16, ft, d, v, r, a, hs, _, hr => by
    obtain ⟨v1, h⟩ := decode_uint16_span ft d v r a hs hr
    exact ⟨v1, h, shaped_leaf _ _ ⟨fun _ _ hh => Layout.noConfusion hh, fun _ hh => Layout.noConfusion hh⟩⟩
  | .int16, ft, d, v, r, a, hs, _, hr => by
    obtain ⟨v1, h⟩ := decode_int16_span ft d v r a hs hr
    exact ⟨v1, h, shaped_leaf _ _ ⟨fun _ _ hh => Layout.noConfusion hh, fun _ hh => Layout.noConfusion hh⟩⟩
  | .uint32, ft, d, v, r, a, hs, _, hr => by
    obtain ⟨v1, h⟩ := decode_uint32_span ft d v r a hs hr
    exact ⟨v1, h, shaped_leaf _ _ ⟨fun _ _ hh => Layout.noConfusion hh, fun _ hh => Layout.noConfusion hh⟩⟩
  | .int32, ft, d, v, r, a, hs, _, hr => by
    obtain ⟨v1, h⟩ := decode_int32_span ft d v r a hs hr
    exact ⟨v1, h, shaped_leaf _ _ ⟨fun _ _ hh => Layout.noConfusion hh, fun _ hh => Layout.noConfusion hh⟩⟩
  | .uint64, ft, d, v, r, a, hs, _, hr => by
    obtain ⟨v1, h⟩ := decode_uint64_span ft d v r a hs hr
    exact ⟨v1, h, shaped_leaf _ _ ⟨fun _ _ hh => Layout.noConfusion hh, fun _ hh => Layout.noConfusion hh⟩⟩
  | .int64, ft, d, v, r, a, hs, _, hr => by
    obtain ⟨v1, h⟩ := decode_int64_span ft d v r a hs hr
    exact ⟨v1, h, shaped_leaf _ _ ⟨fun _ _ hh => Layout.noConfusion hh, fun _ hh => Layout.noConfusion hh⟩⟩
  | .slice elem, ft, d, v, r, a, hs, _, hr => by
    have he : elem = .uint8 := by
      cases elem <;> first | rfl | (simp [Layout.span] at hs)
    subst he
    obtain ⟨v1, h⟩ := decode_byteSlice_span ft d v r a hs hr
    exact ⟨v1, h, shaped_leaf _ _ ⟨fun _ _ hh => Layout.noConfusion hh, fun _ hh => Layout.noConfusion hh⟩⟩
  | .array n elem, ft, d, .list vs, r, a, hs, hsh, hr => by
    rw [Layout.span] at hs
    cases hes : elem.span ft with
    | none => rw [hes] at hs; cases hs
    | some p =>
      obtain ⟨re, ae⟩ := p
      cases hew : elem.width with
      | none => rw [hes, hew] at hs; cases hs
      | some w =>
        rw [hes, hew] at hs
        have hra := Option.some.inj hs
        have hr1 : (if n = 0 then 0 else (n - 1) * w + re) = r := congrArg Prod.fst hra
        have ha1 : n * w = a := congrArg Prod.snd hra
        rw [Layout.shaped] at hsh
        simp only [Bool.and_eq_true, beq_iff_eq, List.all_eq_true] at hsh
        obtain ⟨out, hout, hol, hoP⟩ := elems_spec (fun d e => elem.decode d e ft)
          (fun e => elem.Size e false) (fun e => elem.shaped e = true) w re d
          (fun e he => layout_size_width elem e w hew he)
          (fun d1 e he hr1 => by
            obtain ⟨e1, h1, h2⟩ := layout_decode_span elem ft d1 e re ae hes he hr1
            exact ⟨e1, _, _, h1, h2⟩)
          vs 0 0 hsh.2
          (fun hne => by
            have hn0 : n ≠ 0 := by
              intro h0
              rw [h0] at hsh
              exact hne (List.length_eq_zero.mp hsh.1)
            rw [if_neg hn0] at hr1
            rw [hsh.1, Nat.zero_add, Nat.mul_comm]
            omega)
        rw [Layout.decode, hout]
        simp only [zero_add]
        refine ⟨.list out, ?_, ?_⟩
        · rw [hsh.1, ha1]
          exact finish_nonneg _ _ _
        · rw [Layout.shaped]
          simp only [Bool.and_eq_true, beq_iff_eq, List.all_eq_true]
          exact ⟨by rw [hol, hsh.1], hoP⟩
  | .array n elem, ft, d, .bool _, r, a, hs, hsh, hr => by simp [Layout.shaped] at hsh
  | .array n elem, ft, d, .uint _, r, a, hs, hsh, hr => by simp [Layout.shaped] at hsh
  | .array n elem, ft, d, .int _, r, a, hs, hsh, hr => by simp [Layout.shaped] at hsh
  | .array n elem, ft, d, .struct _, r, a, hs, hsh, hr => by simp [Layout.shaped] at hsh
  | .struct fields, ft, d, .struct vals, r, a, hs, hsh, hr => by
    rw [Layout.span] at hs
    rw [Layout.shaped] at hsh
    obtain ⟨out, hout, hsho⟩ := fields_decode_span fields fields d vals 0 0 r a hs
      (by rw [List.drop_zero]; exact hsh) (by omega)
    rw [List.take_zero, List.nil_append, Nat.zero_add] at hout
    refine ⟨.struct out, ?_, ?_⟩
    · rw [decode_struct]
      have h0 : ((0 : Nat) : Int) = 0 := rfl
      rw [h0] at hout
      rw [hout]
      exact finish_nonneg _ _ _
    · rw [Layout.shaped]; exact hsho
  | .struct fields, ft, d, .bool _, r, a, hs, hsh, hr => by simp [Layout.shaped] at hsh
  | .struct fields, ft, d, .uint _, r, a, hs, hsh, hr => by simp [Layout.shaped] at hsh
  | .struct fields, ft, d, .int _, r, a, hs, hsh, hr => by simp [Layout.shaped] at hsh
  | .struct fields, ft, d, .list _, r, a, hs, hsh, hr => by simp [Layout.shaped] at hsh
theorem fields_decode_span : ∀ (rest all : Fields) (data : ByteSlice) (vals : List Value)
    (i shift r a : Nat), rest.span = some (r, a) → rest.shaped (vals.drop i) = true →
    shift + r ≤ data.bytes.length →
    ∃ out, rest.decode all data vals i (shift : Int) =
        .done (.struct (vals.take i ++ out)) ((shift + a : Nat) : Int) false ∧
      rest.shaped out = true
  | .nil, all, data, vals, i, shift, r, a, hs, hsh, hr => by
    rw [Fields.span] at hs
    cases hs
    rw [Fields.shaped] at hsh
    have hd : vals.drop i = [] := List.isEmpty_iff.mp hsh
    refine ⟨[], ?_, rfl⟩
    rw [fields_decode_nil, List.append_nil, Nat.add_zero]
    have : vals.take i = vals := by
      have := List.take_append_drop i vals
      rw [hd, List.append_nil] at this
      exact this
    rw [this]
  | .cons name tag typ rest, all, data, vals, i, shift, r, a, hs, hsh, hr => by
    rw [Fields.span] at hs
    cases hst : staticTag tag with
    | none => rw [hst] at hs; cases hs
    | some ft =>
      rw [hst] at hs
      simp only [] at hs
      cases hdv : vals.drop i with
      | nil => rw [hdv, Fields.shaped] at hsh; cases hsh
      | cons v vs =>
        rw [hdv, Fields.shaped] at hsh
        simp only [Bool.and_eq_true] at hsh
        have hget : vals.getD i default = v := (set_take_drop v i vals v vs hdv).2.2
        cases hf : (if isExported name then typ.span ft
             else match ft.get? (str "size") with
               | some s => if 0 ≤ s then some (0, s.toNat) else none
               | none => none) with
        | none => rw [hf] at hs; cases hs
        | some p1 =>
          obtain ⟨r1, a1⟩ := p1
          cases hrs : rest.span with
          | none => rw [hf, hrs] at hs; cases hs
          | some p2 =>
            obtain ⟨r2, a2⟩ := p2
            rw [hf, hrs] at hs
            have hra := Option.some.inj hs
            have hr1 : max r1 (a1 + r2) = r := congrArg Prod.fst hra
            have ha1 : a1 + a2 = a := congrArg Prod.snd hra
            have hsl := sliceFromInt_nat data shift (by omega)
            have hfield : ∃ v1, (if isExported name then
                  typ.decode ⟨data.bytes.drop shift, data.spare⟩ v ft
                else DecodeValue.notSettable v ft) = .done v1 (a1 : Int) false ∧
                typ.shaped v1 = true := by
              by_cases he : isExported name = true
              · rw [if_pos he] at hf ⊢
                exact layout_decode_span typ ft ⟨data.bytes.drop shift, data.spare⟩ v r1 a1 hf
                  hsh.1 (by simp only [List.length_drop]; omega)
              · rw [if_neg he] at hf ⊢
                cases hsz : ft.get? (str "size") with
                | none => rw [hsz] at hf; cases hf
                | some s =>
                  rw [hsz] at hf
                  simp only [] at hf
                  by_cases h0 : 0 ≤ s
                  · rw [if_pos h0] at hf
                    have hp := Option.some.inj hf
                    have hs1 : s.toNat = a1 := congrArg Prod.snd hp
                    refine ⟨v, ?_, hsh.1⟩
                    simp only [DecodeValue.notSettable, hsz]
                    congr 1
                    omega
                  · rw [if_neg h0] at hf; cases hf
            obtain ⟨v1, hdec, hshv⟩ := hfield
            obtain ⟨htake, hdrop, _⟩ := set_take_drop v1 i vals v vs hdv
            obtain ⟨out, hout, hsho⟩ := fields_decode_span rest all data (vals.set i v1) (i + 1)
              (shift + a1) r2 a2 hrs (by rw [hdrop]; exact hsh.2) (by omega)
            refine ⟨v1 :: out, ?_, ?_⟩
            · rw [fields_decode_cons, parseTag_static tag ft hst, hsl, hget]
              simp only [hdec, Bool.false_eq_true, if_false]
              have hcast : (shift : Int) + (a1 : Int) = ((shift + a1 : Nat) : Int) := by
                push_cast; rfl
              rw [hcast, hout, htake, List.append_assoc, ← ha1, Nat.add_assoc]
              rfl
            · rw [Fields.shaped, hshv, hsho]
              rfl
end

mutual
theorem layout_plain_span : ∀ (t : Layout) (ft : FieldTag), t.plain = true →
    ft.get? (str "size") = none → ∃ w, t.span ft = some (w, w) ∧ t.width = some w
  | .bool, ft, hp, _ => by simp [Layout.plain] at hp
  | .slice _, ft, hp, _ => by simp [Layout.plain] at hp
  | .uint8, ft, _, _ => ⟨1, by rw [Layout.span], by rw [Layout.width]⟩
  | .int8, ft, _, _ => ⟨1, by rw [Layout.span], by rw [Layout.width]⟩
  | .uint16, ft, _, _ => ⟨2, by rw [Layout.span], by rw [Layout.width]⟩
  | .int16, ft, _, _ => ⟨2, by rw [Layout.span], by rw [Layout.width]⟩
  | .uint32, ft, _, _ => ⟨4, by rw [Layout.span], by rw [Layout.width]⟩
  | .int32, ft, _, _ => ⟨4, by rw [Layout.span], by rw [Layout.width]⟩
  | .uint64, ft, _, hz => ⟨8, by rw [Layout.span, hz], by rw [Layout.width]⟩
  | .int64, ft, _, hz => ⟨8, by rw [Layout.span, hz], by rw [Layout.width]⟩
  | .array n elem, ft, hp, hz => by
    rw [Layout.plain] at hp
    obtain ⟨w, hs, hw⟩ := layout_plain_span elem ft hp hz
    refine ⟨n * w, ?_, ?_⟩
    · rw [Layout.span, hs, hw]
      simp only []
      congr 2
      by_cases h0 : n = 0
      · rw [if_pos h0, h0, Nat.zero_mul]
      · rw [if_neg h0]
        obtain ⟨m, rfl⟩ : ∃ m, n = m + 1 := ⟨n - 1, by omega⟩
        rw [Nat.add_sub_cancel, Nat.succ_mul]
    · rw [Layout.width, hw]; rfl
  | .struct fields, ft, hp, _ => by
    rw [Layout.plain] at hp
    obtain ⟨w, hs, hw⟩ := fields_plain_span fields hp
    exact ⟨w, by rw [Layout.span, hs], by rw [Layout.width, hw]⟩
theorem fields_plain_span : ∀ (fs : Fields), fs.plain = true →
    ∃ w, fs.span = some (w, w) ∧ fs.width = some w
  | .nil, _ => ⟨0, by rw [Fields.span], by rw [Fields.width]⟩
  | .cons name tag typ rest, hp => by
    rw [Fields.plain] at hp
    simp only [Bool.and_eq_true] at hp
    obtain ⟨hp1, hp2⟩ := hp
    obtain ⟨w2, hs2, hw2⟩ := fields_plain_span rest hp2
    cases hst : staticTag tag with
    | none => rw [hst] at hp1; cases hp1
    | some ft =>
      rw [hst] at hp1
      simp only [] at hp1
      cases hsz : ft.get? (str "size") with
      | none =>
        rw [hsz] at hp1
        simp only [Bool.and_eq_true] at hp1
        obtain ⟨w1, hs1, hw1⟩ := layout_plain_span typ ft hp1.2 hsz
        refine ⟨w1 + w2, ?_, ?_⟩
        · rw [Fields.span, hst]
          simp only [hp1.1, if_true, hs1, hs2]
          congr 2
          omega
        · rw [Fields.width, hst]
          simp only [hsz, hp1.1, if_true, hw1, hw2, Option.map_some']
      | some s =>
        rw [hsz] at hp1
        simp only [Bool.and_eq_true, decide_eq_true_eq, Bool.or_eq_true,
          Bool.not_eq_true'] at hp1
        obtain ⟨h0, hty⟩ := hp1
        refine ⟨s.toNat + w2, ?_, ?_⟩
        · rw [Fields.span, hst]
          by_cases he : isExported name = true
          · have hsl : typ = .slice .uint8 := by
              rcases hty with h | h
              · rw [he] at h; cases h
              · cases typ with
                | slice e => cases e <;> first | rfl | (simp [Layout.isBytes] at h)
                | _ => simp [Layout.isBytes] at h
            subst hsl
            simp only [he, if_true, Layout.span, hsz, h0, hs2]
            congr 2
            omega
          · rw [Bool.not_eq_true] at he
            simp only [he, Bool.false_eq_true, if_false, hsz, h0, if_true, hs2]
            congr 2
            omega
        · rw [Fields.width, hst]
          simp only [hsz, h0, if_true, hw2, Option.map_some']
end

/-! ## Properties: the byte count of `DecodeValue` and `Size` -/

theorem byteSlice_index_head (d : ByteSlice) (h : 1 ≤ d.bytes.length) :
    d.index 0 = .ok (d.bytes.headD 0) := by
  obtain ⟨bs, sp⟩ := d
  cases bs with
  | nil => simp at h
  | cons b r => rfl

theorem decode_uint8_exact (d : ByteSlice) (v : Value) (ft : FieldTag)
    (h : 1 ≤ d.bytes.length) :
    Layout.uint8.decode d v ft = .done (.uint (d.bytes.headD 0)) ((1 : Nat) : Int) false := by
  rw [Layout.decode, byteSlice_index_head d h]
  exact finish_width _ _ 1 (by rw [Layout.Size]; rfl)

theorem decode_int8_exact (d : ByteSlice) (v : Value) (ft : FieldTag)
    (h : 1 ≤ d.bytes.length) :
    Layout.int8.decode d v ft =
      .done (.int (toSigned 8 (d.bytes.headD 0))) ((1 : Nat) : Int) false := by
  rw [Layout.decode, byteSlice_index_head d h]
  exact finish_width _ _ 1 (by rw [Layout.Size]; rfl)

theorem decode_uint16_exact (d : ByteSlice) (v : Value) (ft : FieldTag)
    (h : 2 ≤ d.bytes.length) :
    Layout.uint16.decode d v ft =
      .done (.uint (beUint (d.bytes.take 2))) ((2 : Nat) : Int) false := by
  rw [Layout.decode, ByteSlice.beRead, if_pos h]
  exact finish_width _ _ 2 (by rw [Layout.Size]; rfl)

theorem decode_int32_exact (d : ByteSlice) (v : Value) (ft : FieldTag)
    (h : 4 ≤ d.bytes.length) :
    Layout.int32.decode d v ft =
      .done (.int (toSigned 32 (beUint (d.bytes.take 4)))) ((4 : Nat) : Int) false := by
  rw [Layout.decode, ByteSlice.beRead, if_pos h]
  exact finish_width _ _ 4 (by rw [Layout.Size]; rfl)

theorem decode_uint64_six (d : ByteSlice) (v : Value) (ft : FieldTag)
    (hs : ft.get? (str "size") = some 6) (h : 6 ≤ d.bytes.length) :
    Layout.uint64.decode d v ft =
      .done (.uint (beUint (d.bytes.take 6))) ((6 : Nat) : Int) false := by
  have hpad : beUint (List.take 8 (zeroPadding (d.bytes.take 6) 8)) = beUint (d.bytes.take 6) :=
    beUint_zeroPadding _ (by simp)
  have h0 : ¬ ((6 : Int) < 0) := by omega
  have h6 : (6 : Int).toNat = 6 := rfl
  rw [Layout.decode]
  simp only [hs, h0, if_false, h6, byteSlice_slice_zero d 6 h, hpad]
  exact finish_nonneg _ _ 6

theorem decode_bool_bit (d : ByteSlice) (v : Value) (ft : FieldTag) (k : Nat) (hk : k ≤ 7)
    (hs : ft.get? (str "size") = some 1) (hb : ft.get? (str "bit") = some (k : Int))
    (h : 1 ≤ d.bytes.length) (h256 : d.bytes.headD 0 < 256) :
    Layout.bool.decode d v ft =
      .done (.bool (bitMSB d.bytes k))
        ((if (ft.get? (str "final")).isSome ∨ k = 7 then 1 else 0 : Nat) : Int) false := by
  have hval : bitMSB d.bytes k = ((d.bytes.headD 0 % 2 ^ 64) >>> (7 - k) &&& 1 != 0) := by
    have hk8 : k / 8 = 0 := by omega
    have hk7 : k % 8 = k := by omega
    have hm : d.bytes.headD 0 % 2 ^ 64 = d.bytes.headD 0 := Nat.mod_eq_of_lt (by omega)
    rw [bitMSB, hk8, hk7, hm]
    cases hd : d.bytes with
    | nil => rfl
    | cons b r => rfl
  have hneg : ¬ ((8 * 1 - 1 - (k : Int)) < 0) := by omega
  have hto : (8 * 1 - 1 - (k : Int)).toNat = 7 - k := by omega
  have h7 : ((k : Int) = 8 * 1 - 1) ↔ k = 7 := by omega
  rw [Layout.decode]
  simp only [hs, hb, if_true, byteSlice_index_head d h, Option.getD_some, hneg, if_false, hto,
    h7, ← hval]
  by_cases hf : (ft.get? (str "final")).isSome = true ∨ k = 7
  · rw [if_pos hf, if_pos hf]
    exact finish_nonneg _ _ 1
  · rw [if_neg hf, if_neg hf]
    exact finish_nonneg _ _ 0

theorem fields_decode_field (name tag : List Nat) (typ : Layout) (rest all : Fields)
    (data : ByteSlice) (vals : List Value) (i shift a : Nat) (ft : FieldTag) (v1 : Value)
    (hst : staticTag tag = some ft) (he : isExported name = true)
    (hsh : shift ≤ data.bytes.length)
    (hd : typ.decode ⟨data.bytes.drop shift, data.spare⟩ (vals.getD i default) ft =
      .done v1 (a : Int) false) :
    Fields.decode (.cons name tag typ rest) all data vals i (shift : Int) =
      rest.decode all data (vals.set i v1) (i + 1) ((shift + a : Nat) : Int) := by
  rw [fields_decode_cons, parseTag_static tag ft hst, sliceFromInt_nat data shift hsh]
  simp only [he, if_true, hd, Bool.false_eq_true, if_false, Nat.cast_add]

theorem decodeChecked_field (name tag : List Nat) (typ : Layout) (rest all : Fields)
    (data : ByteSlice) (vals : List Value) (i shift a : Nat) (ft : FieldTag) (v1 : Value)
    (hst : staticTag tag = some ft) (he : isExported name = true)
    (hsh : shift ≤ data.bytes.length)
    (hd : typ.decode ⟨data.bytes.drop shift, data.spare⟩ (vals.getD i default) ft =
      .done v1 (a : Int) false) :
    Fields.decodeChecked (.cons name tag typ rest) all data vals i (shift : Int) =
      rest.decodeChecked all data (vals.set i v1) (i + 1) ((shift + a : Nat) : Int) := by
  rw [Fields.decodeChecked, parseTag_static tag ft hst, sliceFromInt_nat data shift hsh]
  simp only [he, if_true, hd, Bool.false_eq_true, if_false, Nat.cast_add]

theorem decodeChecked_eq_decode : ∀ (rest all : Fields) (data : ByteSlice) (vals : List Value)
    (i : Nat) (shift : Int) (p : Nat × Nat), rest.span = some p →
    rest.decodeChecked all data vals i shift = rest.decode all data vals i shift
  | .nil, all, data, vals, i, shift, p, _ => by
    rw [Fields.decodeChecked, fields_decode_nil]
  | .cons name tag typ rest, all, data, vals, i, shift, p, hs => by
    rw [Fields.span] at hs
    cases hst : staticTag tag with
    | none => rw [hst] at hs; cases hs
    | some ft =>
      rw [hst] at hs
      cases hr : rest.span with
      | none =>
        rw [hr] at hs
        exfalso
        revert hs
        simp only []
        split
        · rename_i h1 h2
          cases h2
        · intro hs
          cases hs
      | some q =>
        rw [Fields.decodeChecked, fields_decode_cons, parseTag_static tag ft hst]
        simp only []
        cases data.sliceFromInt shift with
        | ok d =>
          simp only []
          cases (if isExported name = true then typ.decode d (vals.getD i default) ft
              else DecodeValue.notSettable (vals.getD i default) ft) with
          | panic => rfl
          | done v1 size err =>
            simp only []
            rw [decodeChecked_eq_decode rest all data (vals.set i v1) (i + 1) (shift + size) q hr]
        | err => rfl
        | panic => rfl

theorem defns_decode (d : ByteSlice) (z0 z1 z2 z3 z4 : Value) (h : 16 ≤ d.bytes.length) :
    DEFNS.layout.decode DEFNS.layout d [z0, z1, z2, z3, z4] 0 0 =
      .done (.struct [.uint (beUint (d.bytes.take 2)), .uint ((d.bytes.drop 2).headD 0),
        .uint ((d.bytes.drop 3).headD 0), .uint (beUint ((d.bytes.drop 4).take 6)),
        .uint (beUint ((d.bytes.drop 10).take 6))]) 16 false := by
  have hs6 : GoMap.get? [(str "size", (6 : Int))] (str "size") = some 6 := by decide
  have h0 : d = ⟨d.bytes.drop 0, d.spare⟩ := rfl
  have e0 := fields_decode_field (str "ICTMPL") [] .uint16
    (.cons (str "ICTMPN") [] .uint8 <|
      .cons (str "ICTMRSV1") [] .uint8 <|
      .cons (str "ICTMPRBA") (str "size=6") .uint64 <|
      .cons (str "ICTMRSV2") (str "size=6") .uint64 .nil)
    DEFNS.layout d [z0, z1, z2, z3, z4] 0 0 2 [([], 0)] _ (by decide) (by decide) (by omega)
    (decode_uint16_exact ⟨d.bytes.drop 0, d.spare⟩ _ _ (by simp; omega))
  have e1 := fun vals => fields_decode_field (str "ICTMPN") [] .uint8
    (.cons (str "ICTMRSV1") [] .uint8 <|
      .cons (str "ICTMPRBA") (str "size=6") .uint64 <|
      .cons (str "ICTMRSV2") (str "size=6") .uint64 .nil)
    DEFNS.layout d vals 1 2 1 [([], 0)] _ (by decide) (by decide) (by omega)
    (decode_uint8_exact ⟨d.bytes.drop 2, d.spare⟩ _ _ (by simp; omega))
  have e2 := fun vals => fields_decode_field (str "ICTMRSV1") [] .uint8
    (.cons (str "ICTMPRBA") (str "size=6") .uint64 <|
      .cons (str "ICTMRSV2") (str "size=6") .uint64 .nil)
    DEFNS.layout d vals 2 3 1 [([], 0)] _ (by decide) (by decide) (by omega)
    (decode_uint8_exact ⟨d.bytes.drop 3, d.spare⟩ _ _ (by simp; omega))
  have e3 := fun vals => fields_decode_field (str "ICTMPRBA") (str "size=6") .uint64
    (.cons (str "ICTMRSV2") (str "size=6") .uint64 .nil)
    DEFNS.layout d vals 3 4 6 [(str "size", 6)] _ (by decide) (by decide) (by omega)
    (decode_uint64_six ⟨d.bytes.drop 4, d.spare⟩ _ _ hs6 (by simp; omega))
  have e4 := fun vals => fields_decode_field (str "ICTMRSV2") (str "size=6") .uint64 .nil
    DEFNS.layout d vals 4 10 6 [(str "size", 6)] _ (by decide) (by decide) (by omega)
    (decode_uint64_six ⟨d.bytes.drop 10, d.spare⟩ _ _ hs6 (by simp; omega))
  have hl : DEFNS.layout = (.cons (str "ICTMPL") [] .uint16 <|
      .cons (str "ICTMPN") [] .uint8 <|
      .cons (str "ICTMRSV1") [] .uint8 <|
      .cons (str "ICTMPRBA") (str "size=6") .uint64 <|
      .cons (str "ICTMRSV2") (str "size=6") .uint64 .nil) := rfl
  have hc : Fields.decode DEFNS.layout DEFNS.layout d [z0, z1, z2, z3, z4] 0 0 =
      Fields.decode (.cons (str "ICTMPL") [] .uint16 <|
      .cons (str "ICTMPN") [] .uint8 <|
      .cons (str "ICTMRSV1") [] .uint8 <|
      .cons (str "ICTMPRBA") (str "size=6") .uint64 <|
      .cons (str "ICTMRSV2") (str "size=6") .uint64 .nil) DEFNS.layout d [z0, z1, z2, z3, z4]
        0 ((0 : Nat) : Int) := rfl
  rw [hc, e0, e1, e2, e3, e4, fields_decode_nil]
  simp only [List.drop_zero, List.set_cons_zero, List.set_cons_succ]
  rfl

theorem elems_exact (dec : ByteSlice → Value → DecodeRes) (size : Value → Option Int) (w : Nat)
    (data : ByteSlice) (z : Value) (f : Nat → Value) (hz : size z = some (w : Int))
    (hf : ∀ k, size (f k) = some (w : Int))
    (hdec : ∀ k, w * k + w ≤ data.bytes.length →
      ∃ a err, dec ⟨data.bytes.drop (w * k), data.spare⟩ z = .done (f k) a err) :
    ∀ (n i : Nat) (shift : Int), w * (i + n) ≤ data.bytes.length →
      DecodeValue.elems dec size data (List.replicate n z) i shift =
        some ((List.range' i n).map f, shift + ((n * w : Nat) : Int)) := by
  intro n
  induction n with
  | zero =>
    intro i shift _
    simp [DecodeValue.elems]
  | succ n ih =>
    intro i shift hlen
    have hle : w * i + w ≤ data.bytes.length := by
      have : w * (i + (n + 1)) = w * i + w + w * n := by ring
      omega
    obtain ⟨a, err, hd⟩ := hdec i hle
    have hsl : data.sliceFromInt ((w : Int) * (i : Int)) =
        .ok ⟨data.bytes.drop (w * i), data.spare⟩ := by
      have := sliceFromInt_nat data (w * i) (by omega)
      rwa [Nat.cast_mul] at this
    have hrec := ih (i + 1) (shift + (w : Int)) (by
      have : w * (i + 1 + n) = w * (i + (n + 1)) := by ring
      omega)
    rw [List.replicate_succ]
    simp only [DecodeValue.elems, hz, hsl, hd, hf, hrec, List.range'_succ, List.map_cons]
    congr 2
    push_cast
    ring

theorem defns_size (z0 z1 z2 z3 z4 : Value) :
    (Layout.struct DEFNS.layout).Size (.struct [z0, z1, z2, z3, z4]) false =
      some ((16 : Nat) : Int) := by
  rfl

theorem icbtemp_decode (d : ByteSlice) (ft : FieldTag) (h : 144 ≤ d.bytes.length) :
    (Layout.array 9 (.struct DEFNS.layout)).decode d
        (.list (List.replicate 9 (Layout.struct DEFNS.layout).zero)) ft =
      .done (.list ((List.range' 0 9).map (fun k =>
        .struct [.uint (beUint ((d.bytes.drop (16 * k)).take 2)),
          .uint (((d.bytes.drop (16 * k)).drop 2).headD 0),
          .uint (((d.bytes.drop (16 * k)).drop 3).headD 0),
          .uint (beUint (((d.bytes.drop (16 * k)).drop 4).take 6)),
          .uint (beUint (((d.bytes.drop (16 * k)).drop 10).take 6))])))
        ((144 : Nat) : Int) false := by
  have hzero : (Layout.struct DEFNS.layout).zero =
      .struct [.uint 0, .uint 0, .uint 0, .uint 0, .uint 0] := rfl
  have hel := elems_exact (fun d e => (Layout.struct DEFNS.layout).decode d e ft)
    (fun e => (Layout.struct DEFNS.layout).Size e false) 16 d
    (.struct [.uint 0, .uint 0, .uint 0, .uint 0, .uint 0])
    (fun k =>
        .struct [.uint (beUint ((d.bytes.drop (16 * k)).take 2)),
          .uint (((d.bytes.drop (16 * k)).drop 2).headD 0),
          .uint (((d.bytes.drop (16 * k)).drop 3).headD 0),
          .uint (beUint (((d.bytes.drop (16 * k)).drop 4).take 6)),
          .uint (beUint (((d.bytes.drop (16 * k)).drop 10).take 6))])
    (defns_size _ _ _ _ _) (fun k => defns_size _ _ _ _ _)
    (fun k hk => by
      refine ⟨16, false, ?_⟩
      show (Layout.struct DEFNS.layout).decode _ _ ft = _
      rw [decode_struct, defns_decode _ _ _ _ _ _ (by simp; omega)]
      exact finish_nonneg _ _ 16)
    9 0 0 (by omega)
  rw [Layout.decode, hzero]
  simp only [hel]
  exact finish_nonneg _ _ 144

theorem headD_drop (l : List Nat) : ∀ (n d : Nat), (l.drop n).headD d = l.getD n d := by
  induction l with
  | nil => intro n d; simp
  | cons a r ih =>
    intro n d
    cases n with
    | zero => rfl
    | succ m => simp [ih m d]

theorem bitMSB_drop (l : List Nat) (n k : Nat) (hk : k ≤ 7) :
    bitMSB (l.drop n) k = bitMSB [l.getD n 0] k := by
  have hk8 : k / 8 = 0 := by omega
  have h := headD_drop l n 0
  rw [bitMSB, bitMSB, hk8, ← h]
  cases l.drop n with
  | nil => rfl
  | cons b r => rfl

theorem icb_head_decode (rest all : Fields) (data : ByteSlice)
    (v0 v1 v2 v3 v4 v5 v6 v7 v8 v9 v10 : Value) (tl : List Value)
    (h : 178 ≤ data.bytes.length) (hb : data.bytes.getD 26 0 < 256) :
    ∃ a0 a1 a2 a4 a10,
    Fields.decodeChecked
        (.cons (str "ICBCHAIN") [] .int32 <|
         .cons (str "ICBBAMNO") [] .int32 <|
         .cons (str "ICCIBRBA") (str "size=6") .uint64 <|
         .cons (str "ICISSRBA") (str "size=6") .uint64 <|
         .cons (str "ICBAMRBA") (str "size=6") .uint64 <|
         .cons (str "ICBEXTND") (str "size=1,bit=0") .bool <|
         .cons (str "ICBEDAT") (str "size=1,bit=2") .bool <|
         .cons (str "ICBDSFMT") (str "size=1,bit=3") .bool <|
         .cons (str "ICBWIP") (str "size=1,bit=4,final") .bool <|
         .cons (str "ICTMPCNT") [] .int8 <|
         .cons (str "ICBAMHWM") (str "size=6") .uint64 <|
         .cons (str "ICBTEMP") [] (.array 9 (.struct DEFNS.layout)) rest) all data
        (v0 :: v1 :: v2 :: v3 :: v4 :: v5 :: v6 :: v7 :: v8 :: v9 :: v10 ::
          .list (List.replicate 9 (Layout.struct DEFNS.layout).zero) :: tl) 0 ((0 : Nat) : Int) =
      rest.decodeChecked all data
        (a0 :: a1 :: a2 :: .uint (beUint ((data.bytes.drop 14).take 6)) :: a4 ::
          .bool (bitMSB [data.bytes.getD 26 0] 0) :: .bool (bitMSB [data.bytes.getD 26 0] 2) ::
          .bool (bitMSB [data.bytes.getD 26 0] 3) :: .bool (bitMSB [data.bytes.getD 26 0] 4) ::
          .int (toSigned 8 (data.bytes.getD 27 0)) :: a10 ::
          .list ((List.range' 0 9).map (fun k =>
            .struct [.uint (beUint ((data.bytes.drop (34 + 16 * k)).take 2)),
              .uint (data.bytes.getD (34 + 16 * k + 2) 0),
              .uint (data.bytes.getD (34 + 16 * k + 3) 0),
              .uint (beUint ((data.bytes.drop (34 + 16 * k + 4)).take 6)),
              .uint (beUint ((data.bytes.drop (34 + 16 * k + 10)).take 6))])) :: tl)
        12 ((178 : Nat) : Int) := by
  have hs6 : GoMap.get? [(str "size", (6 : Int))] (str "size") = some 6 := by decide
  have h26 : (data.bytes.drop 26).headD 0 < 256 := by rw [headD_drop]; exact hb
  have hl26 : 1 ≤ (data.bytes.drop 26).length := by simp; omega
  have e0 := fun (rest : Fields) (vals : List Value) =>
    decodeChecked_field (str "ICBCHAIN") [] .int32 rest all data vals 0 0 4 [([], 0)] _
      (by decide) (by decide) (by omega)
      (decode_int32_exact ⟨data.bytes.drop 0, data.spare⟩ _ _ (by simp; omega))
  have e1 := fun (rest : Fields) (vals : List Value) =>
    decodeChecked_field (str "ICBBAMNO") [] .int32 rest all data vals 1 4 4 [([], 0)] _
      (by decide) (by decide) (by omega)
      (decode_int32_exact ⟨data.bytes.drop 4, data.spare⟩ _ _ (by simp; omega))
  have e2 := fun (rest : Fields) (vals : List Value) =>
    decodeChecked_field (str "ICCIBRBA") (str "size=6") .uint64 rest all data vals 2 8 6
      [(str "size", 6)] _ (by decide) (by decide) (by omega)
      (decode_uint64_six ⟨data.bytes.drop 8, data.spare⟩ _ _ hs6 (by simp; omega))
  have e3 := fun (rest : Fields) (vals : List Value) =>
    decodeChecked_field (str "ICISSRBA") (str "size=6") .uint64 rest all data vals 3 14 6
      [(str "size", 6)] _ (by decide) (by decide) (by omega)
      (decode_uint64_six ⟨data.bytes.drop 14, data.spare⟩ _ _ hs6 (by simp; omega))
  have e4 := fun (rest : Fields) (vals : List Value) =>
    decodeChecked_field (str "ICBAMRBA") (str "size=6") .uint64 rest all data vals 4 20 6
      [(str "size", 6)] _ (by decide) (by decide) (by omega)
      (decode_uint64_six ⟨data.bytes.drop 20, data.spare⟩ _ _ hs6 (by simp; omega))
  have e5 := fun (rest : Fields) (vals : List Value) =>
    decodeChecked_field (str "ICBEXTND") (str "size=1,bit=0") .bool rest all data vals 5 26 0
      [(str "bit", 0), (str "size", 1)] _ (by decide) (by decide) (by omega)
      (decode_bool_bit ⟨data.bytes.drop 26, data.spare⟩ _ _ 0 (by omega) (by decide) (by decide)
        hl26 h26)
  have e6 := fun (rest : Fields) (vals : List Value) =>
    decodeChecked_field (str "ICBEDAT") (str "size=1,bit=2") .bool rest all data vals 6 26 0
      [(str "bit", 2), (str "size", 1)] _ (by decide) (by decide) (by omega)
      (decode_bool_bit ⟨data.bytes.drop 26, data.spare⟩ _ _ 2 (by omega) (by decide) (by decide)
        hl26 h26)
  have e7 := fun (rest : Fields) (vals : List Value) =>
    decodeChecked_field (str "ICBDSFMT") (str "size=1,bit=3") .bool rest all data vals 7 26 0
      [(str "bit", 3), (str "size", 1)] _ (by decide) (by decide) (by omega)
      (decode_bool_bit ⟨data.bytes.drop 26, data.spare⟩ _ _ 3 (by omega) (by decide) (by decide)
        hl26 h26)
  have e8 := fun (rest : Fields) (vals : List Value) =>
    decodeChecked_field (str "ICBWIP") (str "size=1,bit=4,final") .bool rest all data vals 8 26 1
      [(str "final", 0), (str "bit", 4), (str "size", 1)] _ (by decide) (by decide) (by omega)
      (decode_bool_bit ⟨data.bytes.drop 26, data.spare⟩ _ _ 4 (by omega) (by decide) (by decide)
        hl26 h26)
  have e9 := fun (rest : Fields) (vals : List Value) =>
    decodeChecked_field (str "ICTMPCNT") [] .int8 rest all data vals 9 27 1 [([], 0)] _
      (by decide) (by decide) (by omega)
      (decode_int8_exact ⟨data.bytes.drop 27, data.spare⟩ _ _ (by simp; omega))
  have e10 := fun (rest : Fields) (vals : List Value) =>
    decodeChecked_field (str "ICBAMHWM") (str "size=6") .uint64 rest all data vals 10 28 6
      [(str "size", 6)] _ (by decide) (by decide) (by omega)
      (decode_uint64_six ⟨data.bytes.drop 28, data.spare⟩ _ _ hs6 (by simp; omega))
  have e11 := fun (rest : Fields) (w0 w1 w2 w3 w4 w5 w6 w7 w8 w9 w10 : Value) =>
    decodeChecked_field (str "ICBTEMP") [] (.array 9 (.struct DEFNS.layout)) rest all data
      (w0 :: w1 :: w2 :: w3 :: w4 :: w5 :: w6 :: w7 :: w8 :: w9 :: w10 ::
          .list (List.replicate 9 (Layout.struct DEFNS.layout).zero) :: tl) 11 34 144
      [([], 0)] _ (by decide) (by decide) (by omega)
      (icbtemp_decode ⟨data.bytes.drop 34, data.spare⟩ [([], 0)] (by simp; omega))
  refine ⟨.int (toSigned 32 (beUint ((data.bytes.drop 0).take 4))),
    .int (toSigned 32 (beUint ((data.bytes.drop 4).take 4))),
    .uint (beUint ((data.bytes.drop 8).take 6)), .uint (beUint ((data.bytes.drop 20).take 6)),
    .uint (beUint ((data.bytes.drop 28).take 6)), ?_⟩
  rw [e0, e1, e2, e3, e4, e5, e6, e7, e8, e9, e10]
  simp only [List.set_cons_zero, List.set_cons_succ]
  rw [e11]
  simp only [List.set_cons_zero, List.set_cons_succ, List.drop_drop, headD_drop,
    bitMSB_drop _ _ _ (by omega : 0 ≤ 7), bitMSB_drop _ _ _ (by omega : 2 ≤ 7),
    bitMSB_drop _ _ _ (by omega : 3 ≤ 7), bitMSB_drop _ _ _ (by omega : 4 ≤ 7)]

set_option maxRecDepth 1000000 in
theorem icbRest_span : ICB.layoutRest.span = some (2427, 2427) := by decide

theorem icbRest_shaped : ICB.layoutRest.shaped ICB.layoutRest.zero = true := by decide

set_option maxRecDepth 1000000 in
theorem icb_size :
    (Layout.struct ICB.layout).Size (.struct ICB.layout.zero) false = some 2688 := by
  decide

theorem icb_decodeChecked (data : ByteSlice) (h : 2605 ≤ data.bytes.length)
    (hb : data.bytes.getD 26 0 < 256) :
    ∃ a0 a1 a2 a4 a10 out,
      ICB.layout.decodeChecked ICB.layout data ICB.layout.zero 0 0 =
        .done (.struct
          (a0 :: a1 :: a2 :: .uint (beUint ((data.bytes.drop 14).take 6)) :: a4 ::
          .bool (bitMSB [data.bytes.getD 26 0] 0) :: .bool (bitMSB [data.bytes.getD 26 0] 2) ::
          .bool (bitMSB [data.bytes.getD 26 0] 3) :: .bool (bitMSB [data.bytes.getD 26 0] 4) ::
          .int (toSigned 8 (data.bytes.getD 27 0)) :: a10 ::
          .list ((List.range' 0 9).map (fun k =>
            .struct [.uint (beUint ((data.bytes.drop (34 + 16 * k)).take 2)),
              .uint (data.bytes.getD (34 + 16 * k + 2) 0),
              .uint (data.bytes.getD (34 + 16 * k + 3) 0),
              .uint (beUint ((data.bytes.drop (34 + 16 * k + 4)).take 6)),
              .uint (beUint ((data.bytes.drop (34 + 16 * k + 10)).take 6))])) :: out))
          ((2605 : Nat) : Int) false := by
  obtain ⟨a0, a1, a2, a4, a10, hh⟩ := icb_head_decode ICB.layoutRest ICB.layout data
    (.int 0) (.int 0) (.uint 0) (.uint 0) (.uint 0) (.bool false) (.bool false) (.bool false)
    (.bool false) (.int 0) (.uint 0) ICB.layoutRest.zero (by omega) hb
  have hc : ICB.layout.decodeChecked ICB.layout data ICB.layout.zero 0 0 =
      Fields.decodeChecked
        (.cons (str "ICBCHAIN") [] .int32 <|
         .cons (str "ICBBAMNO") [] .int32 <|
         .cons (str "ICCIBRBA") (str "size=6") .uint64 <|
         .cons (str "ICISSRBA") (str "size=6") .uint64 <|
         .cons (str "ICBAMRBA") (str "size=6") .uint64 <|
         .cons (str "ICBEXTND") (str "size=1,bit=0") .bool <|
         .cons (str "ICBEDAT") (str "size=1,bit=2") .bool <|
         .cons (str "ICBDSFMT") (str "size=1,bit=3") .bool <|
         .cons (str "ICBWIP") (str "size=1,bit=4,final") .bool <|
         .cons (str "ICTMPCNT") [] .int8 <|
         .cons (str "ICBAMHWM") (str "size=6") .uint64 <|
         .cons (str "ICBTEMP") [] (.array 9 (.struct DEFNS.layout)) ICB.layoutRest) ICB.layout data
        (.int 0 :: .int 0 :: .uint 0 :: .uint 0 :: .uint 0 :: .bool false :: .bool false ::
          .bool false :: .bool false :: .int 0 :: .uint 0 ::
          .list (List.replicate 9 (Layout.struct DEFNS.layout).zero) :: ICB.layoutRest.zero)
        0 ((0 : Nat) : Int) := rfl
  rw [hc, hh, decodeChecked_eq_decode _ _ _ _ _ _ _ icbRest_span]
  obtain ⟨out, hd, _⟩ := fields_decode_span ICB.layoutRest ICB.layout data
    (a0 :: a1 :: a2 :: .uint (beUint ((data.bytes.drop 14).take 6)) :: a4 ::
          .bool (bitMSB [data.bytes.getD 26 0] 0) :: .bool (bitMSB [data.bytes.getD 26 0] 2) ::
          .bool (bitMSB [data.bytes.getD 26 0] 3) :: .bool (bitMSB [data.bytes.getD 26 0] 4) ::
          .int (toSigned 8 (data.bytes.getD 27 0)) :: a10 ::
          .list ((List.range' 0 9).map (fun k =>
            .struct [.uint (beUint ((data.bytes.drop (34 + 16 * k)).take 2)),
              .uint (data.bytes.getD (34 + 16 * k + 2) 0),
              .uint (data.bytes.getD (34 + 16 * k + 3) 0),
              .uint (beUint ((data.bytes.drop (34 + 16 * k + 4)).take 6)),
              .uint (beUint ((data.bytes.drop (34 + 16 * k + 10)).take 6))])) ::
          ICB.layoutRest.zero) 12 178 2427 2427 icbRest_span icbRest_shaped (by omega)
  exact ⟨a0, a1, a2, a4, a10, out, hd⟩

/-! ## Properties: the inventory control block -/

end Racf
